import Mathlib

/-! The jank semantic analyzer (`jank::analyze::processor`)

A shallow embedding of `src/src/cpp/jank/analyze/processor.cpp`.

* Heap objects are values; `object_ptr` identity is structural equality (`==`).
* `local_frame_ptr`, `function_context_ptr` and `local_binding &` are handles
  (indices) into arenas kept in the analyzer state `processor`.
* Every analyzer takes the state and returns its result together with the
  state it leaves behind, also when the result is an error.
* `processor::analyze` is recursive through macro expansion and `native/raw`
  interpolation, so it is defined by recursion on a step budget; the
  per-form analyzers take the recursive analyzer as their first argument.
-/

namespace jank

/-! ## Runtime values -/

/-- The class `runtime::obj::symbol`: namespace part and name part. -/
structure symbol where
  ns : String
  name : String
deriving DecidableEq, Repr

/-- The constructor `symbol(native_string)` applied to a name without a slash. -/
def symbol.unqualified (n : String) : symbol := ⟨"", n⟩

/-- The printed form of a symbol, `ns/name` or `name`. -/
def symbol.to_string (s : symbol) : String :=
  if s.ns = "" then s.name else s.ns ++ "/" ++ s.name

/-- The values of `runtime::object_ptr` the analyzer visits (`runtime::visit_object`). `seq`
stands for any other seqable object, given by its element sequence, `other` for an object of
a type the analyzer has no case for, and `nullptr` for the null pointer. -/
inductive object where
  | nil
  | boolean (b : Bool)
  | integer (n : Int)
  | real (bits : Nat)
  | string (s : String)
  | keyword (ns : String) (name : String)
  | symbol (s : symbol)
  | list (xs : List object)
  | vector (xs : List object)
  | map (kvs : List (object × object))
  | set (xs : List object)
  | seq (xs : List object)
  | other (type_id : Nat)
  | nullptr
deriving Repr

mutual
/-- Equality of runtime values. -/
def object.beq : object → object → Bool
  | .nil, o => match o with
    | .nil => true
    | _ => false
  | .boolean a, o => match o with
    | .boolean b => a == b
    | _ => false
  | .integer a, o => match o with
    | .integer b => a == b
    | _ => false
  | .real a, o => match o with
    | .real b => a == b
    | _ => false
  | .string a, o => match o with
    | .string b => a == b
    | _ => false
  | .keyword a b, o => match o with
    | .keyword c d => a == c && b == d
    | _ => false
  | .symbol a, o => match o with
    | .symbol b => a == b
    | _ => false
  | .list a, o => match o with
    | .list b => object.beq_list a b
    | _ => false
  | .vector a, o => match o with
    | .vector b => object.beq_list a b
    | _ => false
  | .map a, o => match o with
    | .map b => object.beq_pairs a b
    | _ => false
  | .set a, o => match o with
    | .set b => object.beq_list a b
    | _ => false
  | .seq a, o => match o with
    | .seq b => object.beq_list a b
    | _ => false
  | .other a, o => match o with
    | .other b => a == b
    | _ => false
  | .nullptr, o => match o with
    | .nullptr => true
    | _ => false
/-- Equality of sequences of runtime values. -/
def object.beq_list : List object → List object → Bool
  | [], bs => bs.isEmpty
  | a :: as, bs => match bs with
    | [] => false
    | b :: bs => object.beq a b && object.beq_list as bs
/-- Equality of sequences of key/value pairs. -/
def object.beq_pairs : List (object × object) → List (object × object) → Bool
  | [], bs => bs.isEmpty
  | p :: as, bs => match bs with
    | [] => false
    | q :: bs => object.beq p.1 q.1 && object.beq p.2 q.2 && object.beq_pairs as bs
end

instance : BEq object := ⟨object.beq⟩

instance : Inhabited object := ⟨object.nil⟩

/-- The class `runtime::var`, as far as the analyzer reads it: its qualified name and its
optional meta map. -/
structure var where
  name : symbol
  meta : Option object
deriving Repr

instance : BEq var := ⟨fun a b => a.name == b.name && a.meta == b.meta⟩

/-- The printed form of a var, by its qualified name. -/
def var.to_string (v : var) : String := v.name.to_string

/-- The analyzer's diagnostic, `error{ message }`. -/
structure error where
  message : String
deriving DecidableEq, Repr

/-! ## Expressions -/

/-- The position an expression is analysed in. -/
inductive expression_type where
  | expression
  | statement
  | return_statement
deriving DecidableEq, Repr

/-- The common base of every AST node: position, frame and boxing flag. -/
structure expression_base where
  expr_type : expression_type
  frame : Nat
  needs_box : Bool
deriving DecidableEq, Repr

/-- Modelled from the spec: the declaration of `expression_base` is not among the sources;
a node built without an explicit `needs_box` takes the member default, which is `true`. -/
def expression_base.default_needs_box : Bool := true

/-- A reference to a `local_binding` stored in a frame: the frame and the position of the
binding among that frame's locals. -/
structure binding_ref where
  frame : Nat
  index : Nat
deriving DecidableEq, Repr

mutual
/-- The AST, `analyze::expression`. The body of a `let` is kept as its list of forms. -/
inductive expression where
  | primitive_literal (base : expression_base) (data : object)
  | local_reference (base : expression_base) (name : symbol) (binding : binding_ref)
  | var_deref (base : expression_base) (qualified_name : symbol) (v : var)
  | var_ref (base : expression_base) (qualified_name : symbol) (v : var)
  | def_ (base : expression_base) (name : symbol) (value : Option expression)
  | if_ (base : expression_base) (condition : expression) (then_ : expression)
      (else_ : Option expression)
  | let_ (base : expression_base) (pairs : List (symbol × expression))
      (body : List expression) (frame : Nat)
  | do_ (base : expression_base) (body : List expression)
  | function (base : expression_base) (name : String) (arities : List function_arity)
  | recur (base : expression_base) (args : List object) (arg_exprs : List expression)
  | call (base : expression_base) (source : expression) (args : List object)
      (arg_exprs : List expression)
  | vector (base : expression_base) (data_exprs : List expression)
  | map (base : expression_base) (data_exprs : List (expression × expression))
  | native_raw (base : expression_base) (chunks : List (String ⊕ expression))
/-- One arity of a function: parameters, body (a `do_` given by its base and forms), frame
and function context. -/
inductive function_arity where
  | mk (params : List symbol) (body_base : expression_base) (body : List expression)
      (frame : Nat) (fn_ctx : Nat)
end

instance : Inhabited expression := ⟨.primitive_literal ⟨.expression, 0, true⟩ .nil⟩

/-- The accessor `get_base()`. -/
def expression.get_base : expression → expression_base
  | .primitive_literal b _ => b
  | .local_reference b _ _ => b
  | .var_deref b _ _ => b
  | .var_ref b _ _ => b
  | .def_ b _ _ => b
  | .if_ b _ _ _ => b
  | .let_ b _ _ _ => b
  | .do_ b _ => b
  | .function b _ _ => b
  | .recur b _ _ => b
  | .call b _ _ _ => b
  | .vector b _ => b
  | .map b _ => b
  | .native_raw b _ => b

/-- Parameters of an arity. -/
def function_arity.params : function_arity → List symbol
  | .mk p _ _ _ _ => p

/-- The function context handle of an arity. -/
def function_arity.fn_ctx : function_arity → Nat
  | .mk _ _ _ _ c => c

/-- Per-arity analysis state, `expr::function_context`. -/
structure function_context where
  param_count : Nat
  is_variadic : Bool
  is_tail_recursive : Bool
deriving DecidableEq, Repr

instance : Inhabited function_context := ⟨⟨0, false, false⟩⟩

/-! ## Local frames -/

/-- The kind of a frame. -/
inductive frame_type where
  | root
  | fn
  | let_
deriving DecidableEq, Repr

/-- Modelled from the spec: the struct `local_binding` is declared outside the sources; its
fields are those of spec §3.3, in the order of the aggregate initialisers of processor.cpp. -/
structure local_binding where
  name : symbol
  value_expr : Option expression
  originating_frame : Option Nat
  needs_box : Bool
  has_boxed_usage : Bool
  has_unboxed_usage : Bool
  crossed_fns : List Nat

/-- Modelled from the spec: the struct `local_frame` is declared outside the sources; its
attributes are those of spec §3.2. `locals` maps a symbol to its binding; the key of an entry
is the name of the binding (the same symbol object), and entries are kept in insertion order. -/
structure local_frame where
  type : frame_type
  parent : Option Nat
  locals : List local_binding
  lifted_vars : List symbol
  lifted_constants : List object

/-- Modelled from the spec: the result of `find_local_or_capture` (spec §4.1): the binding
found and the `fn` frames crossed on the way. -/
structure find_result where
  binding : binding_ref
  crossed_fns : List Nat
deriving DecidableEq, Repr

/-! ## Analyzer state and the runtime interface -/

/-- The mutable state of `analyze::processor`: the runtime context, the frame arena (the root
frame is frame 0), the function-context arena and the `vars` map. -/
structure processor (ρ : Type) where
  rt_ctx : ρ
  frames : List local_frame
  fn_ctxs : List function_context
  vars : List (var × expression)

/-- The operations of `runtime::context` and of the reader the analyzer consumes (spec §6.2),
over an arbitrary runtime state `ρ`; their code is not among the sources.
`parse` lexes and parses a text into its stream of parse results. `write_module` stands for
the whole compiling-mode step of `analyze_fn` (module dependency, code generation, write).
`binding_needs_box` is the member default of `local_binding::needs_box`. -/
structure runtime (ρ : Type) where
  qualify_symbol : ρ → symbol → symbol
  find_var : ρ → symbol → Option var
  intern_var : ρ → symbol → Except error var × ρ
  macroexpand : ρ → object → object × ρ
  unique_string : ρ → String → String × ρ
  munge : String → String
  compiling : ρ → Bool
  write_module : ρ → List local_frame → String → expression → ρ
  parse : ρ → String → List (Except error object)
  get : object → object → object
  get_in : object → object → object
  truthy : object → Bool
  max_params : Nat
  binding_needs_box : Bool

/-- What a call of an analyzer produces: a result (expression or diagnostic) with the state
left behind, or no result because the program dereferenced an absent value (`aborted`), or
because the step budget of the embedding ran out (`out_of_budget`). -/
inductive outcome (ρ : Type) (α : Type) where
  | out_of_budget
  | aborted
  | done (r : Except error α) (s : processor ρ)

/-- Sequencing: the idiom `if(res.is_err()) { return res.expect_err_move(); }`. -/
def outcome.and_then {ρ α β : Type} (o : outcome ρ α)
    (k : α → processor ρ → outcome ρ β) : outcome ρ β :=
  match o with
  | .out_of_budget => .out_of_budget
  | .aborted => .aborted
  | .done (.error e) s => .done (.error e) s
  | .done (.ok a) s => k a s

/-- The type of `processor::analyze(o, current_frame, expr_type, fn_ctx, needs_box)`. -/
abbrev analyzer (ρ : Type) :=
  object → Nat → expression_type → Option Nat → Bool → processor ρ → outcome ρ expression

/-- The type of the entries of `specials`. -/
abbrev special_analyzer (ρ : Type) :=
  List object → Nat → expression_type → Option Nat → Bool → processor ρ → outcome ρ expression

/-! ## Operations on the frame tree (spec §4.1) -/

/-- Position of the first binding named `sym` among the locals of a frame. -/
def find_index (sym : symbol) : List local_binding → Option Nat
  | [] => none
  | b :: bs => if b.name = sym then some 0 else (find_index sym bs).map (· + 1)

/-- The call `locals.emplace(b.name, b)`: insert unless the key is present. -/
def locals_emplace (bs : List local_binding) (b : local_binding) : List local_binding :=
  match find_index b.name bs with
  | some _ => bs
  | none => bs ++ [b]

/-- The assignment `binding.has_boxed_usage = true`. -/
def local_binding.mark_boxed (b : local_binding) : local_binding :=
  { b with has_boxed_usage := true }

/-- The assignment `binding.has_unboxed_usage = true`. -/
def local_binding.mark_unboxed (b : local_binding) : local_binding :=
  { b with has_unboxed_usage := true }

/-- Apply `g` to frame `f` of the arena. -/
def modify_frame (frames : List local_frame) (f : Nat) (g : local_frame → local_frame) :
    List local_frame :=
  match frames[f]? with
  | none => frames
  | some fr => frames.set f (g fr)

/-- Apply `g` to the binding a reference points to. -/
def modify_binding (frames : List local_frame) (r : binding_ref)
    (g : local_binding → local_binding) : List local_frame :=
  modify_frame frames r.frame fun fr =>
    match fr.locals[r.index]? with
    | none => fr
    | some b => { fr with locals := fr.locals.set r.index (g b) }

/-- Read the binding a reference points to. -/
def get_binding (frames : List local_frame) (r : binding_ref) : Option local_binding :=
  match frames[r.frame]? with
  | none => none
  | some fr => fr.locals[r.index]?

/-- Modelled from the spec: `local_frame::find_local_or_capture` is not among the sources.
Walks parents until a `locals` entry matches or the root is reached; `crossed_fns` lists the
`fn` frames traversed, nearest first. The walk visits at most `n` frames. -/
def find_local_walk (frames : List local_frame) (sym : symbol) : Nat → Nat → Option find_result
  | 0, _ => none
  | n + 1, f =>
    match frames[f]? with
    | none => none
    | some fr =>
      match find_index sym fr.locals with
      | some i => some ⟨⟨f, i⟩, []⟩
      | none =>
        match fr.parent with
        | none => none
        | some p =>
          (find_local_walk frames sym n p).map fun r =>
            if fr.type = frame_type.fn then { r with crossed_fns := f :: r.crossed_fns } else r

/-- Modelled from the spec: `find_local_or_capture(sym)` from frame `f`. -/
def find_local_or_capture (frames : List local_frame) (f : Nat) (sym : symbol) :
    Option find_result :=
  find_local_walk frames sym frames.length f

/-- Modelled from the spec: the binding installed in a crossed `fn` frame for a capture: a
copy of the originating binding that points back to it, is boxed, and records the crossed
frames (spec §3.3). -/
def capture_binding (result : find_result) (orig : local_binding) : local_binding :=
  { orig with
    originating_frame := some result.binding.frame
    needs_box := true
    crossed_fns := result.crossed_fns }

/-- Modelled from the spec: one step of `register_captures`, for one crossed `fn` frame:
ensure a binding for the symbol is installed in that frame, and mark the originating binding
`has_boxed_usage`. -/
def register_capture (result : find_result) (frames : List local_frame) (crossed_fn : Nat) :
    List local_frame :=
  match get_binding frames result.binding with
  | none => frames
  | some orig =>
    modify_binding
      (modify_frame frames crossed_fn fun fr =>
        { fr with locals := locals_emplace fr.locals (capture_binding result orig) })
      result.binding local_binding.mark_boxed

/-- Modelled from the spec: `local_frame::register_captures(result)` is not among the
sources. -/
def register_captures (frames : List local_frame) (result : find_result) : List local_frame :=
  result.crossed_fns.foldl (register_capture result) frames

/-- Modelled from the spec: the nearest enclosing `fn` frame of `f`, or the root. -/
def find_closest_fn_frame (frames : List local_frame) : Nat → Nat → Nat
  | 0, f => f
  | n + 1, f =>
    match frames[f]? with
    | none => f
    | some fr =>
      if fr.type = frame_type.fn then f
      else
        match fr.parent with
        | none => f
        | some p => find_closest_fn_frame frames n p

/-- The frame that owns what is lifted from frame `f`. -/
def closest_fn_frame (frames : List local_frame) (f : Nat) : Nat :=
  find_closest_fn_frame frames frames.length f

/-- Modelled from the spec: `local_frame::lift_constant(value)`: add the value to the nearest
enclosing `fn` frame (or root) if not already present. -/
def lift_constant (frames : List local_frame) (f : Nat) (o : object) : List local_frame :=
  modify_frame frames (closest_fn_frame frames f) fun fr =>
    if fr.lifted_constants.contains o then fr
    else { fr with lifted_constants := fr.lifted_constants ++ [o] }

/-- Modelled from the spec: `local_frame::lift_var(qualified_sym)`: add the symbol to the
nearest enclosing `fn` frame (or root) if not already present. -/
def lift_var (frames : List local_frame) (f : Nat) (q : symbol) : List local_frame :=
  modify_frame frames (closest_fn_frame frames f) fun fr =>
    if fr.lifted_vars.contains q then fr
    else { fr with lifted_vars := fr.lifted_vars ++ [q] }

/-- Modelled from the spec: the overload of `lift_var` used by `def`: the symbol is qualified
with the current namespace, lifted, and returned. -/
def lift_var_unqualified {ρ : Type} (R : runtime ρ) (s : processor ρ) (f : Nat) (sym : symbol) :
    symbol × processor ρ :=
  let q := R.qualify_symbol s.rt_ctx sym
  (q, { s with frames := lift_var s.frames f q })

/-- The expression `make_box<local_frame>(type, rt_ctx, parent)`: a fresh frame; its handle is
the size of the arena before the allocation. -/
def new_frame {ρ : Type} (s : processor ρ) (type : frame_type) (parent : Nat) :
    Nat × processor ρ :=
  (s.frames.length, { s with frames := s.frames ++ [⟨type, some parent, [], [], []⟩] })

/-! ## Small accessors on the state -/

/-- The value of `count() - 1` computed in `size_t` (64 bits): it wraps around at zero. -/
def size_minus_one (n : Nat) : Nat := if n = 0 then 2 ^ 64 - 1 else n - 1

/-- Read a function context through its handle. -/
def processor.fn_ctx {ρ : Type} (s : processor ρ) (c : Nat) : function_context :=
  s.fn_ctxs.getD c default

/-- The call `vars.find(v)`. -/
def vars_find (vars : List (var × expression)) (v : var) : Option expression :=
  (vars.find? fun kv => kv.1 == v).map Prod.snd

/-- The call `vars.insert_or_assign(v, e)`. -/
def vars_insert_or_assign (vars : List (var × expression)) (v : var) (e : expression) :
    List (var × expression) :=
  if vars.any (fun kv => kv.1 == v) then
    vars.map fun kv => if kv.1 == v then (kv.1, e) else kv
  else vars ++ [(v, e)]

/-- Whether an expression is a `primitive_literal`. -/
def expression.is_primitive_literal : expression → Bool
  | .primitive_literal _ _ => true
  | _ => false

/-! ## The boxing step (spec §4.6) -/

mutual
/-- Modelled from the spec: `step::force_boxed` is not among the sources. Sets `needs_box` on
an expression in tail position and walks on to the tail positions below it. -/
def force_boxed_expr : expression → expression
  | .primitive_literal b d => .primitive_literal { b with needs_box := true } d
  | .local_reference b n r => .local_reference { b with needs_box := true } n r
  | .var_deref b q v => .var_deref { b with needs_box := true } q v
  | .var_ref b q v => .var_ref { b with needs_box := true } q v
  | .def_ b n v => .def_ { b with needs_box := true } n v
  | .if_ b c t e =>
    .if_ { b with needs_box := true } c (force_boxed_expr t) (force_boxed_option e)
  | .let_ b ps body f => .let_ { b with needs_box := true } ps (force_boxed_tail body) f
  | .do_ b body => .do_ { b with needs_box := true } (force_boxed_tail body)
  | .function b n as => .function { b with needs_box := true } n as
  | .recur b a es => .recur { b with needs_box := true } a es
  | .call b src a es => .call { b with needs_box := true } src a es
  | .vector b es => .vector { b with needs_box := true } es
  | .map b es => .map { b with needs_box := true } es
  | .native_raw b cs => .native_raw { b with needs_box := true } cs
/-- Modelled from the spec: the boxing step on an optional `else` branch. -/
def force_boxed_option : Option expression → Option expression
  | none => none
  | some e => some (force_boxed_expr e)
/-- Modelled from the spec: the boxing step on the last form of a body; the other forms are
not in tail position and are left alone. -/
def force_boxed_tail : List expression → List expression
  | [] => []
  | [e] => [force_boxed_expr e]
  | e :: e2 :: es => e :: force_boxed_tail (e2 :: es)
end

/-- Modelled from the spec: `step::force_boxed(body_do)` on the body of an arity: the tail of
the body is boxed, and so is the `do` itself. -/
def force_boxed : function_arity → function_arity
  | .mk params body_base body frame fn_ctx =>
    .mk params { body_base with needs_box := true } (force_boxed_tail body) frame fn_ctx

/-! ## Per-form analyzers -/

section analyzers

variable {ρ : Type}

/-- Translation of `processor::analyze_def` (processor.cpp 71-132). -/
def analyze_def (R : runtime ρ) (analyze : analyzer ρ) : special_analyzer ρ :=
  fun l current_frame expr_type fn_ctx _ s =>
  let length := l.length
  if length ≠ 2 ∧ length ≠ 3 then .done (.error ⟨"invalid def"⟩) s
  else
    match l.tail.head? with
    | none => .aborted
    | some (.symbol sym) =>
      if sym.ns ≠ "" then .done (.error ⟨"invalid def: name must not be qualified"⟩) s
      else
        let value_opt := l.tail.tail.head?
        let lifted := lift_var_unqualified R s current_frame sym
        let qualified_sym := lifted.1
        match R.intern_var lifted.2.rt_ctx qualified_sym with
        | (.error e, rt) => .done (.error e) { lifted.2 with rt_ctx := rt }
        | (.ok v, rt) =>
          match value_opt with
          | none =>
            .done (.ok (.def_ ⟨expr_type, current_frame, true⟩ qualified_sym none))
              { lifted.2 with rt_ctx := rt }
          | some value =>
            (analyze value current_frame .expression fn_ctx true
              { lifted.2 with rt_ctx := rt }).and_then fun value_expr s3 =>
            .done (.ok (.def_ ⟨expr_type, current_frame, true⟩ qualified_sym (some value_expr)))
              { s3 with vars := vars_insert_or_assign s3.vars v value_expr }
    | some _ => .done (.error ⟨"invalid def: name must be a symbol"⟩) s

/-- Whether a var is lifted by `analyze_symbol`: its meta is absent or has nil under
`:macro` (processor.cpp 193-199). -/
def var_is_lifted (R : runtime ρ) (v : var) : Bool :=
  match v.meta with
  | none => true
  | some m => R.get m (.keyword "" "macro") == .nil

/-- Translation of `processor::analyze_symbol` (processor.cpp 134-209). -/
def analyze_symbol (R : runtime ρ) (sym : symbol) (current_frame : Nat)
    (expr_type : expression_type) (_fn_ctx : Option Nat) (needs_box : Bool) (s : processor ρ) :
    outcome ρ expression :=
  match find_local_or_capture s.frames current_frame sym with
  | some found_local =>
    let frames1 := register_captures s.frames found_local
    match get_binding frames1 found_local.binding with
    | none => .aborted
    | some b =>
      let needs_box1 := needs_box || b.needs_box
      if found_local.crossed_fns ≠ [] then
        let frames2 := modify_binding frames1 found_local.binding local_binding.mark_boxed
        match find_local_or_capture frames2 current_frame sym with
        | none => .aborted
        | some found_again =>
          .done (.ok (.local_reference ⟨expr_type, current_frame, true⟩ sym found_again.binding))
            { s with frames :=
                modify_binding frames2 found_again.binding local_binding.mark_boxed }
      else if needs_box1 then
        .done (.ok (.local_reference ⟨expr_type, current_frame, needs_box1⟩ sym found_local.binding))
          { s with frames :=
              modify_binding frames1 found_local.binding local_binding.mark_boxed }
      else
        .done (.ok (.local_reference ⟨expr_type, current_frame, needs_box1⟩ sym found_local.binding))
          { s with frames :=
              modify_binding frames1 found_local.binding local_binding.mark_unboxed }
  | none =>
    let qualified_sym := R.qualify_symbol s.rt_ctx sym
    match R.find_var s.rt_ctx qualified_sym with
    | none => .done (.error ⟨"unbound symbol: " ++ sym.to_string⟩) s
    | some unwrapped_var =>
      .done
        (.ok (.var_deref ⟨expr_type, current_frame, expression_base.default_needs_box⟩
          qualified_sym unwrapped_var))
        (if var_is_lifted R unwrapped_var then
          { s with frames := lift_var s.frames current_frame qualified_sym }
        else s)

/-- The statement `param->name = ""` on the first parameter equal to `sym`
(processor.cpp 256-267). -/
def erase_param_name (sym : symbol) : List symbol → List symbol
  | [] => []
  | p :: ps => if p = sym then { p with name := "" } :: ps else p :: erase_param_name sym ps

/-- The effect of `param->name = ""` on the frame: the binding of that parameter holds the
same symbol object, as key and as name. -/
def erase_binding_name (sym : symbol) : List local_binding → List local_binding
  | [] => []
  | b :: bs =>
    if b.name = sym then { b with name := { b.name with name := "" } } :: bs
    else b :: erase_binding_name sym bs

/-- The binding `local_binding{ sym, none }` of a parameter. -/
def param_binding (R : runtime ρ) (sym : symbol) : local_binding :=
  ⟨sym, none, none, R.binding_needs_box, false, false, []⟩

/-- The parameter loop of `analyze_fn_arity` (processor.cpp 229-272), from position `it` on:
`params` is what is left of the vector from `it`. Returns `is_variadic` and `param_symbols`. -/
def analyze_params (R : runtime ρ) (frame : Nat) :
    List object → Bool → List symbol → List symbol → List local_frame →
      Except error (Bool × List symbol) × List local_frame
  | [], is_variadic, param_symbols, _, frames => (.ok (is_variadic, param_symbols), frames)
  | .symbol sym :: rest, is_variadic, param_symbols, unique_param_symbols, frames =>
    if sym.ns ≠ "" then (.error ⟨"invalid parameter; must be unqualified"⟩, frames)
    else if sym.name = "&" then
      if is_variadic then (.error ⟨"invalid function; parameters contain mutliple &"⟩, frames)
      else if rest.length = 0 then (.error ⟨"invalid function; missing symbol after &"⟩, frames)
      else if rest.length ≠ 1 then (.error ⟨"invalid function; param after rest args"⟩, frames)
      else analyze_params R frame rest true param_symbols unique_param_symbols frames
    else if unique_param_symbols.contains sym then
      analyze_params R frame rest is_variadic (erase_param_name sym param_symbols ++ [sym])
        unique_param_symbols
        (modify_frame frames frame fun fr =>
          { fr with locals :=
              locals_emplace (erase_binding_name sym fr.locals) (param_binding R sym) })
    else
      analyze_params R frame rest is_variadic (param_symbols ++ [sym])
        (sym :: unique_param_symbols)
        (modify_frame frames frame fun fr =>
          { fr with locals := locals_emplace fr.locals (param_binding R sym) })
  | _ :: _, _, _, _, frames => (.error ⟨"invalid parameter; must be a symbol"⟩, frames)

/-- The body loop of `analyze_fn_arity` (processor.cpp 295-305); `i` counts the forms
analysed so far. -/
def analyze_arity_body (analyze : analyzer ρ) (frame : Nat) (fn_ctx : Nat) (form_count : Nat) :
    List object → Nat → List expression → processor ρ → outcome ρ (List expression)
  | [], _, body, s => .done (.ok body) s
  | item :: rest, i, body, s =>
    let expr_type :=
      if i + 1 = form_count then expression_type.return_statement else expression_type.statement
    (analyze item frame expr_type (some fn_ctx) (expr_type != expression_type.statement) s).and_then
      fun form s1 => analyze_arity_body analyze frame fn_ctx form_count rest (i + 1) (body ++ [form]) s1

/-- Translation of `processor::analyze_fn_arity` (processor.cpp 211-323). -/
def analyze_fn_arity (R : runtime ρ) (analyze : analyzer ρ) (list : List object)
    (current_frame : Nat) (s : processor ρ) : outcome ρ function_arity :=
  match list.head? with
  | none => .aborted
  | some (.vector params) =>
    let allocated := new_frame s frame_type.fn current_frame
    let frame := allocated.1
    match analyze_params R frame params false [] [] allocated.2.frames with
    | (.error e, frames) => .done (.error e) { allocated.2 with frames := frames }
    | (.ok (is_variadic, param_symbols), frames) =>
      if param_symbols.length > R.max_params then
        .done
          (.error ⟨"invalid parameter count; must be <= " ++ toString R.max_params
            ++ "; use & args to capture the rest"⟩)
          { allocated.2 with frames := frames }
      else
        let fn_ctx := allocated.2.fn_ctxs.length
        let s1 : processor ρ :=
          { allocated.2 with
            frames := frames
            fn_ctxs := allocated.2.fn_ctxs ++ [⟨param_symbols.length, is_variadic, false⟩] }
        (analyze_arity_body analyze frame fn_ctx (size_minus_one list.length) list.tail 0 []
          s1).and_then
          fun body s2 =>
          .done
            (.ok
              (if (s2.fn_ctx fn_ctx).is_tail_recursive then
                force_boxed
                  (.mk param_symbols
                    ⟨.return_statement, frame, expression_base.default_needs_box⟩ body frame
                    fn_ctx)
              else
                .mk param_symbols ⟨.return_statement, frame, expression_base.default_needs_box⟩
                  body frame fn_ctx))
            s2
  | some _ => .done (.error ⟨"invalid fn parameter vector"⟩) s

/-- The loop over arity lists of `analyze_fn` (processor.cpp 370-381). -/
def analyze_fn_arities (R : runtime ρ) (analyze : analyzer ρ) (current_frame : Nat) :
    List object → List function_arity → processor ρ → outcome ρ (List function_arity)
  | [], arities, s => .done (.ok arities) s
  | .list arity_list :: rest, arities, s =>
    (analyze_fn_arity R analyze arity_list current_frame s).and_then fun arity s1 =>
      analyze_fn_arities R analyze current_frame rest (arities ++ [arity]) s1
  | _ :: _, _, s => .done (.error ⟨"invalid fn: expected arity list"⟩) s

/-- The counter `found_variadic` after the loop at processor.cpp 389-393. -/
def found_variadic (s : processor ρ) (arities : List function_arity) : Nat :=
  (arities.filter fun a => (s.fn_ctx a.fn_ctx).is_variadic).length

/-- The variable `variadic_arity` after the loop at processor.cpp 389-393: it is assigned on
every iteration, so it ends as the parameter count of the last arity. -/
def variadic_arity (arities : List function_arity) : Nat :=
  arities.foldl (fun _ a => a.params.length) 0

/-- The uniqueness loop at processor.cpp 409-423, on the pairs `(params.size(), is_variadic)`. -/
def has_duplicate_arity : List (Nat × Bool) → Bool
  | [] => false
  | base :: others => others.any (fun other => base.1 = other.1 && base.2 = other.2)
      || has_duplicate_arity others

/-- The cross-arity checks and the construction of the node (processor.cpp 386-459). -/
def finish_fn (R : runtime ρ) (current_frame : Nat) (expr_type : expression_type)
    (name : String) (arities : List function_arity) (s : processor ρ) : outcome ρ expression :=
  if found_variadic s arities > 1 then
    .done (.error ⟨"invalid fn: has more than one variadic arity"⟩) s
  else if found_variadic s arities > 0 ∧
      arities.any (fun a =>
        !(s.fn_ctx a.fn_ctx).is_variadic && decide (a.params.length ≥ variadic_arity arities))
    then .done (.error ⟨"invalid fn: fixed arity has >= params than variadic arity"⟩) s
  else if has_duplicate_arity
      (arities.map fun a => (a.params.length, (s.fn_ctx a.fn_ctx).is_variadic))
    then .done (.error ⟨"invalid fn: duplicate arity definition"⟩) s
  else
    let ret : expression :=
      .function ⟨expr_type, current_frame, expression_base.default_needs_box⟩ name arities
    if R.compiling s.rt_ctx then
      .done (.ok ret) { s with rt_ctx := R.write_module s.rt_ctx s.frames name ret }
    else .done (.ok ret) s

/-- Translation of `processor::analyze_fn` (processor.cpp 325-460). -/
def analyze_fn (R : runtime ρ) (analyze : analyzer ρ) : special_analyzer ρ :=
  fun full_list current_frame expr_type _ _ s =>
  if full_list.length < 2 then .done (.error ⟨"fn missing forms"⟩) s
  else
    match full_list.tail.head? with
    | none => .aborted
    | some first_elem0 =>
      let named : processor ρ × String × Option object × List object :=
        match first_elem0 with
        | .symbol sy =>
          ({ s with rt_ctx := (R.unique_string s.rt_ctx sy.name).2 },
            (R.unique_string s.rt_ctx sy.name).1, full_list.tail.tail.head?, full_list.tail)
        | _ =>
          ({ s with rt_ctx := (R.unique_string s.rt_ctx "fn").2 },
            (R.unique_string s.rt_ctx "fn").1, some first_elem0, full_list)
      match named with
      | (_, _, none, _) => .aborted
      | (s1, name0, some first_elem, list) =>
        let name := R.munge name0
        let arities : outcome ρ (List function_arity) :=
          match first_elem with
          | .vector _ =>
            (analyze_fn_arity R analyze list.tail current_frame s1).and_then fun arity s2 =>
              .done (.ok [arity]) s2
          | .list _ => analyze_fn_arities R analyze current_frame list.tail [] s1
          | _ => .done (.error ⟨"invalid fn syntax"⟩) s1
        arities.and_then fun arities s2 => finish_fn R current_frame expr_type name arities s2

/-- The argument loops of `analyze_recur` (processor.cpp 497-503) and `analyze_call`
(processor.cpp 1013-1019): every form in expression position, with one `needs_box`. -/
def analyze_args (analyze : analyzer ρ) (current_frame : Nat) (fn_ctx : Option Nat)
    (needs_box : Bool) : List object → List expression → processor ρ → outcome ρ (List expression)
  | [], arg_exprs, s => .done (.ok arg_exprs) s
  | form :: rest, arg_exprs, s =>
    (analyze form current_frame .expression fn_ctx needs_box s).and_then fun arg_expr s1 =>
      analyze_args analyze current_frame fn_ctx needs_box rest (arg_exprs ++ [arg_expr]) s1

/-- Translation of `processor::analyze_recur` (processor.cpp 462-516). -/
def analyze_recur (analyze : analyzer ρ) : special_analyzer ρ :=
  fun list current_frame expr_type fn_ctx _ s =>
  match fn_ctx with
  | none => .done (.error ⟨"unable to use recur outside of a function or loop"⟩) s
  | some c =>
    if expr_type ≠ .return_statement then
      .done (.error ⟨"recur used outside of tail position"⟩) s
    else if (s.fn_ctx c).param_count ≠ size_minus_one list.length then
      .done
        (.error ⟨"invalid number of args passed to recur; expected "
          ++ toString (s.fn_ctx c).param_count ++ ", found "
          ++ toString (size_minus_one list.length)⟩)
        s
    else
      (analyze_args analyze current_frame fn_ctx true list.tail [] s).and_then fun arg_exprs s1 =>
        .done
          (.ok (.recur ⟨expr_type, current_frame, expression_base.default_needs_box⟩
            list.tail arg_exprs))
          { s1 with fn_ctxs :=
              match s1.fn_ctxs[c]? with
              | none => s1.fn_ctxs
              | some ctx => s1.fn_ctxs.set c { ctx with is_tail_recursive := true } }

/-- The loop of `analyze_do` (processor.cpp 530-552); `i` counts the forms analysed so far
and `ret_needs_box` is the `needs_box` of the node under construction. -/
def analyze_do_body (analyze : analyzer ρ) (current_frame : Nat) (expr_type : expression_type)
    (fn_ctx : Option Nat) (needs_box : Bool) (form_count : Nat) :
    List object → Nat → Bool → List expression → processor ρ → outcome ρ (Bool × List expression)
  | [], _, ret_needs_box, body, s => .done (.ok (ret_needs_box, body)) s
  | item :: rest, i, ret_needs_box, body, s =>
    let last := decide (i + 1 = form_count)
    let form_type := if last then expr_type else expression_type.statement
    (analyze item current_frame form_type fn_ctx
      (if form_type = expression_type.statement then false else needs_box) s).and_then
      fun form s1 =>
        analyze_do_body analyze current_frame expr_type fn_ctx needs_box form_count rest (i + 1)
          (if last then form.get_base.needs_box else ret_needs_box) (body ++ [form]) s1

/-- Translation of `processor::analyze_do` (processor.cpp 518-555). -/
def analyze_do (analyze : analyzer ρ) : special_analyzer ρ :=
  fun list current_frame expr_type fn_ctx needs_box s =>
  (analyze_do_body analyze current_frame expr_type fn_ctx needs_box (size_minus_one list.length)
    list.tail 0
    expression_base.default_needs_box [] s).and_then fun ret s1 =>
    .done (.ok (.do_ ⟨expr_type, current_frame, ret.1⟩ ret.2)) s1

/-- The binding `local_binding{ sym, some(expr), current_frame, expr->get_base()->needs_box }`
of a `let*` pair (processor.cpp 601-604). -/
def let_binding (sym : symbol) (res : expression) (current_frame : Nat) : local_binding :=
  ⟨sym, some res, some current_frame, res.get_base.needs_box, false, false, []⟩

/-- The binding loop of `analyze_let` (processor.cpp 586-605), two elements at a time. -/
def analyze_let_bindings (analyze : analyzer ρ) (current_frame : Nat) (frame : Nat)
    (fn_ctx : Option Nat) :
    List object → List (symbol × expression) → processor ρ →
      outcome ρ (List (symbol × expression))
  | sym_obj :: val :: rest, pairs, s =>
    match sym_obj with
    | .symbol sym =>
      if sym.ns ≠ "" then
        .done (.error ⟨"invalid let* binding: left hand must be an unqualified symbol"⟩) s
      else
        (analyze val frame .expression fn_ctx false s).and_then fun res s1 =>
          analyze_let_bindings analyze current_frame frame fn_ctx rest (pairs ++ [(sym, res)])
            { s1 with frames := modify_frame s1.frames frame fun fr =>
                { fr with locals := locals_emplace fr.locals (let_binding sym res current_frame) } }
    | _ => .done (.error ⟨"invalid let* binding: left hand must be an unqualified symbol"⟩) s
  | _, pairs, s => .done (.ok pairs) s

/-- The body loop of `analyze_let` (processor.cpp 607-622). -/
def analyze_let_body (analyze : analyzer ρ) (frame : Nat) (expr_type : expression_type)
    (fn_ctx : Option Nat) (needs_box : Bool) (form_count : Nat) :
    List object → Nat → Bool → List expression → processor ρ → outcome ρ (Bool × List expression)
  | [], _, ret_needs_box, body, s => .done (.ok (ret_needs_box, body)) s
  | item :: rest, i, ret_needs_box, body, s =>
    let last := decide (i + 1 = form_count)
    let form_type := if last then expr_type else expression_type.statement
    (analyze item frame form_type fn_ctx needs_box s).and_then fun res s1 =>
      analyze_let_body analyze frame expr_type fn_ctx needs_box form_count rest (i + 1)
        (if last then res.get_base.needs_box else ret_needs_box) (body ++ [res]) s1

/-- Translation of `processor::analyze_let` (processor.cpp 557-625). The node is built by
`expr::let(expr_type, needs_box, frame)`, whose base holds the new frame. -/
def analyze_let (analyze : analyzer ρ) : special_analyzer ρ :=
  fun o current_frame expr_type fn_ctx needs_box s =>
  if o.length < 2 then .done (.error ⟨"invalid let: expects bindings"⟩) s
  else
    match o.tail.head? with
    | none => .aborted
    | some (.vector bindings) =>
      if bindings.length % 2 = 1 then
        .done (.error ⟨"invalid let* bindings: must be an even number"⟩) s
      else
        let allocated := new_frame s frame_type.let_ current_frame
        (analyze_let_bindings analyze current_frame allocated.1 fn_ctx bindings []
          allocated.2).and_then fun pairs s1 =>
        (analyze_let_body analyze allocated.1 expr_type fn_ctx needs_box (o.length - 2)
          o.tail.tail 0 needs_box [] s1).and_then fun ret s2 =>
        .done (.ok (.let_ ⟨expr_type, allocated.1, ret.1⟩ pairs ret.2 allocated.1)) s2
    | some _ => .done (.error ⟨"invalid let* bindings: must be a vector"⟩) s

/-- Translation of `processor::analyze_if` (processor.cpp 627-677). -/
def analyze_if (analyze : analyzer ρ) : special_analyzer ρ :=
  fun o current_frame expr_type fn_ctx _ s =>
  let needs_box := true
  let form_count := o.length
  if form_count < 3 then .done (.error ⟨"invalid if: expects at least two forms"⟩) s
  else if form_count > 4 then .done (.error ⟨"invalid if: expects at most three forms"⟩) s
  else
    match o.tail.head?, o.tail.tail.head? with
    | some condition, some then_ =>
      (analyze condition current_frame .expression fn_ctx false s).and_then
        fun condition_expr s1 =>
      (analyze then_ current_frame expr_type fn_ctx needs_box s1).and_then fun then_expr s2 =>
      if form_count = 4 then
        match o.tail.tail.tail.head? with
        | none => .aborted
        | some else_ =>
          (analyze else_ current_frame expr_type fn_ctx needs_box s2).and_then fun else_expr s3 =>
            .done
              (.ok (.if_ ⟨expr_type, current_frame, needs_box⟩ condition_expr then_expr
                (some else_expr)))
              s3
      else
        .done (.ok (.if_ ⟨expr_type, current_frame, needs_box⟩ condition_expr then_expr none)) s2
    | _, _ => .aborted

/-- Translation of `processor::analyze_primitive_literal` (processor.cpp 810-828). -/
def analyze_primitive_literal (o : object) (current_frame : Nat) (expr_type : expression_type)
    (_fn_ctx : Option Nat) (needs_box : Bool) (s : processor ρ) : outcome ρ expression :=
  .done (.ok (.primitive_literal ⟨expr_type, current_frame, needs_box⟩ o))
    { s with frames := lift_constant s.frames current_frame o }

/-- Translation of `processor::analyze_quote` (processor.cpp 679-692). -/
def analyze_quote : special_analyzer ρ :=
  fun o current_frame expr_type fn_ctx needs_box s =>
  if o.length ≠ 2 then .done (.error ⟨"invalid quote: expects one argument"⟩) s
  else
    match o.tail.head? with
    | none => .aborted
    | some x => analyze_primitive_literal x current_frame expr_type fn_ctx needs_box s

/-- Translation of `processor::analyze_var` (processor.cpp 694-726). -/
def analyze_var (R : runtime ρ) : special_analyzer ρ :=
  fun o current_frame expr_type _ _ s =>
  if o.length ≠ 2 then .done (.error ⟨"invalid var reference: expects one argument"⟩) s
  else
    match o.tail.head? with
    | none => .aborted
    | some (.symbol arg_sym) =>
      let qualified_sym := R.qualify_symbol s.rt_ctx arg_sym
      match R.find_var s.rt_ctx qualified_sym with
      | none => .done (.error ⟨"invalid var reference: var not found"⟩) s
      | some found_var =>
        .done (.ok (.var_ref ⟨expr_type, current_frame, true⟩ qualified_sym found_var)) s
    | some _ => .done (.error ⟨"invalid var reference: expects a symbol"⟩) s

/-- The call `native_string::find(needle, pos)` on a suffix `hay` that starts at position `i`. -/
def find_at (needle : List Char) : List Char → Nat → Option Nat
  | [], i => if needle.isEmpty then some i else none
  | c :: cs, i => if needle.isPrefixOf (c :: cs) then some i else find_at needle cs (i + 1)

/-- The call `hay.find(needle, pos)`; `none` is `npos`. -/
def str_find (hay needle : List Char) (pos : Nat) : Option Nat :=
  if pos > hay.length then none else find_at needle (hay.drop pos) pos

/-- The start sentinel of an interpolation. -/
def interp_start : List Char := "#\x7b".data

/-- The end sentinel of an interpolation. -/
def interp_end : List Char := "\x7d#".data

/-- The view `native_string_view{ p }` built from a character pointer alone, as for the final
chunk (processor.cpp 769): `rest` is what the string holds from `p` on, and the view ends
before the first NUL character in it. -/
def c_string_view (rest : List Char) : List Char :=
  rest.takeWhile fun c => c != Char.ofNat 0

/-- The chunk loop of `analyze_native_raw` (processor.cpp 763-798). Every iteration moves `it`
forward, so `code.length + 1` iterations always suffice; the first argument bounds them. The
text before an interpolation is a view with its length; the final chunk is a view built from
the pointer alone. -/
def native_raw_chunks (R : runtime ρ) (analyze : analyzer ρ) (code : List Char)
    (current_frame : Nat) (fn_ctx : Option Nat) :
    Nat → Nat → List (String ⊕ expression) → processor ρ →
      outcome ρ (List (String ⊕ expression))
  | 0, _, _, _ => .out_of_budget
  | n + 1, it, chunks, s =>
    match str_find code interp_start it with
    | none => .done (.ok (chunks ++ [.inl (String.mk (c_string_view (code.drop it)))])) s
    | some next_start =>
      match str_find code interp_end next_start with
      | none => .done (.error ⟨"no matching \x7d# found for native/raw interpolation"⟩) s
      | some next_end =>
        match R.parse s.rt_ctx
            (String.mk ((code.drop (next_start + interp_start.length)).take
              (next_end - next_start - interp_end.length))) with
        | [] => .aborted
        | .error e :: _ => .done (.error e) s
        | .ok form :: more =>
          (analyze form current_frame .expression fn_ctx true s).and_then fun result s1 =>
            if more.isEmpty then
              native_raw_chunks R analyze code current_frame fn_ctx n
                (next_end + interp_end.length)
                ((if next_start - it > 0 then
                    chunks ++ [.inl (String.mk ((code.drop it).take (next_start - it)))]
                  else chunks) ++ [.inr result])
                s1
            else
              .done (.error ⟨"invalid native/raw: only one expression per interpolation"⟩) s1

/-- Translation of `processor::analyze_native_raw` (processor.cpp 728-808). -/
def analyze_native_raw (R : runtime ρ) (analyze : analyzer ρ) : special_analyzer ρ :=
  fun o current_frame expr_type fn_ctx _ s =>
  if o.length ≠ 2 then .done (.error ⟨"invalid native/raw: expects one argument"⟩) s
  else
    match o.tail.head? with
    | none => .aborted
    | some (.string code_str) =>
      if code_str.data.isEmpty then
        .done (.ok (.native_raw ⟨expr_type, current_frame, true⟩ [])) s
      else
        (native_raw_chunks R analyze code_str.data current_frame fn_ctx
          (code_str.data.length + 1) 0 [] s).and_then fun chunks s1 =>
          .done (.ok (.native_raw ⟨expr_type, current_frame, true⟩ chunks)) s1
    | some _ => .done (.error ⟨"invalid native/raw: expects string of C++ code"⟩) s

/-- The element loop of `analyze_vector` (processor.cpp 843-851). -/
def analyze_vector_elements (analyze : analyzer ρ) (current_frame : Nat) (fn_ctx : Option Nat) :
    List object → List expression → Bool → processor ρ → outcome ρ (List expression × Bool)
  | [], exprs, literal, s => .done (.ok (exprs, literal)) s
  | d :: rest, exprs, literal, s =>
    (analyze d current_frame .expression fn_ctx true s).and_then fun res s1 =>
      analyze_vector_elements analyze current_frame fn_ctx rest (exprs ++ [res])
        (if res.is_primitive_literal then literal else false) s1

/-- Translation of `processor::analyze_vector` (processor.cpp 831-875); `o` holds the elements
of the vector. -/
def analyze_vector (analyze : analyzer ρ) (o : List object) (current_frame : Nat)
    (expr_type : expression_type) (fn_ctx : Option Nat) (_needs_box : Bool) (s : processor ρ) :
    outcome ρ expression :=
  (analyze_vector_elements analyze current_frame fn_ctx o [] true s).and_then fun r s1 =>
    if r.2 then
      .done (.ok (.primitive_literal ⟨expr_type, current_frame, true⟩ (.vector o)))
        { s1 with frames := lift_constant s1.frames current_frame (.vector o) }
    else .done (.ok (.vector ⟨expr_type, current_frame, true⟩ r.1)) s1

/-- The pair loop of `analyze_map` (processor.cpp 889-898). -/
def analyze_map_pairs (analyze : analyzer ρ) (current_frame : Nat) (fn_ctx : Option Nat) :
    List (object × object) → List (expression × expression) → processor ρ →
      outcome ρ (List (expression × expression))
  | [], exprs, s => .done (.ok exprs) s
  | kv :: rest, exprs, s =>
    (analyze kv.1 current_frame .expression fn_ctx true s).and_then fun k_expr s1 =>
    (analyze kv.2 current_frame .expression fn_ctx true s1).and_then fun v_expr s2 =>
      analyze_map_pairs analyze current_frame fn_ctx rest (exprs ++ [(k_expr, v_expr)]) s2

/-- Translation of `processor::analyze_map` (processor.cpp 877-909); `o` holds the entries of
the map. -/
def analyze_map (analyze : analyzer ρ) (o : List (object × object)) (current_frame : Nat)
    (expr_type : expression_type) (fn_ctx : Option Nat) (_needs_box : Bool) (s : processor ρ) :
    outcome ρ expression :=
  (analyze_map_pairs analyze current_frame fn_ctx o [] s).and_then fun exprs s1 =>
    .done (.ok (.map ⟨expr_type, current_frame, true⟩ exprs)) s1

/-- The table `specials` built by the constructor (processor.cpp 32-43). The constructor
`symbol("native/raw")` splits its argument at the slash. -/
def specials (R : runtime ρ) (analyze : analyzer ρ) : List (symbol × special_analyzer ρ) :=
  [ (⟨"", "def"⟩, analyze_def R analyze),
    (⟨"", "fn*"⟩, analyze_fn R analyze),
    (⟨"", "recur"⟩, analyze_recur analyze),
    (⟨"", "do"⟩, analyze_do analyze),
    (⟨"", "let*"⟩, analyze_let analyze),
    (⟨"", "if"⟩, analyze_if analyze),
    (⟨"", "quote"⟩, analyze_quote),
    (⟨"", "var"⟩, analyze_var R),
    (⟨"native", "raw"⟩, analyze_native_raw R analyze) ]

/-- The boxing decision of a call whose head resolved to `source` (processor.cpp 948-1001):
the pair `(needs_arg_box, needs_ret_box)`, or the diagnostic returned on the way. -/
def call_boxing (R : runtime ρ) (s : processor ρ) (source : expression) (arg_count : Nat)
    (needs_box : Bool) : Except error (Bool × Bool) :=
  match source with
  | .var_deref _ _ v =>
    match v.meta with
    | none => .ok (true, true)
    | some meta =>
      let arity_meta := R.get_in meta (.vector [.keyword "" "arities", .integer arg_count])
      let supports_unboxed_input :=
        R.truthy (R.get arity_meta (.keyword "" "supports-unboxed-input?"))
      let supports_unboxed_output := R.truthy (R.get arity_meta (.keyword "" "unboxed-output?"))
      if supports_unboxed_input || supports_unboxed_output then
        match vars_find s.vars v with
        | none => .error ⟨"ICE: undefined var: " ++ v.to_string⟩
        | some (.function _ _ arities) =>
          if arities.any (fun arity =>
              decide ((s.fn_ctx arity.fn_ctx).param_count = arg_count)
                && !(s.fn_ctx arity.fn_ctx).is_variadic)
          then .ok (!supports_unboxed_input, needs_box || !supports_unboxed_output)
          else .ok (true, true)
        | some _ => .error ⟨"unsupported arity meta on non-function var"⟩
      else .ok (true, true)
  | _ => .ok (true, true)

/-- The argument loop and the construction of the call node (processor.cpp 1011-1030). -/
def finish_call (analyze : analyzer ρ) (o : List object) (current_frame : Nat)
    (expr_type : expression_type) (fn_ctx : Option Nat) (needs_arg_box needs_ret_box : Bool)
    (source : expression) (s : processor ρ) : outcome ρ expression :=
  (analyze_args analyze current_frame fn_ctx needs_arg_box o.tail [] s).and_then
    fun arg_exprs s1 =>
    .done (.ok (.call ⟨expr_type, current_frame, needs_ret_box⟩ source o.tail arg_exprs)) s1

/-- Translation of `processor::analyze_call` (processor.cpp 911-1031); `o` holds the elements
of the list. -/
def analyze_call (R : runtime ρ) (analyze : analyzer ρ) (o : List object) (current_frame : Nat)
    (expr_type : expression_type) (fn_ctx : Option Nat) (needs_box : Bool) (s : processor ρ) :
    outcome ρ expression :=
  match o with
  | [] => analyze_primitive_literal (.list o) current_frame expr_type fn_ctx needs_box s
  | .symbol sym :: _ =>
    match (specials R analyze).lookup sym with
    | some found_special => found_special o current_frame expr_type fn_ctx needs_box s
    | none =>
      (analyze_symbol R sym current_frame .expression fn_ctx true s).and_then fun source s1 =>
        if (R.macroexpand s1.rt_ctx (.list o)).1 != .list o then
          analyze (R.macroexpand s1.rt_ctx (.list o)).1 current_frame expr_type fn_ctx needs_box
            { s1 with rt_ctx := (R.macroexpand s1.rt_ctx (.list o)).2 }
        else
          match call_boxing R { s1 with rt_ctx := (R.macroexpand s1.rt_ctx (.list o)).2 }
              source (o.length - 1) needs_box with
          | .error e => .done (.error e) { s1 with rt_ctx := (R.macroexpand s1.rt_ctx (.list o)).2 }
          | .ok boxing =>
            finish_call analyze o current_frame expr_type fn_ctx boxing.1 boxing.2 source
              { s1 with rt_ctx := (R.macroexpand s1.rt_ctx (.list o)).2 }
  | first :: _ =>
    (analyze first current_frame .expression fn_ctx needs_box s).and_then fun source s1 =>
      finish_call analyze o current_frame expr_type fn_ctx true true source s1

end analyzers

/-! ## The dispatcher and the root driver -/

/-- Translation of `processor::analyze(o, current_frame, expr_type, fn_ctx, needs_box)`
(processor.cpp 1040-1094), by recursion on the step budget. -/
def analyze {ρ : Type} (R : runtime ρ) : Nat → analyzer ρ
  | 0 => fun _ _ _ _ _ _ => .out_of_budget
  | n + 1 => fun o current_frame expr_type fn_ctx needs_box s =>
    match o with
    | .nullptr => .done (.error ⟨"unexpected nullptr"⟩) s
    | .list xs => analyze_call R (analyze R n) xs current_frame expr_type fn_ctx needs_box s
    | .vector xs => analyze_vector (analyze R n) xs current_frame expr_type fn_ctx needs_box s
    | .map kvs => analyze_map (analyze R n) kvs current_frame expr_type fn_ctx needs_box s
    | .set _ => .done (.error ⟨"unimplemented analysis: set"⟩) s
    | .integer _ => analyze_primitive_literal o current_frame expr_type fn_ctx needs_box s
    | .real _ => analyze_primitive_literal o current_frame expr_type fn_ctx needs_box s
    | .boolean _ => analyze_primitive_literal o current_frame expr_type fn_ctx needs_box s
    | .keyword _ _ => analyze_primitive_literal o current_frame expr_type fn_ctx needs_box s
    | .nil => analyze_primitive_literal o current_frame expr_type fn_ctx needs_box s
    | .string _ => analyze_primitive_literal o current_frame expr_type fn_ctx needs_box s
    | .symbol sym => analyze_symbol R sym current_frame expr_type fn_ctx needs_box s
    | .seq xs => analyze_call R (analyze R n) xs current_frame expr_type fn_ctx needs_box s
    | .other _ => .done (.error ⟨"unimplemented analysis"⟩) s

/-- The handle of `root_frame`. -/
def root_frame : Nat := 0

/-- A fresh analyzer for a runtime context: only the root frame exists. -/
def processor.init {ρ : Type} (rt_ctx : ρ) : processor ρ :=
  ⟨rt_ctx, [⟨frame_type.root, none, [], [], []⟩], [], []⟩

/-- Translation of `processor::analyze(o, expr_type)` (processor.cpp 1033-1038). -/
def analyze_root {ρ : Type} (analyze : analyzer ρ) (o : object) (expr_type : expression_type)
    (s : processor ρ) : outcome ρ expression :=
  analyze o root_frame expr_type none true s

/-- The loop of the root driver (processor.cpp 61-66): the forms pushed after `fn*` and `[]`,
or the first parse error. -/
def collect_forms : List (Except error object) → List object → Except error (List object)
  | [], fn => .ok fn
  | .error e :: _, _ => .error e
  | .ok form :: rest, fn => collect_forms rest (fn ++ [form])

/-- Modelled from the spec: the constructor of `runtime::obj::list` taking the reversed range
`fn.rbegin(), fn.rend()` is declared outside the sources; it yields the list of the elements
of `fn` in the order they were pushed, `(fn* [] form1 ... formN)`. -/
def list_from_reversed_range (fn : List object) : object := .list fn

/-- Translation of `processor::analyze(parse_current, parse_end)` (processor.cpp 46-69); the
stream is what lies between the two iterators. -/
def analyze_stream {ρ : Type} (analyze : analyzer ρ) (stream : List (Except error object))
    (s : processor ρ) : outcome ρ expression :=
  if stream.isEmpty then .done (.error ⟨"already retrieved result"⟩) s
  else
    match collect_forms stream [.symbol ⟨"", "fn*"⟩, .vector []] with
    | .error e => .done (.error e) s
    | .ok fn => analyze_root analyze (list_from_reversed_range fn) .expression s

/-! ## The legacy prelude: repetition of a string (`backend/c++/include/prelude.hpp`) -/

/-- Modelled from the spec: `assert_bang(condition, message)` of `prelude/assert.hpp`, which
is not among the sources: a condition that does not hold fails with the message and the
caller does not go on. -/
def assert_bang (condition : Bool) (message : String) : Except String Unit :=
  if condition then .ok () else .error message

/-- The call `s.insert(pos, data, count)` of `std::string`, where `ins` is the `count`
characters read at `data`: a position behind the end throws, otherwise the characters are
put before the character at `pos`. -/
def string_insert (s : List Char) (pos : Nat) (ins : List Char) : Except String (List Char) :=
  if pos > s.length then .error "basic_string::insert"
  else .ok (s.take pos ++ ins ++ s.drop pos)

/-- The loop `for(integer i{ 1 }; i < n; ++i)` of `operator *`, with `remaining` rounds left
and the counter at `i`. Each round inserts, at `original_size * i`, the first `original_size`
characters of the string as it stands (`s.c_str()`). The product is taken in the unsigned
64 bit type of `size()`. -/
def repeat_loop (original_size : Nat) : Nat → Nat → List Char → Except String (List Char)
  | 0, _, s => .ok s
  | remaining + 1, i, s =>
    match string_insert s (original_size * i % 2 ^ 64) (s.take original_size) with
    | .error e => .error e
    | .ok s1 => repeat_loop original_size remaining (i + 1) s1

/-- The function `operator *(string s, integer const n)`: the assertion, then `n - 1` rounds
of the loop, counted from `1`. The call of `reserve` changes the capacity only. -/
def operator_asterisk (s : String) (n : Int) : Except String String :=
  match assert_bang (decide (n > 0)) "invalid scalar for string repetition" with
  | .error e => .error e
  | .ok _ =>
    match repeat_loop s.data.length (n - 1).toNat 1 s.data with
    | .error e => .error e
    | .ok r => .ok (String.mk r)

/-! ## The legacy translator: parameter lists
(`src/jank/translate/function/argument/definition.cpp`) -/

/-- Modelled from the spec: a cell of the legacy parser, as far as `parse_types` looks at it:
an identifier with its text, or a cell of another kind. -/
inductive cell where
  | ident (data : String)
  | other
  deriving DecidableEq, Repr

/-- The exceptions that `parse_types` raises or lets pass. -/
inductive translate_error where
  /-- The exception `expect::error::syntax::exception`. -/
  | syntax_exception (message : String)
  /-- The exception `expect::error::type::exception`. -/
  | type_exception (message : String)
  /-- What `parse::expect::type` throws on a cell of the wrong kind. -/
  | expect_exception
  /-- An exception of a helper that takes part in the scan. -/
  | helper_exception (message : String)
  deriving DecidableEq, Repr

/-- One entry of a `type_list`: the name of a parameter and its type. -/
structure argument_type (τ : Type) where
  name : String
  type : τ
  deriving DecidableEq, Repr

/-- The helpers of `parse_types` that are declared outside the sources, as parameters:
`scope->find_type`, `environment::builtin::type::normalize`, and
`type::generic::apply_genericity`, which is given the cells after the type name and returns
the type together with the number of those cells it has read. -/
structure legacy_scope (τ : Type) where
  find_type : String → Option τ
  normalize : τ → τ
  apply_genericity : τ → List cell → Except translate_error (τ × Nat)

/-- Modelled from the spec: `parse::expect::type<parse::cell::type::ident>(c).data`: the text
of an identifier, an exception on any other cell. -/
def expect_ident : cell → Except translate_error String
  | .ident data => .ok data
  | .other => .error .expect_exception

/-- The loop of `parse_types` with the cells from `it` on and the list built so far. The
budget bounds the number of rounds; every round reads at least two cells. -/
def parse_types_loop {τ : Type} (scope : legacy_scope τ) :
    Nat → List cell → List (argument_type τ) →
      Option (Except translate_error (List (argument_type τ)))
  | _, [], ret => some (.ok ret)
  | 0, _ :: _, _ => none
  | budget + 1, c :: after_name, ret =>
    match expect_ident c with
    | .error e => some (.error e)
    | .ok name =>
      match after_name with
      | [] => some (.error (.syntax_exception ("expected type after " ++ name)))
      | t :: rest =>
        match expect_ident t with
        | .error e => some (.error e)
        | .ok type_name =>
          match scope.find_type type_name with
          | none => some (.error (.type_exception ("unknown type " ++ type_name)))
          | some type_def =>
            match scope.apply_genericity (scope.normalize type_def) rest with
            | .error e => some (.error e)
            | .ok (type, read) =>
              parse_types_loop scope budget (rest.drop read) (ret ++ [⟨name, type⟩])

/-- The function `parse_types(l, scope)`; the length of the list is budget enough. -/
def parse_types {τ : Type} (scope : legacy_scope τ) (l : List cell) :
    Option (Except translate_error (List (argument_type τ))) :=
  parse_types_loop scope l.length l []

/-- Modelled from the spec: the translation of a function definition, whose code is not among
the sources: the parameter list is read by `parse_types`, an exception raised there leaves
the definition, and `finish` stands for the rest of the translation. -/
def define_function {τ α : Type} (scope : legacy_scope τ)
    (finish : List (argument_type τ) → Except translate_error α) (params : List cell) :
    Option (Except translate_error α) :=
  match parse_types scope params with
  | none => none
  | some (.error e) => some (.error e)
  | some (.ok types) => some (finish types)

/-! ## Reference definitions, in the words of the spec -/

/-- Shadowing by name erasure, as the spec words it: an occurrence of a parameter is renamed
to the empty name iff the same symbol occurs again later in the list; the last occurrence
keeps its name. -/
def shadowed : List symbol → List symbol
  | [] => []
  | p :: rest => (if p ∈ rest then { p with name := "" } else p) :: shadowed rest

/-- The forms are analysed left to right, each in the given frame, position and function
context and with the given `needs_box`, every one in the state left by the one before it, and
all succeed: `es` are the resulting expressions in source order and `s'` is the final state. -/
def analysed_in_order {ρ : Type} (analyze : analyzer ρ) (frame : Nat)
    (expr_type : expression_type) (fn_ctx : Option Nat) (needs_box : Bool) :
    List object → processor ρ → List expression → processor ρ → Prop
  | [], s, es, s' => es = [] ∧ s' = s
  | form :: rest, s, es, s' =>
    ∃ e es' s1, analyze form frame expr_type fn_ctx needs_box s = .done (.ok e) s1
      ∧ es = e :: es'
      ∧ analysed_in_order analyze frame expr_type fn_ctx needs_box rest s1 es' s'

mutual
/-- An expression in tail position is boxed, and so is every tail position below it: both
branches of an `if`, the last form of a `do` and the last form of a `let*` body. -/
def tail_boxed : expression → Bool
  | .if_ b _ t e => b.needs_box && tail_boxed t && tail_boxed_option e
  | .let_ b _ body _ => b.needs_box && tail_boxed_last body
  | .do_ b body => b.needs_box && tail_boxed_last body
  | .primitive_literal b _ => b.needs_box
  | .local_reference b _ _ => b.needs_box
  | .var_deref b _ _ => b.needs_box
  | .var_ref b _ _ => b.needs_box
  | .def_ b _ _ => b.needs_box
  | .function b _ _ => b.needs_box
  | .recur b _ _ => b.needs_box
  | .call b _ _ _ => b.needs_box
  | .vector b _ => b.needs_box
  | .map b _ => b.needs_box
  | .native_raw b _ => b.needs_box
/-- The tail property on an optional `else` branch. -/
def tail_boxed_option : Option expression → Bool
  | none => true
  | some e => tail_boxed e
/-- The tail property on the last form of a body. -/
def tail_boxed_last : List expression → Bool
  | [] => true
  | [e] => tail_boxed e
  | _ :: e2 :: es => tail_boxed_last (e2 :: es)
end

/-- The body of an arity. -/
def function_arity.body : function_arity → List expression
  | .mk _ _ body _ _ => body

/-- The flattened bindings vector of a `let*` whose pairs are `ps`. -/
def flatten_pairs : List (object × object) → List object
  | [] => []
  | p :: ps => p.1 :: p.2 :: flatten_pairs ps

/-- Whether a value is an unqualified symbol. -/
def is_unqualified_symbol : object → Bool
  | .symbol sym => sym.ns == ""
  | _ => false

/-- The symbol `&`, the variadic marker. -/
def variadic_marker : symbol := ⟨"", "&"⟩

/-- The rule for the variadic marker, as the spec words it: `&` does not occur, or it occurs
exactly once and is the second-to-last element. -/
def marker_well_placed (syms : List symbol) : Bool :=
  syms.count variadic_marker = 0
    || (syms.count variadic_marker = 1 && syms.reverse.get? 1 == some variadic_marker)

/-- The symbols other than `&`, in source order. -/
def without_marker (syms : List symbol) : List symbol :=
  syms.filter fun p => p != variadic_marker

/-- A piece of the string of a `native/raw`, as the spec reads it: verbatim text, or an
interpolation, given by the source text between the sentinels and the expression it was
analysed to. -/
inductive raw_piece where
  | text (t : List Char)
  | interp (src : List Char) (e : expression)

/-- The source text a piece stands for: an interpolation is its source text between the
opening and the closing sentinel. -/
def raw_piece.render : raw_piece → List Char
  | .text t => t
  | .interp src _ => interp_start ++ src ++ interp_end

/-- The chunk of the `native_raw` node that a piece gives. -/
def raw_piece.chunk : raw_piece → String ⊕ expression
  | .text t => .inl (String.mk t)
  | .interp _ e => .inr e

/-- The interpolations among the pieces are parsed and analysed from left to right, each in
the state left by the one before it: the source text parses to a single form, and the
expression of the piece is the analysis of that form in expression position with
`needs_box = true`. -/
def interpolations_analysed {ρ : Type} (R : runtime ρ) (analyze : analyzer ρ) (frame : Nat)
    (fn_ctx : Option Nat) : List raw_piece → processor ρ → processor ρ → Prop
  | [], s, s' => s' = s
  | .text _ :: rest, s, s' => interpolations_analysed R analyze frame fn_ctx rest s s'
  | .interp src e :: rest, s, s' =>
    ∃ form s1, R.parse s.rt_ctx (String.mk src) = [.ok form]
      ∧ analyze form frame .expression fn_ctx true s = .done (.ok e) s1
      ∧ interpolations_analysed R analyze frame fn_ctx rest s1 s'

/-- Two analyzers of sub-forms that behave alike wherever the position is not return. An
analyzer of a form whose result is the same for any two such analyzers does not hand return
position down to a sub-form. -/
def agree_off_return {ρ : Type} (a a' : analyzer ρ) : Prop :=
  ∀ o current_frame expr_type fn_ctx needs_box s, expr_type ≠ .return_statement →
    a o current_frame expr_type fn_ctx needs_box s
      = a' o current_frame expr_type fn_ctx needs_box s

/-- An analyzer of sub-forms that stops as soon as it is handed return position, and is the
given analyzer otherwise. -/
def return_guard {ρ : Type} (a : analyzer ρ) : analyzer ρ :=
  fun o current_frame expr_type fn_ctx needs_box s =>
    if expr_type = .return_statement then .aborted
    else a o current_frame expr_type fn_ctx needs_box s

/-- Scan positions of `parse_types`: `name_position scope l rest` says that the loop on `l`
stands at the head of a round with the cells `rest` still to read, the cells before them
having been read as pairs of a name and a known type, with the cells that the generic
helper took. -/
inductive name_position {τ : Type} (scope : legacy_scope τ) (l : List cell) :
    List cell → Prop where
  | start : name_position scope l l
  | step (name type_name : String) (rest : List cell) (type_def type : τ) (read : Nat) :
      name_position scope l (.ident name :: .ident type_name :: rest) →
      scope.find_type type_name = some type_def →
      scope.apply_genericity (scope.normalize type_def) rest = .ok (type, read) →
      name_position scope l (rest.drop read)

/-! ## Relations between arenas, used to state what captures preserve -/

/-- How frame `i` may differ after captures of `sym` across the frames `c` were registered:
kind and parent are kept, a binding of `sym` keeps its position, and a frame that had no
binding of `sym` either still has none or is one of the crossed frames and now holds a boxed
capture of `sym`. -/
def capture_rel (sym : symbol) (c : List Nat) (i : Nat) (fr0 fr : local_frame) : Prop :=
  fr.type = fr0.type ∧ fr.parent = fr0.parent
  ∧ (∀ j, find_index sym fr0.locals = some j → find_index sym fr.locals = some j)
  ∧ (find_index sym fr0.locals = none →
      find_index sym fr.locals = none
      ∨ (i ∈ c ∧ ∃ j b, find_index sym fr.locals = some j ∧ fr.locals[j]? = some b
          ∧ b.needs_box = true ∧ b.crossed_fns = c))

/-- The relation `capture_rel` on every frame of two arenas of the same size. -/
def arena_rel (sym : symbol) (c : List Nat) (frames0 frames : List local_frame) : Prop :=
  frames.length = frames0.length
  ∧ ∀ i fr0, frames0[i]? = some fr0 → ∃ fr, frames[i]? = some fr ∧ capture_rel sym c i fr0 fr

/-- Frame `x` of the arena holds a binding of `sym`. -/
def has_sym (sym : symbol) (frames : List local_frame) (x : Nat) : Prop :=
  ∃ fr j, frames[x]? = some fr ∧ find_index sym fr.locals = some j

/-- Whether frame `f` of the arena holds a binding named `sym`. -/
def bound_in (frames : List local_frame) (f : Nat) (sym : symbol) : Bool :=
  match frames[f]? with
  | none => false
  | some fr => (find_index sym fr.locals).isSome

/-- The statement `ret.frame->locals.emplace(sym, local_binding{ sym, some(expr),
current_frame, needs_box })` of the binding loop of `let*` (processor.cpp 600-604), as a step
on the state. -/
def install_let_binding {ρ : Type} (s : processor ρ) (current_frame frame : Nat)
    (sym : symbol) (e : expression) : processor ρ :=
  { s with frames := modify_frame s.frames frame fun fr =>
      { fr with locals := locals_emplace fr.locals (let_binding sym e current_frame) } }

/-- Sequential scope of `let*`, in the words of the spec: the pairs `sym v` are taken from
left to right; when `v` is analysed, in the let's frame, in expression position and with
`needs_box = false`, the frame holds bindings for exactly the symbols `seen` so far; the
binding of `sym` is installed after that, before the next pair; `pairs` are the symbols with
their analysed initialisers, in source order. -/
def sequential_scope {ρ : Type} (analyze : analyzer ρ) (current_frame frame : Nat)
    (fn_ctx : Option Nat) :
    List symbol → List (symbol × object) → processor ρ → List (symbol × expression) →
      processor ρ → Prop
  | _, [], s, pairs, s' => pairs = [] ∧ s' = s
  | seen, p :: rest, s, pairs, s' =>
    (∀ x, bound_in s.frames frame x = true ↔ x ∈ seen)
    ∧ ∃ e s1 pairs', analyze p.2 frame .expression fn_ctx false s = .done (.ok e) s1
        ∧ pairs = (p.1, e) :: pairs'
        ∧ sequential_scope analyze current_frame frame fn_ctx (seen ++ [p.1]) rest
            (install_let_binding s1 current_frame frame p.1 e) pairs' s'

/-- What an analysis leaves of the scopes that existed before it: every frame is still there
with its kind, and a frame that is not a `fn` frame binds the same names (a `fn` frame may
have gained captures). -/
def scopes_kept (frames frames' : List local_frame) : Prop :=
  ∀ (i : Nat) (fr : local_frame), frames[i]? = some fr →
    ∃ fr' : local_frame, frames'[i]? = some fr' ∧ fr'.type = fr.type
      ∧ (fr.type ≠ frame_type.fn →
          ∀ x, (find_index x fr'.locals).isSome = (find_index x fr.locals).isSome)

/-- An analyzer whose successful runs keep the scopes. -/
def keeps_scopes {ρ : Type} (a : analyzer ρ) : Prop :=
  ∀ o current_frame expr_type fn_ctx needs_box s e s',
    a o current_frame expr_type fn_ctx needs_box s = .done (.ok e) s' →
      scopes_kept s.frames s'.frames

/-- The boxing hint: an analyzer honours it when every node it returns, asked for a box in a
position other than statement position, has `needs_box` set in its base. -/
def honours_box {ρ : Type} (a : analyzer ρ) : Prop :=
  ∀ (o : object) (current_frame : Nat) (expr_type : expression_type) (fn_ctx : Option Nat)
    (s : processor ρ) (e : expression) (s' : processor ρ),
    expr_type ≠ .statement →
    a o current_frame expr_type fn_ctx true s = .done (.ok e) s' →
    e.get_base.needs_box = true

/-! ## A small concrete runtime

Used to evaluate the analyzers on concrete inputs: one namespace `user`, vars interned on
demand, no macros unless stated. -/

/-- State of the example runtime: the interned vars and the counter of `unique_string`. -/
structure example_state where
  vars : List var
  counter : Nat

/-- Keyed access on a map value; nil when the key is absent or the value is not a map. -/
def example_get (m k : object) : object :=
  match m with
  | .map kvs => ((kvs.find? fun kv => kv.1 == k).map Prod.snd).getD .nil
  | _ => .nil

/-- The example runtime. -/
def example_runtime : runtime example_state where
  qualify_symbol := fun _ sym => if sym.ns = "" then ⟨"user", sym.name⟩ else sym
  find_var := fun st q => st.vars.find? fun v => v.name = q
  intern_var := fun st q =>
    match st.vars.find? fun v => v.name = q with
    | some v => (.ok v, st)
    | none => (.ok ⟨q, none⟩, { st with vars := st.vars ++ [⟨q, none⟩] })
  macroexpand := fun st o => (o, st)
  unique_string := fun st p =>
    (p ++ "_" ++ toString st.counter, { st with counter := st.counter + 1 })
  munge := fun n => n
  compiling := fun _ => false
  write_module := fun st _ _ _ => st
  parse := fun _ _ => []
  get := example_get
  get_in := fun m ks =>
    match ks with
    | .vector keys => keys.foldl example_get m
    | _ => .nil
  truthy := fun o =>
    match o with
    | .nil => false
    | .boolean b => b
    | _ => true
  max_params := 10
  binding_needs_box := true


/-- The frames while the body of the inner function of `(fn* [x] (fn* [] x))` is analysed:
the root, the frame of the wrapping function, the frame of the outer function with its
parameter `x`, and the frame of the inner function. -/
def capture_example : processor example_state :=
  ⟨⟨[], 3⟩,
    [ ⟨frame_type.root, none, [], [], []⟩,
      ⟨frame_type.fn, some 0, [], [], []⟩,
      ⟨frame_type.fn, some 1, [⟨⟨"", "x"⟩, none, none, true, false, false, []⟩], [], []⟩,
      ⟨frame_type.fn, some 2, [], [], []⟩ ],
    [⟨0, false, false⟩, ⟨1, false, false⟩, ⟨0, false, false⟩], []⟩

/-- The analysis of `(if 1 2)` in frame 2, in expression position. -/
def boxed_initializer : expression :=
  .if_ ⟨.expression, 2, true⟩ (.primitive_literal ⟨.expression, 2, false⟩ (.integer 1))
    (.primitive_literal ⟨.expression, 2, true⟩ (.integer 2)) none

/-- The state in which the `let*` frame of `(let* [x (if 1 2)] ...)` has just been created,
inside the wrapping function of the root driver. -/
def let_example_start : processor example_state :=
  ⟨⟨[], 1⟩,
    [ ⟨frame_type.root, none, [], [], []⟩,
      ⟨frame_type.fn, some 0, [], [], []⟩,
      ⟨frame_type.let_, some 1, [], [], []⟩ ],
    [⟨0, false, false⟩], []⟩

/-- The state after the binding `x (if 1 2)` was installed: the initializer needs a box, so
the binding of `x` does. -/
def let_example : processor example_state :=
  ⟨⟨[], 1⟩,
    [ ⟨frame_type.root, none, [], [], []⟩,
      ⟨frame_type.fn, some 0, [], [], [.integer 1, .integer 2]⟩,
      ⟨frame_type.let_, some 1,
        [⟨⟨"", "x"⟩, some boxed_initializer, some 1, true, false, false, []⟩], [], []⟩ ],
    [⟨0, false, false⟩], []⟩

/-- A runtime with one macro: the expander rewrites the form `(m)` to `1` and leaves every
other form alone. -/
def macro_runtime : runtime example_state :=
  { example_runtime with
    macroexpand := fun st o =>
      if o == .list [.symbol ⟨"", "m"⟩] then (.integer 1, st) else (o, st) }

/-- The var `user/inc`, whose meta declares unboxed input and output for one argument. -/
def inc_var : var :=
  ⟨⟨"user", "inc"⟩,
    some (.map [(.keyword "" "arities",
      .map [(.integer 1,
        .map [(.keyword "" "supports-unboxed-input?", .boolean true),
              (.keyword "" "unboxed-output?", .boolean true)])])])⟩

/-- A state in which `user/inc` was defined as a function of one fixed parameter. -/
def inc_example : processor example_state :=
  ⟨⟨[inc_var], 1⟩,
    [ ⟨frame_type.root, none, [], [⟨"user", "inc"⟩], []⟩,
      ⟨frame_type.fn, some 0, [⟨⟨"", "x"⟩, none, none, true, true, false, []⟩], [], []⟩ ],
    [⟨1, false, false⟩],
    [(inc_var,
      .function ⟨.expression, 0, true⟩ "inc_0"
        [.mk [⟨"", "x"⟩] ⟨.return_statement, 1, true⟩
          [.local_reference ⟨.return_statement, 1, true⟩ ⟨"", "x"⟩ ⟨1, 0⟩] 1 0])]⟩

/-- The state while the body of `(fn* f [n] (recur n))` is analysed: the frame of the wrapping
function, the frame of `f` with its parameter `n`, and the function context of `f`. -/
def recur_example : processor example_state :=
  ⟨⟨[], 2⟩,
    [ ⟨frame_type.root, none, [], [], []⟩,
      ⟨frame_type.fn, some 0, [], [], []⟩,
      ⟨frame_type.fn, some 1, [⟨⟨"", "n"⟩, none, none, true, false, false, []⟩], [], []⟩ ],
    [⟨0, false, false⟩, ⟨1, false, false⟩], []⟩

/-- The example runtime with a reader for interpolations: the text `1` reads as the number 1,
the empty text as the null form, and any other text as the keyword of that name. -/
def reading_runtime : runtime example_state :=
  { example_runtime with
    parse := fun _ txt =>
      if txt = "" then [.ok .nullptr] else if txt = "1" then [.ok (.integer 1)]
      else [.ok (.keyword "" txt)] }

/-- A scope that knows the type `int` and no generic types. -/
def int_scope : legacy_scope String :=
  ⟨fun type_name => if type_name = "int" then some "int" else none, fun t => t,
    fun t _ => .ok (t, 0)⟩

mutual
theorem object.beq_sound : ∀ a b : object, object.beq a b = true → a = b
  | .nil, b, h => by cases b <;> first | rfl | simp [object.beq] at h
  | .nullptr, b, h => by cases b <;> first | rfl | simp [object.beq] at h
  | .boolean x, b, h => by
    cases b <;> simp [object.beq] at h
    simp [h]
  | .integer x, b, h => by
    cases b <;> simp [object.beq] at h
    simp [h]
  | .real x, b, h => by
    cases b <;> simp [object.beq] at h
    simp [h]
  | .string x, b, h => by
    cases b <;> simp [object.beq] at h
    simp [h]
  | .keyword x y, b, h => by
    cases b <;> simp [object.beq] at h
    simp [h]
  | .symbol x, b, h => by
    cases b <;> simp [object.beq] at h
    simp [h]
  | .other x, b, h => by
    cases b <;> simp [object.beq] at h
    simp [h]
  | .list xs, b, h => by
    cases b <;> simp [object.beq] at h
    exact congrArg _ (object.beq_list_sound xs _ h)
  | .vector xs, b, h => by
    cases b <;> simp [object.beq] at h
    exact congrArg _ (object.beq_list_sound xs _ h)
  | .set xs, b, h => by
    cases b <;> simp [object.beq] at h
    exact congrArg _ (object.beq_list_sound xs _ h)
  | .seq xs, b, h => by
    cases b <;> simp [object.beq] at h
    exact congrArg _ (object.beq_list_sound xs _ h)
  | .map xs, b, h => by
    cases b <;> simp [object.beq] at h
    exact congrArg _ (object.beq_pairs_sound xs _ h)
theorem object.beq_list_sound : ∀ a b : List object, object.beq_list a b = true → a = b
  | [], b, h => by cases b <;> first | rfl | simp [object.beq_list] at h
  | x :: xs, b, h => by
    cases b with
    | nil => simp [object.beq_list] at h
    | cons y ys =>
      simp [object.beq_list] at h
      rw [object.beq_sound x y h.1, object.beq_list_sound xs ys h.2]
theorem object.beq_pairs_sound :
    ∀ a b : List (object × object), object.beq_pairs a b = true → a = b
  | [], b, h => by cases b <;> first | rfl | simp [object.beq_pairs] at h
  | x :: xs, b, h => by
    cases b with
    | nil => simp [object.beq_pairs] at h
    | cons y ys =>
      simp [object.beq_pairs] at h
      rw [Prod.ext (object.beq_sound x.1 y.1 h.1.1) (object.beq_sound x.2 y.2 h.1.2),
        object.beq_pairs_sound xs ys h.2]
end

mutual
theorem object.beq_refl : ∀ a : object, object.beq a a = true
  | .nil => by simp [object.beq]
  | .boolean x => by simp [object.beq]
  | .integer x => by simp [object.beq]
  | .real x => by simp [object.beq]
  | .string x => by simp [object.beq]
  | .keyword x y => by simp [object.beq]
  | .symbol x => by simp [object.beq]
  | .other x => by simp [object.beq]
  | .nullptr => by simp [object.beq]
  | .list xs => by simp [object.beq, object.beq_list_refl xs]
  | .vector xs => by simp [object.beq, object.beq_list_refl xs]
  | .set xs => by simp [object.beq, object.beq_list_refl xs]
  | .seq xs => by simp [object.beq, object.beq_list_refl xs]
  | .map xs => by simp [object.beq, object.beq_pairs_refl xs]
theorem object.beq_list_refl : ∀ a : List object, object.beq_list a a = true
  | [] => by simp [object.beq_list]
  | x :: xs => by simp [object.beq_list, object.beq_refl x, object.beq_list_refl xs]
theorem object.beq_pairs_refl : ∀ a : List (object × object), object.beq_pairs a a = true
  | [] => by simp [object.beq_pairs]
  | x :: xs => by
    simp [object.beq_pairs, object.beq_refl x.1, object.beq_refl x.2, object.beq_pairs_refl xs]
end

instance : LawfulBEq object where
  eq_of_beq := fun {a b} h => object.beq_sound a b h
  rfl := fun {a} => object.beq_refl a

instance : DecidableEq object := fun a b =>
  decidable_of_iff ((a == b) = true) beq_iff_eq

/-! ## C1: the root driver -/

theorem collect_forms_ok (forms fn : List object) :
    collect_forms (forms.map Except.ok) fn = .ok (fn ++ forms) := by
  induction forms generalizing fn with
  | nil => simp [collect_forms]
  | cons f fs ih => simp [collect_forms, ih]

theorem collect_forms_error (pre : List object) (e : error) (post : List (Except error object))
    (fn : List object) :
    collect_forms (pre.map Except.ok ++ Except.error e :: post) fn = .error e := by
  induction pre generalizing fn with
  | nil => simp [collect_forms]
  | cons f fs ih => simp [collect_forms, ih]

/-- C1: the root driver as a reference definition. On the empty stream it returns the error
"already retrieved result"; on a stream whose first error `e` comes after the ok values `pre`
it returns `e`, whatever the analyzer and without touching the state; on a non-empty stream of
ok values `f1 .. fn` it returns exactly the analysis of `(fn* [] f1 .. fn)` against the root
frame, in expression position, with no function context and `needs_box = true`. -/
theorem analyze_stream_reference {ρ : Type} (analyze : analyzer ρ) (s : processor ρ) :
    analyze_stream analyze [] s = .done (.error ⟨"already retrieved result"⟩) s
    ∧ (∀ (pre : List object) (e : error) (post : List (Except error object)),
        analyze_stream analyze (pre.map Except.ok ++ Except.error e :: post) s
          = .done (.error e) s)
    ∧ (∀ (form : object) (forms : List object),
        analyze_stream analyze ((form :: forms).map Except.ok) s
          = analyze (.list (.symbol ⟨"", "fn*"⟩ :: .vector [] :: form :: forms))
              root_frame .expression none true s) := by
  refine ⟨by simp [analyze_stream], ?_, ?_⟩
  · intro pre e post
    have hne : (pre.map Except.ok ++ Except.error e :: post).isEmpty = false := by
      cases pre <;> simp
    simp only [analyze_stream, hne, collect_forms_error]
    simp
  · intro form forms
    have h := collect_forms_ok (form :: forms) [.symbol ⟨"", "fn*"⟩, .vector []]
    simp only [analyze_stream, h, analyze_root, list_from_reversed_range]
    simp

/-! ## Facts about the frame arena -/

theorem modify_frame_length (frames : List local_frame) (f : Nat)
    (g : local_frame → local_frame) : (modify_frame frames f g).length = frames.length := by
  unfold modify_frame
  cases frames[f]? <;> simp

theorem modify_frame_get (frames : List local_frame) (f j : Nat)
    (g : local_frame → local_frame) :
    (modify_frame frames f g)[j]? = if j = f then frames[j]?.map g else frames[j]? := by
  unfold modify_frame
  by_cases hj : j = f
  · subst hj
    cases h : frames[j]? with
    | none => simp [h]
    | some fr =>
      have hlt : j < frames.length := (List.getElem?_eq_some.mp h).1
      simp [List.getElem?_set_self hlt]
  · cases h : frames[f]? with
    | none => simp [hj]
    | some fr => simp [hj, List.getElem?_set_ne (Ne.symm hj)]

theorem lift_var_mem (frames : List local_frame) (f : Nat) (q : symbol) (fr : local_frame)
    (h : frames[closest_fn_frame frames f]? = some fr) :
    ∃ fr', (lift_var frames f q)[closest_fn_frame frames f]? = some fr'
      ∧ q ∈ fr'.lifted_vars ∧ fr'.locals = fr.locals ∧ fr'.type = fr.type
      ∧ fr'.parent = fr.parent ∧ fr'.lifted_constants = fr.lifted_constants := by
  unfold lift_var
  rw [modify_frame_get]
  simp only [if_true, h, Option.map_some']
  by_cases hc : q ∈ fr.lifted_vars
  · exact ⟨fr, by simp [hc], hc, rfl, rfl, rfl, rfl⟩
  · exact ⟨{ fr with lifted_vars := fr.lifted_vars ++ [q] }, by simp [hc], by simp,
      rfl, rfl, rfl, rfl⟩

theorem lift_constant_mem (frames : List local_frame) (f : Nat) (o : object) (fr : local_frame)
    (h : frames[closest_fn_frame frames f]? = some fr) :
    ∃ fr', (lift_constant frames f o)[closest_fn_frame frames f]? = some fr'
      ∧ o ∈ fr'.lifted_constants ∧ fr'.locals = fr.locals ∧ fr'.type = fr.type
      ∧ fr'.parent = fr.parent ∧ fr'.lifted_vars = fr.lifted_vars := by
  unfold lift_constant
  rw [modify_frame_get]
  simp only [if_true, h, Option.map_some']
  by_cases hc : o ∈ fr.lifted_constants
  · exact ⟨fr, by simp [hc], hc, rfl, rfl, rfl, rfl⟩
  · exact ⟨{ fr with lifted_constants := fr.lifted_constants ++ [o] }, by simp [hc], by simp,
      rfl, rfl, rfl, rfl⟩

/-! ## C2: symbols that resolve to a var -/

/-- C2: for a symbol with no local binding visible from the current frame, `analyze_symbol`
returns the "unbound symbol" error, leaving the state alone, exactly when `find_var` of the
qualified symbol is absent; otherwise it returns `var_deref(qualified_sym, var)`, and the
qualified symbol is lifted onto the frame (it is among the lifted vars of the nearest `fn`
frame afterwards) when the var is not a macro, while the state is left alone when it is; the
var is a macro iff its meta map is present and the value under `:macro` is not nil. -/
theorem analyze_symbol_var {ρ : Type} (R : runtime ρ) (sym : symbol) (current_frame : Nat)
    (expr_type : expression_type) (fn_ctx : Option Nat) (needs_box : Bool) (s : processor ρ)
    (hlocal : find_local_or_capture s.frames current_frame sym = none) :
    ((∃ e s', analyze_symbol R sym current_frame expr_type fn_ctx needs_box s
        = .done (.error e) s')
      ↔ R.find_var s.rt_ctx (R.qualify_symbol s.rt_ctx sym) = none)
    ∧ (R.find_var s.rt_ctx (R.qualify_symbol s.rt_ctx sym) = none →
        analyze_symbol R sym current_frame expr_type fn_ctx needs_box s
          = .done (.error ⟨"unbound symbol: " ++ sym.to_string⟩) s)
    ∧ (∀ v, R.find_var s.rt_ctx (R.qualify_symbol s.rt_ctx sym) = some v →
        ((∃ m, v.meta = some m ∧ R.get m (.keyword "" "macro") ≠ .nil) →
          analyze_symbol R sym current_frame expr_type fn_ctx needs_box s
            = .done (.ok (.var_deref ⟨expr_type, current_frame, true⟩
                (R.qualify_symbol s.rt_ctx sym) v)) s)
        ∧ (¬ (∃ m, v.meta = some m ∧ R.get m (.keyword "" "macro") ≠ .nil) →
          analyze_symbol R sym current_frame expr_type fn_ctx needs_box s
            = .done (.ok (.var_deref ⟨expr_type, current_frame, true⟩
                (R.qualify_symbol s.rt_ctx sym) v))
                { s with frames :=
                    lift_var s.frames current_frame (R.qualify_symbol s.rt_ctx sym) }
          ∧ ∀ fr, s.frames[closest_fn_frame s.frames current_frame]? = some fr →
              ∃ fr', (lift_var s.frames current_frame (R.qualify_symbol s.rt_ctx sym))[
                  closest_fn_frame s.frames current_frame]? = some fr'
                ∧ R.qualify_symbol s.rt_ctx sym ∈ fr'.lifted_vars)) := by
  have hlifted : ∀ v : var, var_is_lifted R v = true
      ↔ ¬ (∃ m, v.meta = some m ∧ R.get m (.keyword "" "macro") ≠ .nil) := by
    intro v
    unfold var_is_lifted
    cases v.meta <;> simp
  refine ⟨?_, ?_, ?_⟩
  · cases hv : R.find_var s.rt_ctx (R.qualify_symbol s.rt_ctx sym) with
    | none => simp [analyze_symbol, hlocal, hv]
    | some v => simp [analyze_symbol, hlocal, hv]
  · intro hv
    simp [analyze_symbol, hlocal, hv]
  · intro v hv
    refine ⟨?_, ?_⟩
    · intro hm
      have : var_is_lifted R v = false := by
        cases h : var_is_lifted R v
        · rfl
        · exact absurd hm ((hlifted v).mp h)
      simp [analyze_symbol, hlocal, hv, this, expression_base.default_needs_box]
    · intro hm
      have : var_is_lifted R v = true := (hlifted v).mpr hm
      refine ⟨by simp [analyze_symbol, hlocal, hv, this, expression_base.default_needs_box], ?_⟩
      intro fr hfr
      obtain ⟨fr', h1, h2, _⟩ := lift_var_mem s.frames current_frame
        (R.qualify_symbol s.rt_ctx sym) fr hfr
      exact ⟨fr', h1, h2⟩

/-- Witness for C2: in a fresh analyzer whose runtime knows the var `user/inc` (no meta), the
symbol `inc` has no local binding, resolves to that var, and `user/inc` is lifted onto the
root frame. -/
theorem analyze_symbol_var_witness :
    find_local_or_capture (processor.init (⟨[⟨⟨"user", "inc"⟩, none⟩], 0⟩ : example_state)).frames
        0 ⟨"", "inc"⟩ = none
    ∧ analyze_symbol example_runtime ⟨"", "inc"⟩ 0 .expression none false
        (processor.init ⟨[⟨⟨"user", "inc"⟩, none⟩], 0⟩)
      = .done (.ok (.var_deref ⟨.expression, 0, true⟩ ⟨"user", "inc"⟩ ⟨⟨"user", "inc"⟩, none⟩))
          { processor.init (⟨[⟨⟨"user", "inc"⟩, none⟩], 0⟩ : example_state) with
            frames := [⟨frame_type.root, none, [], [⟨"user", "inc"⟩], []⟩] } :=
  ⟨by decide,
   ((analyze_symbol_var example_runtime ⟨"", "inc"⟩ 0 .expression none false
      (processor.init ⟨[⟨⟨"user", "inc"⟩, none⟩], 0⟩) (by decide)).2.2
      ⟨⟨"user", "inc"⟩, none⟩ rfl).2 (by simp) |>.1⟩

/-! ## C5 and C7: dispatch in `analyze_call` -/

/-- C5: a non-empty list whose head is one of the symbols `def`, `fn*`, `recur`, `do`, `let*`,
`if`, `quote`, `var`, `native/raw` is handed by `analyze_call` to the corresponding
special-form analyzer, with the same list, frame, position, function context and `needs_box`,
in every state: the head is not resolved as a local or var and the macro expander is not
consulted, so a local binding named like a special form does not shadow it. -/
theorem analyze_call_special {ρ : Type} (R : runtime ρ) (analyze : analyzer ρ)
    (rest : List object) (current_frame : Nat) (expr_type : expression_type)
    (fn_ctx : Option Nat) (needs_box : Bool) (s : processor ρ) :
    analyze_call R analyze (.symbol ⟨"", "def"⟩ :: rest) current_frame expr_type fn_ctx needs_box s
      = analyze_def R analyze (.symbol ⟨"", "def"⟩ :: rest) current_frame expr_type fn_ctx
          needs_box s
    ∧ analyze_call R analyze (.symbol ⟨"", "fn*"⟩ :: rest) current_frame expr_type fn_ctx
        needs_box s
      = analyze_fn R analyze (.symbol ⟨"", "fn*"⟩ :: rest) current_frame expr_type fn_ctx
          needs_box s
    ∧ analyze_call R analyze (.symbol ⟨"", "recur"⟩ :: rest) current_frame expr_type fn_ctx
        needs_box s
      = analyze_recur analyze (.symbol ⟨"", "recur"⟩ :: rest) current_frame expr_type fn_ctx
          needs_box s
    ∧ analyze_call R analyze (.symbol ⟨"", "do"⟩ :: rest) current_frame expr_type fn_ctx
        needs_box s
      = analyze_do analyze (.symbol ⟨"", "do"⟩ :: rest) current_frame expr_type fn_ctx
          needs_box s
    ∧ analyze_call R analyze (.symbol ⟨"", "let*"⟩ :: rest) current_frame expr_type fn_ctx
        needs_box s
      = analyze_let analyze (.symbol ⟨"", "let*"⟩ :: rest) current_frame expr_type fn_ctx
          needs_box s
    ∧ analyze_call R analyze (.symbol ⟨"", "if"⟩ :: rest) current_frame expr_type fn_ctx
        needs_box s
      = analyze_if analyze (.symbol ⟨"", "if"⟩ :: rest) current_frame expr_type fn_ctx
          needs_box s
    ∧ analyze_call R analyze (.symbol ⟨"", "quote"⟩ :: rest) current_frame expr_type fn_ctx
        needs_box s
      = analyze_quote (.symbol ⟨"", "quote"⟩ :: rest) current_frame expr_type fn_ctx needs_box s
    ∧ analyze_call R analyze (.symbol ⟨"", "var"⟩ :: rest) current_frame expr_type fn_ctx
        needs_box s
      = analyze_var R (.symbol ⟨"", "var"⟩ :: rest) current_frame expr_type fn_ctx needs_box s
    ∧ analyze_call R analyze (.symbol ⟨"native", "raw"⟩ :: rest) current_frame expr_type fn_ctx
        needs_box s
      = analyze_native_raw R analyze (.symbol ⟨"native", "raw"⟩ :: rest) current_frame expr_type
          fn_ctx needs_box s := by
  have h1 : (specials R analyze).lookup ⟨"", "def"⟩ = some (analyze_def R analyze) := rfl
  have h2 : (specials R analyze).lookup ⟨"", "fn*"⟩ = some (analyze_fn R analyze) := rfl
  have h3 : (specials R analyze).lookup ⟨"", "recur"⟩ = some (analyze_recur analyze) := rfl
  have h4 : (specials R analyze).lookup ⟨"", "do"⟩ = some (analyze_do analyze) := rfl
  have h5 : (specials R analyze).lookup ⟨"", "let*"⟩ = some (analyze_let analyze) := rfl
  have h6 : (specials R analyze).lookup ⟨"", "if"⟩ = some (analyze_if analyze) := rfl
  have h7 : (specials R analyze).lookup ⟨"", "quote"⟩ = some analyze_quote := rfl
  have h8 : (specials R analyze).lookup ⟨"", "var"⟩ = some (analyze_var R) := rfl
  have h9 : (specials R analyze).lookup ⟨"native", "raw"⟩
      = some (analyze_native_raw R analyze) := rfl
  refine ⟨?_, ?_, ?_, ?_, ?_, ?_, ?_, ?_, ?_⟩ <;>
    simp only [analyze_call, h1, h2, h3, h4, h5, h6, h7, h8, h9]

/-- C7: the empty list is not a call. In every state, frame, position and for every
`needs_box`, `analyze_call` on the empty list, and `analyze` on the empty list object with any
positive budget, succeed with the primitive literal of the empty list carrying the incoming
`needs_box`; the state left behind is the one in which the empty list was lifted as a
constant, so it is among the lifted constants of the nearest `fn` frame. -/
theorem analyze_empty_list {ρ : Type} (R : runtime ρ) (rec_analyze : analyzer ρ) (n : Nat)
    (current_frame : Nat) (expr_type : expression_type) (fn_ctx : Option Nat) (needs_box : Bool)
    (s : processor ρ) :
    analyze_call R rec_analyze [] current_frame expr_type fn_ctx needs_box s
      = .done (.ok (.primitive_literal ⟨expr_type, current_frame, needs_box⟩ (.list [])))
          { s with frames := lift_constant s.frames current_frame (.list []) }
    ∧ analyze R (n + 1) (.list []) current_frame expr_type fn_ctx needs_box s
      = .done (.ok (.primitive_literal ⟨expr_type, current_frame, needs_box⟩ (.list [])))
          { s with frames := lift_constant s.frames current_frame (.list []) }
    ∧ ∀ fr, s.frames[closest_fn_frame s.frames current_frame]? = some fr →
        ∃ fr', (lift_constant s.frames current_frame (.list []))[
            closest_fn_frame s.frames current_frame]? = some fr'
          ∧ object.list [] ∈ fr'.lifted_constants := by
  refine ⟨rfl, rfl, ?_⟩
  intro fr hfr
  obtain ⟨fr', h1, h2, _⟩ := lift_constant_mem s.frames current_frame (.list []) fr hfr
  exact ⟨fr', h1, h2⟩

/-- Witness for C7: in a fresh analyzer the root frame is its own nearest function frame, and
analysing `()` there leaves the empty list among its lifted constants. -/
theorem analyze_empty_list_witness :
    (processor.init (⟨[], 0⟩ : example_state)).frames[
        closest_fn_frame (processor.init (⟨[], 0⟩ : example_state)).frames 0]?
      = some ⟨frame_type.root, none, [], [], []⟩
    ∧ ∃ fr', (lift_constant (processor.init (⟨[], 0⟩ : example_state)).frames 0 (.list []))[
          closest_fn_frame (processor.init (⟨[], 0⟩ : example_state)).frames 0]? = some fr'
        ∧ object.list [] ∈ fr'.lifted_constants :=
  ⟨rfl,
   (analyze_empty_list example_runtime (analyze example_runtime 0) 0 0 .expression none true
      (processor.init ⟨[], 0⟩)).2.2 _ rfl⟩

/-! ## C9 and C10: `def` -/

/-- C9: rejection by `analyze_def` is atomic. Whenever the list has neither 2 nor 3 elements,
or its second element is not a symbol, or that symbol is qualified, `analyze_def` returns an
error and the state it leaves is the state it was given: nothing has been lifted, no var has
been interned and the var map is unchanged. -/
theorem analyze_def_rejects {ρ : Type} (R : runtime ρ) (analyze : analyzer ρ) (l : List object)
    (current_frame : Nat) (expr_type : expression_type) (fn_ctx : Option Nat) (needs_box : Bool)
    (s : processor ρ)
    (hbad : (l.length ≠ 2 ∧ l.length ≠ 3)
      ∨ (∃ head second rest, l = head :: second :: rest ∧ ∀ sym, second ≠ .symbol sym)
      ∨ (∃ head sym rest, l = head :: .symbol sym :: rest ∧ sym.ns ≠ "")) :
    ∃ e, analyze_def R analyze l current_frame expr_type fn_ctx needs_box s
      = .done (.error e) s := by
  by_cases hlen : l.length ≠ 2 ∧ l.length ≠ 3
  · exact ⟨⟨"invalid def"⟩, by simp [analyze_def, hlen]⟩
  · rcases hbad with h | ⟨head, second, rest, rfl, hsym⟩ | ⟨head, sym, rest, rfl, hns⟩
    · exact absurd h hlen
    · cases second with
      | symbol sym => exact absurd rfl (hsym sym)
      | _ => exact ⟨_, by simp only [analyze_def, if_neg hlen]; rfl⟩
    · exact ⟨⟨"invalid def: name must not be qualified"⟩, by
        simp only [analyze_def, if_neg hlen]; simp [hns]⟩

/-- Witness for C9: `(def user/x 1)` names a qualified symbol. -/
theorem analyze_def_rejects_witness :
    ∃ e, analyze_def example_runtime (analyze example_runtime 1)
        [.symbol ⟨"", "def"⟩, .symbol ⟨"user", "x"⟩, .integer 1] 0 .expression none true
        (processor.init ⟨[], 0⟩)
      = .done (.error e) (processor.init ⟨[], 0⟩) :=
  analyze_def_rejects example_runtime (analyze example_runtime 1)
    [.symbol ⟨"", "def"⟩, .symbol ⟨"user", "x"⟩, .integer 1] 0 .expression none true
    (processor.init ⟨[], 0⟩)
    (Or.inr (Or.inr ⟨_, _, _, rfl, by decide⟩))

theorem var_beq_iff (a b : var) : (a == b) = true ↔ a = b := by
  cases a with
  | mk n1 m1 =>
    cases b with
    | mk n2 m2 =>
      show (n1 == n2 && m1 == m2) = true ↔ _
      simp

instance : LawfulBEq var where
  eq_of_beq := fun {a b} h => (var_beq_iff a b).mp h
  rfl := fun {a} => (var_beq_iff a a).mpr rfl

theorem vars_find_assign (v : var) (e : expression) (vars : List (var × expression))
    (hany : vars.any (fun kv => kv.1 == v) = true) :
    ((vars.map fun kv => if kv.1 == v then (kv.1, e) else kv).find? fun kv => kv.1 == v).map
      Prod.snd = some e := by
  induction vars with
  | nil => simp at hany
  | cons kv rest ih =>
    cases hk : (kv.1 == v) with
    | true => simp only [List.map_cons, hk, if_true, List.find?_cons, Option.map_some']
    | false =>
      have hrest : rest.any (fun kv => kv.1 == v) = true := by
        simpa [hk] using hany
      simp only [List.map_cons, hk, List.find?_cons, Bool.false_eq_true, if_false]
      exact ih hrest

theorem vars_find_insert (vars : List (var × expression)) (v : var) (e : expression) :
    vars_find (vars_insert_or_assign vars v e) v = some e := by
  unfold vars_find vars_insert_or_assign
  by_cases hany : vars.any (fun kv => kv.1 == v) = true
  · rw [if_pos hany]
    exact vars_find_assign v e vars hany
  · rw [if_neg hany]
    have hnone : vars.find? (fun kv => kv.1 == v) = none := by
      rw [List.find?_eq_none]
      intro x hx hxv
      exact hany (List.any_eq_true.mpr ⟨x, hx, hxv⟩)
    simp [List.find?_append, hnone]

/-- C10: success of `def`. For an unqualified `sym` whose qualified form `q` (the symbol
qualified with the current namespace) interns as var `v`: `(def sym)` yields `def(q)` with no
initializer and `needs_box = true`, and the var map is unchanged; `(def sym value)`, when the
value analyses successfully to `init` (in expression position, with `needs_box = true`, in
the state in which `q` has been lifted and `v` interned), yields `def(q, init)` with
`needs_box = true`, and the var map afterwards maps `v` to `init`. In both cases `q` has been
lifted as a var on the frame: it is among the lifted vars of the nearest `fn` frame. -/
theorem analyze_def_success {ρ : Type} (R : runtime ρ) (analyze : analyzer ρ)
    (head : object) (sym : symbol) (current_frame : Nat) (expr_type : expression_type)
    (fn_ctx : Option Nat) (needs_box : Bool) (s : processor ρ) (v : var) (rt : ρ)
    (hns : sym.ns = "")
    (hintern : R.intern_var s.rt_ctx (R.qualify_symbol s.rt_ctx sym) = (.ok v, rt)) :
    (analyze_def R analyze [head, .symbol sym] current_frame expr_type fn_ctx needs_box s
        = .done (.ok (.def_ ⟨expr_type, current_frame, true⟩ (R.qualify_symbol s.rt_ctx sym) none))
            { s with
              rt_ctx := rt
              frames := lift_var s.frames current_frame (R.qualify_symbol s.rt_ctx sym) })
    ∧ (∀ (value : object) (init : expression) (s3 : processor ρ),
        analyze value current_frame .expression fn_ctx true
            { s with
              rt_ctx := rt
              frames := lift_var s.frames current_frame (R.qualify_symbol s.rt_ctx sym) }
          = .done (.ok init) s3 →
        analyze_def R analyze [head, .symbol sym, value] current_frame expr_type fn_ctx
            needs_box s
          = .done
              (.ok (.def_ ⟨expr_type, current_frame, true⟩ (R.qualify_symbol s.rt_ctx sym)
                (some init)))
              { s3 with vars := vars_insert_or_assign s3.vars v init }
        ∧ vars_find (vars_insert_or_assign s3.vars v init) v = some init)
    ∧ (∀ fr, s.frames[closest_fn_frame s.frames current_frame]? = some fr →
        ∃ fr', (lift_var s.frames current_frame (R.qualify_symbol s.rt_ctx sym))[
            closest_fn_frame s.frames current_frame]? = some fr'
          ∧ R.qualify_symbol s.rt_ctx sym ∈ fr'.lifted_vars) := by
  refine ⟨?_, ?_, ?_⟩
  · simp [analyze_def, hns, lift_var_unqualified, hintern]
  · intro value init s3 hvalue
    refine ⟨?_, vars_find_insert _ _ _⟩
    simp [analyze_def, hns, lift_var_unqualified, hintern, hvalue, outcome.and_then]
  · intro fr hfr
    obtain ⟨fr', h1, h2, _⟩ := lift_var_mem s.frames current_frame
      (R.qualify_symbol s.rt_ctx sym) fr hfr
    exact ⟨fr', h1, h2⟩

/-- Witness for C10: `(def x 1)` against a fresh analyzer yields `def(user/x, 1)`; the root
frame lifts the var `user/x` and the constant `1`, and the var map holds `user/x`. -/
theorem analyze_def_success_witness :
    analyze_def example_runtime (analyze example_runtime 1)
        [.symbol ⟨"", "def"⟩, .symbol ⟨"", "x"⟩, .integer 1] 0 .statement none false
        (processor.init ⟨[], 0⟩)
      = .done
          (.ok (.def_ ⟨.statement, 0, true⟩ ⟨"user", "x"⟩
            (some (.primitive_literal ⟨.expression, 0, true⟩ (.integer 1)))))
          ⟨⟨[⟨⟨"user", "x"⟩, none⟩], 0⟩,
            [⟨frame_type.root, none, [], [⟨"user", "x"⟩], [.integer 1]⟩], [],
            [(⟨⟨"user", "x"⟩, none⟩, .primitive_literal ⟨.expression, 0, true⟩ (.integer 1))]⟩ :=
  ((analyze_def_success example_runtime (analyze example_runtime 1) (.symbol ⟨"", "def"⟩)
      ⟨"", "x"⟩ 0 .statement none false (processor.init ⟨[], 0⟩) ⟨⟨"user", "x"⟩, none⟩
      ⟨[⟨⟨"user", "x"⟩, none⟩], 0⟩ rfl rfl).2.1 (.integer 1)
      (.primitive_literal ⟨.expression, 0, true⟩ (.integer 1))
      ⟨⟨[⟨⟨"user", "x"⟩, none⟩], 0⟩,
        [⟨frame_type.root, none, [], [⟨"user", "x"⟩], [.integer 1]⟩], [], []⟩ rfl).1

/-! ## Lookups and captures in the frame tree -/

theorem find_index_some (sym : symbol) (l : List local_binding) (j : Nat)
    (h : find_index sym l = some j) : ∃ b, l[j]? = some b ∧ b.name = sym := by
  induction l generalizing j with
  | nil => simp [find_index] at h
  | cons b bs ih =>
    by_cases hb : b.name = sym
    · simp [find_index, hb] at h
      subst h
      exact ⟨b, by simp, hb⟩
    · simp [find_index, hb] at h
      obtain ⟨k, hk, rfl⟩ := h
      obtain ⟨b', h1, h2⟩ := ih k hk
      exact ⟨b', by simpa using h1, h2⟩

theorem find_index_set (sym : symbol) (l : List local_binding) (k : Nat)
    (b b' : local_binding) (hk : l[k]? = some b) (hname : b'.name = b.name) :
    find_index sym (l.set k b') = find_index sym l := by
  induction l generalizing k with
  | nil => simp at hk
  | cons a as ih =>
    cases k with
    | zero =>
      simp at hk
      subst hk
      simp [find_index, hname]
    | succ k =>
      simp at hk
      simp [find_index, ih k hk]

theorem find_index_append_some (sym : symbol) (l l' : List local_binding) (j : Nat)
    (h : find_index sym l = some j) : find_index sym (l ++ l') = some j := by
  induction l generalizing j with
  | nil => simp [find_index] at h
  | cons b bs ih =>
    by_cases hb : b.name = sym
    · simpa [find_index, hb] using h
    · simp [find_index, hb] at h
      obtain ⟨k, hk, rfl⟩ := h
      simp [find_index, hb, ih k hk]

theorem find_index_append_none (sym : symbol) (l : List local_binding) (c : local_binding)
    (h : find_index sym l = none) (hc : c.name = sym) :
    find_index sym (l ++ [c]) = some l.length := by
  induction l with
  | nil => simp [find_index, hc]
  | cons b bs ih =>
    by_cases hb : b.name = sym
    · simp [find_index, hb] at h
    · simp [find_index, hb] at h
      simp [find_index, hb, ih h]

theorem locals_emplace_present (l : List local_binding) (c : local_binding) (j : Nat)
    (h : find_index c.name l = some j) : locals_emplace l c = l := by
  simp [locals_emplace, h]

theorem locals_emplace_absent (l : List local_binding) (c : local_binding)
    (h : find_index c.name l = none) : locals_emplace l c = l ++ [c] := by
  simp [locals_emplace, h]

theorem get_binding_modify_same (frames : List local_frame) (r : binding_ref)
    (g : local_binding → local_binding) (b : local_binding)
    (h : get_binding frames r = some b) :
    get_binding (modify_binding frames r g) r = some (g b) := by
  unfold get_binding at h ⊢
  unfold modify_binding
  rw [modify_frame_get]
  cases hf : frames[r.frame]? with
  | none => simp [hf] at h
  | some fr =>
    simp only [hf] at h
    have hlt : r.index < fr.locals.length := (List.getElem?_eq_some.mp h).1
    simp [h, List.getElem?_set_self hlt]

theorem get_binding_modify_other_frame (frames : List local_frame) (r r' : binding_ref)
    (g : local_binding → local_binding) (hne : r'.frame ≠ r.frame) :
    get_binding (modify_binding frames r g) r' = get_binding frames r' := by
  unfold get_binding modify_binding
  rw [modify_frame_get]
  simp [hne]

theorem capture_rel_refl (sym : symbol) (c : List Nat) (i : Nat) (fr : local_frame) :
    capture_rel sym c i fr fr :=
  ⟨rfl, rfl, fun _ h => h, fun h => Or.inl h⟩

theorem arena_rel_refl (sym : symbol) (c : List Nat) (frames : List local_frame) :
    arena_rel sym c frames frames :=
  ⟨rfl, fun i fr0 h => ⟨fr0, h, capture_rel_refl sym c i fr0⟩⟩

theorem arena_rel_modify (sym : symbol) (c : List Nat) (frames0 frames : List local_frame)
    (x : Nat) (h : local_frame → local_frame) (hrel : arena_rel sym c frames0 frames)
    (hstep : ∀ fr0 fr, frames0[x]? = some fr0 → capture_rel sym c x fr0 fr →
      capture_rel sym c x fr0 (h fr)) :
    arena_rel sym c frames0 (modify_frame frames x h) := by
  refine ⟨by rw [modify_frame_length]; exact hrel.1, ?_⟩
  intro i fr0 hi
  obtain ⟨fr, hfr, hcr⟩ := hrel.2 i fr0 hi
  rw [modify_frame_get]
  by_cases hix : i = x
  · subst hix
    exact ⟨h fr, by simp [hfr], hstep fr0 fr hi hcr⟩
  · exact ⟨fr, by simp [hix, hfr], hcr⟩

/-- Setting flags on a binding keeps `capture_rel`. -/
theorem capture_rel_set_flag (sym : symbol) (c : List Nat) (i k : Nat)
    (g : local_binding → local_binding)
    (hg : ∀ b, (g b).name = b.name ∧ (g b).needs_box = b.needs_box
      ∧ (g b).crossed_fns = b.crossed_fns)
    (fr0 fr : local_frame) (hcr : capture_rel sym c i fr0 fr) :
    capture_rel sym c i fr0
      (match fr.locals[k]? with
       | none => fr
       | some b => { fr with locals := fr.locals.set k (g b) }) := by
  cases hk : fr.locals[k]? with
  | none => simpa using hcr
  | some b =>
    obtain ⟨h1, h2, h3, h4⟩ := hcr
    have hfi : find_index sym (fr.locals.set k (g b)) = find_index sym fr.locals :=
      find_index_set sym fr.locals k b (g b) hk (hg b).1
    refine ⟨h1, h2, ?_, ?_⟩
    · intro j hj
      simpa [hfi] using h3 j hj
    · intro hnone
      rcases h4 hnone with h | ⟨hic, j, b', hj, hb', hnb, hcf⟩
      · exact Or.inl (by simpa [hfi] using h)
      · refine Or.inr ⟨hic, j, ?_⟩
        by_cases hjk : k = j
        · subst hjk
          have hbb : b' = b := by
            rw [hk] at hb'
            exact (Option.some.inj hb').symm
          subst hbb
          have hlt : k < fr.locals.length := (List.getElem?_eq_some.mp hk).1
          exact ⟨g b', by simpa [hfi] using hj, by simp [List.getElem?_set_self hlt],
            by rw [(hg b').2.1]; exact hnb, by rw [(hg b').2.2]; exact hcf⟩
        · exact ⟨b', by simpa [hfi] using hj, by simp [List.getElem?_set_ne hjk, hb'], hnb, hcf⟩

theorem arena_rel_modify_binding (sym : symbol) (c : List Nat)
    (frames0 frames : List local_frame) (r : binding_ref) (g : local_binding → local_binding)
    (hg : ∀ b, (g b).name = b.name ∧ (g b).needs_box = b.needs_box
      ∧ (g b).crossed_fns = b.crossed_fns)
    (hrel : arena_rel sym c frames0 frames) :
    arena_rel sym c frames0 (modify_binding frames r g) := by
  unfold modify_binding
  exact arena_rel_modify sym c frames0 frames r.frame _ hrel
    (fun fr0 fr _ hcr => capture_rel_set_flag sym c r.frame r.index g hg fr0 fr hcr)

/-- Installing a capture in a crossed frame keeps `capture_rel`. -/
theorem capture_rel_install (sym : symbol) (c : List Nat) (x : Nat) (cap : local_binding)
    (hx : x ∈ c) (hname : cap.name = sym) (hnb : cap.needs_box = true)
    (hcf : cap.crossed_fns = c) (fr0 fr : local_frame) (hcr : capture_rel sym c x fr0 fr) :
    capture_rel sym c x fr0 { fr with locals := locals_emplace fr.locals cap } := by
  obtain ⟨h1, h2, h3, h4⟩ := hcr
  cases hfi : find_index sym fr.locals with
  | some j =>
    have : locals_emplace fr.locals cap = fr.locals :=
      locals_emplace_present fr.locals cap j (by rw [hname]; exact hfi)
    rw [this]
    exact ⟨h1, h2, h3, h4⟩
  | none =>
    have hemp : locals_emplace fr.locals cap = fr.locals ++ [cap] :=
      locals_emplace_absent fr.locals cap (by rw [hname]; exact hfi)
    rw [hemp]
    refine ⟨h1, h2, ?_, ?_⟩
    · intro j hj
      have := h3 j hj
      rw [hfi] at this
      exact absurd this (by simp)
    · intro _
      exact Or.inr ⟨hx, fr.locals.length, cap,
        find_index_append_none sym fr.locals cap hfi hname, by simp, hnb, hcf⟩

theorem has_sym_modify (sym : symbol) (frames : List local_frame) (x y : Nat)
    (h : local_frame → local_frame)
    (hh : ∀ fr j, find_index sym fr.locals = some j →
      ∃ j', find_index sym (h fr).locals = some j')
    (hs : has_sym sym frames x) : has_sym sym (modify_frame frames y h) x := by
  obtain ⟨fr, j, hfr, hj⟩ := hs
  unfold has_sym
  rw [modify_frame_get]
  by_cases hxy : x = y
  · obtain ⟨j', hj'⟩ := hh fr j hj
    subst hxy
    exact ⟨h fr, j', by simp [hfr], hj'⟩
  · exact ⟨fr, j, by simp [hxy, hfr], hj⟩

theorem has_sym_modify_binding (sym : symbol) (frames : List local_frame) (x : Nat)
    (r : binding_ref) (g : local_binding → local_binding) (hg : ∀ b, (g b).name = b.name)
    (hs : has_sym sym frames x) : has_sym sym (modify_binding frames r g) x := by
  unfold modify_binding
  refine has_sym_modify sym frames x r.frame _ ?_ hs
  intro fr j hj
  cases hk : fr.locals[r.index]? with
  | none => exact ⟨j, by simpa using hj⟩
  | some b =>
    exact ⟨j, by simpa [find_index_set sym fr.locals r.index b (g b) hk (hg b)] using hj⟩

theorem has_sym_install (sym : symbol) (frames : List local_frame) (x y : Nat)
    (cap : local_binding) (hs : has_sym sym frames x) :
    has_sym sym
      (modify_frame frames y fun fr => { fr with locals := locals_emplace fr.locals cap }) x := by
  refine has_sym_modify sym frames x y _ ?_ hs
  intro fr j hj
  unfold locals_emplace
  cases find_index cap.name fr.locals with
  | some _ => exact ⟨j, hj⟩
  | none => exact ⟨j, find_index_append_some sym fr.locals [cap] j hj⟩

theorem has_sym_install_self (sym : symbol) (frames : List local_frame) (x : Nat)
    (cap : local_binding) (hname : cap.name = sym) (fr : local_frame)
    (hfr : frames[x]? = some fr) :
    has_sym sym
      (modify_frame frames x fun fr => { fr with locals := locals_emplace fr.locals cap }) x := by
  unfold has_sym
  rw [modify_frame_get]
  cases hfi : find_index sym fr.locals with
  | some j =>
    refine ⟨{ fr with locals := locals_emplace fr.locals cap }, j, by simp [hfr], ?_⟩
    rw [locals_emplace_present fr.locals cap j (by rw [hname]; exact hfi)]
    exact hfi
  | none =>
    refine ⟨{ fr with locals := locals_emplace fr.locals cap }, fr.locals.length,
      by simp [hfr], ?_⟩
    rw [locals_emplace_absent fr.locals cap (by rw [hname]; exact hfi)]
    exact find_index_append_none sym fr.locals cap hfi hname

/-- What a successful walk says about the arena it ran on: the binding found is a binding of
`sym`, and every crossed frame is a `fn` frame without a binding of `sym`. -/
theorem find_local_walk_facts (frames : List local_frame) (sym : symbol) (n f : Nat)
    (r : find_result) (h : find_local_walk frames sym n f = some r) :
    (∃ fr, frames[r.binding.frame]? = some fr
        ∧ find_index sym fr.locals = some r.binding.index)
    ∧ ∀ x ∈ r.crossed_fns, ∃ fr, frames[x]? = some fr ∧ fr.type = frame_type.fn
        ∧ find_index sym fr.locals = none := by
  induction n generalizing f r with
  | zero => simp [find_local_walk] at h
  | succ n ih =>
    unfold find_local_walk at h
    cases hf : frames[f]? with
    | none => simp [hf] at h
    | some fr =>
      simp only [hf] at h
      cases hi : find_index sym fr.locals with
      | some i =>
        simp only [hi, Option.some.injEq] at h
        subst h
        exact ⟨⟨fr, hf, hi⟩, by simp⟩
      | none =>
        simp only [hi] at h
        cases hp : fr.parent with
        | none => simp [hp] at h
        | some p =>
          simp only [hp] at h
          cases hr0 : find_local_walk frames sym n p with
          | none => simp [hr0] at h
          | some r0 =>
            simp only [hr0, Option.map_some', Option.some.injEq] at h
            obtain ⟨horig, hcross⟩ := ih p r0 hr0
            by_cases ht : fr.type = frame_type.fn
            · simp only [ht, if_true] at h
              subst h
              refine ⟨horig, ?_⟩
              intro x hx
              simp only [List.mem_cons] at hx
              rcases hx with rfl | hx
              · exact ⟨fr, hf, ht, hi⟩
              · exact hcross x hx
            · simp only [ht, if_false] at h
              subst h
              exact ⟨horig, hcross⟩

/-- The lookup after registration: in an arena related to the one the first walk ran on, in
which every crossed frame holds a binding of `sym`, the same walk finds a binding without
crossing any `fn` frame: the same binding if nothing was crossed, and otherwise the binding
of `sym` in the nearest crossed frame. -/
theorem find_local_walk_again (frames0 frames : List local_frame) (sym : symbol)
    (c : List Nat) (hrel : arena_rel sym c frames0 frames)
    (hfn : ∀ x ∈ c, ∃ fr, frames0[x]? = some fr ∧ fr.type = frame_type.fn)
    (hhas : ∀ x ∈ c, has_sym sym frames x)
    (n f : Nat) (r : find_result) (h : find_local_walk frames0 sym n f = some r)
    (hsub : ∀ x ∈ r.crossed_fns, x ∈ c) :
    ∃ r', find_local_walk frames sym n f = some r' ∧ r'.crossed_fns = []
      ∧ (r.crossed_fns = [] → r' = r)
      ∧ (∀ x rest, r.crossed_fns = x :: rest → r'.binding.frame = x) := by
  induction n generalizing f r with
  | zero => simp [find_local_walk] at h
  | succ n ih =>
    unfold find_local_walk at h
    cases hf : frames0[f]? with
    | none => simp [hf] at h
    | some fr0 =>
      simp only [hf] at h
      obtain ⟨fr, hfr, hty, hpar, hkeep, hnew⟩ := hrel.2 f fr0 hf
      cases hi : find_index sym fr0.locals with
      | some i =>
        simp only [hi, Option.some.injEq] at h
        subst h
        refine ⟨⟨⟨f, i⟩, []⟩, ?_, rfl, fun _ => rfl, by simp⟩
        unfold find_local_walk
        simp [hfr, hkeep i hi]
      | none =>
        simp only [hi] at h
        cases hp : fr0.parent with
        | none => simp [hp] at h
        | some p =>
          simp only [hp] at h
          cases hr0 : find_local_walk frames0 sym n p with
          | none => simp [hr0] at h
          | some r0 =>
            simp only [hr0, Option.map_some', Option.some.injEq] at h
            by_cases ht : fr0.type = frame_type.fn
            · simp only [ht, if_true] at h
              subst h
              obtain ⟨fr', j, hfr', hj⟩ := hhas f (hsub f (by simp))
              rw [hfr] at hfr'
              have hfr'' : fr = fr' := Option.some.inj hfr'
              subst hfr''
              refine ⟨⟨⟨f, j⟩, []⟩, ?_, rfl, by simp, by simp⟩
              unfold find_local_walk
              simp [hfr, hj]
            · simp only [ht, if_false] at h
              subst h
              have hnone : find_index sym fr.locals = none := by
                rcases hnew hi with hn | ⟨hfc, _⟩
                · exact hn
                · obtain ⟨fr1, hfr1, hty1⟩ := hfn f hfc
                  rw [hf] at hfr1
                  have : fr0 = fr1 := Option.some.inj hfr1
                  subst this
                  exact absurd hty1 ht
              obtain ⟨r', hw, hc, hsame, hhead⟩ := ih p r0 hr0 hsub
              refine ⟨r', ?_, hc, hsame, hhead⟩
              unfold find_local_walk
              have ht' : ¬ fr.type = frame_type.fn := by rw [hty]; exact ht
              simp [hfr, hnone, hpar, hp, hw, ht']

theorem origin_binding (sym : symbol) (c : List Nat) (frames0 frames : List local_frame)
    (r : binding_ref) (hrel : arena_rel sym c frames0 frames)
    (horig : ∃ fr, frames0[r.frame]? = some fr ∧ find_index sym fr.locals = some r.index) :
    ∃ b, get_binding frames r = some b ∧ b.name = sym := by
  obtain ⟨fr0, hfr0, hi⟩ := horig
  obtain ⟨fr, hfr, _, _, hkeep, _⟩ := hrel.2 r.frame fr0 hfr0
  obtain ⟨b, hb, hname⟩ := find_index_some sym fr.locals r.index (hkeep r.index hi)
  exact ⟨b, by simp [get_binding, hfr, hb], hname⟩

/-- One step of `register_captures` keeps the arena relation and leaves a binding of the
symbol in the crossed frame it handled. -/
theorem register_capture_inv (sym : symbol) (frames0 frames : List local_frame)
    (r : find_result) (x : Nat) (done : List Nat)
    (horig : ∃ fr, frames0[r.binding.frame]? = some fr
      ∧ find_index sym fr.locals = some r.binding.index)
    (hx : x ∈ r.crossed_fns) (hxvalid : ∃ fr, frames0[x]? = some fr)
    (hrel : arena_rel sym r.crossed_fns frames0 frames)
    (hdone : ∀ y ∈ done, has_sym sym frames y) :
    arena_rel sym r.crossed_fns frames0 (register_capture r frames x)
    ∧ ∀ y ∈ x :: done, has_sym sym (register_capture r frames x) y := by
  obtain ⟨orig, horig', hname⟩ := origin_binding sym r.crossed_fns frames0 frames r.binding
    hrel horig
  obtain ⟨fr0, hfr0⟩ := hxvalid
  obtain ⟨fr, hfr, _⟩ := hrel.2 x fr0 hfr0
  unfold register_capture
  simp only [horig']
  refine ⟨?_, ?_⟩
  · apply arena_rel_modify_binding sym r.crossed_fns frames0 _ r.binding
      local_binding.mark_boxed (fun b => ⟨rfl, rfl, rfl⟩)
    apply arena_rel_modify sym r.crossed_fns frames0 frames x _ hrel
    intro fr0 fr _ hcr
    exact capture_rel_install sym r.crossed_fns x (capture_binding r orig) hx hname rfl rfl
      fr0 fr hcr
  · intro y hy
    apply has_sym_modify_binding sym _ y r.binding local_binding.mark_boxed (fun b => rfl)
    simp only [List.mem_cons] at hy
    rcases hy with rfl | hy
    · exact has_sym_install_self sym frames y (capture_binding r orig) hname fr hfr
    · exact has_sym_install sym frames y x (capture_binding r orig) (hdone y hy)

theorem register_captures_fold (sym : symbol) (frames0 : List local_frame) (r : find_result)
    (horig : ∃ fr, frames0[r.binding.frame]? = some fr
      ∧ find_index sym fr.locals = some r.binding.index)
    (l : List Nat) (hl : ∀ x ∈ l, x ∈ r.crossed_fns ∧ ∃ fr, frames0[x]? = some fr)
    (frames : List local_frame) (done : List Nat)
    (hrel : arena_rel sym r.crossed_fns frames0 frames)
    (hdone : ∀ y ∈ done, has_sym sym frames y) :
    arena_rel sym r.crossed_fns frames0 (l.foldl (register_capture r) frames)
    ∧ (∀ y ∈ done, has_sym sym (l.foldl (register_capture r) frames) y)
    ∧ ∀ y ∈ l, has_sym sym (l.foldl (register_capture r) frames) y := by
  induction l generalizing frames done with
  | nil => exact ⟨hrel, hdone, by simp⟩
  | cons x xs ih =>
    obtain ⟨hx, hxv⟩ := hl x (by simp)
    obtain ⟨hrel', hdone'⟩ := register_capture_inv sym frames0 frames r x done horig hx hxv
      hrel hdone
    obtain ⟨h1, h2, h3⟩ := ih (fun y hy => hl y (by simp [hy])) (register_capture r frames x)
      (x :: done) hrel' hdone'
    refine ⟨h1, fun y hy => h2 y (by simp [hy]), ?_⟩
    intro y hy
    simp only [List.mem_cons] at hy
    rcases hy with rfl | hy
    · exact h2 y (by simp)
    · exact h3 y hy

/-- After `register_captures` the arena is related to the one before, and every crossed frame
holds a binding of the symbol. -/
theorem register_captures_inv (sym : symbol) (frames0 : List local_frame) (r : find_result)
    (horig : ∃ fr, frames0[r.binding.frame]? = some fr
      ∧ find_index sym fr.locals = some r.binding.index)
    (hcross : ∀ x ∈ r.crossed_fns, ∃ fr, frames0[x]? = some fr ∧ fr.type = frame_type.fn
      ∧ find_index sym fr.locals = none) :
    arena_rel sym r.crossed_fns frames0 (register_captures frames0 r)
    ∧ ∀ x ∈ r.crossed_fns, has_sym sym (register_captures frames0 r) x := by
  obtain ⟨h1, _, h3⟩ := register_captures_fold sym frames0 r horig r.crossed_fns
    (fun x hx => ⟨hx, (hcross x hx).imp fun _ h => h.1⟩) frames0 []
    (arena_rel_refl sym r.crossed_fns frames0) (by simp)
  exact ⟨h1, h3⟩

/-- In an arena related to the original one, a crossed frame that holds a binding of the
symbol holds a boxed capture of it. -/
theorem capture_installed (sym : symbol) (c : List Nat) (frames0 frames : List local_frame)
    (x : Nat) (hrel : arena_rel sym c frames0 frames) (hhas : has_sym sym frames x)
    (hnone : ∃ fr, frames0[x]? = some fr ∧ find_index sym fr.locals = none) :
    ∃ fr j b, frames[x]? = some fr ∧ find_index sym fr.locals = some j
      ∧ fr.locals[j]? = some b ∧ b.name = sym ∧ b.needs_box = true ∧ b.crossed_fns = c := by
  obtain ⟨fr0, hfr0, hi⟩ := hnone
  obtain ⟨fr, hfr, _, _, _, hnew⟩ := hrel.2 x fr0 hfr0
  obtain ⟨fr', j', hfr', hj'⟩ := hhas
  rw [hfr] at hfr'
  have : fr = fr' := Option.some.inj hfr'
  subst this
  rcases hnew hi with hn | ⟨_, j, b, hj, hb, hnb, hcf⟩
  · rw [hn] at hj'
    exact absurd hj' (by simp)
  · obtain ⟨b', hb', hname⟩ := find_index_some sym fr.locals j hj
    rw [hb] at hb'
    have : b = b' := Option.some.inj hb'
    subst this
    exact ⟨fr, j, b, hfr, hj, hb, hname, hnb, hcf⟩

/-- What `analyze_symbol` does on a lookup that crosses `fn` frames: the run of the code,
with the lookup it performs after registration. -/
theorem analyze_symbol_crossing {ρ : Type} (R : runtime ρ) (sym : symbol) (current_frame : Nat)
    (expr_type : expression_type) (fn_ctx : Option Nat) (needs_box : Bool) (s : processor ρ)
    (r : find_result) (hfind : find_local_or_capture s.frames current_frame sym = some r)
    (hcross : r.crossed_fns ≠ []) :
    ∃ found_again b,
      get_binding (register_captures s.frames r) r.binding = some b
      ∧ find_local_or_capture
          (modify_binding (register_captures s.frames r) r.binding local_binding.mark_boxed)
          current_frame sym = some found_again
      ∧ found_again.crossed_fns = []
      ∧ found_again.binding.frame ≠ r.binding.frame
      ∧ analyze_symbol R sym current_frame expr_type fn_ctx needs_box s
        = .done (.ok (.local_reference ⟨expr_type, current_frame, true⟩ sym found_again.binding))
            { s with frames :=
                (modify_binding
                  (modify_binding (register_captures s.frames r) r.binding
                    local_binding.mark_boxed)
                  found_again.binding local_binding.mark_boxed) }
      ∧ arena_rel sym r.crossed_fns s.frames
          (modify_binding
            (modify_binding (register_captures s.frames r) r.binding local_binding.mark_boxed)
            found_again.binding local_binding.mark_boxed)
      ∧ ∀ x ∈ r.crossed_fns, has_sym sym
          (modify_binding
            (modify_binding (register_captures s.frames r) r.binding local_binding.mark_boxed)
            found_again.binding local_binding.mark_boxed) x := by
  obtain ⟨horig, hfacts⟩ := find_local_walk_facts s.frames sym s.frames.length current_frame r
    hfind
  obtain ⟨hrel1, hhas1⟩ := register_captures_inv sym s.frames r horig hfacts
  obtain ⟨b, hb, _⟩ := origin_binding sym r.crossed_fns s.frames _ r.binding hrel1 horig
  have hrel2 := arena_rel_modify_binding sym r.crossed_fns s.frames _ r.binding
    local_binding.mark_boxed (fun b => ⟨rfl, rfl, rfl⟩) hrel1
  have hhas2 : ∀ x ∈ r.crossed_fns, has_sym sym
      (modify_binding (register_captures s.frames r) r.binding local_binding.mark_boxed) x :=
    fun x hx => has_sym_modify_binding sym _ x r.binding local_binding.mark_boxed
      (fun b => rfl) (hhas1 x hx)
  obtain ⟨found_again, hw, hc, _, hhead⟩ := find_local_walk_again s.frames _ sym r.crossed_fns
    hrel2 (fun x hx => (hfacts x hx).imp fun _ h => ⟨h.1, h.2.1⟩) hhas2 s.frames.length
    current_frame r hfind (fun x hx => hx)
  have hagain : find_local_or_capture
      (modify_binding (register_captures s.frames r) r.binding local_binding.mark_boxed)
      current_frame sym = some found_again := by
    unfold find_local_or_capture
    rw [hrel2.1]
    exact hw
  have hne : found_again.binding.frame ≠ r.binding.frame := by
    cases hcs : r.crossed_fns with
    | nil => exact absurd hcs hcross
    | cons x rest =>
      rw [hhead x rest hcs]
      intro hx
      obtain ⟨fr, hfr, _, hnone⟩ := hfacts x (by simp [hcs])
      obtain ⟨fr', hfr', hsome⟩ := horig
      rw [← hx, hfr] at hfr'
      have : fr = fr' := Option.some.inj hfr'
      subst this
      rw [hnone] at hsome
      simp at hsome
  refine ⟨found_again, b, hb, hagain, hc, hne, ?_, ?_, ?_⟩
  · simp only [analyze_symbol, hfind, hb, hagain]
    simp [hcross]
  · exact arena_rel_modify_binding sym r.crossed_fns s.frames _ found_again.binding
      local_binding.mark_boxed (fun b => ⟨rfl, rfl, rfl⟩) hrel2
  · exact fun x hx => has_sym_modify_binding sym _ x found_again.binding
      local_binding.mark_boxed (fun b => rfl) (hhas2 x hx)

/-! ## C4: capture closure -/

/-- C4: capture closure. When the lookup of a symbol from the current frame crosses one or
more `fn` frames, `analyze_symbol` succeeds and afterwards: every crossed `fn` frame holds a
capture binding for that symbol (a boxed binding of that name recording the crossed frames);
the originating binding has `has_boxed_usage = true`; the lookup the code performs after
registration, and any lookup from the same frame in the final state, reports empty
`crossed_fns`; and the returned `local_reference` has `needs_box = true` and refers to the
binding found by that second lookup, which is not the originating one. -/
theorem analyze_symbol_capture_closure {ρ : Type} (R : runtime ρ) (sym : symbol)
    (current_frame : Nat) (expr_type : expression_type) (fn_ctx : Option Nat) (needs_box : Bool)
    (s : processor ρ) (r : find_result)
    (hfind : find_local_or_capture s.frames current_frame sym = some r)
    (hcross : r.crossed_fns ≠ []) :
    ∃ found_again s',
      analyze_symbol R sym current_frame expr_type fn_ctx needs_box s
        = .done (.ok (.local_reference ⟨expr_type, current_frame, true⟩ sym found_again.binding))
            s'
      ∧ find_local_or_capture
          (modify_binding (register_captures s.frames r) r.binding local_binding.mark_boxed)
          current_frame sym = some found_again
      ∧ find_local_or_capture s'.frames current_frame sym = some found_again
      ∧ found_again.crossed_fns = []
      ∧ found_again.binding ≠ r.binding
      ∧ (∀ x ∈ r.crossed_fns, ∃ fr j b, s'.frames[x]? = some fr
          ∧ find_index sym fr.locals = some j ∧ fr.locals[j]? = some b ∧ b.name = sym
          ∧ b.needs_box = true ∧ b.crossed_fns = r.crossed_fns)
      ∧ (∃ b, get_binding s'.frames r.binding = some b ∧ b.has_boxed_usage = true) := by
  obtain ⟨found_again, b, hb, hagain, hc, hne, hrun, hrel, hhas⟩ :=
    analyze_symbol_crossing R sym current_frame expr_type fn_ctx needs_box s r hfind hcross
  obtain ⟨_, hfacts⟩ := find_local_walk_facts s.frames sym s.frames.length current_frame r hfind
  refine ⟨found_again, _, hrun, hagain, ?_, hc, ?_, ?_, ?_⟩
  · have hrel0 := arena_rel_modify_binding sym []
      (modify_binding (register_captures s.frames r) r.binding local_binding.mark_boxed) _
      found_again.binding local_binding.mark_boxed (fun b => ⟨rfl, rfl, rfl⟩)
      (arena_rel_refl sym [] _)
    obtain ⟨r', hw, _, hsame, _⟩ := find_local_walk_again _ _ sym [] hrel0 (by simp) (by simp)
      _ current_frame found_again hagain (by simp [hc])
    rw [hsame hc] at hw
    show find_local_or_capture _ current_frame sym = some found_again
    unfold find_local_or_capture
    rw [hrel0.1]
    exact hw
  · intro h
    exact hne (by rw [h])
  · intro x hx
    exact capture_installed sym r.crossed_fns s.frames _ x hrel (hhas x hx)
      ((hfacts x hx).imp fun _ h => ⟨h.1, h.2.2⟩)
  · refine ⟨local_binding.mark_boxed b, ?_, rfl⟩
    show get_binding (modify_binding _ found_again.binding _) r.binding = _
    rw [get_binding_modify_other_frame _ _ _ _ (Ne.symm hne)]
    exact get_binding_modify_same _ _ _ _ hb

/-- Witness for C4: the reference to `x` in `(fn* [x] (fn* [] x))` crosses the frame of the
inner function. -/
theorem analyze_symbol_capture_closure_witness :
    find_local_or_capture capture_example.frames 3 ⟨"", "x"⟩ = some ⟨⟨2, 0⟩, [3]⟩
    ∧ ∃ found_again s',
      analyze_symbol example_runtime ⟨"", "x"⟩ 3 .return_statement (some 2) true capture_example
        = .done
            (.ok (.local_reference ⟨.return_statement, 3, true⟩ ⟨"", "x"⟩ found_again.binding)) s'
      ∧ find_local_or_capture
          (modify_binding (register_captures capture_example.frames ⟨⟨2, 0⟩, [3]⟩) ⟨2, 0⟩
            local_binding.mark_boxed)
          3 ⟨"", "x"⟩ = some found_again
      ∧ find_local_or_capture s'.frames 3 ⟨"", "x"⟩ = some found_again
      ∧ found_again.crossed_fns = []
      ∧ found_again.binding ≠ ⟨2, 0⟩
      ∧ (∀ x ∈ [3], ∃ fr j b, s'.frames[x]? = some fr
          ∧ find_index ⟨"", "x"⟩ fr.locals = some j ∧ fr.locals[j]? = some b
          ∧ b.name = ⟨"", "x"⟩ ∧ b.needs_box = true ∧ b.crossed_fns = [3])
      ∧ (∃ b, get_binding s'.frames ⟨2, 0⟩ = some b ∧ b.has_boxed_usage = true) :=
  ⟨by decide,
   analyze_symbol_capture_closure example_runtime ⟨"", "x"⟩ 3 .return_statement (some 2) true
     capture_example ⟨⟨2, 0⟩, [3]⟩ (by decide) (by decide)⟩

/-! ## C3: usage flags of a local reference -/

/-- C3, as the code has it: for a symbol that resolves to a local binding, `analyze_symbol`
succeeds with a `local_reference` to the binding of the current function, and sets
`has_boxed_usage` on that binding if the incoming `needs_box` is true, or the binding found
is itself boxed (`needs_box` of the binding), or a capture occurred; otherwise (incoming
`needs_box` false, binding not boxed, no capture) it refers to the binding found, sets
`has_unboxed_usage` on it and leaves `has_boxed_usage` as it was. -/
theorem analyze_symbol_usage_flags {ρ : Type} (R : runtime ρ) (sym : symbol)
    (current_frame : Nat) (expr_type : expression_type) (fn_ctx : Option Nat) (needs_box : Bool)
    (s : processor ρ) (r : find_result)
    (hfind : find_local_or_capture s.frames current_frame sym = some r) :
    ∃ b0 ref base s',
      get_binding s.frames r.binding = some b0
      ∧ analyze_symbol R sym current_frame expr_type fn_ctx needs_box s
        = .done (.ok (.local_reference base sym ref)) s'
      ∧ ((needs_box = true ∨ b0.needs_box = true ∨ r.crossed_fns ≠ []) →
          ∃ b, get_binding s'.frames ref = some b ∧ b.has_boxed_usage = true)
      ∧ ((needs_box = false ∧ b0.needs_box = false ∧ r.crossed_fns = []) →
          ref = r.binding
          ∧ ∃ b, get_binding s'.frames ref = some b ∧ b.has_unboxed_usage = true
            ∧ b.has_boxed_usage = b0.has_boxed_usage) := by
  obtain ⟨horig, _⟩ := find_local_walk_facts s.frames sym s.frames.length current_frame r hfind
  obtain ⟨b0, hb0, _⟩ := origin_binding sym r.crossed_fns s.frames s.frames r.binding
    (arena_rel_refl _ _ _) horig
  by_cases hcross : r.crossed_fns = []
  · have hreg : register_captures s.frames r = s.frames := by
      simp [register_captures, hcross]
    cases hnb : (needs_box || b0.needs_box) with
    | true =>
      refine ⟨b0, r.binding, ⟨expr_type, current_frame, true⟩,
        { s with frames := modify_binding s.frames r.binding local_binding.mark_boxed },
        hb0, ?_, ?_, ?_⟩
      · simp only [analyze_symbol, hfind, hreg, hb0, hnb]
        simp [hcross]
      · intro _
        exact ⟨_, get_binding_modify_same s.frames r.binding local_binding.mark_boxed b0 hb0,
          rfl⟩
      · rintro ⟨h1, h2, _⟩
        simp [h1, h2] at hnb
    | false =>
      refine ⟨b0, r.binding, ⟨expr_type, current_frame, false⟩,
        { s with frames := modify_binding s.frames r.binding local_binding.mark_unboxed },
        hb0, ?_, ?_, ?_⟩
      · simp only [analyze_symbol, hfind, hreg, hb0, hnb]
        simp [hcross]
      · rintro (h | h | h)
        · simp [h] at hnb
        · simp [h] at hnb
        · exact absurd hcross h
      · intro _
        exact ⟨rfl, _,
          get_binding_modify_same s.frames r.binding local_binding.mark_unboxed b0 hb0,
          rfl, rfl⟩
  · obtain ⟨found_again, b, _, hagain, _, _, hrun, _, _⟩ :=
      analyze_symbol_crossing R sym current_frame expr_type fn_ctx needs_box s r hfind hcross
    obtain ⟨hfound, _⟩ := find_local_walk_facts _ sym _ current_frame found_again hagain
    obtain ⟨b2, hb2, _⟩ := origin_binding sym [] _ _ found_again.binding
      (arena_rel_refl _ _ _) hfound
    refine ⟨b0, found_again.binding, ⟨expr_type, current_frame, true⟩, _, hb0, hrun, ?_, ?_⟩
    · intro _
      exact ⟨_, get_binding_modify_same _ found_again.binding local_binding.mark_boxed b2 hb2,
        rfl⟩
    · rintro ⟨_, _, h⟩
      exact absurd h hcross

/-- Witness for C3: the reference to `x` from the frame that binds it, with an incoming
`needs_box` of false, in the state of `let_example`. -/
theorem analyze_symbol_usage_flags_witness :
    find_local_or_capture let_example.frames 2 ⟨"", "x"⟩ = some ⟨⟨2, 0⟩, []⟩
    ∧ ∃ b0 ref base s',
      get_binding let_example.frames ⟨2, 0⟩ = some b0
      ∧ analyze_symbol example_runtime ⟨"", "x"⟩ 2 .expression (some 0) false let_example
        = .done (.ok (.local_reference base ⟨"", "x"⟩ ref)) s'
      ∧ ((false = true ∨ b0.needs_box = true ∨ ([] : List Nat) ≠ []) →
          ∃ b, get_binding s'.frames ref = some b ∧ b.has_boxed_usage = true)
      ∧ ((false = false ∧ b0.needs_box = false ∧ ([] : List Nat) = []) →
          ref = ⟨2, 0⟩
          ∧ ∃ b, get_binding s'.frames ref = some b ∧ b.has_unboxed_usage = true
            ∧ b.has_boxed_usage = b0.has_boxed_usage) :=
  ⟨by decide,
   analyze_symbol_usage_flags example_runtime ⟨"", "x"⟩ 2 .expression (some 0) false
     let_example ⟨⟨2, 0⟩, []⟩ (by decide)⟩

/-- Counterexample to C3 as stated: in `(let* [x (if 1 2)] ...)` the binding of `x` is boxed,
because its initializer is. The state `let_example` is the one the analyzer is in after
installing that binding. A reference to `x` from the frame of the `let*`, with an incoming
`needs_box` of false, crosses no `fn` frame, and yet `has_unboxed_usage` stays false and
`has_boxed_usage` becomes true. -/
theorem analyze_symbol_usage_flags_counterexample :
    analyze_let_bindings (analyze example_runtime 3) 1 2 (some 0)
        [.symbol ⟨"", "x"⟩, .list [.symbol ⟨"", "if"⟩, .integer 1, .integer 2]] []
        let_example_start
      = .done (.ok [(⟨"", "x"⟩, boxed_initializer)]) let_example
    ∧ find_local_or_capture let_example.frames 2 ⟨"", "x"⟩ = some ⟨⟨2, 0⟩, []⟩
    ∧ (get_binding let_example.frames ⟨2, 0⟩).map
        (fun b => (b.has_boxed_usage, b.has_unboxed_usage)) = some (false, false)
    ∧ ∃ s', analyze_symbol example_runtime ⟨"", "x"⟩ 2 .expression (some 0) false let_example
        = .done (.ok (.local_reference ⟨.expression, 2, true⟩ ⟨"", "x"⟩ ⟨2, 0⟩)) s'
      ∧ (get_binding s'.frames ⟨2, 0⟩).map
          (fun b => (b.has_boxed_usage, b.has_unboxed_usage)) = some (true, false) :=
  ⟨rfl, by decide, by decide, _, rfl, by decide⟩

/-! ## C6: macro restart -/

/-- Resolving a symbol never touches the runtime context. -/
theorem analyze_symbol_rt_ctx {ρ : Type} (R : runtime ρ) (sym : symbol) (current_frame : Nat)
    (expr_type : expression_type) (fn_ctx : Option Nat) (needs_box : Bool) (s s1 : processor ρ)
    (res : Except error expression)
    (h : analyze_symbol R sym current_frame expr_type fn_ctx needs_box s = .done res s1) :
    s1.rt_ctx = s.rt_ctx := by
  unfold analyze_symbol at h
  cases hf : find_local_or_capture s.frames current_frame sym with
  | some r =>
    simp only [hf] at h
    cases hb : get_binding (register_captures s.frames r) r.binding with
    | none => simp [hb] at h
    | some b =>
      simp only [hb] at h
      split at h
      · split at h
        · simp at h
        · simp only [outcome.done.injEq] at h
          rw [← h.2]
      · split at h
        · simp only [outcome.done.injEq] at h
          rw [← h.2]
        · simp only [outcome.done.injEq] at h
          rw [← h.2]
  | none =>
    simp only [hf] at h
    split at h
    · simp only [outcome.done.injEq] at h
      rw [← h.2]
    · simp only [outcome.done.injEq] at h
      rw [← h.2]
      split <;> rfl

/-- The head is resolved before the expander is consulted: in a runtime where `user/m` is not
a var, `(m)` is rejected on its head although the expander would rewrite it to `1`. -/
theorem analyze_call_unresolved_head :
    (macro_runtime.macroexpand (processor.init (⟨[], 0⟩ : example_state)).rt_ctx
        (.list [.symbol ⟨"", "m"⟩])).1 = .integer 1
    ∧ analyze macro_runtime 2 (.list [.symbol ⟨"", "m"⟩]) 0 .expression none false
        (processor.init ⟨[], 0⟩)
      = .done (.error ⟨"unbound symbol: m"⟩) (processor.init ⟨[], 0⟩) :=
  ⟨rfl, rfl⟩

/-! ## C8: boxing of calls -/

theorem var_deref_exists (P : var → Prop) (b : expression_base) (q : symbol) (v : var) :
    (∃ b' q' v', expression.var_deref b q v = .var_deref b' q' v' ∧ P v') ↔ P v := by
  constructor
  · rintro ⟨b', q', v', heq, hp⟩
    cases heq
    exact hp
  · intro hp
    exact ⟨b, q, v, rfl, hp⟩

/-- What a successful `call_boxing` returns, in the terms of the spec: arguments stay unboxed
iff the var's recorded initializer is a function with a matching fixed arity and the meta
declares unboxed input; the result stays unboxed iff moreover the meta declares unboxed output
and the caller did not ask for a box. -/
theorem call_boxing_ok {ρ : Type} (R : runtime ρ) (s : processor ρ) (source : expression)
    (arg_count : Nat) (needs_box : Bool) (boxing : Bool × Bool)
    (h : call_boxing R s source arg_count needs_box = .ok boxing) :
    (boxing.1 = false ↔
      (∃ b q v, source = .var_deref b q v
          ∧ ∃ fb name arities, vars_find s.vars v = some (.function fb name arities)
            ∧ ∃ a ∈ arities, (s.fn_ctx a.fn_ctx).param_count = arg_count
                ∧ (s.fn_ctx a.fn_ctx).is_variadic = false)
      ∧ (∃ b q v, source = .var_deref b q v ∧ ∃ m, v.meta = some m
          ∧ R.truthy (R.get (R.get_in m (.vector [.keyword "" "arities", .integer arg_count]))
              (.keyword "" "supports-unboxed-input?")) = true))
    ∧ (boxing.2 = false ↔
      (∃ b q v, source = .var_deref b q v
          ∧ ∃ fb name arities, vars_find s.vars v = some (.function fb name arities)
            ∧ ∃ a ∈ arities, (s.fn_ctx a.fn_ctx).param_count = arg_count
                ∧ (s.fn_ctx a.fn_ctx).is_variadic = false)
      ∧ (∃ b q v, source = .var_deref b q v ∧ ∃ m, v.meta = some m
          ∧ R.truthy (R.get (R.get_in m (.vector [.keyword "" "arities", .integer arg_count]))
              (.keyword "" "unboxed-output?")) = true)
      ∧ needs_box = false) := by
  cases source with
  | var_deref b q v =>
    simp only [var_deref_exists]
    cases hm : v.meta with
    | none =>
      simp only [call_boxing, hm] at h
      cases h
      simp
    | some m =>
      simp only [call_boxing, hm] at h
      simp only [Option.some.injEq, exists_eq_left']
      generalize R.truthy (R.get (R.get_in m (.vector [.keyword "" "arities",
        .integer arg_count])) (.keyword "" "supports-unboxed-input?")) = uin at h ⊢
      generalize R.truthy (R.get (R.get_in m (.vector [.keyword "" "arities",
        .integer arg_count])) (.keyword "" "unboxed-output?")) = uout at h ⊢
      by_cases hany : (uin || uout) = true
      · rw [if_pos hany] at h
        cases hv : vars_find s.vars v with
        | none => simp [hv] at h
        | some e =>
          rw [hv] at h
          cases e with
          | function fb name arities =>
            simp only [] at h
            simp only [Option.some.injEq, expression.function.injEq]
            by_cases hmatch : arities.any (fun arity =>
                decide ((s.fn_ctx arity.fn_ctx).param_count = arg_count)
                  && !(s.fn_ctx arity.fn_ctx).is_variadic) = true
            · rw [if_pos hmatch] at h
              cases h
              have hex : ∃ fb' name' arities', (fb = fb' ∧ name = name' ∧ arities = arities')
                  ∧ ∃ a ∈ arities', (s.fn_ctx a.fn_ctx).param_count = arg_count
                    ∧ (s.fn_ctx a.fn_ctx).is_variadic = false := by
                refine ⟨fb, name, arities, ⟨rfl, rfl, rfl⟩, ?_⟩
                simpa using hmatch
              simp only [hex, true_and]
              cases uin <;> cases uout <;> cases needs_box <;> simp
            · rw [if_neg hmatch] at h
              cases h
              have hex : ¬ ∃ fb' name' arities', (fb = fb' ∧ name = name' ∧ arities = arities')
                  ∧ ∃ a ∈ arities', (s.fn_ctx a.fn_ctx).param_count = arg_count
                    ∧ (s.fn_ctx a.fn_ctx).is_variadic = false := by
                rintro ⟨fb', name', arities', ⟨rfl, rfl, rfl⟩, hh⟩
                exact hmatch (by simpa using hh)
              simp only [hex, false_and]
              simp
          | _ => simp at h
      · rw [if_neg hany] at h
        cases h
        simp only [Bool.or_eq_true, not_or, Bool.not_eq_true] at hany
        simp [hany.1, hany.2]
  | _ =>
    simp only [call_boxing] at h
    cases h
    simp

/-- C8: call boxing relaxation. For a successfully analysed call whose head is a non-special
symbol and which was not macro-expanded, with `arg_count` arguments: the head resolved to some
`source`; let M hold iff `source` is a `var_deref` whose var's recorded initializer (in the
`vars` map) is a function with a non-variadic arity of exactly `arg_count` parameters. Then
the arguments are analysed, in order and in expression position, with `needs_box = false` iff
M holds and the var's meta under `:arities -> arg_count` has a truthy
`:supports-unboxed-input?`, and otherwise with `needs_box = true`; and the call node has
`needs_box = false` iff M holds, that meta has a truthy `:unboxed-output?` and the incoming
`needs_box` is false, and otherwise `needs_box = true`. -/
theorem analyze_call_boxing {ρ : Type} (R : runtime ρ) (analyze_rec : analyzer ρ)
    (sym : symbol) (rest : List object) (current_frame : Nat) (expr_type : expression_type)
    (fn_ctx : Option Nat) (needs_box : Bool) (s s' : processor ρ) (e : expression)
    (hspecial : ∀ a : analyzer ρ, (specials R a).lookup sym = none)
    (hsame : (R.macroexpand s.rt_ctx (.list (.symbol sym :: rest))).1
      = .list (.symbol sym :: rest))
    (hok : analyze_call R analyze_rec (.symbol sym :: rest) current_frame expr_type fn_ctx
      needs_box s = .done (.ok e) s') :
    ∃ (source : expression) (s1 : processor ρ) (needs_arg_box needs_ret_box : Bool)
        (arg_exprs : List expression),
      analyze_symbol R sym current_frame .expression fn_ctx true s = .done (.ok source) s1
      ∧ (needs_arg_box = false ↔
        (∃ b q v, source = .var_deref b q v
            ∧ ∃ fb name arities, vars_find s1.vars v = some (.function fb name arities)
              ∧ ∃ a ∈ arities, (s1.fn_ctx a.fn_ctx).param_count = rest.length
                  ∧ (s1.fn_ctx a.fn_ctx).is_variadic = false)
        ∧ (∃ b q v, source = .var_deref b q v ∧ ∃ m, v.meta = some m
            ∧ R.truthy (R.get (R.get_in m
                (.vector [.keyword "" "arities", .integer rest.length]))
                (.keyword "" "supports-unboxed-input?")) = true))
      ∧ (needs_ret_box = false ↔
        (∃ b q v, source = .var_deref b q v
            ∧ ∃ fb name arities, vars_find s1.vars v = some (.function fb name arities)
              ∧ ∃ a ∈ arities, (s1.fn_ctx a.fn_ctx).param_count = rest.length
                  ∧ (s1.fn_ctx a.fn_ctx).is_variadic = false)
        ∧ (∃ b q v, source = .var_deref b q v ∧ ∃ m, v.meta = some m
            ∧ R.truthy (R.get (R.get_in m
                (.vector [.keyword "" "arities", .integer rest.length]))
                (.keyword "" "unboxed-output?")) = true)
        ∧ needs_box = false)
      ∧ analyze_args analyze_rec current_frame fn_ctx needs_arg_box rest []
          { s1 with rt_ctx := (R.macroexpand s.rt_ctx (.list (.symbol sym :: rest))).2 }
        = .done (.ok arg_exprs) s'
      ∧ e = .call ⟨expr_type, current_frame, needs_ret_box⟩ source rest arg_exprs := by
  cases hhead : analyze_symbol R sym current_frame .expression fn_ctx true s with
  | out_of_budget =>
    simp [analyze_call, hspecial analyze_rec, hhead, outcome.and_then] at hok
  | aborted =>
    simp [analyze_call, hspecial analyze_rec, hhead, outcome.and_then] at hok
  | done res s1 =>
    cases res with
    | error err =>
      simp [analyze_call, hspecial analyze_rec, hhead, outcome.and_then] at hok
    | ok source =>
      have hrt := analyze_symbol_rt_ctx R sym current_frame .expression fn_ctx true s s1 _ hhead
      have hbne : ((R.macroexpand s1.rt_ctx (.list (.symbol sym :: rest))).1
          != .list (.symbol sym :: rest)) = false := by
        rw [hrt]
        simp [hsame]
      simp only [analyze_call, hspecial analyze_rec, hhead, outcome.and_then, hbne,
        Bool.false_eq_true, if_false, List.length_cons, Nat.add_sub_cancel] at hok
      rw [hrt] at hok
      cases hcb : call_boxing R
          { s1 with rt_ctx := (R.macroexpand s.rt_ctx (.list (.symbol sym :: rest))).2 }
          source rest.length needs_box with
      | error err =>
        rw [hcb] at hok
        simp at hok
      | ok boxing =>
        rw [hcb] at hok
        simp only [finish_call, List.tail_cons] at hok
        obtain ⟨h1, h2⟩ := call_boxing_ok R _ source rest.length needs_box boxing hcb
        cases hargs : analyze_args analyze_rec current_frame fn_ctx boxing.1 rest []
            { s1 with rt_ctx := (R.macroexpand s.rt_ctx (.list (.symbol sym :: rest))).2 } with
        | out_of_budget => simp [hargs, outcome.and_then] at hok
        | aborted => simp [hargs, outcome.and_then] at hok
        | done res s2 =>
          cases res with
          | error err => simp [hargs, outcome.and_then] at hok
          | ok arg_exprs =>
            simp only [hargs, outcome.and_then, outcome.done.injEq, Except.ok.injEq] at hok
            obtain ⟨he, hs⟩ := hok
            subst hs
            exact ⟨source, s1, boxing.1, boxing.2, arg_exprs, rfl, h1, h2, hargs, he.symm⟩

/-- Witness for C8: `(inc 5)` where `user/inc` is a function of one parameter whose meta
declares unboxed input and output, analysed with an incoming `needs_box` of false: the call
node and its argument are unboxed. -/
theorem analyze_call_boxing_witness :
    analyze_call example_runtime (analyze example_runtime 1)
        [.symbol ⟨"", "inc"⟩, .integer 5] 0 .expression none false inc_example
      = .done
          (.ok (.call ⟨.expression, 0, false⟩
            (.var_deref ⟨.expression, 0, true⟩ ⟨"user", "inc"⟩ inc_var) [.integer 5]
            [.primitive_literal ⟨.expression, 0, false⟩ (.integer 5)]))
          { inc_example with
            frames :=
              [ ⟨frame_type.root, none, [], [⟨"user", "inc"⟩], [.integer 5]⟩,
                ⟨frame_type.fn, some 0, [⟨⟨"", "x"⟩, none, none, true, true, false, []⟩], [],
                  []⟩ ] }
    ∧ ∃ (needs_arg_box needs_ret_box : Bool) (arg_exprs : List expression),
      needs_arg_box = false ∧ needs_ret_box = false
      ∧ analyze_args (analyze example_runtime 1) 0 none needs_arg_box [.integer 5] [] inc_example
        = .done (.ok arg_exprs)
            { inc_example with
              frames :=
                [ ⟨frame_type.root, none, [], [⟨"user", "inc"⟩], [.integer 5]⟩,
                  ⟨frame_type.fn, some 0, [⟨⟨"", "x"⟩, none, none, true, true, false, []⟩], [],
                    []⟩ ] } :=
  ⟨rfl, by
    obtain ⟨source, s1, a, r, es, hhead, ha, hr, hargs, _⟩ :=
      analyze_call_boxing example_runtime (analyze example_runtime 1) ⟨"", "inc"⟩ [.integer 5] 0
        .expression none false inc_example _ _ (fun _ => rfl) rfl rfl
    have hsrc : source = .var_deref ⟨.expression, 0, true⟩ ⟨"user", "inc"⟩ inc_var
        ∧ s1 = inc_example := by
      have h0 : analyze_symbol example_runtime ⟨"", "inc"⟩ 0 .expression none true inc_example
          = .done (.ok (.var_deref ⟨.expression, 0, true⟩ ⟨"user", "inc"⟩ inc_var))
              inc_example := rfl
      rw [h0] at hhead
      simp only [outcome.done.injEq, Except.ok.injEq] at hhead
      exact ⟨hhead.1.symm, hhead.2.symm⟩
    obtain ⟨rfl, rfl⟩ := hsrc
    refine ⟨a, r, es, ?_, ?_, hargs⟩
    · exact ha.mpr ⟨⟨_, _, _, rfl, _, _, _, rfl, _, List.mem_singleton.mpr rfl, rfl, rfl⟩,
        ⟨_, _, _, rfl, _, rfl, rfl⟩⟩
    · exact hr.mpr ⟨⟨_, _, _, rfl, _, _, _, rfl, _, List.mem_singleton.mpr rfl, rfl, rfl⟩,
        ⟨_, _, _, rfl, _, rfl, rfl⟩, rfl⟩⟩

/-! ## C15 and C12: `fn*` on malformed shapes and on arities written in any order -/

/-- C15, at the failing inputs: for a list `(fn* name)` with a name but no parameter vector,
and for a list `(fn* ())` whose first arity list is empty, `analyze_fn` takes the first
element of an absent or empty tail (`first().unwrap()`), in every state and for every runtime:
neither an expression nor an error is returned. -/
theorem analyze_fn_malformed_aborts {ρ : Type} (R : runtime ρ) (analyze : analyzer ρ)
    (head : object) (name : symbol) (current_frame : Nat) (expr_type : expression_type)
    (fn_ctx : Option Nat) (needs_box : Bool) (s : processor ρ) :
    analyze_fn R analyze [head, .symbol name] current_frame expr_type fn_ctx needs_box s
      = .aborted
    ∧ analyze_fn R analyze [head, .list []] current_frame expr_type fn_ctx needs_box s
      = .aborted := by
  constructor
  · simp [analyze_fn]
  · simp [analyze_fn, analyze_fn_arities, analyze_fn_arity, outcome.and_then]

/-- C12, at the failing input: `(fn* ([a b & r]) ([a]))` has one variadic arity with three
parameters and one fixed arity with one parameter, fewer than the variadic arity has, yet
`analyze_fn` rejects it with "fixed arity has >= params than variadic arity"; the same
arities written in the other order, `(fn* ([a]) ([a b & r]))`, are accepted. -/
theorem analyze_fn_variadic_first_rejected :
    (∃ s', analyze_fn example_runtime (analyze example_runtime 1)
        [.symbol ⟨"", "fn*"⟩,
          .list [.vector [.symbol ⟨"", "a"⟩, .symbol ⟨"", "b"⟩, .symbol ⟨"", "&"⟩,
            .symbol ⟨"", "r"⟩]],
          .list [.vector [.symbol ⟨"", "a"⟩]]]
        0 .expression none true (processor.init ⟨[], 0⟩)
      = .done (.error ⟨"invalid fn: fixed arity has >= params than variadic arity"⟩) s')
    ∧ (∃ e s', analyze_fn example_runtime (analyze example_runtime 1)
        [.symbol ⟨"", "fn*"⟩,
          .list [.vector [.symbol ⟨"", "a"⟩]],
          .list [.vector [.symbol ⟨"", "a"⟩, .symbol ⟨"", "b"⟩, .symbol ⟨"", "&"⟩,
            .symbol ⟨"", "r"⟩]]]
        0 .expression none true (processor.init ⟨[], 0⟩)
      = .done (.ok e) s') :=
  ⟨⟨_, rfl⟩, ⟨_, _, rfl⟩⟩

/-! ## C16 and C17: `recur` -/

/-- On a non-empty list `count() - 1` does not wrap around. -/
theorem size_minus_one_succ (n : Nat) : size_minus_one (n + 1) = n := by
  simp [size_minus_one]

/-- The argument loop succeeds exactly when the forms are analysed in order, each in
expression position; its result is the accumulator followed by the new expressions. -/
theorem analyze_args_ok_iff {ρ : Type} (analyze : analyzer ρ) (current_frame : Nat)
    (fn_ctx : Option Nat) (needs_box : Bool) (forms : List object) (acc es : List expression)
    (s s' : processor ρ) :
    analyze_args analyze current_frame fn_ctx needs_box forms acc s = .done (.ok es) s'
      ↔ ∃ es', es = acc ++ es'
          ∧ analysed_in_order analyze current_frame .expression fn_ctx needs_box forms s es' s' := by
  induction forms generalizing acc s with
  | nil =>
    simp only [analyze_args, analysed_in_order, outcome.done.injEq, Except.ok.injEq]
    constructor
    · rintro ⟨rfl, rfl⟩
      exact ⟨[], by simp, rfl, rfl⟩
    · rintro ⟨es', rfl, rfl, rfl⟩
      simp
  | cons form rest ih =>
    simp only [analyze_args, analysed_in_order]
    cases hform : analyze form current_frame .expression fn_ctx needs_box s with
    | out_of_budget => simp [outcome.and_then]
    | aborted => simp [outcome.and_then]
    | done r s1 =>
      cases r with
      | error err => simp [outcome.and_then]
      | ok e =>
        simp only [outcome.and_then, ih, outcome.done.injEq, Except.ok.injEq]
        constructor
        · rintro ⟨es', rfl, h⟩
          exact ⟨e :: es', by simp, e, es', s1, ⟨rfl, rfl⟩, rfl, h⟩
        · rintro ⟨es', rfl, e', es'', s1', ⟨rfl, rfl⟩, rfl, h⟩
          exact ⟨es'', by simp, h⟩

/-- The forms analysed in order yield one expression per form. -/
theorem analysed_in_order_length {ρ : Type} (analyze : analyzer ρ) (frame : Nat)
    (expr_type : expression_type) (fn_ctx : Option Nat) (needs_box : Bool) (forms : List object)
    (s s' : processor ρ) (es : List expression)
    (h : analysed_in_order analyze frame expr_type fn_ctx needs_box forms s es s') :
    es.length = forms.length := by
  induction forms generalizing s es with
  | nil =>
    obtain ⟨rfl, _⟩ := h
    rfl
  | cons form rest ih =>
    obtain ⟨e, es', s1, _, rfl, hrest⟩ := h
    simp [ih s1 es' hrest]

/-- The argument loop returns the error of the first form that fails, in the state that
form's analysis left. -/
theorem analyze_args_error {ρ : Type} (analyze : analyzer ρ) (current_frame : Nat)
    (fn_ctx : Option Nat) (needs_box : Bool) (pre post : List object) (bad : object)
    (acc es : List expression) (s s1 s2 : processor ρ) (err : error)
    (hpre : analysed_in_order analyze current_frame .expression fn_ctx needs_box pre s es s1)
    (hbad : analyze bad current_frame .expression fn_ctx needs_box s1 = .done (.error err) s2) :
    analyze_args analyze current_frame fn_ctx needs_box (pre ++ bad :: post) acc s
      = .done (.error err) s2 := by
  induction pre generalizing acc s es with
  | nil =>
    obtain ⟨_, rfl⟩ := hpre
    simp [analyze_args, hbad, outcome.and_then]
  | cons form rest ih =>
    obtain ⟨e, es', s', hform, _, hrest⟩ := hpre
    simp only [List.cons_append, analyze_args, hform, outcome.and_then]
    exact ih _ _ _ hrest

/-- C16: recur legality. For a recur form `(recur arg ...)`, `analyze_recur` returns an error,
whatever the recursive analyzer (no argument is analysed) and leaving the state, so also the
function context, as it was, whenever no function context is present, or the position is not
return, or the number of arguments differs from `fn_ctx.param_count`; when none of these
holds and the arguments analyse successfully in order, it succeeds. -/
theorem analyze_recur_legality {ρ : Type} (analyze : analyzer ρ) (head : object)
    (args : List object) (current_frame : Nat) (expr_type : expression_type)
    (fn_ctx : Option Nat) (needs_box : Bool) (s : processor ρ) :
    ((fn_ctx = none ∨ expr_type ≠ .return_statement
        ∨ ∃ c, fn_ctx = some c ∧ (s.fn_ctx c).param_count ≠ args.length) →
      ∃ e, ∀ other : analyzer ρ,
        analyze_recur other (head :: args) current_frame expr_type fn_ctx needs_box s
          = .done (.error e) s)
    ∧ (∀ c es s1, fn_ctx = some c → expr_type = .return_statement →
        (s.fn_ctx c).param_count = args.length →
        analysed_in_order analyze current_frame .expression fn_ctx true args s es s1 →
        ∃ e s', analyze_recur analyze (head :: args) current_frame expr_type fn_ctx needs_box s
          = .done (.ok e) s') := by
  constructor
  · intro hbad
    cases fn_ctx with
    | none => exact ⟨_, fun _ => rfl⟩
    | some c =>
      by_cases het : expr_type = .return_statement
      · rcases hbad with h | h | ⟨c', hc', hcount⟩
        · simp at h
        · exact absurd het h
        · cases hc'
          refine ⟨⟨"invalid number of args passed to recur; expected "
            ++ toString (s.fn_ctx c).param_count ++ ", found " ++ toString args.length⟩,
            fun other => ?_⟩
          simp only [analyze_recur, het, List.length_cons, size_minus_one_succ]
          simp only [ne_eq, not_true_eq_false, if_false, hcount, not_false_eq_true, if_true]
      · refine ⟨⟨"recur used outside of tail position"⟩, fun other => ?_⟩
        simp [analyze_recur, het]
  · intro c es s1 hc het hcount hargs
    subst hc het
    have hrun : analyze_args analyze current_frame (some c) true args [] s = .done (.ok es) s1 :=
      (analyze_args_ok_iff analyze current_frame (some c) true args [] es s s1).mpr
        ⟨es, by simp, hargs⟩
    simp only [analyze_recur, List.length_cons, size_minus_one_succ, hcount, List.tail_cons,
      hrun, outcome.and_then, ne_eq, not_true_eq_false, if_false]
    exact ⟨_, _, rfl⟩

/-- Witness for C16: `(recur n)` in return position inside a function of one parameter. -/
theorem analyze_recur_legality_witness :
    (recur_example.fn_ctx 1).param_count = [object.symbol ⟨"", "n"⟩].length
    ∧ ∃ e s', analyze_recur (analyze example_runtime 1)
        [.symbol ⟨"", "recur"⟩, .symbol ⟨"", "n"⟩] 2 .return_statement (some 1) true
        recur_example = .done (.ok e) s' :=
  ⟨rfl,
   (analyze_recur_legality (analyze example_runtime 1) (.symbol ⟨"", "recur"⟩)
      [.symbol ⟨"", "n"⟩] 2 .return_statement (some 1) true recur_example).2 1
      [.local_reference ⟨.expression, 2, true⟩ ⟨"", "n"⟩ ⟨2, 0⟩]
      { recur_example with
        frames :=
          [ ⟨frame_type.root, none, [], [], []⟩,
            ⟨frame_type.fn, some 0, [], [], []⟩,
            ⟨frame_type.fn, some 1, [⟨⟨"", "n"⟩, none, none, true, true, false, []⟩], [],
              []⟩ ] }
      rfl rfl rfl ⟨_, _, _, rfl, rfl, rfl, rfl⟩⟩

/-- C17: recur effect. Every successful `analyze_recur` on `(recur arg ...)` had a function
context; its arguments were analysed in source order, each in expression position with
`needs_box = true`; the recur node holds exactly those expressions, `param_count` of them;
and the function context (a valid handle) has `is_tail_recursive = true` afterwards. When an
argument fails to analyse, after the ones before it succeeded, that error is returned with
the state that argument's analysis left: this call does not set `is_tail_recursive`. -/
theorem analyze_recur_effect {ρ : Type} (analyze : analyzer ρ) (head : object)
    (args : List object) (current_frame : Nat) (expr_type : expression_type)
    (fn_ctx : Option Nat) (needs_box : Bool) (s : processor ρ) :
    (∀ e s', analyze_recur analyze (head :: args) current_frame expr_type fn_ctx needs_box s
          = .done (.ok e) s' →
        ∃ c es s1, fn_ctx = some c
          ∧ analysed_in_order analyze current_frame .expression (some c) true args s es s1
          ∧ e = .recur ⟨expr_type, current_frame, expression_base.default_needs_box⟩ args es
          ∧ es.length = (s.fn_ctx c).param_count
          ∧ s'.frames = s1.frames ∧ s'.vars = s1.vars ∧ s'.rt_ctx = s1.rt_ctx
          ∧ (c < s1.fn_ctxs.length → (s'.fn_ctx c).is_tail_recursive = true))
    ∧ (∀ c pre bad post es s1 s2 err, fn_ctx = some c → expr_type = .return_statement →
        (s.fn_ctx c).param_count = args.length → args = pre ++ bad :: post →
        analysed_in_order analyze current_frame .expression (some c) true pre s es s1 →
        analyze bad current_frame .expression (some c) true s1 = .done (.error err) s2 →
        analyze_recur analyze (head :: args) current_frame expr_type fn_ctx needs_box s
          = .done (.error err) s2) := by
  constructor
  · intro e s' hok
    cases fn_ctx with
    | none => simp [analyze_recur] at hok
    | some c =>
      by_cases het : expr_type = .return_statement
      · by_cases hcount : (s.fn_ctx c).param_count = args.length
        · simp only [analyze_recur, het, List.length_cons, size_minus_one_succ, hcount,
            List.tail_cons, ne_eq, not_true_eq_false, if_false] at hok
          cases hargs : analyze_args analyze current_frame (some c) true args [] s with
          | out_of_budget => simp [hargs, outcome.and_then] at hok
          | aborted => simp [hargs, outcome.and_then] at hok
          | done r s1 =>
            cases r with
            | error err => simp [hargs, outcome.and_then] at hok
            | ok es =>
              simp only [hargs, outcome.and_then, outcome.done.injEq, Except.ok.injEq] at hok
              obtain ⟨he, hs⟩ := hok
              obtain ⟨es', hes, hchain⟩ :=
                (analyze_args_ok_iff analyze current_frame (some c) true args [] es s s1).mp hargs
              simp only [List.nil_append] at hes
              subst hes
              refine ⟨c, es, s1, rfl, hchain, ?_, ?_, ?_, ?_, ?_, ?_⟩
              · rw [← he, het]
              · rw [analysed_in_order_length analyze current_frame .expression (some c) true
                  args s s1 es hchain, hcount]
              · rw [← hs]
              · rw [← hs]
              · rw [← hs]
              · intro hlt
                rw [← hs]
                have hget : s1.fn_ctxs[c]? = some s1.fn_ctxs[c] := List.getElem?_eq_getElem hlt
                simp only [processor.fn_ctx, hget, List.getD_eq_getElem?_getD]
                simp [List.getElem?_set_self hlt]
        · simp [analyze_recur, het, size_minus_one_succ, hcount] at hok
      · simp [analyze_recur, het] at hok
  · intro c pre bad post es s1 s2 err hc het hcount hsplit hpre hbad
    subst hc het hsplit
    have hrun := analyze_args_error analyze current_frame (some c) true pre post bad [] es s s1
      s2 err hpre hbad
    simp only [analyze_recur, List.length_cons, size_minus_one_succ, hcount, List.tail_cons,
      hrun, outcome.and_then, ne_eq, not_true_eq_false, if_false]

/-- Witness for C17: `(recur n)` in return position inside a function of one parameter sets
`is_tail_recursive` on that function's context. -/
theorem analyze_recur_effect_witness :
    analyze_recur (analyze example_runtime 1) [.symbol ⟨"", "recur"⟩, .symbol ⟨"", "n"⟩] 2
        .return_statement (some 1) true recur_example
      = .done
          (.ok (.recur ⟨.return_statement, 2, true⟩ [.symbol ⟨"", "n"⟩]
            [.local_reference ⟨.expression, 2, true⟩ ⟨"", "n"⟩ ⟨2, 0⟩]))
          ⟨⟨[], 2⟩,
            [ ⟨frame_type.root, none, [], [], []⟩,
              ⟨frame_type.fn, some 0, [], [], []⟩,
              ⟨frame_type.fn, some 1, [⟨⟨"", "n"⟩, none, none, true, true, false, []⟩], [],
                []⟩ ],
            [⟨0, false, false⟩, ⟨1, false, true⟩], []⟩
    ∧ ∃ c es s1, some 1 = some c
      ∧ analysed_in_order (analyze example_runtime 1) 2 .expression (some c) true
          [.symbol ⟨"", "n"⟩] recur_example es s1
      ∧ expression.recur ⟨.return_statement, 2, true⟩ [.symbol ⟨"", "n"⟩]
            [.local_reference ⟨.expression, 2, true⟩ ⟨"", "n"⟩ ⟨2, 0⟩]
          = .recur ⟨.return_statement, 2, expression_base.default_needs_box⟩
              [.symbol ⟨"", "n"⟩] es
      ∧ es.length = (recur_example.fn_ctx c).param_count :=
  ⟨rfl, by
    obtain ⟨c, es, s1, hc, hchain, he, hlen, _⟩ :=
      (analyze_recur_effect (analyze example_runtime 1) (.symbol ⟨"", "recur"⟩)
        [.symbol ⟨"", "n"⟩] 2 .return_statement (some 1) true recur_example).1
        (.recur ⟨.return_statement, 2, true⟩ [.symbol ⟨"", "n"⟩]
          [.local_reference ⟨.expression, 2, true⟩ ⟨"", "n"⟩ ⟨2, 0⟩])
        ⟨⟨[], 2⟩,
          [ ⟨frame_type.root, none, [], [], []⟩,
            ⟨frame_type.fn, some 0, [], [], []⟩,
            ⟨frame_type.fn, some 1, [⟨⟨"", "n"⟩, none, none, true, true, false, []⟩], [],
              []⟩ ],
          [⟨0, false, false⟩, ⟨1, false, true⟩], []⟩
        rfl
    exact ⟨c, es, s1, hc, hchain, he, hlen⟩⟩

/-! ## C19: `do` -/

/-- The loop of `analyze_do` on forms `init ++ [last]`, the last of which is form number
`form_count`: it succeeds exactly when `init` is analysed in order in statement position with
`needs_box = false` and then `last` in the position of the `do`, with `needs_box = false` in
statement position and the incoming `needs_box` otherwise. -/
theorem analyze_do_body_ok_iff {ρ : Type} (analyze : analyzer ρ) (current_frame : Nat)
    (expr_type : expression_type) (fn_ctx : Option Nat) (needs_box : Bool) (form_count : Nat)
    (init : List object) (last : object) (i : Nat) (ret_needs_box : Bool)
    (body : List expression) (s s' : processor ρ) (ret : Bool × List expression)
    (hcount : i + init.length + 1 = form_count) :
    analyze_do_body analyze current_frame expr_type fn_ctx needs_box form_count
        (init ++ [last]) i ret_needs_box body s = .done (.ok ret) s'
      ↔ ∃ es s1 e_last,
          analysed_in_order analyze current_frame .statement fn_ctx false init s es s1
          ∧ analyze last current_frame expr_type fn_ctx
              (if expr_type = .statement then false else needs_box) s1 = .done (.ok e_last) s'
          ∧ ret = (e_last.get_base.needs_box, body ++ es ++ [e_last]) := by
  induction init generalizing i ret_needs_box body s with
  | nil =>
    have hi : i + 1 = form_count := by simpa using hcount
    simp only [List.nil_append, analyze_do_body, hi, decide_True, if_true, analysed_in_order]
    cases hlast : analyze last current_frame expr_type fn_ctx
        (if expr_type = .statement then false else needs_box) s with
    | out_of_budget =>
      simp only [outcome.and_then]
      constructor
      · intro h
        cases h
      · rintro ⟨es, s1, e_last, ⟨_, rfl⟩, h, _⟩
        rw [hlast] at h
        cases h
    | aborted =>
      simp only [outcome.and_then]
      constructor
      · intro h
        cases h
      · rintro ⟨es, s1, e_last, ⟨_, rfl⟩, h, _⟩
        rw [hlast] at h
        cases h
    | done r s2 =>
      cases r with
      | error err =>
        simp only [outcome.and_then]
        constructor
        · intro h
          cases h
        · rintro ⟨es, s1, e_last, ⟨_, rfl⟩, h, _⟩
          rw [hlast] at h
          cases h
      | ok e =>
        simp only [outcome.and_then, analyze_do_body, outcome.done.injEq, Except.ok.injEq]
        constructor
        · rintro ⟨rfl, rfl⟩
          exact ⟨[], s, e, ⟨rfl, rfl⟩, by rw [hlast], by simp⟩
        · rintro ⟨es, s1, e_last, ⟨rfl, rfl⟩, h, rfl⟩
          rw [hlast] at h
          simp only [outcome.done.injEq, Except.ok.injEq] at h
          obtain ⟨rfl, rfl⟩ := h
          simp
  | cons x rest ih =>
    have hi : ¬ (i + 1 = form_count) := by
      simp only [List.length_cons] at hcount
      omega
    have hnext : (i + 1) + rest.length + 1 = form_count := by
      simp only [List.length_cons] at hcount
      omega
    simp only [List.cons_append, analyze_do_body, hi, decide_False, Bool.false_eq_true,
      if_false, if_true, analysed_in_order, List.append_eq]
    cases hx : analyze x current_frame .statement fn_ctx false s with
    | out_of_budget =>
      simp only [outcome.and_then]
      constructor
      · intro h
        cases h
      · rintro ⟨es, s1, e_last, ⟨e, es', s2, h, _⟩, _⟩
        cases h
    | aborted =>
      simp only [outcome.and_then]
      constructor
      · intro h
        cases h
      · rintro ⟨es, s1, e_last, ⟨e, es', s2, h, _⟩, _⟩
        cases h
    | done r s2 =>
      cases r with
      | error err =>
        simp only [outcome.and_then]
        constructor
        · intro h
          cases h
        · rintro ⟨es, s1, e_last, ⟨e, es', s2, h, _⟩, _⟩
          cases h
      | ok e =>
        simp only [outcome.and_then]
        rw [ih (i + 1) ret_needs_box (body ++ [e]) s2 hnext]
        constructor
        · rintro ⟨es, s1, e_last, hchain, hlast, rfl⟩
          exact ⟨e :: es, s1, e_last, ⟨e, es, s2, rfl, rfl, hchain⟩, hlast, by simp⟩
        · rintro ⟨es, s1, e_last, ⟨e', es', s2', h, rfl, hchain⟩, hlast, rfl⟩
          simp only [outcome.done.injEq, Except.ok.injEq] at h
          obtain ⟨rfl, rfl⟩ := h
          exact ⟨es', s1, e_last, hchain, hlast, by simp⟩

/-- C19, as the code has it: for a do form with N >= 1 body forms, in every position and for
every incoming `needs_box`, `analyze_do` succeeds exactly when the first N-1 forms are
analysed, in order, in statement position with `needs_box = false`, and then the last form
with the do's own `expr_type` and, unless that position is statement, the do's own incoming
`needs_box` (in statement position the last form is analysed with `needs_box = false`); the
do node holds the analysed forms in order and its `needs_box` equals the last analysed form's
`needs_box`. -/
theorem analyze_do_threading {ρ : Type} (analyze : analyzer ρ) (head : object)
    (init : List object) (last : object) (current_frame : Nat) (expr_type : expression_type)
    (fn_ctx : Option Nat) (needs_box : Bool) (s s' : processor ρ) (e : expression) :
    analyze_do analyze (head :: (init ++ [last])) current_frame expr_type fn_ctx needs_box s
        = .done (.ok e) s'
      ↔ ∃ es s1 e_last,
          analysed_in_order analyze current_frame .statement fn_ctx false init s es s1
          ∧ analyze last current_frame expr_type fn_ctx
              (if expr_type = .statement then false else needs_box) s1 = .done (.ok e_last) s'
          ∧ e = .do_ ⟨expr_type, current_frame, e_last.get_base.needs_box⟩ (es ++ [e_last]) := by
  have hcount : 0 + init.length + 1 = size_minus_one (head :: (init ++ [last])).length := by
    simp [size_minus_one]
  simp only [analyze_do, List.tail_cons]
  cases hbody : analyze_do_body analyze current_frame expr_type fn_ctx needs_box
      (size_minus_one (head :: (init ++ [last])).length) (init ++ [last]) 0
      expression_base.default_needs_box [] s with
  | out_of_budget =>
    simp only [outcome.and_then]
    constructor
    · intro h
      cases h
    · rintro ⟨es, s1, e_last, hchain, hlast, _⟩
      have := (analyze_do_body_ok_iff analyze current_frame expr_type fn_ctx needs_box _ init last
        0 expression_base.default_needs_box [] s s' _ hcount).mpr ⟨es, s1, e_last, hchain, hlast, rfl⟩
      rw [hbody] at this
      cases this
  | aborted =>
    simp only [outcome.and_then]
    constructor
    · intro h
      cases h
    · rintro ⟨es, s1, e_last, hchain, hlast, _⟩
      have := (analyze_do_body_ok_iff analyze current_frame expr_type fn_ctx needs_box _ init last
        0 expression_base.default_needs_box [] s s' _ hcount).mpr ⟨es, s1, e_last, hchain, hlast, rfl⟩
      rw [hbody] at this
      cases this
  | done r s2 =>
    cases r with
    | error err =>
      simp only [outcome.and_then]
      constructor
      · intro h
        cases h
      · rintro ⟨es, s1, e_last, hchain, hlast, _⟩
        have := (analyze_do_body_ok_iff analyze current_frame expr_type fn_ctx needs_box _ init
          last 0 expression_base.default_needs_box [] s s' _ hcount).mpr
          ⟨es, s1, e_last, hchain, hlast, rfl⟩
        rw [hbody] at this
        cases this
    | ok ret =>
      simp only [outcome.and_then, outcome.done.injEq, Except.ok.injEq]
      constructor
      · rintro ⟨rfl, rfl⟩
        obtain ⟨es, s1, e_last, hchain, hlast, hret⟩ :=
          (analyze_do_body_ok_iff analyze current_frame expr_type fn_ctx needs_box _ init last
            0 expression_base.default_needs_box [] s s2 ret hcount).mp hbody
        subst hret
        exact ⟨es, s1, e_last, hchain, hlast, by simp⟩
      · rintro ⟨es, s1, e_last, hchain, hlast, rfl⟩
        have := (analyze_do_body_ok_iff analyze current_frame expr_type fn_ctx needs_box _ init
          last 0 expression_base.default_needs_box [] s s' _ hcount).mpr
          ⟨es, s1, e_last, hchain, hlast, rfl⟩
        rw [hbody] at this
        simp only [outcome.done.injEq, Except.ok.injEq] at this
        obtain ⟨rfl, rfl⟩ := this
        simp

/-- Witness for C19: `(do 1 2)` in return position with an incoming `needs_box` of true: the
statement `1` is analysed unboxed, the last form `2` boxed, and the node is boxed. -/
theorem analyze_do_threading_witness :
    analyze_do (analyze example_runtime 1) [.symbol ⟨"", "do"⟩, .integer 1, .integer 2] 0
        .return_statement none true (processor.init ⟨[], 0⟩)
      = .done
          (.ok (.do_ ⟨.return_statement, 0, true⟩
            [.primitive_literal ⟨.statement, 0, false⟩ (.integer 1),
             .primitive_literal ⟨.return_statement, 0, true⟩ (.integer 2)]))
          ⟨⟨[], 0⟩, [⟨frame_type.root, none, [], [], [.integer 1, .integer 2]⟩], [], []⟩ :=
  (analyze_do_threading (analyze example_runtime 1) (.symbol ⟨"", "do"⟩) [.integer 1]
    (.integer 2) 0 .return_statement none true (processor.init ⟨[], 0⟩) _ _).mpr
    ⟨[.primitive_literal ⟨.statement, 0, false⟩ (.integer 1)],
      ⟨⟨[], 0⟩, [⟨frame_type.root, none, [], [], [.integer 1]⟩], [], []⟩,
      .primitive_literal ⟨.return_statement, 0, true⟩ (.integer 2),
      ⟨_, _, _, rfl, rfl, rfl, rfl⟩, rfl, rfl⟩

/-- Counterexample to C19 as stated: a `do` in statement position with an incoming `needs_box`
of true, as `(do 1)` is when it is a non-last body form of `(let* [] (do 1) 2)` analysed with
`needs_box = true`. Analysing the last form `1` in statement position with the incoming
`needs_box` of true would give a boxed literal, but the literal the do node holds is unboxed:
the last form was analysed with `needs_box = false`. -/
theorem analyze_do_threading_counterexample :
    analyze example_runtime 1 (.integer 1) 0 .statement none true (processor.init ⟨[], 0⟩)
      = .done (.ok (.primitive_literal ⟨.statement, 0, true⟩ (.integer 1)))
          ⟨⟨[], 0⟩, [⟨frame_type.root, none, [], [], [.integer 1]⟩], [], []⟩
    ∧ analyze_do (analyze example_runtime 1) [.symbol ⟨"", "do"⟩, .integer 1] 0 .statement none
        true (processor.init ⟨[], 0⟩)
      = .done
          (.ok (.do_ ⟨.statement, 0, false⟩
            [.primitive_literal ⟨.statement, 0, false⟩ (.integer 1)]))
          ⟨⟨[], 0⟩, [⟨frame_type.root, none, [], [], [.integer 1]⟩], [], []⟩
    ∧ analyze example_runtime 3
        (.list [.symbol ⟨"", "let*"⟩, .vector [],
          .list [.symbol ⟨"", "do"⟩, .integer 1], .integer 2])
        0 .return_statement none true (processor.init ⟨[], 0⟩)
      = .done
          (.ok (.let_ ⟨.return_statement, 1, true⟩ []
            [.do_ ⟨.statement, 1, false⟩
              [.primitive_literal ⟨.statement, 1, false⟩ (.integer 1)],
             .primitive_literal ⟨.return_statement, 1, true⟩ (.integer 2)] 1))
          ⟨⟨[], 0⟩,
            [ ⟨frame_type.root, none, [], [], [.integer 1, .integer 2]⟩,
              ⟨frame_type.let_, some 0, [], [], []⟩ ], [], []⟩ :=
  ⟨rfl, rfl, rfl⟩

/-! ## C20: shape validation of `let*` -/

/-- An `and_then` whose first step does not yield a value never yields one, and when the first
step returns an error so does the whole. -/
theorem outcome.and_then_ok {ρ α β : Type} (x : outcome ρ α) (k : α → processor ρ → outcome ρ β)
    (b : β) (s' : processor ρ) :
    x.and_then k = .done (.ok b) s' ↔ ∃ a s1, x = .done (.ok a) s1 ∧ k a s1 = .done (.ok b) s' := by
  cases x with
  | out_of_budget => simp [outcome.and_then]
  | aborted => simp [outcome.and_then]
  | done r s1 =>
    cases r with
    | error err => simp [outcome.and_then]
    | ok a =>
      simp only [outcome.and_then]
      constructor
      · intro h
        exact ⟨a, s1, rfl, h⟩
      · rintro ⟨a', s1', h1, h2⟩
        cases h1
        exact h2

/-- The binding loop of `analyze_let` on a bindings vector whose first binding with a left-hand
side that is not an unqualified symbol is `bad val`: the loop never yields pairs, and it
returns an error as soon as the analyses of the earlier initialisers return. -/
theorem analyze_let_bindings_bad_lhs {ρ : Type} (analyze : analyzer ρ) (current_frame : Nat)
    (frame : Nat) (fn_ctx : Option Nat) (goods : List (object × object)) (bad val : object)
    (rest : List object) (hgoods : ∀ p ∈ goods, is_unqualified_symbol p.1 = true)
    (hbad : is_unqualified_symbol bad = false) (pairs : List (symbol × expression))
    (s : processor ρ) :
    (∀ ps s', analyze_let_bindings analyze current_frame frame fn_ctx
        (flatten_pairs goods ++ bad :: val :: rest) pairs s ≠ .done (.ok ps) s')
    ∧ ((∀ p ∈ goods, ∀ s0, ∃ r s1, analyze p.2 frame .expression fn_ctx false s0 = .done r s1) →
        ∃ err s', analyze_let_bindings analyze current_frame frame fn_ctx
          (flatten_pairs goods ++ bad :: val :: rest) pairs s = .done (.error err) s') := by
  induction goods generalizing pairs s with
  | nil =>
    cases bad with
    | symbol sym =>
      have hns : sym.ns ≠ "" := by simpa [is_unqualified_symbol] using hbad
      simp [flatten_pairs, analyze_let_bindings, hns]
    | _ => simp [flatten_pairs, analyze_let_bindings]
  | cons p goods ih =>
    obtain ⟨lhs, init⟩ := p
    have hlhs : is_unqualified_symbol lhs = true := hgoods (lhs, init) (List.mem_cons_self _ _)
    have hrest : ∀ q ∈ goods, is_unqualified_symbol q.1 = true :=
      fun q hq => hgoods q (List.mem_cons_of_mem _ hq)
    cases lhs with
    | symbol sym =>
      have hns : sym.ns = "" := by simpa [is_unqualified_symbol] using hlhs
      simp only [flatten_pairs, List.cons_append, analyze_let_bindings, hns, ne_eq,
        not_true_eq_false, if_false]
      constructor
      · intro ps s' h
        obtain ⟨res, s1, _, hk⟩ := (outcome.and_then_ok _ _ _ _).mp h
        exact (ih hrest _ _).1 ps s' hk
      · intro htotal
        obtain ⟨r, s1, hr⟩ := htotal (.symbol sym, init) (List.mem_cons_self _ _) s
        simp only at hr
        rw [hr]
        cases r with
        | error err => exact ⟨err, s1, rfl⟩
        | ok res =>
          simp only [outcome.and_then]
          exact (ih hrest _ _).2 fun q hq s0 => htotal q (List.mem_cons_of_mem _ hq) s0
    | _ => simp [is_unqualified_symbol] at hlhs

/-- C20: `analyze_let` returns an error, for every analyzer of the sub-forms and with the
state untouched (so before any initialiser is analysed), when the form has no bindings
element, when the bindings element is not a vector, and when the bindings vector has odd
length. When some binding's left-hand side is not an unqualified symbol (`bad` is the first
such, after the well-formed pairs `goods`), `analyze_let` never succeeds, and it returns an
error as soon as the analyses of the initialisers before it return. -/
theorem analyze_let_shape {ρ : Type} (analyze : analyzer ρ) (current_frame : Nat)
    (expr_type : expression_type) (fn_ctx : Option Nat) (needs_box : Bool) (s : processor ρ) :
    (∀ o : List object, o.length < 2 →
        analyze_let analyze o current_frame expr_type fn_ctx needs_box s
          = .done (.error ⟨"invalid let: expects bindings"⟩) s)
    ∧ (∀ (head b : object) (body : List object), (∀ v, b ≠ .vector v) →
        analyze_let analyze (head :: b :: body) current_frame expr_type fn_ctx needs_box s
          = .done (.error ⟨"invalid let* bindings: must be a vector"⟩) s)
    ∧ (∀ (head : object) (bindings body : List object), bindings.length % 2 = 1 →
        analyze_let analyze (head :: .vector bindings :: body) current_frame expr_type fn_ctx
            needs_box s
          = .done (.error ⟨"invalid let* bindings: must be an even number"⟩) s)
    ∧ (∀ (head : object) (goods : List (object × object)) (bad val : object)
        (rest body : List object),
        (∀ p ∈ goods, is_unqualified_symbol p.1 = true) → is_unqualified_symbol bad = false →
        (∀ e s', analyze_let analyze
            (head :: .vector (flatten_pairs goods ++ bad :: val :: rest) :: body)
            current_frame expr_type fn_ctx needs_box s ≠ .done (.ok e) s')
        ∧ ((∀ p ∈ goods, ∀ s0, ∃ r s1,
              analyze p.2 s.frames.length .expression fn_ctx false s0 = .done r s1) →
            ∃ err s', analyze_let analyze
              (head :: .vector (flatten_pairs goods ++ bad :: val :: rest) :: body)
              current_frame expr_type fn_ctx needs_box s = .done (.error err) s')) := by
  refine ⟨?_, ?_, ?_, ?_⟩
  · intro o ho
    simp [analyze_let, ho]
  · intro head b body hb
    cases b with
    | vector v => exact absurd rfl (hb v)
    | _ => simp [analyze_let]
  · intro head bindings body hodd
    simp [analyze_let, hodd]
  · intro head goods bad val rest body hgoods hbad
    have hlen : ¬ ((head :: object.vector (flatten_pairs goods ++ bad :: val :: rest)
        :: body).length < 2) := by simp
    by_cases hodd : (flatten_pairs goods ++ bad :: val :: rest).length % 2 = 1
    · simp only [analyze_let, hlen, if_false, List.tail_cons, List.head?_cons, hodd, if_true]
      exact ⟨fun e s' h => (by cases h), fun _ => ⟨_, _, rfl⟩⟩
    · have hloop := analyze_let_bindings_bad_lhs analyze current_frame s.frames.length fn_ctx
        goods bad val rest hgoods hbad []
        (new_frame s frame_type.let_ current_frame).2
      simp only [analyze_let, hlen, if_false, List.tail_cons, List.head?_cons, hodd, new_frame]
        at hloop ⊢
      constructor
      · intro e s' h
        obtain ⟨ps, s1, hps, _⟩ := (outcome.and_then_ok _ _ _ _).mp h
        exact hloop.1 ps s1 hps
      · intro htotal
        obtain ⟨err, s', h⟩ := hloop.2 htotal
        exact ⟨err, s', by rw [h]; rfl⟩

/-- Witness for C20: in `(let* [a 1 :k 2] a)` the second left-hand side is a keyword; the
initialiser `1` is analysed and the form is rejected. -/
theorem analyze_let_shape_witness :
    ∃ err s', analyze_let (analyze example_runtime 1)
      [.symbol ⟨"", "let*"⟩,
        .vector [.symbol ⟨"", "a"⟩, .integer 1, .keyword "" "k", .integer 2],
        .symbol ⟨"", "a"⟩]
      0 .expression none true (processor.init ⟨[], 0⟩) = .done (.error err) s' :=
  (analyze_let_shape (analyze example_runtime 1) 0 .expression none true
      (processor.init ⟨[], 0⟩)).2.2.2
    (.symbol ⟨"", "let*"⟩) [(.symbol ⟨"", "a"⟩, .integer 1)] (.keyword "" "k")
    (.integer 2) [] [.symbol ⟨"", "a"⟩]
    (by intro p hp; simp only [List.mem_singleton] at hp; subst hp; rfl) rfl
    |>.2 (by
      intro p hp s0
      simp only [List.mem_singleton] at hp
      subst hp
      exact ⟨_, _, rfl⟩)

/-! ## C18: tail boxing -/

mutual
/-- After the boxing step an expression and every tail position below it are boxed. -/
theorem tail_boxed_force_boxed_expr : ∀ e : expression, tail_boxed (force_boxed_expr e) = true
  | .primitive_literal _ _ => by simp [force_boxed_expr, tail_boxed]
  | .local_reference _ _ _ => by simp [force_boxed_expr, tail_boxed]
  | .var_deref _ _ _ => by simp [force_boxed_expr, tail_boxed]
  | .var_ref _ _ _ => by simp [force_boxed_expr, tail_boxed]
  | .def_ _ _ _ => by simp [force_boxed_expr, tail_boxed]
  | .if_ _ _ t e => by
    simp [force_boxed_expr, tail_boxed, tail_boxed_force_boxed_expr t,
      tail_boxed_force_boxed_option e]
  | .let_ _ _ body _ => by simp [force_boxed_expr, tail_boxed, tail_boxed_force_boxed_tail body]
  | .do_ _ body => by simp [force_boxed_expr, tail_boxed, tail_boxed_force_boxed_tail body]
  | .function _ _ _ => by simp [force_boxed_expr, tail_boxed]
  | .recur _ _ _ => by simp [force_boxed_expr, tail_boxed]
  | .call _ _ _ _ => by simp [force_boxed_expr, tail_boxed]
  | .vector _ _ => by simp [force_boxed_expr, tail_boxed]
  | .map _ _ => by simp [force_boxed_expr, tail_boxed]
  | .native_raw _ _ => by simp [force_boxed_expr, tail_boxed]
/-- After the boxing step an optional `else` branch is boxed. -/
theorem tail_boxed_force_boxed_option :
    ∀ o : Option expression, tail_boxed_option (force_boxed_option o) = true
  | none => by simp [force_boxed_option, tail_boxed_option]
  | some e => by simp [force_boxed_option, tail_boxed_option, tail_boxed_force_boxed_expr e]
/-- After the boxing step the last form of a body is boxed. -/
theorem tail_boxed_force_boxed_tail :
    ∀ l : List expression, tail_boxed_last (force_boxed_tail l) = true
  | [] => by simp [force_boxed_tail, tail_boxed_last]
  | [e] => by simp [force_boxed_tail, tail_boxed_last, tail_boxed_force_boxed_expr e]
  | e :: e2 :: es => by
    have ih := tail_boxed_force_boxed_tail (e2 :: es)
    cases hft : force_boxed_tail (e2 :: es) with
    | nil => cases es <;> simp [force_boxed_tail] at hft
    | cons x xs =>
      rw [hft] at ih
      simp [force_boxed_tail, hft, tail_boxed_last, ih]
end

/-- C18: for every arity that `analyze_fn_arity` returns, if the function context of the
arity is marked tail recursive in the resulting state, then the last form of the arity body
is boxed, and so is every tail position below it: the last form of a `do` or `let*` body and
both branches of an `if`. -/
theorem analyze_fn_arity_tail_boxed {ρ : Type} (R : runtime ρ) (analyze : analyzer ρ)
    (list : List object) (current_frame : Nat) (s s' : processor ρ) (arity : function_arity)
    (h : analyze_fn_arity R analyze list current_frame s = .done (.ok arity) s')
    (htail : (s'.fn_ctx arity.fn_ctx).is_tail_recursive = true) :
    tail_boxed_last arity.body = true := by
  unfold analyze_fn_arity at h
  cases hhead : list.head? with
  | none =>
    rw [hhead] at h
    cases h
  | some first =>
    rw [hhead] at h
    cases first with
    | vector params =>
      simp only at h
      cases hp : analyze_params R (new_frame s frame_type.fn current_frame).1 params false [] []
          (new_frame s frame_type.fn current_frame).2.frames with
      | mk r frames =>
        rw [hp] at h
        cases r with
        | error err => cases h
        | ok ret =>
          obtain ⟨is_variadic, param_symbols⟩ := ret
          simp only at h
          split at h
          · cases h
          · obtain ⟨body, s2, _, hk⟩ := (outcome.and_then_ok _ _ _ _).mp h
            simp only [outcome.done.injEq, Except.ok.injEq] at hk
            obtain ⟨harity, rfl⟩ := hk
            subst harity
            split at htail
            · rename_i hc
              simp [hc, force_boxed, function_arity.body, tail_boxed_force_boxed_tail]
            · rename_i hnot
              simp only [function_arity.fn_ctx] at htail
              exact absurd htail hnot
    | _ => cases h

/-- Witness for C18: the arity `([n] (if n (recur n) 1))`: the `recur` marks the function
context tail recursive, and the `if`, the `recur` and the literal `1` are boxed. -/
theorem analyze_fn_arity_tail_boxed_witness :
    tail_boxed_last (function_arity.body
      (function_arity.mk [⟨"", "n"⟩] ⟨.return_statement, 1, true⟩
        [.if_ ⟨.return_statement, 1, true⟩
          (.local_reference ⟨.expression, 1, true⟩ ⟨"", "n"⟩ ⟨1, 0⟩)
          (.recur ⟨.return_statement, 1, true⟩ [.symbol ⟨"", "n"⟩]
            [.local_reference ⟨.expression, 1, true⟩ ⟨"", "n"⟩ ⟨1, 0⟩])
          (some (.primitive_literal ⟨.return_statement, 1, true⟩ (.integer 1)))]
        1 0)) = true :=
  analyze_fn_arity_tail_boxed example_runtime (analyze example_runtime 3)
    [.vector [.symbol ⟨"", "n"⟩],
      .list [.symbol ⟨"", "if"⟩, .symbol ⟨"", "n"⟩,
        .list [.symbol ⟨"", "recur"⟩, .symbol ⟨"", "n"⟩], .integer 1]]
    0 (processor.init ⟨[], 0⟩)
    ⟨⟨[], 0⟩,
      [ ⟨frame_type.root, none, [], [], []⟩,
        ⟨frame_type.fn, some 0, [⟨⟨"", "n"⟩, none, none, true, true, false, []⟩], [],
          [.integer 1]⟩ ],
      [⟨1, false, true⟩], []⟩
    _ rfl rfl

/-! ## C13: arity uniqueness -/

/-- The uniqueness loop finds no duplicate exactly when the pairs are pairwise distinct. -/
theorem has_duplicate_arity_false_iff (l : List (Nat × Bool)) :
    has_duplicate_arity l = false ↔ l.Nodup := by
  induction l with
  | nil => simp [has_duplicate_arity]
  | cons base others ih =>
    simp only [has_duplicate_arity, Bool.or_eq_false_iff, ih, List.nodup_cons,
      and_congr_left_iff]
    intro _
    rw [← Bool.not_eq_true, List.any_eq_true]
    constructor
    · intro h hmem
      exact h ⟨base, hmem, by simp⟩
    · rintro h ⟨other, hmem, heq⟩
      have : base = other := by
        simp only [Bool.and_eq_true, decide_eq_true_eq] at heq
        exact Prod.ext heq.1 heq.2
      exact h (this ▸ hmem)

/-- What a successful `finish_fn` has checked and built. -/
theorem finish_fn_ok {ρ : Type} (R : runtime ρ) (current_frame : Nat)
    (expr_type : expression_type) (name : String) (arities : List function_arity)
    (s s' : processor ρ) (e : expression)
    (h : finish_fn R current_frame expr_type name arities s = .done (.ok e) s') :
    e = .function ⟨expr_type, current_frame, expression_base.default_needs_box⟩ name arities
    ∧ s'.fn_ctxs = s.fn_ctxs
    ∧ found_variadic s arities ≤ 1
    ∧ has_duplicate_arity
        (arities.map fun a => (a.params.length, (s.fn_ctx a.fn_ctx).is_variadic)) = false := by
  unfold finish_fn at h
  split at h
  · cases h
  · rename_i hv
    split at h
    · cases h
    · split at h
      · cases h
      · rename_i hd
        simp only at h
        split at h
        · simp only [outcome.done.injEq, Except.ok.injEq] at h
          obtain ⟨rfl, rfl⟩ := h
          exact ⟨rfl, rfl, by omega, by simpa using hd⟩
        · simp only [outcome.done.injEq, Except.ok.injEq] at h
          obtain ⟨rfl, rfl⟩ := h
          exact ⟨rfl, rfl, by omega, by simpa using hd⟩

/-- A successful `analyze_fn` ends in a successful `finish_fn` on the analysed arities. -/
theorem analyze_fn_ok_finish {ρ : Type} (R : runtime ρ) (analyze : analyzer ρ)
    (full_list : List object) (current_frame : Nat) (expr_type : expression_type)
    (fn_ctx : Option Nat) (needs_box : Bool) (s s' : processor ρ) (e : expression)
    (h : analyze_fn R analyze full_list current_frame expr_type fn_ctx needs_box s
      = .done (.ok e) s') :
    ∃ name arities s2, finish_fn R current_frame expr_type name arities s2 = .done (.ok e) s' := by
  simp only [analyze_fn] at h
  split at h
  · cases h
  · split at h
    · cases h
    · split at h
      · cases h
      · obtain ⟨arities, s2, _, hk⟩ := (outcome.and_then_ok _ _ _ _).mp h
        exact ⟨_, arities, s2, hk⟩

/-- When two of the analysed arities agree on the number of parameters and on being variadic,
`finish_fn` returns an error. -/
theorem finish_fn_duplicate {ρ : Type} (R : runtime ρ) (current_frame : Nat)
    (expr_type : expression_type) (name : String) (arities : List function_arity)
    (s : processor ρ)
    (hdup : ¬ (arities.map fun a => (a.params.length, (s.fn_ctx a.fn_ctx).is_variadic)).Nodup) :
    ∃ err, finish_fn R current_frame expr_type name arities s = .done (.error err) s := by
  have hd : has_duplicate_arity
      (arities.map fun a => (a.params.length, (s.fn_ctx a.fn_ctx).is_variadic)) = true := by
    rw [← Bool.not_eq_false]
    exact fun h => hdup ((has_duplicate_arity_false_iff _).mp h)
  unfold finish_fn
  split
  · exact ⟨_, rfl⟩
  · split
    · exact ⟨_, rfl⟩
    · exact ⟨_, rfl⟩

/-- C13: every fn node that `analyze_fn` returns successfully has arities that are pairwise
distinct in (number of parameters, is_variadic), the pair that the code compares, and at most
one of them is variadic. And a multi-arity `fn*` form whose arities are all analysed but two
of which agree on both is rejected with an error. -/
theorem analyze_fn_arity_unique {ρ : Type} (R : runtime ρ) (analyze : analyzer ρ)
    (current_frame : Nat) (expr_type : expression_type) (fn_ctx : Option Nat)
    (needs_box : Bool) (s : processor ρ) :
    (∀ (full_list : List object) (e : expression) (s' : processor ρ),
      analyze_fn R analyze full_list current_frame expr_type fn_ctx needs_box s
        = .done (.ok e) s' →
      ∃ name arities,
        e = .function ⟨expr_type, current_frame, expression_base.default_needs_box⟩ name arities
        ∧ (arities.map fun a => (a.params.length, (s'.fn_ctx a.fn_ctx).is_variadic)).Nodup
        ∧ (arities.filter fun a => (s'.fn_ctx a.fn_ctx).is_variadic).length ≤ 1)
    ∧ (∀ (head : object) (first : List object) (rest : List object)
        (arities : List function_arity) (s2 : processor ρ),
      analyze_fn_arities R analyze current_frame (.list first :: rest) []
          { s with rt_ctx := (R.unique_string s.rt_ctx "fn").2 } = .done (.ok arities) s2 →
      ¬ (arities.map fun a => (a.params.length, (s2.fn_ctx a.fn_ctx).is_variadic)).Nodup →
      ∃ err, analyze_fn R analyze (head :: .list first :: rest) current_frame expr_type fn_ctx
        needs_box s = .done (.error err) s2) := by
  constructor
  · intro full_list e s' h
    obtain ⟨name, arities, s2, hfin⟩ := analyze_fn_ok_finish R analyze full_list current_frame
      expr_type fn_ctx needs_box s s' e h
    obtain ⟨he, hctx, hvar, hdup⟩ := finish_fn_ok R current_frame expr_type name arities s2 s' e hfin
    have hsame : ∀ c, s'.fn_ctx c = s2.fn_ctx c := fun c => by simp [processor.fn_ctx, hctx]
    refine ⟨name, arities, he, ?_, ?_⟩
    · simp only [hsame]
      exact (has_duplicate_arity_false_iff _).mp hdup
    · simp only [hsame]
      exact hvar
  · intro head first rest arities s2 harities hdup
    obtain ⟨err, herr⟩ := finish_fn_duplicate R current_frame expr_type
      (R.munge (R.unique_string s.rt_ctx "fn").1) arities s2 hdup
    refine ⟨err, ?_⟩
    simp only [analyze_fn, List.length_cons, List.tail_cons, List.head?_cons]
    rw [if_neg (by omega)]
    simp only [harities, outcome.and_then, herr]

/-- Witness for C13: `(fn* ([a]) ([a & r]))` is accepted: its arities have 1 and 2 parameters
and only the second is variadic. -/
theorem analyze_fn_arity_unique_witness :
    ∃ name arities,
      expression.function ⟨.expression, 0, true⟩ "fn_0"
          [function_arity.mk [⟨"", "a"⟩] ⟨.return_statement, 1, true⟩ [] 1 0,
           function_arity.mk [⟨"", "a"⟩, ⟨"", "r"⟩] ⟨.return_statement, 2, true⟩ [] 2 1]
        = .function ⟨.expression, 0, expression_base.default_needs_box⟩ name arities
      ∧ (arities.map fun a =>
          (a.params.length,
            ((⟨⟨[], 1⟩,
              [ ⟨frame_type.root, none, [], [], []⟩,
                ⟨frame_type.fn, some 0, [⟨⟨"", "a"⟩, none, none, true, false, false, []⟩], [], []⟩,
                ⟨frame_type.fn, some 0,
                  [⟨⟨"", "a"⟩, none, none, true, false, false, []⟩,
                   ⟨⟨"", "r"⟩, none, none, true, false, false, []⟩], [], []⟩ ],
              [⟨1, false, false⟩, ⟨2, true, false⟩], []⟩ : processor example_state).fn_ctx
              a.fn_ctx).is_variadic)).Nodup
      ∧ (arities.filter fun a =>
          ((⟨⟨[], 1⟩,
              [ ⟨frame_type.root, none, [], [], []⟩,
                ⟨frame_type.fn, some 0, [⟨⟨"", "a"⟩, none, none, true, false, false, []⟩], [], []⟩,
                ⟨frame_type.fn, some 0,
                  [⟨⟨"", "a"⟩, none, none, true, false, false, []⟩,
                   ⟨⟨"", "r"⟩, none, none, true, false, false, []⟩], [], []⟩ ],
              [⟨1, false, false⟩, ⟨2, true, false⟩], []⟩ : processor example_state).fn_ctx
              a.fn_ctx).is_variadic).length ≤ 1 :=
  (analyze_fn_arity_unique example_runtime (analyze example_runtime 2) 0 .expression none true
      (processor.init ⟨[], 0⟩)).1
    [.symbol ⟨"", "fn*"⟩, .list [.vector [.symbol ⟨"", "a"⟩]],
      .list [.vector [.symbol ⟨"", "a"⟩, .symbol ⟨"", "&"⟩, .symbol ⟨"", "r"⟩]]]
    _ _ rfl

/-! ## C11 and C14: the parameter vector of an arity -/

/-- Erasing the name of a parameter whose name is already empty changes nothing. -/
theorem erase_param_name_empty (x : symbol) (hx : x.name = "") (l : List symbol) :
    erase_param_name x l = l := by
  induction l with
  | nil => rfl
  | cons p ps ih =>
    simp only [erase_param_name]
    split
    · rename_i h
      subst h
      cases p
      simp only at hx
      subst hx
      rfl
    · rw [ih]

/-- Appending a symbol that does not occur yet, or one without a name, erases nothing. -/
theorem shadowed_append_fresh (x : symbol) (p0 : List symbol) (hx : x ∉ p0 ∨ x.name = "") :
    shadowed (p0 ++ [x]) = shadowed p0 ++ [x] := by
  induction p0 with
  | nil => simp [shadowed]
  | cons p ps ih =>
    have hps : x ∉ ps ∨ x.name = "" := hx.imp (fun h hmem => h (List.mem_cons_of_mem _ hmem)) id
    have hhead : (if p ∈ ps ++ [x] then ({ p with name := "" } : symbol) else p)
        = if p ∈ ps then ({ p with name := "" } : symbol) else p := by
      by_cases hp : p ∈ ps
      · simp [hp]
      · by_cases hpx : p = x
        · subst hpx
          rcases hx with hx | hx
          · exact absurd (List.mem_cons_self _ _) hx
          · cases p
            simp only at hx
            subst hx
            simp
        · simp [hp, hpx]
    rw [List.cons_append, shadowed, shadowed, ih hps, hhead, List.cons_append]

/-- Appending a symbol that occurs already erases the name of its last occurrence so far,
which is the first entry of the list still equal to it. -/
theorem shadowed_append_seen (x : symbol) (p0 : List symbol) (hx : x ∈ p0) :
    shadowed (p0 ++ [x]) = erase_param_name x (shadowed p0) ++ [x] := by
  by_cases hname : x.name = ""
  · rw [erase_param_name_empty x hname, shadowed_append_fresh x p0 (Or.inr hname)]
  · induction p0 with
    | nil => simp at hx
    | cons p ps ih =>
      by_cases hpx : p = x
      · subst hpx
        have herased : ({ p with name := "" } : symbol) ≠ p := by
          intro h
          apply hname
          rw [← h]
        by_cases hps : p ∈ ps
        · simp [shadowed, hps, erase_param_name, herased, ih hps]
        · simp [shadowed, hps, erase_param_name, shadowed_append_fresh p ps (Or.inl hps)]
      · have hps : x ∈ ps := by
          rcases List.mem_cons.mp hx with h | h
          · exact absurd h.symm hpx
          · exact h
        have hhead : (if p ∈ ps then ({ p with name := "" } : symbol) else p) ≠ x := by
          split
          · intro h
            apply hname
            rw [← h]
          · exact hpx
        have hmem : (if p ∈ ps ++ [x] then ({ p with name := "" } : symbol) else p)
            = if p ∈ ps then ({ p with name := "" } : symbol) else p := by
          simp [hpx]
        rw [List.cons_append, shadowed, shadowed, ih hps, hmem, erase_param_name, if_neg hhead,
          List.cons_append]

/-- A named entry of the shadowed list is a symbol of the original list. -/
theorem mem_shadowed (x : symbol) (hx : x.name ≠ "") (l : List symbol) (h : x ∈ shadowed l) :
    x ∈ l := by
  induction l with
  | nil => simp [shadowed] at h
  | cons p ps ih =>
    simp only [shadowed, List.mem_cons] at h
    rcases h with h | h
    · split at h
      · exact absurd (by rw [h]) hx
      · exact List.mem_cons.mpr (Or.inl h)
    · exact List.mem_cons_of_mem _ (ih h)

/-- The shadowed list keeps one entry per symbol. -/
theorem shadowed_length (l : List symbol) : (shadowed l).length = l.length := by
  induction l with
  | nil => rfl
  | cons p ps ih => simp [shadowed, ih]

/-- The non-empty names of the shadowed list of unqualified symbols are pairwise distinct. -/
theorem shadowed_names_nodup (l : List symbol) (hns : ∀ p ∈ l, p.ns = "") :
    (((shadowed l).map fun p => p.name).filter fun n => n != "").Nodup := by
  induction l with
  | nil => simp [shadowed]
  | cons p ps ih =>
    have ih := ih fun q hq => hns q (List.mem_cons_of_mem _ hq)
    simp only [shadowed, List.map_cons]
    by_cases hp : p ∈ ps
    · simpa [hp] using ih
    · by_cases hname : p.name = ""
      · simpa [hp, hname] using ih
      · simp only [hp, if_false, List.filter_cons, bne_iff_ne, ne_eq, hname, not_false_eq_true,
          decide_True, if_true, List.nodup_cons, ih, and_true]
        intro hmem
        obtain ⟨n, hn, _⟩ := List.mem_filter.mp hmem |>.imp_left List.mem_map.mp |>.1 |> fun h =>
          (⟨_, h.choose_spec.1, h.choose_spec.2⟩ : ∃ q, q ∈ shadowed ps ∧ q.name = p.name)
        rename_i hqname
        have hq : n ∈ ps := mem_shadowed n (by rw [hqname]; exact hname) ps hn
        have hqns : n.ns = "" := hns n (List.mem_cons_of_mem _ hq)
        have hpns : p.ns = "" := hns p (List.mem_cons_self _ _)
        have : n = p := by
          cases n
          cases p
          simp only at hqname hqns hpns
          subst hqname hqns hpns
          rfl
        exact hp (this ▸ hq)

/-- An unqualified symbol named `&` is the variadic marker. -/
theorem eq_variadic_marker (x : symbol) (hns : x.ns = "") (hname : x.name = "&") :
    x = variadic_marker := by
  cases x
  simp only at hns hname
  subst hns hname
  rfl

/-- The parameter loop over a prefix of unqualified symbols other than `&`: it keeps
`is_variadic`, and the parameters collected so far are the shadowed list of the symbols seen
so far. -/
theorem analyze_params_prefix {ρ : Type} (R : runtime ρ) (frame : Nat) (pre : List symbol)
    (tl : List object) (is_variadic : Bool)
    (hpre : ∀ x ∈ pre, x.ns = "" ∧ x.name ≠ "&") (p0 uniq : List symbol)
    (frames : List local_frame) (huniq : ∀ x, x ∈ uniq ↔ x ∈ p0) :
    ∃ uniq' frames', (∀ x, x ∈ uniq' ↔ x ∈ p0 ++ pre)
      ∧ analyze_params R frame (pre.map .symbol ++ tl) is_variadic (shadowed p0) uniq frames
        = analyze_params R frame tl is_variadic (shadowed (p0 ++ pre)) uniq' frames' := by
  induction pre generalizing p0 uniq frames with
  | nil => exact ⟨uniq, frames, by simpa using huniq, by simp⟩
  | cons x pre ih =>
    obtain ⟨hns, hname⟩ := hpre x (List.mem_cons_self _ _)
    have hrest : ∀ y ∈ pre, y.ns = "" ∧ y.name ≠ "&" :=
      fun y hy => hpre y (List.mem_cons_of_mem _ hy)
    have hassoc : p0 ++ x :: pre = (p0 ++ [x]) ++ pre := by simp
    simp only [List.map_cons, List.cons_append, analyze_params, hns, ne_eq, not_true_eq_false,
      if_false, hname]
    by_cases hc : uniq.contains x = true
    · have hx : x ∈ p0 := (huniq x).mp (by simpa using hc)
      have huniq' : ∀ y, y ∈ uniq ↔ y ∈ p0 ++ [x] := by
        intro y
        rw [huniq y, List.mem_append, List.mem_singleton]
        constructor
        · exact Or.inl
        · rintro (h | h)
          · exact h
          · exact h ▸ hx
      rw [if_pos hc, ← shadowed_append_seen x p0 hx, hassoc]
      exact ih hrest (p0 ++ [x]) uniq _ huniq'
    · have hx : x ∉ p0 := fun h => hc (by simpa using (huniq x).mpr h)
      have huniq' : ∀ y, y ∈ x :: uniq ↔ y ∈ p0 ++ [x] := by
        intro y
        rw [List.mem_cons, huniq y, List.mem_append, List.mem_singleton, or_comm]
      rw [if_neg hc, ← shadowed_append_fresh x p0 (Or.inl hx), hassoc]
      exact ih hrest (p0 ++ [x]) (x :: uniq) _ huniq'

/-- The rule for `&` in structural form: the vector is free of `&`, or it ends in `& last`
with no other `&`. -/
theorem marker_well_placed_iff (syms : List symbol) :
    marker_well_placed syms = true
      ↔ variadic_marker ∉ syms
        ∨ ∃ pre last, syms = pre ++ [variadic_marker, last] ∧ variadic_marker ∉ pre
            ∧ last ≠ variadic_marker := by
  simp only [marker_well_placed, Bool.or_eq_true, decide_eq_true_eq, Bool.and_eq_true,
    List.count_eq_zero, beq_iff_eq]
  apply or_congr Iff.rfl
  constructor
  · rintro ⟨hcount, hrev⟩
    have hsyms : syms = syms.reverse.reverse := (List.reverse_reverse syms).symm
    cases hr : syms.reverse with
    | nil => simp [hr] at hrev
    | cons last r =>
      cases r with
      | nil => simp [hr] at hrev
      | cons m r =>
        rw [hr] at hrev hsyms
        simp only [List.get?_cons_succ, List.get?_cons_zero, Option.some.injEq] at hrev
        subst hrev
        have hform : syms = r.reverse ++ [variadic_marker, last] := by
          rw [hsyms]
          simp
        refine ⟨r.reverse, last, hform, ?_, ?_⟩
        · rw [hform] at hcount
          simp only [List.count_append, List.count_cons_self, List.count_cons, List.count_nil] at hcount
          apply List.count_eq_zero.mp
          omega
        · rw [hform] at hcount
          simp only [List.count_append, List.count_cons_self, List.count_cons, List.count_nil] at hcount
          intro h
          subst h
          simp at hcount
  · rintro ⟨pre, last, rfl, hpre, hlast⟩
    constructor
    · have h0 : List.count variadic_marker pre = 0 := List.count_eq_zero.mpr hpre
      have hl : (last == variadic_marker) = false := by simpa using hlast
      simp [List.count_append, List.count_cons, h0, hl]
    · simp

/-- The split of a list at the first occurrence of an element is unique. -/
theorem first_occurrence_unique (a : symbol) (pre pre' tl tl' : List symbol)
    (h : pre ++ a :: tl = pre' ++ a :: tl') (hp : a ∉ pre) (hp' : a ∉ pre') :
    pre = pre' ∧ tl = tl' := by
  induction pre generalizing pre' with
  | nil =>
    cases pre' with
    | nil => simpa using h
    | cons b pre' =>
      simp only [List.nil_append, List.cons_append, List.cons.injEq] at h
      exact absurd (h.1 ▸ List.mem_cons_self _ _) hp'
  | cons b pre ih =>
    cases pre' with
    | nil =>
      simp only [List.nil_append, List.cons_append, List.cons.injEq] at h
      exact absurd (h.1 ▸ List.mem_cons_self _ _) hp
    | cons c pre' =>
      simp only [List.cons_append, List.cons.injEq] at h
      obtain ⟨hpre, htl⟩ := ih pre' h.2 (fun hm => hp (List.mem_cons_of_mem _ hm))
        (fun hm => hp' (List.mem_cons_of_mem _ hm))
      exact ⟨by rw [h.1, hpre], htl⟩

/-- The first occurrence of an element of a list. -/
theorem first_occurrence (a : symbol) (l : List symbol) (h : a ∈ l) :
    ∃ pre tl, l = pre ++ a :: tl ∧ a ∉ pre := by
  induction l with
  | nil => simp at h
  | cons b l ih =>
    by_cases hb : b = a
    · exact ⟨[], l, by simp [hb], by simp⟩
    · have hl : a ∈ l := by
        rcases List.mem_cons.mp h with h | h
        · exact absurd h.symm hb
        · exact h
      obtain ⟨pre, tl, hpre, hnot⟩ := ih hl
      refine ⟨b :: pre, tl, by simp [hpre], ?_⟩
      intro hm
      rcases List.mem_cons.mp hm with hm | hm
      · exact hb hm.symm
      · exact hnot hm

/-- Without `&`, the symbols before a well placed `& last` and `last` are what is left. -/
theorem without_marker_well_placed (pre : List symbol) (last : symbol)
    (hpre : variadic_marker ∉ pre) (hlast : last ≠ variadic_marker) :
    without_marker (pre ++ [variadic_marker, last]) = pre ++ [last] := by
  have hfilter : pre.filter (fun p => p != variadic_marker) = pre := by
    apply List.filter_eq_self.mpr
    intro x hx
    simp only [bne_iff_ne, ne_eq]
    intro h
    exact hpre (h ▸ hx)
  simp [without_marker, List.filter_append, hfilter, List.filter_cons, hlast]

/-- A vector free of `&` is left as it is. -/
theorem without_marker_free (syms : List symbol) (h : variadic_marker ∉ syms) :
    without_marker syms = syms := by
  apply List.filter_eq_self.mpr
  intro x hx
  simp only [bne_iff_ne, ne_eq]
  intro hx'
  exact h (hx' ▸ hx)

/-- The parameter loop on a vector of unqualified symbols: it succeeds exactly when `&` is
well placed, and then `is_variadic` tells whether `&` occurs and the parameters are the
shadowed list of the symbols other than `&`. -/
theorem analyze_params_spec {ρ : Type} (R : runtime ρ) (frame : Nat) (syms : List symbol)
    (frames : List local_frame) (hns : ∀ p ∈ syms, p.ns = "") :
    (marker_well_placed syms = true →
      ∃ frames', analyze_params R frame (syms.map .symbol) false [] [] frames
        = (.ok (decide (variadic_marker ∈ syms), shadowed (without_marker syms)), frames'))
    ∧ (marker_well_placed syms = false →
      ∃ err frames', analyze_params R frame (syms.map .symbol) false [] [] frames
        = (.error err, frames')) := by
  have hnamed : ∀ l : List symbol, (∀ p ∈ l, p.ns = "") → variadic_marker ∉ l →
      ∀ x ∈ l, x.ns = "" ∧ x.name ≠ "&" := fun l hl hfree x hx =>
    ⟨hl x hx, fun hname => hfree (eq_variadic_marker x (hl x hx) hname ▸ hx)⟩
  by_cases hmem : variadic_marker ∈ syms
  · obtain ⟨pre, tl, rfl, hpre⟩ := first_occurrence variadic_marker syms hmem
    have hpre_ns : ∀ p ∈ pre, p.ns = "" := fun p hp => hns p (List.mem_append_left _ hp)
    obtain ⟨uniq, frames1, huniq, hrun⟩ := analyze_params_prefix R frame pre
      (.symbol variadic_marker :: tl.map .symbol) false (hnamed pre hpre_ns hpre) [] [] frames
      (fun _ => Iff.rfl)
    have hrun' : analyze_params R frame ((pre ++ variadic_marker :: tl).map .symbol) false [] []
        frames = analyze_params R frame (.symbol variadic_marker :: tl.map .symbol) false
          (shadowed pre) uniq frames1 := by
      simpa [shadowed] using hrun
    rw [hrun']
    have hbad : (¬ ∃ last, tl = [last] ∧ last ≠ variadic_marker) →
        marker_well_placed (pre ++ variadic_marker :: tl) = true → False := by
      intro hno hok
      rcases (marker_well_placed_iff _).mp hok with h | ⟨pre', last, hform, hpre', hlast⟩
      · exact h (by simp)
      · obtain ⟨_, htl⟩ := first_occurrence_unique variadic_marker pre pre' tl [last]
          (by simpa using hform) hpre hpre'
        exact hno ⟨last, htl, hlast⟩
    cases tl with
    | nil =>
      refine ⟨fun hok => (hbad (by simp) hok).elim, fun _ => ?_⟩
      simp [analyze_params, variadic_marker]
    | cons last tl =>
      cases tl with
      | cons x tl =>
        refine ⟨fun hok => (hbad (by simp) hok).elim, fun _ => ?_⟩
        simp [analyze_params, variadic_marker]
      | nil =>
        have hlast_ns : last.ns = "" := hns last (by simp)
        by_cases hlast : last = variadic_marker
        · subst hlast
          refine ⟨fun hok => (hbad (by simp) hok).elim, fun _ => ?_⟩
          simp [analyze_params, variadic_marker]
        · have hlast_name : last.name ≠ "&" := fun h =>
            hlast (eq_variadic_marker last hlast_ns h)
          obtain ⟨uniq2, frames2, _, hrun2⟩ := analyze_params_prefix R frame [last] [] true
            (by
              intro x hx
              simp only [List.mem_singleton] at hx
              subst hx
              exact ⟨hlast_ns, hlast_name⟩)
            pre uniq frames1 (by simpa using huniq)
          have hstep : analyze_params R frame [.symbol variadic_marker, .symbol last] false
              (shadowed pre) uniq frames1
              = analyze_params R frame [.symbol last] true (shadowed pre) uniq frames1 := by
            simp [analyze_params, variadic_marker]
          refine ⟨fun _ => ⟨frames2, ?_⟩, fun hbadplace => ?_⟩
          · simp only [List.map_cons, List.map_nil, List.append_nil] at hrun2 ⊢
            rw [hstep]
            rw [hrun2, without_marker_well_placed pre last hpre hlast]
            simp [analyze_params]
          · have hok : marker_well_placed (pre ++ [variadic_marker, last]) = true :=
              (marker_well_placed_iff _).mpr (Or.inr ⟨pre, last, rfl, hpre, hlast⟩)
            rw [hok] at hbadplace
            cases hbadplace
  · have hok : marker_well_placed syms = true := (marker_well_placed_iff _).mpr (Or.inl hmem)
    obtain ⟨uniq, frames1, _, hrun⟩ := analyze_params_prefix R frame syms [] false
      (hnamed syms hns hmem) [] [] frames (fun _ => Iff.rfl)
    refine ⟨fun _ => ⟨frames1, ?_⟩, fun h => ?_⟩
    · simp only [List.append_nil, List.nil_append] at hrun
      have hshadow : shadowed ([] : List symbol) = [] := rfl
      rw [hshadow] at hrun
      rw [hrun, without_marker_free syms hmem]
      simp [analyze_params, hmem]
    · rw [hok] at h
      cases h

/-- The function context pushed last is the one read through the handle it was given. -/
theorem fn_ctx_pushed {ρ : Type} (rt_ctx : ρ) (frames : List local_frame)
    (fn_ctxs : List function_context) (vars : List (var × expression)) (c : function_context) :
    processor.fn_ctx ⟨rt_ctx, frames, fn_ctxs ++ [c], vars⟩ fn_ctxs.length = c := by
  simp [processor.fn_ctx, List.getD_eq_getElem?_getD]

/-- The run of `analyze_fn_arity` on an arity with an empty body whose parameter loop
succeeds. -/
theorem analyze_fn_arity_empty_body {ρ : Type} (R : runtime ρ) (analyze : analyzer ρ)
    (params : List object) (current_frame : Nat) (s : processor ρ) (is_variadic : Bool)
    (param_symbols : List symbol) (frames : List local_frame)
    (hp : analyze_params R s.frames.length params false [] []
      (s.frames ++ [⟨frame_type.fn, some current_frame, [], [], []⟩])
        = (.ok (is_variadic, param_symbols), frames))
    (hmax : param_symbols.length ≤ R.max_params) :
    analyze_fn_arity R analyze [.vector params] current_frame s
      = .done
          (.ok (.mk param_symbols
            ⟨.return_statement, s.frames.length, expression_base.default_needs_box⟩ []
            s.frames.length s.fn_ctxs.length))
          ⟨s.rt_ctx, frames, s.fn_ctxs ++ [⟨param_symbols.length, is_variadic, false⟩],
            s.vars⟩ := by
  have hmax' : ¬ (param_symbols.length > R.max_params) := by omega
  simp only [analyze_fn_arity, List.head?_cons, new_frame, hp, hmax', if_false, List.tail_cons,
    analyze_arity_body, outcome.and_then, fn_ctx_pushed, Bool.false_eq_true]

/-- The run of `analyze_fn_arity` on an arity whose parameter loop fails. -/
theorem analyze_fn_arity_bad_params {ρ : Type} (R : runtime ρ) (analyze : analyzer ρ)
    (params body : List object) (current_frame : Nat) (s : processor ρ) (err : error)
    (frames : List local_frame)
    (hp : analyze_params R s.frames.length params false [] []
      (s.frames ++ [⟨frame_type.fn, some current_frame, [], [], []⟩]) = (.error err, frames)) :
    analyze_fn_arity R analyze (.vector params :: body) current_frame s
      = .done (.error err) ⟨s.rt_ctx, frames, s.fn_ctxs, s.vars⟩ := by
  simp only [analyze_fn_arity, List.head?_cons, new_frame, hp]

/-- What a successful `analyze_fn_arity` has done: the parameter loop succeeded within
`max_params`, its symbols are the parameters of the arity, and the body was analysed with the
fresh function context. -/
theorem analyze_fn_arity_ok_inv {ρ : Type} (R : runtime ρ) (analyze : analyzer ρ)
    (params body : List object) (current_frame : Nat) (s s' : processor ρ)
    (arity : function_arity)
    (h : analyze_fn_arity R analyze (.vector params :: body) current_frame s
      = .done (.ok arity) s') :
    ∃ is_variadic frames exprs,
      analyze_params R s.frames.length params false [] []
          (s.frames ++ [⟨frame_type.fn, some current_frame, [], [], []⟩])
        = (.ok (is_variadic, arity.params), frames)
      ∧ arity.params.length ≤ R.max_params
      ∧ arity.fn_ctx = s.fn_ctxs.length
      ∧ analyze_arity_body analyze s.frames.length s.fn_ctxs.length
          (size_minus_one (body.length + 1)) body 0 []
          ⟨s.rt_ctx, frames, s.fn_ctxs ++ [⟨arity.params.length, is_variadic, false⟩], s.vars⟩
        = .done (.ok exprs) s' := by
  simp only [analyze_fn_arity, List.head?_cons, new_frame, List.tail_cons, List.length_cons]
    at h
  cases hp : analyze_params R s.frames.length params false [] []
      (s.frames ++ [⟨frame_type.fn, some current_frame, [], [], []⟩]) with
  | mk r frames =>
    rw [hp] at h
    cases r with
    | error err => cases h
    | ok ret =>
      obtain ⟨is_variadic, param_symbols⟩ := ret
      simp only at h
      split at h
      · cases h
      · rename_i hmax
        obtain ⟨exprs, s2, hbody, hk⟩ := (outcome.and_then_ok _ _ _ _).mp h
        simp only [outcome.done.injEq, Except.ok.injEq] at hk
        obtain ⟨harity, rfl⟩ := hk
        have hparams : arity.params = param_symbols := by
          rw [← harity]
          split <;> rfl
        have hctx : arity.fn_ctx = s.fn_ctxs.length := by
          rw [← harity]
          split <;> rfl
        rw [hparams]
        exact ⟨is_variadic, frames, exprs, rfl, by omega, hctx, hbody⟩

/-- C11: for a parameter vector of unqualified symbols with at most `max_params` symbols other
than `&` and an empty arity body, `analyze_fn_arity` returns; it succeeds iff `&` does not
occur or occurs exactly once and is the second-to-last element; and on success `is_variadic`
is true iff `&` occurs, `&` is not among the parameters, and `param_count` is the number of
symbols other than `&`. -/
theorem analyze_fn_arity_variadic_marker {ρ : Type} (R : runtime ρ) (analyze : analyzer ρ)
    (syms : List symbol) (current_frame : Nat) (s : processor ρ)
    (hns : ∀ p ∈ syms, p.ns = "")
    (hmax : (without_marker syms).length ≤ R.max_params) :
    (∃ r s', analyze_fn_arity R analyze [.vector (syms.map .symbol)] current_frame s
      = .done r s')
    ∧ ((∃ arity s', analyze_fn_arity R analyze [.vector (syms.map .symbol)] current_frame s
          = .done (.ok arity) s')
        ↔ marker_well_placed syms = true)
    ∧ (∀ arity s', analyze_fn_arity R analyze [.vector (syms.map .symbol)] current_frame s
          = .done (.ok arity) s' →
        ((s'.fn_ctx arity.fn_ctx).is_variadic = true ↔ variadic_marker ∈ syms)
        ∧ variadic_marker ∉ arity.params
        ∧ (s'.fn_ctx arity.fn_ctx).param_count = (without_marker syms).length) := by
  obtain ⟨hgood, hbad⟩ := analyze_params_spec R s.frames.length syms
    (s.frames ++ [⟨frame_type.fn, some current_frame, [], [], []⟩]) hns
  by_cases hok : marker_well_placed syms = true
  · obtain ⟨frames, hp⟩ := hgood hok
    have hrun := analyze_fn_arity_empty_body R analyze (syms.map .symbol) current_frame s _ _
      frames hp (by rw [shadowed_length]; exact hmax)
    refine ⟨⟨_, _, hrun⟩, ⟨fun _ => hok, fun _ => ⟨_, _, hrun⟩⟩, ?_⟩
    intro arity s' h
    rw [hrun] at h
    simp only [outcome.done.injEq, Except.ok.injEq] at h
    obtain ⟨rfl, rfl⟩ := h
    simp only [function_arity.fn_ctx, function_arity.params, fn_ctx_pushed, decide_eq_true_eq,
      shadowed_length, true_and, and_true]
    intro hmem
    have := mem_shadowed variadic_marker (by decide) _ hmem
    simp [without_marker] at this
  · have hok' : marker_well_placed syms = false := by simpa using hok
    obtain ⟨err, frames, hp⟩ := hbad hok'
    have hrun := analyze_fn_arity_bad_params R analyze (syms.map .symbol) [] current_frame s err
      frames hp
    refine ⟨⟨_, _, hrun⟩, ⟨?_, fun h => absurd h hok⟩, ?_⟩
    · rintro ⟨arity, s', h⟩
      rw [hrun] at h
      cases h
    · intro arity s' h
      rw [hrun] at h
      cases h

/-- Witness for C11: the vector `[a & r]` has `&` as its second-to-last element and is
accepted. -/
theorem analyze_fn_arity_variadic_marker_witness :
    marker_well_placed [⟨"", "a"⟩, ⟨"", "&"⟩, ⟨"", "r"⟩] = true
    ∧ ∃ arity s', analyze_fn_arity example_runtime (analyze example_runtime 1)
        [.vector ([⟨"", "a"⟩, ⟨"", "&"⟩, ⟨"", "r"⟩].map .symbol)] 0 (processor.init ⟨[], 0⟩)
        = .done (.ok arity) s' :=
  ⟨by decide,
    (analyze_fn_arity_variadic_marker example_runtime (analyze example_runtime 1)
      [⟨"", "a"⟩, ⟨"", "&"⟩, ⟨"", "r"⟩] 0 (processor.init ⟨[], 0⟩) (by decide)
      (by decide)).2.1.mpr (by decide)⟩

/-- C14: for every parameter vector of unqualified symbols that `analyze_fn_arity` accepts,
whatever the body, the params of the arity are the symbols other than `&` in source order,
one entry each, where an occurrence is renamed to the empty name exactly when the same symbol
occurs again later (so of k >= 2 occurrences all but the last are erased and the last keeps
its name); the non-empty names in params are pairwise distinct; and `param_count` counts the
erased parameters too: the body is analysed in a state whose fresh function context, the one
of the arity, has the number of symbols other than `&` as its `param_count`, and with an empty
body that is the state returned. -/
theorem analyze_fn_arity_shadowed {ρ : Type} (R : runtime ρ) (analyze : analyzer ρ)
    (syms : List symbol) (body : List object) (current_frame : Nat) (s s' : processor ρ)
    (arity : function_arity) (hns : ∀ p ∈ syms, p.ns = "")
    (h : analyze_fn_arity R analyze (.vector (syms.map .symbol) :: body) current_frame s
      = .done (.ok arity) s') :
    arity.params = shadowed (without_marker syms)
    ∧ arity.params.length = (without_marker syms).length
    ∧ ((arity.params.map fun p => p.name).filter fun n => n != "").Nodup
    ∧ (∃ is_variadic frames exprs,
        arity.fn_ctx = s.fn_ctxs.length
        ∧ analyze_arity_body analyze s.frames.length s.fn_ctxs.length
            (size_minus_one (body.length + 1)) body 0 []
            ⟨s.rt_ctx, frames,
              s.fn_ctxs ++ [⟨(without_marker syms).length, is_variadic, false⟩], s.vars⟩
          = .done (.ok exprs) s')
    ∧ (body = [] → (s'.fn_ctx arity.fn_ctx).param_count = (without_marker syms).length) := by
  obtain ⟨is_variadic, frames, exprs, hp, _, hctx, hbody⟩ :=
    analyze_fn_arity_ok_inv R analyze (syms.map .symbol) body current_frame s s' arity h
  obtain ⟨hgood, hbad⟩ := analyze_params_spec R s.frames.length syms
    (s.frames ++ [⟨frame_type.fn, some current_frame, [], [], []⟩]) hns
  have hparams : arity.params = shadowed (without_marker syms) := by
    by_cases hok : marker_well_placed syms = true
    · obtain ⟨frames', hp'⟩ := hgood hok
      rw [hp] at hp'
      simp only [Prod.mk.injEq, Except.ok.injEq] at hp'
      exact hp'.1.2
    · obtain ⟨err, frames', hp'⟩ := hbad (by simpa using hok)
      rw [hp] at hp'
      simp at hp'
  have hwm : ∀ p ∈ without_marker syms, p.ns = "" := fun p hp =>
    hns p (List.mem_filter.mp hp).1
  refine ⟨hparams, by rw [hparams, shadowed_length], ?_, ?_, ?_⟩
  · rw [hparams]
    exact shadowed_names_nodup _ hwm
  · refine ⟨is_variadic, frames, exprs, hctx, ?_⟩
    rw [hparams, shadowed_length] at hbody
    exact hbody
  · rintro rfl
    simp only [analyze_arity_body, outcome.done.injEq, Except.ok.injEq] at hbody
    obtain ⟨_, rfl⟩ := hbody
    rw [hctx, fn_ctx_pushed, hparams, shadowed_length]

/-- Witness for C14: the arity `([a b a] a)`: the first `a` is erased, the second keeps its
name, and the body refers to the second. -/
theorem analyze_fn_arity_shadowed_witness :
    shadowed (without_marker [⟨"", "a"⟩, ⟨"", "b"⟩, ⟨"", "a"⟩])
      = [⟨"", ""⟩, ⟨"", "b"⟩, ⟨"", "a"⟩]
    ∧ function_arity.params
        (function_arity.mk [⟨"", ""⟩, ⟨"", "b"⟩, ⟨"", "a"⟩] ⟨.return_statement, 1, true⟩
          [.local_reference ⟨.return_statement, 1, true⟩ ⟨"", "a"⟩ ⟨1, 2⟩] 1 0)
      = shadowed (without_marker [⟨"", "a"⟩, ⟨"", "b"⟩, ⟨"", "a"⟩]) :=
  ⟨by decide,
    (analyze_fn_arity_shadowed example_runtime (analyze example_runtime 1)
      [⟨"", "a"⟩, ⟨"", "b"⟩, ⟨"", "a"⟩] [.symbol ⟨"", "a"⟩] 0 (processor.init ⟨[], 0⟩)
      ⟨⟨[], 0⟩,
        [ ⟨frame_type.root, none, [], [], []⟩,
          ⟨frame_type.fn, some 0,
            [ ⟨⟨"", ""⟩, none, none, true, false, false, []⟩,
              ⟨⟨"", "b"⟩, none, none, true, false, false, []⟩,
              ⟨⟨"", "a"⟩, none, none, true, true, false, []⟩ ], [], []⟩ ],
        [⟨3, false, false⟩], []⟩
      _ (by decide) rfl).1⟩

/-- An instance of the rejection in C13: `(fn* ([a]) ([b]))` has two arities of one parameter,
neither variadic, and is rejected. -/
theorem analyze_fn_duplicate_arity_example :
    ∃ s', analyze_fn example_runtime (analyze example_runtime 1)
        [.symbol ⟨"", "fn*"⟩, .list [.vector [.symbol ⟨"", "a"⟩]],
          .list [.vector [.symbol ⟨"", "b"⟩]]]
        0 .expression none true (processor.init ⟨[], 0⟩)
      = .done (.error ⟨"invalid fn: duplicate arity definition"⟩) s' :=
  ⟨_, rfl⟩

/-- The cause of the order dependence in C12: after the loop at processor.cpp 389-393 the
variable `variadic_arity` holds the parameter count of the arity written last, variadic or
not. -/
theorem variadic_arity_last (arities : List function_arity) (a : function_arity) :
    variadic_arity (arities ++ [a]) = a.params.length := by
  simp [variadic_arity, List.foldl_append]

/-! ## C23: `if` -/

/-- C23: a list headed by `if` with fewer than 3 or more than 4 elements is rejected, whatever
the analyzer does. With 3 or 4 elements `analyze_if` succeeds exactly when the sub-forms
analyse successfully, one after the other: the condition in expression position with
`needs_box = false`, then the then branch and, when the list has 4 elements, the else branch,
each in the position of the `if` with `needs_box = true`. The node has `needs_box = true`
whatever the incoming `needs_box`, and its else branch is absent exactly when the list has 3
elements. -/
theorem analyze_if_shape {ρ : Type} (analyze : analyzer ρ) (current_frame : Nat)
    (expr_type : expression_type) (fn_ctx : Option Nat) (needs_box : Bool) (s : processor ρ) :
    (∀ o : List object, o.length < 3 ∨ 4 < o.length →
      ∃ err, analyze_if analyze o current_frame expr_type fn_ctx needs_box s
        = .done (.error err) s)
    ∧ (∀ (head c t : object) (e : expression) (s' : processor ρ),
      analyze_if analyze [head, c, t] current_frame expr_type fn_ctx needs_box s
          = .done (.ok e) s'
        ↔ ∃ ce te s1,
            analyze c current_frame .expression fn_ctx false s = .done (.ok ce) s1
            ∧ analyze t current_frame expr_type fn_ctx true s1 = .done (.ok te) s'
            ∧ e = .if_ ⟨expr_type, current_frame, true⟩ ce te none)
    ∧ (∀ (head c t el : object) (e : expression) (s' : processor ρ),
      analyze_if analyze [head, c, t, el] current_frame expr_type fn_ctx needs_box s
          = .done (.ok e) s'
        ↔ ∃ ce te ee s1 s2,
            analyze c current_frame .expression fn_ctx false s = .done (.ok ce) s1
            ∧ analyze t current_frame expr_type fn_ctx true s1 = .done (.ok te) s2
            ∧ analyze el current_frame expr_type fn_ctx true s2 = .done (.ok ee) s'
            ∧ e = .if_ ⟨expr_type, current_frame, true⟩ ce te (some ee)) := by
  refine ⟨?_, ?_, ?_⟩
  · intro o ho
    rcases ho with ho | ho
    · exact ⟨⟨"invalid if: expects at least two forms"⟩, by simp [analyze_if, ho]⟩
    · have h3 : ¬ o.length < 3 := by omega
      exact ⟨⟨"invalid if: expects at most three forms"⟩, by simp [analyze_if, ho, h3]⟩
  · intro head c t e s'
    simp only [analyze_if, List.length_cons, List.length_nil, List.tail_cons, List.head?_cons]
    have h3 : ¬ ((0 : Nat) + 1 + 1 + 1 = 4) := by omega
    rw [if_neg (by omega), if_neg (by omega)]
    simp only [outcome.and_then_ok, h3, if_false]
    constructor
    · rintro ⟨ce, s1, hc, te, s2, ht, h⟩
      simp only [outcome.done.injEq, Except.ok.injEq] at h
      obtain ⟨rfl, rfl⟩ := h
      exact ⟨ce, te, s1, hc, ht, rfl⟩
    · rintro ⟨ce, te, s1, hc, ht, rfl⟩
      exact ⟨ce, s1, hc, te, s', ht, rfl⟩
  · intro head c t el e s'
    simp only [analyze_if, List.length_cons, List.length_nil, List.tail_cons, List.head?_cons]
    have h4 : (0 : Nat) + 1 + 1 + 1 + 1 = 4 := by omega
    rw [if_neg (by omega), if_neg (by omega)]
    simp only [outcome.and_then_ok, h4, if_true, List.head?_cons]
    constructor
    · rintro ⟨ce, s1, hc, te, s2, ht, ee, s3, he, h⟩
      simp only [outcome.done.injEq, Except.ok.injEq] at h
      obtain ⟨rfl, rfl⟩ := h
      exact ⟨ce, te, ee, s1, s2, hc, ht, he, rfl⟩
    · rintro ⟨ce, te, ee, s1, s2, hc, ht, he, rfl⟩
      exact ⟨ce, s1, hc, te, s2, ht, ee, s', he, rfl⟩

/-- Witness for C23: `(if 1 2)` in expression position with an incoming `needs_box` of false:
the node and the then branch are boxed, the condition is not, and there is no else branch. -/
theorem analyze_if_shape_witness :
    analyze_if (analyze example_runtime 1) [.symbol ⟨"", "if"⟩, .integer 1, .integer 2] 0
        .expression none false (processor.init ⟨[], 0⟩)
      = .done
          (.ok (.if_ ⟨.expression, 0, true⟩ (.primitive_literal ⟨.expression, 0, false⟩ (.integer 1))
            (.primitive_literal ⟨.expression, 0, true⟩ (.integer 2)) none))
          ⟨⟨[], 0⟩, [⟨frame_type.root, none, [], [], [.integer 1, .integer 2]⟩], [], []⟩ :=
  ((analyze_if_shape (analyze example_runtime 1) 0 .expression none false
    (processor.init ⟨[], 0⟩)).2.1 (.symbol ⟨"", "if"⟩) (.integer 1) (.integer 2) _ _).mpr
    ⟨.primitive_literal ⟨.expression, 0, false⟩ (.integer 1),
      .primitive_literal ⟨.expression, 0, true⟩ (.integer 2),
      ⟨⟨[], 0⟩, [⟨frame_type.root, none, [], [], [.integer 1]⟩], [], []⟩, rfl, rfl, rfl⟩

/-! ## C24 and C25: `quote` and `var` -/

/-- C24: for every list `(quote x)`, whatever `x` is, `analyze_quote` succeeds with the
primitive literal of `x` itself, in the incoming position and with the incoming `needs_box`;
no analyzer is consulted for `x`. The state left is the one in which `x` was lifted as a
constant, so `x` is among the lifted constants of the nearest `fn` frame. A quote list whose
length is not 2 is rejected with an error and the state is left as it was. -/
theorem analyze_quote_literal {ρ : Type} (current_frame : Nat) (expr_type : expression_type)
    (fn_ctx : Option Nat) (needs_box : Bool) (s : processor ρ) :
    (∀ head x : object,
      analyze_quote [head, x] current_frame expr_type fn_ctx needs_box s
        = .done (.ok (.primitive_literal ⟨expr_type, current_frame, needs_box⟩ x))
            { s with frames := lift_constant s.frames current_frame x })
    ∧ (∀ (x : object) (fr : local_frame),
      s.frames[closest_fn_frame s.frames current_frame]? = some fr →
        ∃ fr', (lift_constant s.frames current_frame x)[
            closest_fn_frame s.frames current_frame]? = some fr'
          ∧ x ∈ fr'.lifted_constants)
    ∧ (∀ o : List object, o.length ≠ 2 →
      analyze_quote o current_frame expr_type fn_ctx needs_box s
        = .done (.error ⟨"invalid quote: expects one argument"⟩) s) := by
  refine ⟨fun head x => ?_, fun x fr hfr => ?_, fun o ho => ?_⟩
  · simp [analyze_quote, analyze_primitive_literal]
  · obtain ⟨fr', h1, h2, _⟩ := lift_constant_mem s.frames current_frame x fr hfr
    exact ⟨fr', h1, h2⟩
  · simp [analyze_quote, ho]

/-- Witness for C24: `(quote (if))` quotes a malformed special form; the literal holds the form
unanalysed and the form is the constant lifted onto the root frame, while `(quote)` is
rejected. -/
theorem analyze_quote_literal_witness :
    analyze (example_runtime) 2 (.list [.symbol ⟨"", "quote"⟩, .list [.symbol ⟨"", "if"⟩]]) 0
        .expression none true (processor.init ⟨[], 0⟩)
      = .done (.ok (.primitive_literal ⟨.expression, 0, true⟩ (.list [.symbol ⟨"", "if"⟩])))
          ⟨⟨[], 0⟩, [⟨frame_type.root, none, [], [], [.list [.symbol ⟨"", "if"⟩]]⟩], [], []⟩
    ∧ analyze_quote [.symbol ⟨"", "quote"⟩] 0 .expression none true
        (processor.init (⟨[], 0⟩ : example_state))
      = .done (.error ⟨"invalid quote: expects one argument"⟩) (processor.init ⟨[], 0⟩) :=
  ⟨rfl,
    (analyze_quote_literal 0 .expression none true (processor.init (⟨[], 0⟩ : example_state))).2.2
      [.symbol ⟨"", "quote"⟩] (by decide)⟩

/-- C25: `analyze_var` always returns and leaves the state as it was. It succeeds iff the list
has exactly 2 elements, the argument is a symbol, and `find_var` of the symbol qualified
against the current namespace is present; on success the result is
`var_ref(qualified_sym, var)`, not a `var_deref`, with `needs_box = true` whatever the
incoming `needs_box`. -/
theorem analyze_var_ref {ρ : Type} (R : runtime ρ) (o : List object) (current_frame : Nat)
    (expr_type : expression_type) (fn_ctx : Option Nat) (needs_box : Bool) (s : processor ρ) :
    (∃ r, analyze_var R o current_frame expr_type fn_ctx needs_box s = .done r s)
    ∧ ((∃ e s', analyze_var R o current_frame expr_type fn_ctx needs_box s = .done (.ok e) s')
        ↔ ∃ head sym v, o = [head, .symbol sym]
            ∧ R.find_var s.rt_ctx (R.qualify_symbol s.rt_ctx sym) = some v)
    ∧ (∀ e s', analyze_var R o current_frame expr_type fn_ctx needs_box s = .done (.ok e) s' →
        s' = s
        ∧ ∃ head sym v, o = [head, .symbol sym]
            ∧ R.find_var s.rt_ctx (R.qualify_symbol s.rt_ctx sym) = some v
            ∧ e = .var_ref ⟨expr_type, current_frame, true⟩ (R.qualify_symbol s.rt_ctx sym) v) := by
  have hcases : (o.length ≠ 2) ∨ ∃ head arg, o = [head, arg] := by
    match o with
    | [] => exact Or.inl (by simp)
    | [_] => exact Or.inl (by simp)
    | [head, arg] => exact Or.inr ⟨head, arg, rfl⟩
    | _ :: _ :: _ :: _ => exact Or.inl (by simp)
  rcases hcases with hlen | ⟨head, arg, rfl⟩
  · have hrun : analyze_var R o current_frame expr_type fn_ctx needs_box s
        = .done (.error ⟨"invalid var reference: expects one argument"⟩) s := by
      simp [analyze_var, hlen]
    rw [hrun]
    refine ⟨⟨_, rfl⟩, ⟨?_, ?_⟩, ?_⟩
    · rintro ⟨e, s', h⟩
      cases h
    · rintro ⟨head, sym, v, rfl, _⟩
      simp at hlen
    · intro e s' h
      cases h
  · cases arg with
    | symbol sym =>
      cases hv : R.find_var s.rt_ctx (R.qualify_symbol s.rt_ctx sym) with
      | none =>
        have hrun : analyze_var R [head, .symbol sym] current_frame expr_type fn_ctx needs_box s
            = .done (.error ⟨"invalid var reference: var not found"⟩) s := by
          simp [analyze_var, hv]
        rw [hrun]
        refine ⟨⟨_, rfl⟩, ⟨?_, ?_⟩, ?_⟩
        · rintro ⟨e, s', h⟩
          cases h
        · rintro ⟨head', sym', v, ho, hfound⟩
          simp only [List.cons.injEq, object.symbol.injEq, and_true] at ho
          obtain ⟨_, rfl⟩ := ho
          rw [hv] at hfound
          cases hfound
        · intro e s' h
          cases h
      | some v =>
        have hrun : analyze_var R [head, .symbol sym] current_frame expr_type fn_ctx needs_box s
            = .done (.ok (.var_ref ⟨expr_type, current_frame, true⟩
                (R.qualify_symbol s.rt_ctx sym) v)) s := by
          simp [analyze_var, hv]
        rw [hrun]
        refine ⟨⟨_, rfl⟩, ⟨fun _ => ⟨head, sym, v, rfl, hv⟩, fun _ => ⟨_, _, rfl⟩⟩, ?_⟩
        intro e s' h
        simp only [outcome.done.injEq, Except.ok.injEq] at h
        obtain ⟨rfl, rfl⟩ := h
        exact ⟨rfl, head, sym, v, rfl, hv, rfl⟩
    | _ =>
      refine ⟨⟨.error ⟨"invalid var reference: expects a symbol"⟩, by simp [analyze_var]⟩,
        ⟨?_, ?_⟩, ?_⟩
      · rintro ⟨e, s', h⟩
        simp [analyze_var] at h
      · rintro ⟨head', sym', v, ho, _⟩
        simp at ho
      · intro e s' h
        simp [analyze_var] at h

/-- Witness for C25: in a state where `user/inc` is interned, `(var inc)` in statement position
with an incoming `needs_box` of false is the boxed `var_ref` of `user/inc`, and the state is
untouched. -/
theorem analyze_var_ref_witness :
    inc_example = inc_example
    ∧ ∃ head sym v, [object.symbol ⟨"", "var"⟩, object.symbol ⟨"", "inc"⟩] = [head, .symbol sym]
        ∧ example_runtime.find_var inc_example.rt_ctx
            (example_runtime.qualify_symbol inc_example.rt_ctx sym) = some v
        ∧ expression.var_ref ⟨.statement, 0, true⟩ ⟨"user", "inc"⟩ inc_var
          = .var_ref ⟨.statement, 0, true⟩
              (example_runtime.qualify_symbol inc_example.rt_ctx sym) v :=
  (analyze_var_ref example_runtime [.symbol ⟨"", "var"⟩, .symbol ⟨"", "inc"⟩] 0 .statement none
    false inc_example).2.2 (.var_ref ⟨.statement, 0, true⟩ ⟨"user", "inc"⟩ inc_var) inc_example
    rfl

/-! ## C28 and C29: vectors and primitive literals -/

/-- The element loop of `analyze_vector` succeeds exactly when the elements are analysed in
order, each in expression position with `needs_box = true`; the flag it returns tells whether
all the analysed elements are primitive literals. -/
theorem analyze_vector_elements_ok_iff {ρ : Type} (analyze : analyzer ρ) (current_frame : Nat)
    (fn_ctx : Option Nat) (forms : List object) (exprs : List expression) (literal : Bool)
    (s s' : processor ρ) (r : List expression × Bool) :
    analyze_vector_elements analyze current_frame fn_ctx forms exprs literal s
        = .done (.ok r) s'
      ↔ ∃ es, analysed_in_order analyze current_frame .expression fn_ctx true forms s es s'
          ∧ r = (exprs ++ es, literal && es.all fun e => e.is_primitive_literal) := by
  induction forms generalizing exprs literal s with
  | nil =>
    simp only [analyze_vector_elements, analysed_in_order, outcome.done.injEq, Except.ok.injEq]
    constructor
    · rintro ⟨rfl, rfl⟩
      exact ⟨[], ⟨rfl, rfl⟩, by simp⟩
    · rintro ⟨es, ⟨rfl, rfl⟩, rfl⟩
      simp
  | cons d rest ih =>
    simp only [analyze_vector_elements, analysed_in_order, outcome.and_then_ok, ih]
    constructor
    · rintro ⟨res, s1, hd, es, hchain, rfl⟩
      refine ⟨res :: es, ⟨res, es, s1, hd, rfl, hchain⟩, ?_⟩
      cases hlit : res.is_primitive_literal <;> cases literal <;> simp [hlit]
    · rintro ⟨es, ⟨res, es', s1, hd, rfl, hchain⟩, rfl⟩
      refine ⟨res, s1, hd, es', hchain, ?_⟩
      cases hlit : res.is_primitive_literal <;> cases literal <;> simp [hlit]

/-- C28: `analyze_vector` succeeds exactly when the elements analyse successfully in source
order, each in expression position with `needs_box = true`. If every analysed element is a
primitive literal (as for the empty vector), the result is a primitive literal holding the
original vector, which is lifted as a constant in the state the elements left, so after their
constants; otherwise the result is a vector node holding the analysed expressions in source
order and nothing more is lifted. In both cases the node has `needs_box = true`. -/
theorem analyze_vector_result {ρ : Type} (analyze : analyzer ρ) (o : List object)
    (current_frame : Nat) (expr_type : expression_type) (fn_ctx : Option Nat)
    (needs_box : Bool) (s s' : processor ρ) (e : expression) :
    analyze_vector analyze o current_frame expr_type fn_ctx needs_box s = .done (.ok e) s'
      ↔ ∃ es s1, analysed_in_order analyze current_frame .expression fn_ctx true o s es s1
          ∧ (((es.all fun x => x.is_primitive_literal) = true
              ∧ e = .primitive_literal ⟨expr_type, current_frame, true⟩ (.vector o)
              ∧ s' = { s1 with frames := lift_constant s1.frames current_frame (.vector o) })
            ∨ ((es.all fun x => x.is_primitive_literal) = false
              ∧ e = .vector ⟨expr_type, current_frame, true⟩ es
              ∧ s' = s1)) := by
  simp only [analyze_vector, outcome.and_then_ok, analyze_vector_elements_ok_iff, List.nil_append,
    Bool.true_and]
  constructor
  · rintro ⟨r, s1, ⟨es, hchain, rfl⟩, h⟩
    refine ⟨es, s1, hchain, ?_⟩
    cases hall : es.all fun x => x.is_primitive_literal
    · simp only [hall, Bool.false_eq_true, if_false, outcome.done.injEq, Except.ok.injEq] at h
      exact Or.inr ⟨rfl, h.1.symm, h.2.symm⟩
    · simp only [hall, if_true, outcome.done.injEq, Except.ok.injEq] at h
      exact Or.inl ⟨rfl, h.1.symm, h.2.symm⟩
  · rintro ⟨es, s1, hchain, h⟩
    refine ⟨_, s1, ⟨es, hchain, rfl⟩, ?_⟩
    rcases h with ⟨hall, rfl, rfl⟩ | ⟨hall, rfl, rfl⟩
    · simp [hall]
    · simp [hall]

/-- Witness for C28: `[1 :k]` in statement position with an incoming `needs_box` of false: both
elements are primitive literals, so the result is the boxed literal of the vector, lifted
after `1` and `:k`. -/
theorem analyze_vector_result_witness :
    analyze_vector (analyze example_runtime 1) [.integer 1, .keyword "" "k"] 0 .statement none
        false (processor.init ⟨[], 0⟩)
      = .done
          (.ok (.primitive_literal ⟨.statement, 0, true⟩ (.vector [.integer 1, .keyword "" "k"])))
          ⟨⟨[], 0⟩,
            [⟨frame_type.root, none, [], [],
              [.integer 1, .keyword "" "k", .vector [.integer 1, .keyword "" "k"]]⟩], [], []⟩ :=
  (analyze_vector_result (analyze example_runtime 1) [.integer 1, .keyword "" "k"] 0 .statement
    none false (processor.init ⟨[], 0⟩) _ _).mpr
    ⟨[.primitive_literal ⟨.expression, 0, true⟩ (.integer 1),
      .primitive_literal ⟨.expression, 0, true⟩ (.keyword "" "k")],
      ⟨⟨[], 0⟩, [⟨frame_type.root, none, [], [], [.integer 1, .keyword "" "k"]⟩], [], []⟩,
      ⟨_, _, _, rfl, rfl, _, _, _, rfl, rfl, rfl, rfl⟩, Or.inl ⟨rfl, rfl, rfl⟩⟩

/-- C29, as the code has it: for every value that is nil, a boolean, a number (integer or
real), a keyword or a string, and every frame, position and `needs_box`, `analyze` (with any
positive budget) succeeds with `primitive_literal(value)` carrying the incoming `needs_box`,
and the state left is the one in which the value was lifted as a constant, so it is among the
lifted constants of the nearest `fn` frame. A set is not analysed: the dispatcher returns the
error "unimplemented analysis: set" and leaves the state as it was. -/
theorem analyze_literal_values {ρ : Type} (R : runtime ρ) (n : Nat) (current_frame : Nat)
    (expr_type : expression_type) (fn_ctx : Option Nat) (needs_box : Bool) (s : processor ρ) :
    (∀ o : object,
      (o = .nil ∨ (∃ b, o = .boolean b) ∨ (∃ i, o = .integer i) ∨ (∃ r, o = .real r)
        ∨ (∃ ns name, o = .keyword ns name) ∨ (∃ str, o = .string str)) →
      analyze R (n + 1) o current_frame expr_type fn_ctx needs_box s
          = .done (.ok (.primitive_literal ⟨expr_type, current_frame, needs_box⟩ o))
              { s with frames := lift_constant s.frames current_frame o }
      ∧ ∀ fr, s.frames[closest_fn_frame s.frames current_frame]? = some fr →
          ∃ fr', (lift_constant s.frames current_frame o)[
              closest_fn_frame s.frames current_frame]? = some fr'
            ∧ o ∈ fr'.lifted_constants)
    ∧ (∀ xs : List object,
      analyze R (n + 1) (.set xs) current_frame expr_type fn_ctx needs_box s
        = .done (.error ⟨"unimplemented analysis: set"⟩) s) := by
  refine ⟨fun o ho => ⟨?_, fun fr hfr => ?_⟩, fun xs => rfl⟩
  · rcases ho with rfl | ⟨b, rfl⟩ | ⟨i, rfl⟩ | ⟨r, rfl⟩ | ⟨ns, name, rfl⟩ | ⟨str, rfl⟩ <;> rfl
  · obtain ⟨fr', h1, h2, _⟩ := lift_constant_mem s.frames current_frame o fr hfr
    exact ⟨fr', h1, h2⟩

/-- Witness for C29: the string `"a"` in statement position with `needs_box = false`. -/
theorem analyze_literal_values_witness :
    analyze example_runtime 1 (.string "a") 0 .statement none false (processor.init ⟨[], 0⟩)
      = .done (.ok (.primitive_literal ⟨.statement, 0, false⟩ (.string "a")))
          { processor.init (⟨[], 0⟩ : example_state) with
            frames := lift_constant (processor.init (⟨[], 0⟩ : example_state)).frames 0
              (.string "a") } :=
  ((analyze_literal_values example_runtime 0 0 .statement none false (processor.init ⟨[], 0⟩)).1
    (.string "a") (Or.inr (Or.inr (Or.inr (Or.inr (Or.inr ⟨"a", rfl⟩)))))).1

/-- Counterexample to C29 as stated: the set `#{1}` is not analysed into a primitive literal;
the dispatcher returns an error and lifts nothing. -/
theorem analyze_literal_values_counterexample :
    analyze example_runtime 1 (.set [.integer 1]) 0 .expression none true
        (processor.init ⟨[], 0⟩)
      = .done (.error ⟨"unimplemented analysis: set"⟩) (processor.init ⟨[], 0⟩) :=
  rfl

/-! ## C22: the body of `let*` -/

/-- The body loop of `analyze_let` on forms `init ++ [last]`, the last of which is form number
`form_count`: it succeeds exactly when `init` is analysed in order in statement position and
then `last` in the position of the `let*`, every form with the incoming `needs_box`. -/
theorem analyze_let_body_ok_iff {ρ : Type} (analyze : analyzer ρ) (frame : Nat)
    (expr_type : expression_type) (fn_ctx : Option Nat) (needs_box : Bool) (form_count : Nat)
    (init : List object) (last : object) (i : Nat) (ret_needs_box : Bool)
    (body : List expression) (s s' : processor ρ) (ret : Bool × List expression)
    (hcount : i + init.length + 1 = form_count) :
    analyze_let_body analyze frame expr_type fn_ctx needs_box form_count (init ++ [last]) i
        ret_needs_box body s = .done (.ok ret) s'
      ↔ ∃ es s1 e_last,
          analysed_in_order analyze frame .statement fn_ctx needs_box init s es s1
          ∧ analyze last frame expr_type fn_ctx needs_box s1 = .done (.ok e_last) s'
          ∧ ret = (e_last.get_base.needs_box, body ++ es ++ [e_last]) := by
  induction init generalizing i ret_needs_box body s with
  | nil =>
    have hi : i + 1 = form_count := by simpa using hcount
    simp only [List.nil_append, analyze_let_body, hi, decide_True, if_true, analysed_in_order,
      outcome.and_then_ok, outcome.done.injEq, Except.ok.injEq]
    constructor
    · rintro ⟨e, s1, he, rfl, rfl⟩
      exact ⟨[], s, e, ⟨rfl, rfl⟩, he, by simp⟩
    · rintro ⟨es, s1, e_last, ⟨rfl, rfl⟩, he, rfl⟩
      exact ⟨e_last, s', he, by simp, rfl⟩
  | cons x rest ih =>
    have hi : ¬ (i + 1 = form_count) := by
      simp only [List.length_cons] at hcount
      omega
    have hnext : (i + 1) + rest.length + 1 = form_count := by
      simp only [List.length_cons] at hcount
      omega
    simp only [List.cons_append, analyze_let_body, hi, decide_False, Bool.false_eq_true,
      if_false, analysed_in_order, List.append_eq, outcome.and_then_ok]
    constructor
    · rintro ⟨e, s2, hx, h⟩
      obtain ⟨es, s1, e_last, hchain, hlast, rfl⟩ :=
        (ih (i + 1) ret_needs_box (body ++ [e]) s2 hnext).mp h
      exact ⟨e :: es, s1, e_last, ⟨e, es, s2, hx, rfl, hchain⟩, hlast, by simp⟩
    · rintro ⟨es, s1, e_last, ⟨e, es', s2, hx, rfl, hchain⟩, hlast, rfl⟩
      exact ⟨e, s2, hx,
        (ih (i + 1) ret_needs_box (body ++ [e]) s2 hnext).mpr
          ⟨es', s1, e_last, hchain, hlast, by simp⟩⟩

/-- C22, at the failing input: `(let* [] 1 2)` analysed in expression position with an incoming
`needs_box` of true. The non-last body form `1` is analysed in statement position with
`needs_box = true`, where `analyze_do` on the same forms `(do 1 2)`, in the let's frame, in the
same position and with the same `needs_box`, analyses it with `needs_box = false`. The root
driver reaches this on the source text `(let* [] 1 2)`, whose let is the last body form of the
wrapping function. -/
theorem analyze_let_body_differs_from_do :
    analyze_let (analyze example_runtime 1)
        [.symbol ⟨"", "let*"⟩, .vector [], .integer 1, .integer 2] 0 .expression none true
        (processor.init ⟨[], 0⟩)
      = .done
          (.ok (.let_ ⟨.expression, 1, true⟩ []
            [.primitive_literal ⟨.statement, 1, true⟩ (.integer 1),
             .primitive_literal ⟨.expression, 1, true⟩ (.integer 2)] 1))
          ⟨⟨[], 0⟩,
            [ ⟨frame_type.root, none, [], [], [.integer 1, .integer 2]⟩,
              ⟨frame_type.let_, some 0, [], [], []⟩ ], [], []⟩
    ∧ analyze_do (analyze example_runtime 1) [.symbol ⟨"", "do"⟩, .integer 1, .integer 2] 1
        .expression none true (new_frame (processor.init ⟨[], 0⟩) frame_type.let_ 0).2
      = .done
          (.ok (.do_ ⟨.expression, 1, true⟩
            [.primitive_literal ⟨.statement, 1, false⟩ (.integer 1),
             .primitive_literal ⟨.expression, 1, true⟩ (.integer 2)]))
          ⟨⟨[], 0⟩,
            [ ⟨frame_type.root, none, [], [], [.integer 1, .integer 2]⟩,
              ⟨frame_type.let_, some 0, [], [], []⟩ ], [], []⟩
    ∧ analyze_stream (analyze example_runtime 4)
        [.ok (.list [.symbol ⟨"", "let*"⟩, .vector [], .integer 1, .integer 2])]
        (processor.init ⟨[], 0⟩)
      = .done
          (.ok (.function ⟨.expression, 0, true⟩ "fn_0"
            [.mk [] ⟨.return_statement, 1, true⟩
              [.let_ ⟨.return_statement, 2, true⟩ []
                [.primitive_literal ⟨.statement, 2, true⟩ (.integer 1),
                 .primitive_literal ⟨.return_statement, 2, true⟩ (.integer 2)] 2] 1 0]))
          ⟨⟨[], 1⟩,
            [ ⟨frame_type.root, none, [], [], []⟩,
              ⟨frame_type.fn, some 0, [], [], [.integer 1, .integer 2]⟩,
              ⟨frame_type.let_, some 1, [], [], []⟩ ],
            [⟨0, false, false⟩], []⟩ :=
  ⟨rfl, rfl, rfl⟩

/-! ## C26 and C27: the chunks of `native/raw` -/

/-- What `find_at` finds: the first position, counted from `i`, at which the needle is a prefix
of what is left of the text. -/
theorem find_at_some (needle : List Char) (hay : List Char) (i k : Nat)
    (h : find_at needle hay i = some k) :
    ∃ j, k = i + j ∧ j ≤ hay.length ∧ needle <+: hay.drop j
      ∧ ∀ j', j' < j → ¬ needle <+: hay.drop j' := by
  induction hay generalizing i with
  | nil =>
    simp only [find_at] at h
    split at h
    · rename_i hempty
      simp only [Option.some.injEq] at h
      refine ⟨0, by omega, by simp, ?_, by simp⟩
      simp only [List.isEmpty_iff] at hempty
      simp [hempty]
    · cases h
  | cons c cs ih =>
    simp only [find_at] at h
    split at h
    · rename_i hpre
      simp only [Option.some.injEq] at h
      exact ⟨0, by omega, by simp, by simpa using List.isPrefixOf_iff_prefix.mp hpre, by simp⟩
    · rename_i hpre
      obtain ⟨j, hk, hj, hfound, hfirst⟩ := ih (i + 1) h
      refine ⟨j + 1, by omega, by simp; omega, by simpa using hfound, ?_⟩
      intro j' hj'
      cases j' with
      | zero =>
        simp only [List.drop_zero]
        intro hp
        exact hpre (List.isPrefixOf_iff_prefix.mpr hp)
      | succ j' =>
        simpa using hfirst j' (by omega)

/-- When `find_at` finds nothing, the needle is a prefix at no position of the text. -/
theorem find_at_none (needle : List Char) (hay : List Char) (i : Nat)
    (h : find_at needle hay i = none) : ∀ j, j ≤ hay.length → ¬ needle <+: hay.drop j := by
  induction hay generalizing i with
  | nil =>
    intro j _ hp
    simp only [find_at] at h
    split at h
    · cases h
    · rename_i hempty
      apply hempty
      simp only [List.drop_nil, List.prefix_nil] at hp
      simp [hp]
  | cons c cs ih =>
    simp only [find_at] at h
    split at h
    · cases h
    · rename_i hpre
      intro j hj
      cases j with
      | zero =>
        simp only [List.drop_zero]
        intro hp
        exact hpre (List.isPrefixOf_iff_prefix.mpr hp)
      | succ j =>
        simpa using ih (i + 1) h j (by simpa using hj)

/-- What `str_find` finds: the first position at or after `pos` where the needle occurs. -/
theorem str_find_some (hay needle : List Char) (pos k : Nat)
    (h : str_find hay needle pos = some k) :
    pos ≤ k ∧ k ≤ hay.length ∧ needle <+: hay.drop k
      ∧ ∀ k', pos ≤ k' → k' < k → ¬ needle <+: hay.drop k' := by
  unfold str_find at h
  split at h
  · cases h
  · rename_i hpos
    obtain ⟨j, rfl, hj, hfound, hfirst⟩ := find_at_some needle (hay.drop pos) pos k h
    simp only [List.length_drop] at hj
    refine ⟨by omega, by omega, by simpa [List.drop_drop, Nat.add_comm] using hfound, ?_⟩
    intro k' hk' hlt
    have := hfirst (k' - pos) (by omega)
    simpa [List.drop_drop, Nat.add_sub_cancel' hk', Nat.add_comm, Nat.sub_add_cancel hk']
      using this

/-- When `str_find` finds nothing, the needle occurs at no position at or after `pos`. -/
theorem str_find_none (hay needle : List Char) (pos : Nat) (hneedle : needle ≠ [])
    (h : str_find hay needle pos = none) : ∀ k, pos ≤ k → ¬ needle <+: hay.drop k := by
  intro k hk hp
  by_cases hlen : k ≤ hay.length
  · unfold str_find at h
    rw [if_neg (by omega)] at h
    have := find_at_none needle (hay.drop pos) pos h (k - pos)
      (by simp only [List.length_drop]; omega)
    apply this
    simpa [List.drop_drop, Nat.add_sub_cancel' hk, Nat.add_comm, Nat.sub_add_cancel hk] using hp
  · have hnil : hay.drop k = [] := List.drop_eq_nil_of_le (by omega)
    rw [hnil, List.prefix_nil] at hp
    exact hneedle hp

/-- The sentinels have two characters each, and neither character of the opening sentinel is
the first character of the closing one. -/
theorem sentinels_disjoint :
    ∃ c1 c2 d1 d2, interp_start = [c1, c2] ∧ interp_end = [d1, d2] ∧ c1 ≠ d1 ∧ c2 ≠ d1 :=
  ⟨_, _, _, _, rfl, rfl, by decide, by decide⟩

/-- A needle that occurs at position `k` splits what is left of the text there. -/
theorem drop_of_prefix (needle l : List Char) (k : Nat) (h : needle <+: l.drop k) :
    l.drop k = needle ++ l.drop (k + needle.length) := by
  obtain ⟨t, ht⟩ := h
  have : t = l.drop (k + needle.length) := by
    have h2 : (l.drop k).drop needle.length = t := by
      rw [← ht]
      simp
    rw [← h2, List.drop_drop, Nat.add_comm]
  rw [← this, ht]

/-- The text between two positions, followed by the rest. -/
theorem drop_split (l : List Char) (a b : Nat) (hab : a ≤ b) :
    l.drop a = (l.drop a).take (b - a) ++ l.drop b := by
  have h := (List.take_append_drop (b - a) (l.drop a)).symm
  rw [List.drop_drop] at h
  have hb : a + (b - a) = b := by omega
  rw [hb] at h
  exact h

/-- A closing sentinel found from an opening one lies behind it without overlap, and ends
within the text. -/
theorem closer_after_opener (code : List Char) (a b : Nat) (hab : a ≤ b)
    (hopen : interp_start <+: code.drop a) (hclose : interp_end <+: code.drop b) :
    a + 2 ≤ b ∧ b + 2 ≤ code.length := by
  obtain ⟨c1, c2, d1, d2, hs, he, h1, h2⟩ := sentinels_disjoint
  have ho := drop_of_prefix interp_start code a hopen
  have hc := drop_of_prefix interp_end code b hclose
  rw [hs] at ho
  rw [he] at hc
  simp only [List.length_cons, List.length_nil, List.cons_append, List.nil_append] at ho hc
  constructor
  · by_contra hlt
    have hcases : b = a ∨ b = a + 1 := by omega
    rcases hcases with rfl | rfl
    · rw [ho] at hc
      simp only [List.cons.injEq] at hc
      exact h1 hc.1
    · have : code.drop (a + 1) = c2 :: code.drop (a + 2) := by
        have h3 : code.drop (a + 1) = (code.drop a).drop 1 := by
          rw [List.drop_drop]
        rw [h3, ho]
        simp
      rw [this] at hc
      simp only [List.cons.injEq] at hc
      exact h2 hc.1
  · have hlen : (code.drop b).length = code.length - b := List.length_drop b code
    rw [hc] at hlen
    simp only [List.length_cons] at hlen
    omega

/-- A view built from the pointer alone holds all that is left when no NUL character is in
it. -/
theorem c_string_view_eq_self (rest : List Char) (h : ∀ c ∈ rest, c ≠ Char.ofNat 0) :
    c_string_view rest = rest := by
  unfold c_string_view
  rw [List.takeWhile_eq_self_iff]
  intro c hc
  simpa using h c hc

/-- The chunk loop, when it succeeds from position `it`, has cut what is left of the string
into pieces, provided the string holds no NUL character: verbatim text and interpolations in
source order, whose source texts put back between the sentinels give what was left, each
interpolation parsed to a single form and analysed in expression position with
`needs_box = true`. -/
theorem native_raw_chunks_pieces {ρ : Type} (R : runtime ρ) (analyze : analyzer ρ)
    (code : List Char) (current_frame : Nat) (fn_ctx : Option Nat) (n it : Nat)
    (chunks cs : List (String ⊕ expression)) (s s' : processor ρ)
    (hnul : ∀ c ∈ code, c ≠ Char.ofNat 0)
    (h : native_raw_chunks R analyze code current_frame fn_ctx n it chunks s
      = .done (.ok cs) s') :
    ∃ pieces, cs = chunks ++ pieces.map raw_piece.chunk
      ∧ (pieces.map raw_piece.render).flatten = code.drop it
      ∧ interpolations_analysed R analyze current_frame fn_ctx pieces s s' := by
  induction n generalizing it chunks s with
  | zero => simp [native_raw_chunks] at h
  | succ n ih =>
    simp only [native_raw_chunks] at h
    cases hs : str_find code interp_start it with
    | none =>
      rw [hs] at h
      simp only [outcome.done.injEq, Except.ok.injEq] at h
      rw [c_string_view_eq_self _ fun c hc => hnul c (List.mem_of_mem_drop hc)] at h
      obtain ⟨rfl, rfl⟩ := h
      exact ⟨[.text (code.drop it)], rfl, by simp [raw_piece.render], rfl⟩
    | some next_start =>
      rw [hs] at h
      simp only at h
      obtain ⟨hle, _, hopen, _⟩ := str_find_some _ _ _ _ hs
      cases he : str_find code interp_end next_start with
      | none =>
        rw [he] at h
        cases h
      | some next_end =>
        rw [he] at h
        simp only at h
        obtain ⟨hle2, _, hclose, _⟩ := str_find_some _ _ _ _ he
        obtain ⟨hgap, hend⟩ := closer_after_opener code next_start next_end hle2 hopen hclose
        have hls : interp_start.length = 2 := rfl
        have hle_len : interp_end.length = 2 := rfl
        rw [hls, hle_len] at h
        generalize hsrc : (code.drop (next_start + 2)).take (next_end - next_start - 2) = src
          at h
        cases hparse : R.parse s.rt_ctx (String.mk src) with
        | nil =>
          rw [hparse] at h
          cases h
        | cons first more =>
          rw [hparse] at h
          cases first with
          | error e => cases h
          | ok form =>
            simp only at h
            obtain ⟨result, s1, hres, hk⟩ := (outcome.and_then_ok _ _ _ _).mp h
            cases more with
            | cons _ _ => simp at hk
            | nil =>
              simp only [List.isEmpty_nil, if_true] at hk
              obtain ⟨pieces', hcs, hjoin, hchain⟩ := ih (next_end + 2) _ s1 hk
              have h1 := drop_split code it next_start hle
              have h2 := drop_of_prefix interp_start code next_start hopen
              have h3 := drop_split code (next_start + 2) next_end hgap
              have h4 := drop_of_prefix interp_end code next_end hclose
              rw [hls] at h2
              rw [hle_len] at h4
              have hsub : next_end - (next_start + 2) = next_end - next_start - 2 := by omega
              rw [hsub, hsrc] at h3
              have hrest : interp_start ++ src ++ interp_end ++ code.drop (next_end + 2)
                  = code.drop next_start := by
                rw [h2, h3, h4]
                simp
              by_cases hpos : next_start - it > 0
              · refine ⟨.text ((code.drop it).take (next_start - it))
                  :: .interp src result :: pieces', ?_, ?_, ?_⟩
                · rw [hcs]
                  simp [hpos, raw_piece.chunk]
                · have hall : (List.map raw_piece.render
                      (.text ((code.drop it).take (next_start - it))
                        :: .interp src result :: pieces')).flatten
                      = (code.drop it).take (next_start - it) ++ code.drop next_start := by
                    rw [← hrest]
                    simp [raw_piece.render, hjoin]
                  rw [hall]
                  exact h1.symm
                · exact ⟨form, s1, hparse, hres, hchain⟩
              · refine ⟨.interp src result :: pieces', ?_, ?_, ?_⟩
                · rw [hcs]
                  simp [hpos, raw_piece.chunk]
                · have hit : it = next_start := by omega
                  rw [hit, ← hrest]
                  simp [raw_piece.render, hjoin]
                · exact ⟨form, s1, hparse, hres, hchain⟩

/-- The budget of the chunk loop suffices: from a position `it` within the string, with more
iterations allowed than characters are left, the loop runs out of budget only if an analysis
of an interpolated form does. -/
theorem native_raw_chunks_budget {ρ : Type} (R : runtime ρ) (analyze : analyzer ρ)
    (code : List Char) (current_frame : Nat) (fn_ctx : Option Nat) (n it : Nat)
    (chunks : List (String ⊕ expression)) (s : processor ρ)
    (hit : it ≤ code.length) (hfuel : code.length < it + n)
    (hanalyze : ∀ form s0,
      analyze form current_frame .expression fn_ctx true s0 ≠ .out_of_budget) :
    native_raw_chunks R analyze code current_frame fn_ctx n it chunks s ≠ .out_of_budget := by
  induction n generalizing it chunks s with
  | zero => omega
  | succ n ih =>
    simp only [native_raw_chunks]
    cases hs : str_find code interp_start it with
    | none => simp
    | some next_start =>
      obtain ⟨hle, _, hopen, _⟩ := str_find_some _ _ _ _ hs
      simp only
      cases he : str_find code interp_end next_start with
      | none => simp
      | some next_end =>
        obtain ⟨hle2, _, hclose, _⟩ := str_find_some _ _ _ _ he
        obtain ⟨hgap, hend⟩ := closer_after_opener code next_start next_end hle2 hopen hclose
        have hle_len : interp_end.length = 2 := rfl
        simp only
        split
        · intro h
          cases h
        · intro h
          cases h
        · rename_i form more _
          cases hres : analyze form current_frame .expression fn_ctx true s with
          | out_of_budget => exact absurd hres (hanalyze form s)
          | aborted => simp [outcome.and_then]
          | done r s1 =>
            cases r with
            | error err => simp [outcome.and_then]
            | ok result =>
              simp only [outcome.and_then]
              split
              · exact ih (next_end + interp_end.length) _ s1 (by rw [hle_len]; omega)
                  (by rw [hle_len]; omega)
              · simp

/-- A string without the opening sentinel is a single chunk of text: the string up to its
first NUL character. -/
theorem native_raw_chunks_plain {ρ : Type} (R : runtime ρ) (analyze : analyzer ρ)
    (code : List Char) (current_frame : Nat) (fn_ctx : Option Nat) (n : Nat)
    (s : processor ρ) (hplain : ¬ interp_start <:+: code) :
    native_raw_chunks R analyze code current_frame fn_ctx (n + 1) 0 [] s
      = .done (.ok [.inl (String.mk (c_string_view code))]) s := by
  have hs : str_find code interp_start 0 = none := by
    cases hs : str_find code interp_start 0 with
    | none => rfl
    | some k =>
      obtain ⟨_, _, hopen, _⟩ := str_find_some _ _ _ _ hs
      exact absurd (hopen.isInfix.trans (List.drop_suffix k code).isInfix) hplain
  simp [native_raw_chunks, hs]

/-- The round trip of `native/raw` on strings that hold no NUL character: for such a non-empty
string on which `analyze_native_raw` succeeds, the chunks of the node are the chunks of a list
of pieces, verbatim text and interpolations in source order, such that writing each
interpolation as the opening sentinel, its source text and the closing sentinel and
concatenating all pieces reproduces the string exactly; each interpolation's source text
parses to a single form and its chunk is the analysis of that form in expression position
with `needs_box = true`, the analyses running in source order. Such a string that does not
contain the opening sentinel yields exactly one text chunk, the string itself, whatever the
analyzer does. For every non-empty string, the iteration bound of the embedding is never what
stops the loop. -/
theorem analyze_native_raw_round_trip {ρ : Type} (R : runtime ρ) (analyze : analyzer ρ)
    (head : object) (code : String) (current_frame : Nat) (expr_type : expression_type)
    (fn_ctx : Option Nat) (needs_box : Bool) (s : processor ρ) (hne : code.data ≠ [])
    (hnul : ∀ c ∈ code.data, c ≠ Char.ofNat 0) :
    (∀ e s', analyze_native_raw R analyze [head, .string code] current_frame expr_type fn_ctx
        needs_box s = .done (.ok e) s' →
      ∃ pieces, e = .native_raw ⟨expr_type, current_frame, true⟩ (pieces.map raw_piece.chunk)
        ∧ (pieces.map raw_piece.render).flatten = code.data
        ∧ interpolations_analysed R analyze current_frame fn_ctx pieces s s')
    ∧ (¬ interp_start <:+: code.data →
      analyze_native_raw R analyze [head, .string code] current_frame expr_type fn_ctx
        needs_box s = .done (.ok (.native_raw ⟨expr_type, current_frame, true⟩ [.inl code])) s)
    ∧ ((∀ form s0, analyze form current_frame .expression fn_ctx true s0 ≠ .out_of_budget) →
      analyze_native_raw R analyze [head, .string code] current_frame expr_type fn_ctx
        needs_box s ≠ .out_of_budget) := by
  have hempty : code.data.isEmpty = false := by
    cases hd : code.data with
    | nil => exact absurd hd hne
    | cons _ _ => rfl
  have hrun : analyze_native_raw R analyze [head, .string code] current_frame expr_type fn_ctx
      needs_box s
      = (native_raw_chunks R analyze code.data current_frame fn_ctx (code.data.length + 1) 0 []
          s).and_then fun chunks s1 =>
          .done (.ok (.native_raw ⟨expr_type, current_frame, true⟩ chunks)) s1 := by
    simp [analyze_native_raw, hempty]
  rw [hrun]
  refine ⟨?_, ?_, ?_⟩
  · intro e s' h
    obtain ⟨cs, s1, hloop, hk⟩ := (outcome.and_then_ok _ _ _ _).mp h
    simp only [outcome.done.injEq, Except.ok.injEq] at hk
    obtain ⟨rfl, rfl⟩ := hk
    obtain ⟨pieces, hcs, hjoin, hchain⟩ := native_raw_chunks_pieces R analyze code.data
      current_frame fn_ctx _ 0 [] cs s s1 hnul hloop
    exact ⟨pieces, by simp [hcs], by simpa using hjoin, hchain⟩
  · intro hplain
    rw [native_raw_chunks_plain R analyze code.data current_frame fn_ctx _ s hplain,
      c_string_view_eq_self _ hnul]
    rfl
  · intro hanalyze h
    have hloop := native_raw_chunks_budget R analyze code.data current_frame fn_ctx
      (code.data.length + 1) 0 [] s (by omega) (by omega) hanalyze
    cases hl : native_raw_chunks R analyze code.data current_frame fn_ctx
        (code.data.length + 1) 0 [] s with
    | out_of_budget => exact hloop hl
    | aborted =>
      rw [hl] at h
      cases h
    | done r s1 =>
      rw [hl] at h
      cases r <;> cases h

/-- The round trip on the string `a`, an interpolation of `1`, `b`: three chunks, whose pieces
are the text `a`, the interpolation with source text `1`, and the text `b`. -/
theorem analyze_native_raw_round_trip_witness :
    ∃ pieces,
      expression.native_raw ⟨.expression, 0, true⟩
          [.inl "a", .inr (.primitive_literal ⟨.expression, 0, true⟩ (.integer 1)), .inl "b"]
        = .native_raw ⟨.expression, 0, true⟩ (pieces.map raw_piece.chunk)
      ∧ (pieces.map raw_piece.render).flatten = "a#\x7b1\x7d#b".data
      ∧ interpolations_analysed reading_runtime (analyze reading_runtime 1) 0 none pieces
          (processor.init ⟨[], 0⟩)
          ⟨⟨[], 0⟩, [⟨frame_type.root, none, [], [], [.integer 1]⟩], [], []⟩ :=
  (analyze_native_raw_round_trip reading_runtime (analyze reading_runtime 1)
    (.symbol ⟨"native", "raw"⟩) "a#\x7b1\x7d#b" 0 .expression none false
    (processor.init ⟨[], 0⟩) (by decide) (by decide)).1 _ _ rfl

/-- A needle that occurs in a text is a prefix of what is left of the text at some position. -/
theorem prefix_of_infix (needle l : List Char) (h : needle <:+: l) :
    ∃ k, needle <+: l.drop k := by
  obtain ⟨a, b, hab⟩ := h
  refine ⟨a.length, b, ?_⟩
  rw [← hab]
  simp

/-- The chunk loop on a string with an opening sentinel at `p` that no closing sentinel
overlaps or follows: from a position at or before `p` the loop returns an error, provided the
reader yields a result on every interpolation and the analyses of the forms it yields
return. -/
theorem native_raw_chunks_unclosed {ρ : Type} (R : runtime ρ) (analyze : analyzer ρ)
    (code : List Char) (current_frame : Nat) (fn_ctx : Option Nat) (p : Nat)
    (hopen : interp_start <+: code.drop p)
    (hnone : ∀ k, p ≤ k + 1 → ¬ interp_end <+: code.drop k)
    (hparse : ∀ rt txt, R.parse rt txt ≠ [])
    (hanalyze : ∀ rt txt form more, R.parse rt txt = .ok form :: more →
      ∀ s0, ∃ r s1, analyze form current_frame .expression fn_ctx true s0 = .done r s1)
    (n it : Nat) (chunks : List (String ⊕ expression)) (s : processor ρ)
    (hit : it ≤ p) (hfuel : code.length < it + n) :
    ∃ err s', native_raw_chunks R analyze code current_frame fn_ctx n it chunks s
      = .done (.error err) s' := by
  have hp : p + 2 ≤ code.length := by
    have h := drop_of_prefix interp_start code p hopen
    have hlen : (code.drop p).length = code.length - p := List.length_drop p code
    rw [h] at hlen
    have hls : interp_start.length = 2 := rfl
    simp only [List.length_append, hls] at hlen
    omega
  induction n generalizing it chunks s with
  | zero => omega
  | succ n ih =>
    simp only [native_raw_chunks]
    cases hs : str_find code interp_start it with
    | none =>
      exact absurd hopen (str_find_none code interp_start it (by decide) hs p hit)
    | some next_start =>
      obtain ⟨hle, _, hopen', hfirst⟩ := str_find_some _ _ _ _ hs
      have hnext : next_start ≤ p := by
        by_contra hlt
        exact hfirst p hit (by omega) hopen
      simp only
      cases he : str_find code interp_end next_start with
      | none => exact ⟨_, _, rfl⟩
      | some next_end =>
        obtain ⟨hle2, _, hclose, _⟩ := str_find_some _ _ _ _ he
        have hbefore : next_end + 2 ≤ p := by
          by_contra hlt
          exact hnone next_end (by omega) hclose
        have hle_len : interp_end.length = 2 := rfl
        simp only
        split
        · rename_i hnil
          exact absurd hnil (hparse _ _)
        · exact ⟨_, _, rfl⟩
        · rename_i form more hparsed
          obtain ⟨r, s1, hres⟩ := hanalyze _ _ form more hparsed s
          rw [hres]
          cases r with
          | error err => exact ⟨err, s1, rfl⟩
          | ok result =>
            simp only [outcome.and_then]
            split
            · exact ih (next_end + interp_end.length) _ s1 (by rw [hle_len]; omega)
                (by rw [hle_len]; omega)
            · exact ⟨_, _, rfl⟩

/-- C27, as the code has it: a string that contains an opening sentinel and no closing
sentinel at all is rejected with the "no matching" error before anything is analysed, the
state left as it was. More generally, when some opening sentinel is neither overlapped nor
followed by a closing sentinel, `analyze_native_raw` returns an error, provided the reader
yields a result on every interpolation before it and the analyses of the forms it yields
return. Nothing is claimed for a closing sentinel without an opening one: the loop looks for a
closing sentinel only after it has found an opening one. -/
theorem analyze_native_raw_unclosed {ρ : Type} (R : runtime ρ) (analyze : analyzer ρ)
    (head : object) (code : String) (current_frame : Nat) (expr_type : expression_type)
    (fn_ctx : Option Nat) (needs_box : Bool) (s : processor ρ) :
    (interp_start <:+: code.data → ¬ interp_end <:+: code.data →
      analyze_native_raw R analyze [head, .string code] current_frame expr_type fn_ctx
          needs_box s
        = .done (.error ⟨"no matching \x7d# found for native/raw interpolation"⟩) s)
    ∧ (∀ p, interp_start <+: code.data.drop p →
        (∀ k, p ≤ k + 1 → ¬ interp_end <+: code.data.drop k) →
        (∀ rt txt, R.parse rt txt ≠ []) →
        (∀ rt txt form more, R.parse rt txt = .ok form :: more →
          ∀ s0, ∃ r s1, analyze form current_frame .expression fn_ctx true s0 = .done r s1) →
        ∃ err s', analyze_native_raw R analyze [head, .string code] current_frame expr_type
          fn_ctx needs_box s = .done (.error err) s') := by
  have hrun : interp_start <:+: code.data →
      analyze_native_raw R analyze [head, .string code] current_frame expr_type fn_ctx
        needs_box s
      = (native_raw_chunks R analyze code.data current_frame fn_ctx (code.data.length + 1) 0 []
          s).and_then fun chunks s1 =>
          .done (.ok (.native_raw ⟨expr_type, current_frame, true⟩ chunks)) s1 := by
    intro hin
    have hempty : code.data.isEmpty = false := by
      cases hd : code.data with
      | nil =>
        rw [hd] at hin
        have := List.eq_nil_of_infix_nil hin
        exact absurd this (by decide)
      | cons _ _ => rfl
    simp [analyze_native_raw, hempty]
  constructor
  · intro hin hnot
    rw [hrun hin]
    obtain ⟨k, hk⟩ := prefix_of_infix _ _ hin
    cases hs : str_find code.data interp_start 0 with
    | none => exact absurd hk (str_find_none _ _ 0 (by decide) hs k (by omega))
    | some next_start =>
      have he : str_find code.data interp_end next_start = none := by
        cases he : str_find code.data interp_end next_start with
        | none => rfl
        | some next_end =>
          obtain ⟨_, _, hclose, _⟩ := str_find_some _ _ _ _ he
          exact absurd (hclose.isInfix.trans (List.drop_suffix _ _).isInfix) hnot
      simp [native_raw_chunks, hs, he, outcome.and_then]
  · intro p hopen hnone hparse hanalyze
    rw [hrun (hopen.isInfix.trans (List.drop_suffix _ _).isInfix)]
    obtain ⟨err, s', h⟩ := native_raw_chunks_unclosed R analyze code.data current_frame fn_ctx p
      hopen hnone hparse hanalyze (code.data.length + 1) 0 [] s (by omega) (by omega)
    exact ⟨err, s', by rw [h]; rfl⟩

/-- Witness for C27: a string with an opening sentinel and no closing one is rejected before
anything is analysed; and in a string with a complete interpolation of `1` followed by an
opening sentinel that is never closed, the first interpolation is read and analysed and the
string is rejected. -/
theorem analyze_native_raw_unclosed_witness :
    analyze_native_raw reading_runtime (analyze reading_runtime 1)
        [.symbol ⟨"native", "raw"⟩, .string "a #\x7b b"] 0 .expression none true
        (processor.init ⟨[], 0⟩)
      = .done (.error ⟨"no matching \x7d# found for native/raw interpolation"⟩)
          (processor.init ⟨[], 0⟩)
    ∧ ∃ err s', analyze_native_raw reading_runtime (analyze reading_runtime 1)
        [.symbol ⟨"native", "raw"⟩, .string "#\x7b1\x7d# #\x7b"] 0 .expression none true
        (processor.init ⟨[], 0⟩) = .done (.error err) s' :=
  ⟨(analyze_native_raw_unclosed reading_runtime (analyze reading_runtime 1)
      (.symbol ⟨"native", "raw"⟩) "a #\x7b b" 0 .expression none true
      (processor.init ⟨[], 0⟩)).1 (by decide) (by decide),
   (analyze_native_raw_unclosed reading_runtime (analyze reading_runtime 1)
      (.symbol ⟨"native", "raw"⟩) "#\x7b1\x7d# #\x7b" 0 .expression none true
      (processor.init ⟨[], 0⟩)).2 6 (by decide)
      (by
        intro k hk hp
        have hlen := hp.length_le
        have h8 : ("#\x7b1\x7d# #\x7b".data.drop k).length = 8 - k := by
          rw [List.length_drop]
          rfl
        have h2 : interp_end.length = 2 := rfl
        rw [h8, h2] at hlen
        have hk2 : k = 5 ∨ k = 6 := by omega
        rcases hk2 with rfl | rfl <;> revert hp <;> decide)
      (by
        intro rt txt
        simp only [reading_runtime]
        split_ifs <;> simp)
      (by
        intro rt txt form more hparsed s0
        simp only [reading_runtime] at hparsed
        split_ifs at hparsed <;>
          (simp only [List.cons.injEq, Except.ok.injEq] at hparsed
           obtain ⟨rfl, _⟩ := hparsed
           exact ⟨_, _, rfl⟩))⟩

/-- Counterexample to C27 as stated: in the string `a`, space, closing sentinel, space, `b`
the closing sentinel has no opening sentinel before it, yet the string is accepted: it is one
chunk of verbatim text. -/
theorem analyze_native_raw_unclosed_counterexample :
    analyze_native_raw example_runtime (analyze example_runtime 1)
        [.symbol ⟨"native", "raw"⟩, .string "a \x7d# b"] 0 .expression none true
        (processor.init ⟨[], 0⟩)
      = .done (.ok (.native_raw ⟨.expression, 0, true⟩ [.inl "a \x7d# b"]))
          (processor.init ⟨[], 0⟩) :=
  rfl

/-! ## C30: where return position comes from -/

/-- Sequencing respects equality of the continuations. -/
theorem outcome.and_then_congr {ρ α β : Type} (x : outcome ρ α)
    (k k' : α → processor ρ → outcome ρ β) (h : ∀ a s, k a s = k' a s) :
    x.and_then k = x.and_then k' := by
  have : k = k' := funext fun a => funext fun s => h a s
  rw [this]

/-- The argument loop analyses every form in expression position. -/
theorem analyze_args_agree {ρ : Type} (a a' : analyzer ρ) (h : agree_off_return a a')
    (current_frame : Nat) (fn_ctx : Option Nat) (needs_box : Bool) (forms : List object)
    (acc : List expression) (s : processor ρ) :
    analyze_args a current_frame fn_ctx needs_box forms acc s
      = analyze_args a' current_frame fn_ctx needs_box forms acc s := by
  induction forms generalizing acc s with
  | nil => rfl
  | cons form rest ih =>
    simp only [analyze_args]
    rw [h form current_frame .expression fn_ctx needs_box s (by decide)]
    exact outcome.and_then_congr _ _ _ fun res s1 => ih _ _

/-- The loop of `do` hands its own position to the last form and statement position to the
others. -/
theorem analyze_do_body_agree {ρ : Type} (a a' : analyzer ρ) (h : agree_off_return a a')
    (current_frame : Nat) (expr_type : expression_type) (hpos : expr_type ≠ .return_statement)
    (fn_ctx : Option Nat) (needs_box : Bool) (form_count : Nat) (forms : List object) (i : Nat)
    (ret_needs_box : Bool) (body : List expression) (s : processor ρ) :
    analyze_do_body a current_frame expr_type fn_ctx needs_box form_count forms i
        ret_needs_box body s
      = analyze_do_body a' current_frame expr_type fn_ctx needs_box form_count forms i
        ret_needs_box body s := by
  induction forms generalizing i ret_needs_box body s with
  | nil => rfl
  | cons form rest ih =>
    simp only [analyze_do_body]
    have hform : (if decide (i + 1 = form_count) = true then expr_type
        else expression_type.statement) ≠ .return_statement := by
      split
      · exact hpos
      · decide
    rw [h form current_frame _ fn_ctx _ s hform]
    exact outcome.and_then_congr _ _ _ fun res s1 => ih _ _ _ _

/-- The binding loop of `let*` analyses every initialiser in expression position. -/
theorem analyze_let_bindings_agree {ρ : Type} (a a' : analyzer ρ) (h : agree_off_return a a')
    (current_frame frame : Nat) (fn_ctx : Option Nat) (n : Nat) (bindings : List object)
    (hlen : bindings.length ≤ n) (pairs : List (symbol × expression)) (s : processor ρ) :
    analyze_let_bindings a current_frame frame fn_ctx bindings pairs s
      = analyze_let_bindings a' current_frame frame fn_ctx bindings pairs s := by
  induction n generalizing bindings pairs s with
  | zero =>
    have : bindings = [] := List.length_eq_zero.mp (by omega)
    subst this
    simp [analyze_let_bindings]
  | succ n ih =>
    match bindings, hlen with
    | [], _ => simp [analyze_let_bindings]
    | [_], _ => simp [analyze_let_bindings]
    | sym_obj :: val :: rest, hlen =>
      simp only [analyze_let_bindings]
      rw [h val frame .expression fn_ctx false s (by decide)]
      have hrest : rest.length ≤ n := by
        simp only [List.length_cons] at hlen
        omega
      split
      · split
        · rfl
        · exact outcome.and_then_congr _ _ _ fun res s1 => ih rest hrest _ _
      · rfl

/-- The body loop of `let*` hands its own position to the last form and statement position to
the others. -/
theorem analyze_let_body_agree {ρ : Type} (a a' : analyzer ρ) (h : agree_off_return a a')
    (frame : Nat) (expr_type : expression_type) (hpos : expr_type ≠ .return_statement)
    (fn_ctx : Option Nat) (needs_box : Bool) (form_count : Nat) (forms : List object) (i : Nat)
    (ret_needs_box : Bool) (body : List expression) (s : processor ρ) :
    analyze_let_body a frame expr_type fn_ctx needs_box form_count forms i ret_needs_box body s
      = analyze_let_body a' frame expr_type fn_ctx needs_box form_count forms i ret_needs_box
        body s := by
  induction forms generalizing i ret_needs_box body s with
  | nil => rfl
  | cons form rest ih =>
    simp only [analyze_let_body]
    have hform : (if decide (i + 1 = form_count) = true then expr_type
        else expression_type.statement) ≠ .return_statement := by
      split
      · exact hpos
      · decide
    rw [h form frame _ fn_ctx _ s hform]
    exact outcome.and_then_congr _ _ _ fun res s1 => ih _ _ _ _

/-- The element loop of a vector analyses every element in expression position. -/
theorem analyze_vector_elements_agree {ρ : Type} (a a' : analyzer ρ)
    (h : agree_off_return a a') (current_frame : Nat) (fn_ctx : Option Nat)
    (forms : List object) (exprs : List expression) (literal : Bool) (s : processor ρ) :
    analyze_vector_elements a current_frame fn_ctx forms exprs literal s
      = analyze_vector_elements a' current_frame fn_ctx forms exprs literal s := by
  induction forms generalizing exprs literal s with
  | nil => rfl
  | cons form rest ih =>
    simp only [analyze_vector_elements]
    rw [h form current_frame .expression fn_ctx true s (by decide)]
    exact outcome.and_then_congr _ _ _ fun res s1 => ih _ _ _

/-- The pair loop of a map analyses every key and value in expression position. -/
theorem analyze_map_pairs_agree {ρ : Type} (a a' : analyzer ρ) (h : agree_off_return a a')
    (current_frame : Nat) (fn_ctx : Option Nat) (kvs : List (object × object))
    (exprs : List (expression × expression)) (s : processor ρ) :
    analyze_map_pairs a current_frame fn_ctx kvs exprs s
      = analyze_map_pairs a' current_frame fn_ctx kvs exprs s := by
  induction kvs generalizing exprs s with
  | nil => rfl
  | cons kv rest ih =>
    simp only [analyze_map_pairs]
    rw [h kv.1 current_frame .expression fn_ctx true s (by decide)]
    refine outcome.and_then_congr _ _ _ fun k_expr s1 => ?_
    rw [h kv.2 current_frame .expression fn_ctx true s1 (by decide)]
    exact outcome.and_then_congr _ _ _ fun v_expr s2 => ih _ _

/-- The chunk loop of `native/raw` analyses every interpolated form in expression position. -/
theorem native_raw_chunks_agree {ρ : Type} (R : runtime ρ) (a a' : analyzer ρ)
    (h : agree_off_return a a') (code : List Char) (current_frame : Nat)
    (fn_ctx : Option Nat) (n it : Nat) (chunks : List (String ⊕ expression))
    (s : processor ρ) :
    native_raw_chunks R a code current_frame fn_ctx n it chunks s
      = native_raw_chunks R a' code current_frame fn_ctx n it chunks s := by
  induction n generalizing it chunks s with
  | zero => rfl
  | succ n ih =>
    simp only [native_raw_chunks]
    split
    · rfl
    · split
      · rfl
      · split
        · rfl
        · rfl
        · rename_i form more _
          rw [h form current_frame .expression fn_ctx true s (by decide)]
          refine outcome.and_then_congr _ _ _ fun res s1 => ?_
          split
          · exact ih _ _ _
          · rfl

/-- The analyzer of `def` analyses the value in expression position. -/
theorem analyze_def_agree {ρ : Type} (R : runtime ρ) (a a' : analyzer ρ)
    (h : agree_off_return a a') (o : List object) (current_frame : Nat)
    (expr_type : expression_type) (fn_ctx : Option Nat) (needs_box : Bool) (s : processor ρ) :
    analyze_def R a o current_frame expr_type fn_ctx needs_box s
      = analyze_def R a' o current_frame expr_type fn_ctx needs_box s := by
  simp only [analyze_def]
  split
  · rfl
  · split
    · rfl
    · split
      · rfl
      · split
        · rfl
        · split
          · rfl
          · rw [h _ current_frame .expression fn_ctx true _ (by decide)]
    · rfl

/-- The analyzer of `recur` analyses the arguments in expression position. -/
theorem analyze_recur_agree {ρ : Type} (a a' : analyzer ρ) (h : agree_off_return a a')
    (o : List object) (current_frame : Nat) (expr_type : expression_type)
    (fn_ctx : Option Nat) (needs_box : Bool) (s : processor ρ) :
    analyze_recur a o current_frame expr_type fn_ctx needs_box s
      = analyze_recur a' o current_frame expr_type fn_ctx needs_box s := by
  simp only [analyze_recur, analyze_args_agree a a' h]

/-- The analyzer of `do`, in a position other than return, hands no return position down. -/
theorem analyze_do_agree {ρ : Type} (a a' : analyzer ρ) (h : agree_off_return a a')
    (o : List object) (current_frame : Nat) (expr_type : expression_type)
    (hpos : expr_type ≠ .return_statement) (fn_ctx : Option Nat) (needs_box : Bool)
    (s : processor ρ) :
    analyze_do a o current_frame expr_type fn_ctx needs_box s
      = analyze_do a' o current_frame expr_type fn_ctx needs_box s := by
  simp only [analyze_do, analyze_do_body_agree a a' h current_frame expr_type hpos]

/-- The analyzer of `let*`, in a position other than return, hands no return position down. -/
theorem analyze_let_agree {ρ : Type} (a a' : analyzer ρ) (h : agree_off_return a a')
    (o : List object) (current_frame : Nat) (expr_type : expression_type)
    (hpos : expr_type ≠ .return_statement) (fn_ctx : Option Nat) (needs_box : Bool)
    (s : processor ρ) :
    analyze_let a o current_frame expr_type fn_ctx needs_box s
      = analyze_let a' o current_frame expr_type fn_ctx needs_box s := by
  simp only [analyze_let]
  split
  · rfl
  · split
    · rfl
    · split
      · rfl
      · rename_i bindings _ _
        rw [analyze_let_bindings_agree a a' h current_frame _ fn_ctx bindings.length bindings
          (Nat.le_refl _)]
        refine outcome.and_then_congr _ _ _ fun pairs s1 => ?_
        rw [analyze_let_body_agree a a' h _ expr_type hpos]
    · rfl

/-- The analyzer of `if`, in a position other than return, hands no return position down. -/
theorem analyze_if_agree {ρ : Type} (a a' : analyzer ρ) (h : agree_off_return a a')
    (o : List object) (current_frame : Nat) (expr_type : expression_type)
    (hpos : expr_type ≠ .return_statement) (fn_ctx : Option Nat) (needs_box : Bool)
    (s : processor ρ) :
    analyze_if a o current_frame expr_type fn_ctx needs_box s
      = analyze_if a' o current_frame expr_type fn_ctx needs_box s := by
  simp only [analyze_if]
  split
  · rfl
  · split
    · rfl
    · split
      · rw [h _ current_frame .expression fn_ctx false s (by decide)]
        refine outcome.and_then_congr _ _ _ fun ce s1 => ?_
        rw [h _ current_frame expr_type fn_ctx true s1 hpos]
        refine outcome.and_then_congr _ _ _ fun te s2 => ?_
        split
        · split
          · rfl
          · rw [h _ current_frame expr_type fn_ctx true s2 hpos]
        · rfl
      · rfl

/-- The analyzer of `native/raw` analyses the interpolated forms in expression position. -/
theorem analyze_native_raw_agree {ρ : Type} (R : runtime ρ) (a a' : analyzer ρ)
    (h : agree_off_return a a') (o : List object) (current_frame : Nat)
    (expr_type : expression_type) (fn_ctx : Option Nat) (needs_box : Bool) (s : processor ρ) :
    analyze_native_raw R a o current_frame expr_type fn_ctx needs_box s
      = analyze_native_raw R a' o current_frame expr_type fn_ctx needs_box s := by
  simp only [analyze_native_raw, native_raw_chunks_agree R a a' h]

/-- The analyzer of vectors analyses the elements in expression position. -/
theorem analyze_vector_agree {ρ : Type} (a a' : analyzer ρ) (h : agree_off_return a a')
    (o : List object) (current_frame : Nat) (expr_type : expression_type)
    (fn_ctx : Option Nat) (needs_box : Bool) (s : processor ρ) :
    analyze_vector a o current_frame expr_type fn_ctx needs_box s
      = analyze_vector a' o current_frame expr_type fn_ctx needs_box s := by
  simp only [analyze_vector, analyze_vector_elements_agree a a' h]

/-- The analyzer of maps analyses keys and values in expression position. -/
theorem analyze_map_agree {ρ : Type} (a a' : analyzer ρ) (h : agree_off_return a a')
    (o : List (object × object)) (current_frame : Nat) (expr_type : expression_type)
    (fn_ctx : Option Nat) (needs_box : Bool) (s : processor ρ) :
    analyze_map a o current_frame expr_type fn_ctx needs_box s
      = analyze_map a' o current_frame expr_type fn_ctx needs_box s := by
  simp only [analyze_map, analyze_map_pairs_agree a a' h]

/-- Looking a symbol up in two tables with the same keys, whose analyzers under that symbol
give the same result on the given call, gives the same result. -/
theorem lookup_agree {ρ : Type} (sym : symbol) (o : List object) (current_frame : Nat)
    (expr_type : expression_type) (fn_ctx : Option Nat) (needs_box : Bool) (s : processor ρ)
    (l l' : List (symbol × special_analyzer ρ))
    (hrel : List.Forall₂
      (fun p p' => p.1 = p'.1
        ∧ (p.1 = sym → p.2 o current_frame expr_type fn_ctx needs_box s
            = p'.2 o current_frame expr_type fn_ctx needs_box s)) l l') :
    (l.lookup sym).map (fun sp => sp o current_frame expr_type fn_ctx needs_box s)
      = (l'.lookup sym).map (fun sp => sp o current_frame expr_type fn_ctx needs_box s) := by
  induction hrel with
  | nil => rfl
  | @cons p p' l l' hp _ ih =>
    obtain ⟨k, sp⟩ := p
    obtain ⟨k', sp'⟩ := p'
    obtain ⟨hk, hsp⟩ := hp
    simp only at hk hsp
    subst hk
    simp only [List.lookup_cons]
    by_cases hsym : sym = k
    · subst hsym
      simp [hsp rfl]
    · have hne : (sym == k) = false := by simpa using hsym
      simp only [hne]
      exact ih

/-- The call loop and node construction analyse every argument in expression position. -/
theorem finish_call_agree {ρ : Type} (a a' : analyzer ρ) (h : agree_off_return a a')
    (o : List object) (current_frame : Nat) (expr_type : expression_type)
    (fn_ctx : Option Nat) (needs_arg_box needs_ret_box : Bool) (source : expression)
    (s : processor ρ) :
    finish_call a o current_frame expr_type fn_ctx needs_arg_box needs_ret_box source s
      = finish_call a' o current_frame expr_type fn_ctx needs_arg_box needs_ret_box source s := by
  simp only [finish_call, analyze_args_agree a a' h]

/-- A list that is not headed by `fn*`, analysed in a position other than return, hands no
return position down: neither as a special form, nor to its head or arguments, nor to its
macro expansion, which is analysed in the position of the list. -/
theorem analyze_call_agree {ρ : Type} (R : runtime ρ) (a a' : analyzer ρ)
    (h : agree_off_return a a') (o : List object) (current_frame : Nat)
    (expr_type : expression_type) (hpos : expr_type ≠ .return_statement)
    (hfn : ∀ rest, o ≠ .symbol ⟨"", "fn*"⟩ :: rest)
    (fn_ctx : Option Nat) (needs_box : Bool) (s : processor ρ) :
    analyze_call R a o current_frame expr_type fn_ctx needs_box s
      = analyze_call R a' o current_frame expr_type fn_ctx needs_box s := by
  cases o with
  | nil => rfl
  | cons first rest =>
    have hother : (a first current_frame .expression fn_ctx needs_box s).and_then
          (fun source s1 =>
            finish_call a (first :: rest) current_frame expr_type fn_ctx true true source s1)
        = (a' first current_frame .expression fn_ctx needs_box s).and_then
          (fun source s1 =>
            finish_call a' (first :: rest) current_frame expr_type fn_ctx true true source
              s1) := by
      rw [h first current_frame .expression fn_ctx needs_box s (by decide)]
      exact outcome.and_then_congr _ _ _ fun source s1 => finish_call_agree a a' h _ _ _ _ _ _ _ _
    cases first with
    | symbol sym =>
      have hsym : sym ≠ ⟨"", "fn*"⟩ := fun hs => hfn rest (by rw [hs])
      have hlook := lookup_agree sym (.symbol sym :: rest) current_frame expr_type fn_ctx
        needs_box s (specials R a) (specials R a')
        (.cons ⟨rfl, fun _ => analyze_def_agree R a a' h _ current_frame expr_type fn_ctx
          needs_box s⟩
        (.cons ⟨rfl, fun hk => absurd hk.symm hsym⟩
        (.cons ⟨rfl, fun _ => analyze_recur_agree a a' h _ current_frame expr_type fn_ctx
          needs_box s⟩
        (.cons ⟨rfl, fun _ => analyze_do_agree a a' h _ current_frame expr_type hpos fn_ctx
          needs_box s⟩
        (.cons ⟨rfl, fun _ => analyze_let_agree a a' h _ current_frame expr_type hpos fn_ctx
          needs_box s⟩
        (.cons ⟨rfl, fun _ => analyze_if_agree a a' h _ current_frame expr_type hpos fn_ctx
          needs_box s⟩
        (.cons ⟨rfl, fun _ => rfl⟩
        (.cons ⟨rfl, fun _ => rfl⟩
        (.cons ⟨rfl, fun _ => analyze_native_raw_agree R a a' h _ current_frame expr_type
          fn_ctx needs_box s⟩ .nil)))))))))
      simp only [analyze_call]
      cases h1 : (specials R a).lookup sym with
      | some sp =>
        cases h2 : (specials R a').lookup sym with
        | some sp' =>
          rw [h1, h2] at hlook
          simpa using hlook
        | none =>
          rw [h1, h2] at hlook
          simp at hlook
      | none =>
        cases h2 : (specials R a').lookup sym with
        | some sp' =>
          rw [h1, h2] at hlook
          simp at hlook
        | none =>
          simp only
          refine outcome.and_then_congr _ _ _ fun source s1 => ?_
          split
          · exact h _ current_frame expr_type fn_ctx needs_box _ hpos
          · split
            · rfl
            · exact finish_call_agree a a' h _ _ _ _ _ _ _ _
    | _ => exact hother

/-- C30, as the code has it: whether a per-form analyzer hands return position down to a
sub-form is read off from whether its result can depend on what the analyzer of sub-forms
does in return position. The analyzers of `def`, `recur`, `native/raw`, vectors and maps never
hand return position down, in whatever position they are. The analyzers of `do`, `let*` and
`if`, and the analyzer of every list not headed by `fn*` (its special form, head, arguments
and macro expansion), hand no return position down when they are themselves in statement or
expression position. So return position reaches a sub-form only from a `do`, `let*`, `if` or
macro expansion that is itself in return position, or from `fn*`, which analyses the last
body form of each arity in return position whatever its own position. -/
theorem return_position_origin {ρ : Type} (R : runtime ρ) (a a' : analyzer ρ)
    (h : agree_off_return a a') (current_frame : Nat) (expr_type : expression_type)
    (fn_ctx : Option Nat) (needs_box : Bool) (s : processor ρ) :
    (∀ o, analyze_def R a o current_frame expr_type fn_ctx needs_box s
        = analyze_def R a' o current_frame expr_type fn_ctx needs_box s)
    ∧ (∀ o, analyze_recur a o current_frame expr_type fn_ctx needs_box s
        = analyze_recur a' o current_frame expr_type fn_ctx needs_box s)
    ∧ (∀ o, analyze_native_raw R a o current_frame expr_type fn_ctx needs_box s
        = analyze_native_raw R a' o current_frame expr_type fn_ctx needs_box s)
    ∧ (∀ o, analyze_vector a o current_frame expr_type fn_ctx needs_box s
        = analyze_vector a' o current_frame expr_type fn_ctx needs_box s)
    ∧ (∀ o, analyze_map a o current_frame expr_type fn_ctx needs_box s
        = analyze_map a' o current_frame expr_type fn_ctx needs_box s)
    ∧ (expr_type ≠ .return_statement →
        (∀ o, analyze_do a o current_frame expr_type fn_ctx needs_box s
          = analyze_do a' o current_frame expr_type fn_ctx needs_box s)
        ∧ (∀ o, analyze_let a o current_frame expr_type fn_ctx needs_box s
          = analyze_let a' o current_frame expr_type fn_ctx needs_box s)
        ∧ (∀ o, analyze_if a o current_frame expr_type fn_ctx needs_box s
          = analyze_if a' o current_frame expr_type fn_ctx needs_box s)
        ∧ (∀ o, (∀ rest, o ≠ .symbol ⟨"", "fn*"⟩ :: rest) →
          analyze_call R a o current_frame expr_type fn_ctx needs_box s
            = analyze_call R a' o current_frame expr_type fn_ctx needs_box s)) :=
  ⟨fun o => analyze_def_agree R a a' h o current_frame expr_type fn_ctx needs_box s,
    fun o => analyze_recur_agree a a' h o current_frame expr_type fn_ctx needs_box s,
    fun o => analyze_native_raw_agree R a a' h o current_frame expr_type fn_ctx needs_box s,
    fun o => analyze_vector_agree a a' h o current_frame expr_type fn_ctx needs_box s,
    fun o => analyze_map_agree a a' h o current_frame expr_type fn_ctx needs_box s,
    fun hpos =>
      ⟨fun o => analyze_do_agree a a' h o current_frame expr_type hpos fn_ctx needs_box s,
        fun o => analyze_let_agree a a' h o current_frame expr_type hpos fn_ctx needs_box s,
        fun o => analyze_if_agree a a' h o current_frame expr_type hpos fn_ctx needs_box s,
        fun o hfn =>
          analyze_call_agree R a a' h o current_frame expr_type hpos hfn fn_ctx needs_box s⟩⟩

/-- Witness for C30: `(do 1 2)` in statement position is analysed alike whether or not the
analyzer of its sub-forms stops in return position. -/
theorem return_position_origin_witness :
    analyze_do (analyze example_runtime 2) [.symbol ⟨"", "do"⟩, .integer 1, .integer 2] 0
        .statement none true (processor.init ⟨[], 0⟩)
      = analyze_do (return_guard (analyze example_runtime 2))
          [.symbol ⟨"", "do"⟩, .integer 1, .integer 2] 0 .statement none true
          (processor.init ⟨[], 0⟩) :=
  ((return_position_origin example_runtime (analyze example_runtime 2)
      (return_guard (analyze example_runtime 2))
      (fun o current_frame expr_type fn_ctx needs_box s hpos => by simp [return_guard, hpos])
      0 .statement none true (processor.init ⟨[], 0⟩)).2.2.2.2.2 (by decide)).1 _

/-- Counterexample to C30 as stated: `(fn* [] 1)` in statement position. Its sub-form `1` is
analysed in return position, as the literal in the arity body records, and no `if`, `do` or
`let*` in return position stands between; with an analyzer of sub-forms that stops in return
position the analysis of the form stops. -/
theorem return_position_origin_counterexample :
    analyze example_runtime 3 (.list [.symbol ⟨"", "fn*"⟩, .vector [], .integer 1]) 0 .statement
        none true (processor.init ⟨[], 0⟩)
      = .done
          (.ok (.function ⟨.statement, 0, true⟩ "fn_0"
            [.mk [] ⟨.return_statement, 1, true⟩
              [.primitive_literal ⟨.return_statement, 1, true⟩ (.integer 1)] 1 0]))
          ⟨⟨[], 1⟩,
            [ ⟨frame_type.root, none, [], [], []⟩,
              ⟨frame_type.fn, some 0, [], [], [.integer 1]⟩ ],
            [⟨0, false, false⟩], []⟩
    ∧ analyze_call example_runtime (return_guard (analyze example_runtime 2))
        [.symbol ⟨"", "fn*"⟩, .vector [], .integer 1] 0 .statement none true
        (processor.init ⟨[], 0⟩)
      = .aborted :=
  ⟨rfl, rfl⟩

/-! ## C21: sequential scope of `let*` -/

/-- Leaving the frames alone keeps the scopes. -/
theorem scopes_kept_refl (frames : List local_frame) : scopes_kept frames frames :=
  fun _ fr h => ⟨fr, h, rfl, fun _ _ => rfl⟩

/-- Keeping the scopes composes. -/
theorem scopes_kept_trans (f1 f2 f3 : List local_frame) (h12 : scopes_kept f1 f2)
    (h23 : scopes_kept f2 f3) : scopes_kept f1 f3 := by
  intro i fr hfr
  obtain ⟨fr2, hfr2, hty2, hn2⟩ := h12 i fr hfr
  obtain ⟨fr3, hfr3, hty3, hn3⟩ := h23 i fr2 hfr2
  refine ⟨fr3, hfr3, by rw [hty3, hty2], fun hne x => ?_⟩
  rw [hn3 (by rw [hty2]; exact hne) x, hn2 hne x]

/-- Appending frames keeps the scopes. -/
theorem scopes_kept_append (frames more : List local_frame) :
    scopes_kept frames (frames ++ more) := by
  intro i fr hfr
  have hi : i < frames.length := by
    by_contra hge
    rw [List.getElem?_eq_none (by omega)] at hfr
    cases hfr
  exact ⟨fr, by rw [List.getElem?_append_left hi]; exact hfr, rfl, fun _ _ => rfl⟩

/-- Changing one frame keeps the scopes when the change keeps the kind of the frame and, in a
frame that is not a `fn` frame, the names bound. -/
theorem scopes_kept_modify (frames : List local_frame) (j : Nat)
    (g : local_frame → local_frame)
    (hg : ∀ fr, frames[j]? = some fr → (g fr).type = fr.type
      ∧ (fr.type ≠ frame_type.fn →
          ∀ x, (find_index x (g fr).locals).isSome = (find_index x fr.locals).isSome)) :
    scopes_kept frames (modify_frame frames j g) := by
  intro i fr hfr
  rw [modify_frame_get]
  by_cases hij : i = j
  · subst hij
    obtain ⟨hty, hn⟩ := hg fr hfr
    exact ⟨g fr, by simp [hfr], hty, hn⟩
  · exact ⟨fr, by simp [hij, hfr], rfl, fun _ _ => rfl⟩

/-- Changing a frame that did not exist before keeps the scopes that did. -/
theorem scopes_kept_modify_new (frames0 frames : List local_frame) (j : Nat)
    (g : local_frame → local_frame) (h : scopes_kept frames0 frames)
    (hj : frames0.length ≤ j) : scopes_kept frames0 (modify_frame frames j g) := by
  intro i fr hfr
  have hi : i < frames0.length := by
    by_contra hge
    rw [List.getElem?_eq_none (by omega)] at hfr
    cases hfr
  obtain ⟨fr', hfr', hrest⟩ := h i fr hfr
  refine ⟨fr', ?_, hrest⟩
  rw [modify_frame_get, if_neg (by omega)]
  exact hfr'

/-- Setting flags on a binding keeps the scopes. -/
theorem scopes_kept_modify_binding (frames : List local_frame) (r : binding_ref)
    (g : local_binding → local_binding) (hg : ∀ b, (g b).name = b.name) :
    scopes_kept frames (modify_binding frames r g) := by
  unfold modify_binding
  apply scopes_kept_modify
  intro fr _
  cases hb : fr.locals[r.index]? with
  | none => exact ⟨rfl, fun _ _ => rfl⟩
  | some b =>
    refine ⟨rfl, fun _ x => ?_⟩
    simp only
    rw [find_index_set x fr.locals r.index b (g b) hb (hg b)]

/-- Lifting a constant keeps the scopes. -/
theorem scopes_kept_lift_constant (frames : List local_frame) (f : Nat) (o : object) :
    scopes_kept frames (lift_constant frames f o) := by
  unfold lift_constant
  apply scopes_kept_modify
  intro fr _
  split <;> exact ⟨rfl, fun _ _ => rfl⟩

/-- Lifting a var keeps the scopes. -/
theorem scopes_kept_lift_var (frames : List local_frame) (f : Nat) (q : symbol) :
    scopes_kept frames (lift_var frames f q) := by
  unfold lift_var
  apply scopes_kept_modify
  intro fr _
  split <;> exact ⟨rfl, fun _ _ => rfl⟩

/-- Registering a capture in a `fn` frame keeps the scopes. -/
theorem scopes_kept_register_capture (frames : List local_frame) (r : find_result) (x : Nat)
    (hx : ∀ fr, frames[x]? = some fr → fr.type = frame_type.fn) :
    scopes_kept frames (register_capture r frames x) := by
  unfold register_capture
  cases get_binding frames r.binding with
  | none => exact scopes_kept_refl frames
  | some orig =>
    simp only
    refine scopes_kept_trans _ _ _ (scopes_kept_modify frames x _ fun fr hfr => ?_)
      (scopes_kept_modify_binding _ _ local_binding.mark_boxed fun _ => rfl)
    exact ⟨rfl, fun hne => absurd (hx fr hfr) hne⟩

/-- Registering captures in `fn` frames keeps the scopes. -/
theorem scopes_kept_register_captures_fold (r : find_result) (l : List Nat)
    (frames0 : List local_frame)
    (hl : ∀ x ∈ l, ∃ fr, frames0[x]? = some fr ∧ fr.type = frame_type.fn)
    (frames : List local_frame) (h : scopes_kept frames0 frames) :
    scopes_kept frames0 (l.foldl (register_capture r) frames) := by
  induction l generalizing frames with
  | nil => exact h
  | cons x xs ih =>
    simp only [List.foldl_cons]
    apply ih (fun y hy => hl y (List.mem_cons_of_mem _ hy))
    refine scopes_kept_trans _ _ _ h (scopes_kept_register_capture frames r x fun fr hfr => ?_)
    obtain ⟨fr0, hfr0, hty0⟩ := hl x (List.mem_cons_self _ _)
    obtain ⟨fr', hfr', hty', _⟩ := h x fr0 hfr0
    rw [hfr] at hfr'
    cases hfr'
    rw [hty', hty0]

/-- The lookup with capture registration of `analyze_symbol` keeps the scopes. -/
theorem scopes_kept_register_captures (frames : List local_frame) (f : Nat) (sym : symbol)
    (r : find_result) (h : find_local_or_capture frames f sym = some r) :
    scopes_kept frames (register_captures frames r) := by
  obtain ⟨_, hcross⟩ := find_local_walk_facts frames sym frames.length f r h
  exact scopes_kept_register_captures_fold r r.crossed_fns frames
    (fun x hx => (hcross x hx).imp fun _ hfr => ⟨hfr.1, hfr.2.1⟩) frames
    (scopes_kept_refl frames)

/-- A successful `analyze_symbol` keeps the scopes. -/
theorem analyze_symbol_keeps {ρ : Type} (R : runtime ρ) (sym : symbol) (current_frame : Nat)
    (expr_type : expression_type) (fn_ctx : Option Nat) (needs_box : Bool) (s s' : processor ρ)
    (e : expression)
    (h : analyze_symbol R sym current_frame expr_type fn_ctx needs_box s = .done (.ok e) s') :
    scopes_kept s.frames s'.frames := by
  unfold analyze_symbol at h
  cases hfind : find_local_or_capture s.frames current_frame sym with
  | some found_local =>
    rw [hfind] at h
    simp only at h
    have hreg := scopes_kept_register_captures s.frames current_frame sym found_local hfind
    split at h
    · cases h
    · split at h
      · split at h
        · cases h
        · simp only [outcome.done.injEq, Except.ok.injEq] at h
          obtain ⟨_, rfl⟩ := h
          exact scopes_kept_trans _ _ _ hreg
            (scopes_kept_trans _ _ _
              (scopes_kept_modify_binding _ _ local_binding.mark_boxed fun _ => rfl)
              (scopes_kept_modify_binding _ _ local_binding.mark_boxed fun _ => rfl))
      · split at h
        · simp only [outcome.done.injEq, Except.ok.injEq] at h
          obtain ⟨_, rfl⟩ := h
          exact scopes_kept_trans _ _ _ hreg
            (scopes_kept_modify_binding _ _ local_binding.mark_boxed fun _ => rfl)
        · simp only [outcome.done.injEq, Except.ok.injEq] at h
          obtain ⟨_, rfl⟩ := h
          exact scopes_kept_trans _ _ _ hreg
            (scopes_kept_modify_binding _ _ local_binding.mark_unboxed fun _ => rfl)
  | none =>
    rw [hfind] at h
    simp only at h
    split at h
    · cases h
    · simp only [outcome.done.injEq, Except.ok.injEq] at h
      obtain ⟨_, rfl⟩ := h
      split
      · exact scopes_kept_lift_var _ _ _
      · exact scopes_kept_refl _

/-- The parameter loop changes only the frame of the function, which keeps its kind. -/
theorem analyze_params_keeps {ρ : Type} (R : runtime ρ) (frame : Nat) (params : List object)
    (is_variadic : Bool) (param_symbols unique_param_symbols : List symbol)
    (frames : List local_frame)
    (hfn : ∀ fr, frames[frame]? = some fr → fr.type = frame_type.fn) :
    scopes_kept frames
      (analyze_params R frame params is_variadic param_symbols unique_param_symbols frames).2 := by
  induction params generalizing is_variadic param_symbols unique_param_symbols frames with
  | nil => exact scopes_kept_refl _
  | cons p rest ih =>
    have hstep : ∀ g : local_frame → local_frame, (∀ fr, (g fr).type = fr.type) →
        scopes_kept frames (modify_frame frames frame g)
        ∧ ∀ fr, (modify_frame frames frame g)[frame]? = some fr → fr.type = frame_type.fn := by
      intro g hg
      refine ⟨scopes_kept_modify frames frame g fun fr hfr =>
        ⟨hg fr, fun hne => absurd (hfn fr hfr) hne⟩, fun fr hfr => ?_⟩
      rw [modify_frame_get] at hfr
      simp only [if_true] at hfr
      cases h0 : frames[frame]? with
      | none => simp [h0] at hfr
      | some fr0 =>
        simp only [h0, Option.map_some', Option.some.injEq] at hfr
        rw [← hfr, hg fr0]
        exact hfn fr0 h0
    cases p with
    | symbol sym =>
      simp only [analyze_params]
      split
      · exact scopes_kept_refl _
      · split
        · split
          · exact scopes_kept_refl _
          · split
            · exact scopes_kept_refl _
            · split
              · exact scopes_kept_refl _
              · exact ih _ _ _ frames hfn
        · split
          · obtain ⟨h1, h2⟩ := hstep
              (fun fr => { fr with
                locals := (locals_emplace (erase_binding_name sym fr.locals)
                  (param_binding R sym)) })
              (fun _ => rfl)
            exact scopes_kept_trans _ _ _ h1 (ih _ _ _ _ h2)
          · obtain ⟨h1, h2⟩ := hstep
              (fun fr => { fr with
                locals := (locals_emplace fr.locals (param_binding R sym)) })
              (fun _ => rfl)
            exact scopes_kept_trans _ _ _ h1 (ih _ _ _ _ h2)
    | _ => exact scopes_kept_refl _

/-- The argument loop keeps the scopes when the analyzer of the arguments does. -/
theorem analyze_args_keeps {ρ : Type} (a : analyzer ρ) (ha : keeps_scopes a)
    (current_frame : Nat) (fn_ctx : Option Nat) (needs_box : Bool) (forms : List object)
    (acc es : List expression) (s s' : processor ρ)
    (h : analyze_args a current_frame fn_ctx needs_box forms acc s = .done (.ok es) s') :
    scopes_kept s.frames s'.frames := by
  induction forms generalizing acc s with
  | nil =>
    simp only [analyze_args, outcome.done.injEq, Except.ok.injEq] at h
    rw [← h.2]
    exact scopes_kept_refl _
  | cons form rest ih =>
    simp only [analyze_args] at h
    obtain ⟨e, s1, he, hk⟩ := (outcome.and_then_ok _ _ _ _).mp h
    exact scopes_kept_trans _ _ _ (ha _ _ _ _ _ _ _ _ he) (ih _ _ hk)

/-- The loop of `do` keeps the scopes. -/
theorem analyze_do_body_keeps {ρ : Type} (a : analyzer ρ) (ha : keeps_scopes a)
    (current_frame : Nat) (expr_type : expression_type) (fn_ctx : Option Nat)
    (needs_box : Bool) (form_count : Nat) (forms : List object) (i : Nat)
    (ret_needs_box : Bool) (body : List expression) (s s' : processor ρ)
    (ret : Bool × List expression)
    (h : analyze_do_body a current_frame expr_type fn_ctx needs_box form_count forms i
      ret_needs_box body s = .done (.ok ret) s') :
    scopes_kept s.frames s'.frames := by
  induction forms generalizing i ret_needs_box body s with
  | nil =>
    simp only [analyze_do_body, outcome.done.injEq, Except.ok.injEq] at h
    rw [← h.2]
    exact scopes_kept_refl _
  | cons form rest ih =>
    simp only [analyze_do_body] at h
    obtain ⟨e, s1, he, hk⟩ := (outcome.and_then_ok _ _ _ _).mp h
    exact scopes_kept_trans _ _ _ (ha _ _ _ _ _ _ _ _ he) (ih _ _ _ _ hk)

/-- The body loop of `let*` keeps the scopes. -/
theorem analyze_let_body_keeps {ρ : Type} (a : analyzer ρ) (ha : keeps_scopes a)
    (frame : Nat) (expr_type : expression_type) (fn_ctx : Option Nat)
    (needs_box : Bool) (form_count : Nat) (forms : List object) (i : Nat)
    (ret_needs_box : Bool) (body : List expression) (s s' : processor ρ)
    (ret : Bool × List expression)
    (h : analyze_let_body a frame expr_type fn_ctx needs_box form_count forms i
      ret_needs_box body s = .done (.ok ret) s') :
    scopes_kept s.frames s'.frames := by
  induction forms generalizing i ret_needs_box body s with
  | nil =>
    simp only [analyze_let_body, outcome.done.injEq, Except.ok.injEq] at h
    rw [← h.2]
    exact scopes_kept_refl _
  | cons form rest ih =>
    simp only [analyze_let_body] at h
    obtain ⟨e, s1, he, hk⟩ := (outcome.and_then_ok _ _ _ _).mp h
    exact scopes_kept_trans _ _ _ (ha _ _ _ _ _ _ _ _ he) (ih _ _ _ _ hk)

/-- The body loop of an arity keeps the scopes. -/
theorem analyze_arity_body_keeps {ρ : Type} (a : analyzer ρ) (ha : keeps_scopes a)
    (frame fn_ctx form_count : Nat) (forms : List object) (i : Nat)
    (body es : List expression) (s s' : processor ρ)
    (h : analyze_arity_body a frame fn_ctx form_count forms i body s = .done (.ok es) s') :
    scopes_kept s.frames s'.frames := by
  induction forms generalizing i body s with
  | nil =>
    simp only [analyze_arity_body, outcome.done.injEq, Except.ok.injEq] at h
    rw [← h.2]
    exact scopes_kept_refl _
  | cons form rest ih =>
    simp only [analyze_arity_body] at h
    obtain ⟨e, s1, he, hk⟩ := (outcome.and_then_ok _ _ _ _).mp h
    exact scopes_kept_trans _ _ _ (ha _ _ _ _ _ _ _ _ he) (ih _ _ _ hk)

/-- The element loop of a vector keeps the scopes. -/
theorem analyze_vector_elements_keeps {ρ : Type} (a : analyzer ρ) (ha : keeps_scopes a)
    (current_frame : Nat) (fn_ctx : Option Nat) (forms : List object)
    (exprs : List expression) (literal : Bool) (s s' : processor ρ)
    (r : List expression × Bool)
    (h : analyze_vector_elements a current_frame fn_ctx forms exprs literal s
      = .done (.ok r) s') :
    scopes_kept s.frames s'.frames := by
  induction forms generalizing exprs literal s with
  | nil =>
    simp only [analyze_vector_elements, outcome.done.injEq, Except.ok.injEq] at h
    rw [← h.2]
    exact scopes_kept_refl _
  | cons form rest ih =>
    simp only [analyze_vector_elements] at h
    obtain ⟨e, s1, he, hk⟩ := (outcome.and_then_ok _ _ _ _).mp h
    exact scopes_kept_trans _ _ _ (ha _ _ _ _ _ _ _ _ he) (ih _ _ _ hk)

/-- The pair loop of a map keeps the scopes. -/
theorem analyze_map_pairs_keeps {ρ : Type} (a : analyzer ρ) (ha : keeps_scopes a)
    (current_frame : Nat) (fn_ctx : Option Nat) (kvs : List (object × object))
    (exprs r : List (expression × expression)) (s s' : processor ρ)
    (h : analyze_map_pairs a current_frame fn_ctx kvs exprs s = .done (.ok r) s') :
    scopes_kept s.frames s'.frames := by
  induction kvs generalizing exprs s with
  | nil =>
    simp only [analyze_map_pairs, outcome.done.injEq, Except.ok.injEq] at h
    rw [← h.2]
    exact scopes_kept_refl _
  | cons kv rest ih =>
    simp only [analyze_map_pairs] at h
    obtain ⟨k, s1, hk1, h1⟩ := (outcome.and_then_ok _ _ _ _).mp h
    obtain ⟨v, s2, hv, h2⟩ := (outcome.and_then_ok _ _ _ _).mp h1
    exact scopes_kept_trans _ _ _ (ha _ _ _ _ _ _ _ _ hk1)
      (scopes_kept_trans _ _ _ (ha _ _ _ _ _ _ _ _ hv) (ih _ _ h2))

/-- The chunk loop of `native/raw` keeps the scopes. -/
theorem native_raw_chunks_keeps {ρ : Type} (R : runtime ρ) (a : analyzer ρ)
    (ha : keeps_scopes a) (code : List Char) (current_frame : Nat) (fn_ctx : Option Nat)
    (n it : Nat) (chunks cs : List (String ⊕ expression)) (s s' : processor ρ)
    (h : native_raw_chunks R a code current_frame fn_ctx n it chunks s = .done (.ok cs) s') :
    scopes_kept s.frames s'.frames := by
  induction n generalizing it chunks s with
  | zero => simp [native_raw_chunks] at h
  | succ n ih =>
    simp only [native_raw_chunks] at h
    split at h
    · simp only [outcome.done.injEq, Except.ok.injEq] at h
      rw [← h.2]
      exact scopes_kept_refl _
    · split at h
      · cases h
      · split at h
        · cases h
        · cases h
        · obtain ⟨e, s1, he, hk⟩ := (outcome.and_then_ok _ _ _ _).mp h
          split at hk
          · exact scopes_kept_trans _ _ _ (ha _ _ _ _ _ _ _ _ he) (ih _ _ _ hk)
          · cases hk

/-- The binding loop of `let*` changes, besides what the analyses of the initialisers change,
only the let's frame; the scopes that existed before that frame are kept. -/
theorem analyze_let_bindings_keeps {ρ : Type} (a : analyzer ρ) (ha : keeps_scopes a)
    (frames0 : List local_frame) (current_frame frame : Nat) (hframe : frames0.length ≤ frame)
    (fn_ctx : Option Nat) (n : Nat) (bindings : List object) (hlen : bindings.length ≤ n)
    (pairs ps : List (symbol × expression)) (s s' : processor ρ)
    (h0 : scopes_kept frames0 s.frames)
    (h : analyze_let_bindings a current_frame frame fn_ctx bindings pairs s
      = .done (.ok ps) s') :
    scopes_kept frames0 s'.frames := by
  induction n generalizing bindings pairs s with
  | zero =>
    have : bindings = [] := List.length_eq_zero.mp (by omega)
    subst this
    simp only [analyze_let_bindings, outcome.done.injEq, Except.ok.injEq] at h
    rw [← h.2]
    exact h0
  | succ n ih =>
    match bindings, hlen, h with
    | [], _, h =>
      simp only [analyze_let_bindings, outcome.done.injEq, Except.ok.injEq] at h
      rw [← h.2]
      exact h0
    | [_], _, h =>
      simp only [analyze_let_bindings, outcome.done.injEq, Except.ok.injEq] at h
      rw [← h.2]
      exact h0
    | sym_obj :: val :: rest, hlen, h =>
      have hrest : rest.length ≤ n := by
        simp only [List.length_cons] at hlen
        omega
      simp only [analyze_let_bindings] at h
      split at h
      · split at h
        · cases h
        · obtain ⟨e, s1, he, hk⟩ := (outcome.and_then_ok _ _ _ _).mp h
          exact ih rest hrest _ _
            (scopes_kept_modify_new frames0 s1.frames frame _
              (scopes_kept_trans _ _ _ h0 (ha _ _ _ _ _ _ _ _ he)) hframe) hk
      · cases h

/-- A successful `analyze_def` keeps the scopes. -/
theorem analyze_def_keeps {ρ : Type} (R : runtime ρ) (a : analyzer ρ) (ha : keeps_scopes a)
    (o : List object) (current_frame : Nat) (expr_type : expression_type)
    (fn_ctx : Option Nat) (needs_box : Bool) (s s' : processor ρ) (e : expression)
    (h : analyze_def R a o current_frame expr_type fn_ctx needs_box s = .done (.ok e) s') :
    scopes_kept s.frames s'.frames := by
  simp only [analyze_def, lift_var_unqualified] at h
  split at h
  · cases h
  · split at h
    · cases h
    · split at h
      · cases h
      · split at h
        · cases h
        · split at h
          · simp only [outcome.done.injEq, Except.ok.injEq] at h
            rw [← h.2]
            exact scopes_kept_lift_var _ _ _
          · obtain ⟨ve, s3, hv, hk⟩ := (outcome.and_then_ok _ _ _ _).mp h
            simp only [outcome.done.injEq, Except.ok.injEq] at hk
            rw [← hk.2]
            exact scopes_kept_trans _ _ _ (scopes_kept_lift_var _ _ _)
              (ha _ _ _ _ _ _ _ _ hv)
    · cases h

/-- A successful `analyze_fn_arity` keeps the scopes: it adds the frame of the function and
changes nothing else but through the analyses of the body. -/
theorem analyze_fn_arity_keeps {ρ : Type} (R : runtime ρ) (a : analyzer ρ)
    (ha : keeps_scopes a) (list : List object) (current_frame : Nat) (s s' : processor ρ)
    (arity : function_arity)
    (h : analyze_fn_arity R a list current_frame s = .done (.ok arity) s') :
    scopes_kept s.frames s'.frames := by
  cases list with
  | nil => simp [analyze_fn_arity] at h
  | cons first body =>
    cases first with
    | vector params =>
      obtain ⟨is_variadic, frames, exprs, hp, _, _, hbody⟩ :=
        analyze_fn_arity_ok_inv R a params body current_frame s s' arity h
      have hparams := analyze_params_keeps R s.frames.length params false [] []
        (s.frames ++ [⟨frame_type.fn, some current_frame, [], [], []⟩])
        (fun fr hfr => by
          simp only [List.getElem?_concat_length, Option.some.injEq] at hfr
          rw [← hfr])
      rw [hp] at hparams
      have hb := analyze_arity_body_keeps a ha _ _ _ _ _ _ _ _ _ hbody
      exact scopes_kept_trans _ _ _ (scopes_kept_append _ _)
        (scopes_kept_trans _ _ _ hparams hb)
    | _ => simp [analyze_fn_arity] at h

/-- The loop over the arities of a `fn*` keeps the scopes. -/
theorem analyze_fn_arities_keeps {ρ : Type} (R : runtime ρ) (a : analyzer ρ)
    (ha : keeps_scopes a) (current_frame : Nat) (lists : List object)
    (arities r : List function_arity) (s s' : processor ρ)
    (h : analyze_fn_arities R a current_frame lists arities s = .done (.ok r) s') :
    scopes_kept s.frames s'.frames := by
  induction lists generalizing arities s with
  | nil =>
    simp only [analyze_fn_arities, outcome.done.injEq, Except.ok.injEq] at h
    rw [← h.2]
    exact scopes_kept_refl _
  | cons first rest ih =>
    cases first with
    | list arity_list =>
      simp only [analyze_fn_arities] at h
      obtain ⟨arity, s1, h1, hk⟩ := (outcome.and_then_ok _ _ _ _).mp h
      exact scopes_kept_trans _ _ _ (analyze_fn_arity_keeps R a ha _ _ _ _ _ h1) (ih _ _ hk)
    | _ => simp [analyze_fn_arities] at h

/-- A successful `finish_fn` leaves the frames as they were. -/
theorem finish_fn_frames {ρ : Type} (R : runtime ρ) (current_frame : Nat)
    (expr_type : expression_type) (name : String) (arities : List function_arity)
    (s s' : processor ρ) (e : expression)
    (h : finish_fn R current_frame expr_type name arities s = .done (.ok e) s') :
    s'.frames = s.frames := by
  unfold finish_fn at h
  split at h
  · cases h
  · split at h
    · cases h
    · split at h
      · cases h
      · simp only at h
        split at h
        · simp only [outcome.done.injEq, Except.ok.injEq] at h
          rw [← h.2]
        · simp only [outcome.done.injEq, Except.ok.injEq] at h
          rw [← h.2]

/-- A successful `analyze_fn` keeps the scopes. -/
theorem analyze_fn_keeps {ρ : Type} (R : runtime ρ) (a : analyzer ρ) (ha : keeps_scopes a)
    (o : List object) (current_frame : Nat) (expr_type : expression_type)
    (fn_ctx : Option Nat) (needs_box : Bool) (s s' : processor ρ) (e : expression)
    (h : analyze_fn R a o current_frame expr_type fn_ctx needs_box s = .done (.ok e) s') :
    scopes_kept s.frames s'.frames := by
  have hfinish : ∀ (s1 : processor ρ) (x : outcome ρ (List function_arity)) (name : String),
      s1.frames = s.frames →
      (∀ r s2, x = .done (.ok r) s2 → scopes_kept s1.frames s2.frames) →
      (x.and_then fun arities s2 => finish_fn R current_frame expr_type name arities s2)
        = .done (.ok e) s' → scopes_kept s.frames s'.frames := by
    intro s1 x name hs1 hx hrun
    obtain ⟨arities, s2, harities, hfin⟩ := (outcome.and_then_ok _ _ _ _).mp hrun
    rw [finish_fn_frames R _ _ _ _ _ _ _ hfin, ← hs1]
    exact hx arities s2 harities
  have harity : ∀ (s1 : processor ρ) (list : List object) r s2,
      ((analyze_fn_arity R a list current_frame s1).and_then fun arity s2 =>
        (.done (.ok [arity]) s2 : outcome ρ (List function_arity))) = .done (.ok r) s2 →
      scopes_kept s1.frames s2.frames := by
    intro s1 list r s2 hrun
    obtain ⟨arity, s3, h3, hk⟩ := (outcome.and_then_ok _ _ _ _).mp hrun
    simp only [outcome.done.injEq, Except.ok.injEq] at hk
    rw [← hk.2]
    exact analyze_fn_arity_keeps R a ha _ _ _ _ _ h3
  simp only [analyze_fn] at h
  split at h
  · cases h
  · split at h
    · cases h
    · split at h
      · cases h
      · rename_i first_elem0 _ s1 name0 first_elem list hnamed
        have hs1 : s1.frames = s.frames := by
          split at hnamed <;>
            (simp only [Prod.mk.injEq] at hnamed
             rw [← hnamed.1])
        refine hfinish s1 _ _ hs1 ?_ h
        intro r s2 hx
        split at hx
        · exact harity s1 _ r s2 hx
        · exact analyze_fn_arities_keeps R a ha _ _ _ _ _ _ hx
        · cases hx

/-- A successful `analyze_recur` keeps the scopes. -/
theorem analyze_recur_keeps {ρ : Type} (a : analyzer ρ) (ha : keeps_scopes a)
    (o : List object) (current_frame : Nat) (expr_type : expression_type)
    (fn_ctx : Option Nat) (needs_box : Bool) (s s' : processor ρ) (e : expression)
    (h : analyze_recur a o current_frame expr_type fn_ctx needs_box s = .done (.ok e) s') :
    scopes_kept s.frames s'.frames := by
  simp only [analyze_recur] at h
  split at h
  · cases h
  · split at h
    · cases h
    · split at h
      · cases h
      · obtain ⟨es, s1, hargs, hk⟩ := (outcome.and_then_ok _ _ _ _).mp h
        simp only [outcome.done.injEq, Except.ok.injEq] at hk
        rw [← hk.2]
        exact analyze_args_keeps a ha _ _ _ _ _ _ s s1 hargs

/-- A successful `analyze_do` keeps the scopes. -/
theorem analyze_do_keeps {ρ : Type} (a : analyzer ρ) (ha : keeps_scopes a)
    (o : List object) (current_frame : Nat) (expr_type : expression_type)
    (fn_ctx : Option Nat) (needs_box : Bool) (s s' : processor ρ) (e : expression)
    (h : analyze_do a o current_frame expr_type fn_ctx needs_box s = .done (.ok e) s') :
    scopes_kept s.frames s'.frames := by
  simp only [analyze_do] at h
  obtain ⟨ret, s1, hbody, hk⟩ := (outcome.and_then_ok _ _ _ _).mp h
  simp only [outcome.done.injEq, Except.ok.injEq] at hk
  rw [← hk.2]
  exact analyze_do_body_keeps a ha _ _ _ _ _ _ _ _ _ _ _ _ hbody

/-- A successful `analyze_let` keeps the scopes that existed before it: the frame of the let
is new. -/
theorem analyze_let_keeps {ρ : Type} (a : analyzer ρ) (ha : keeps_scopes a)
    (o : List object) (current_frame : Nat) (expr_type : expression_type)
    (fn_ctx : Option Nat) (needs_box : Bool) (s s' : processor ρ) (e : expression)
    (h : analyze_let a o current_frame expr_type fn_ctx needs_box s = .done (.ok e) s') :
    scopes_kept s.frames s'.frames := by
  simp only [analyze_let, new_frame] at h
  split at h
  · cases h
  · split at h
    · cases h
    · split at h
      · cases h
      · rename_i bindings _ _
        obtain ⟨pairs, s1, hbind, hk⟩ := (outcome.and_then_ok _ _ _ _).mp h
        obtain ⟨ret, s2, hbody, hk2⟩ := (outcome.and_then_ok _ _ _ _).mp hk
        simp only [outcome.done.injEq, Except.ok.injEq] at hk2
        rw [← hk2.2]
        have h1 := analyze_let_bindings_keeps a ha s.frames current_frame s.frames.length
          (Nat.le_refl _) fn_ctx bindings.length bindings (Nat.le_refl _) [] pairs _ s1
          (scopes_kept_append s.frames _) hbind
        exact scopes_kept_trans _ _ _ h1
          (analyze_let_body_keeps a ha _ _ _ _ _ _ _ _ _ _ _ _ hbody)
    · cases h

/-- A successful `analyze_if` keeps the scopes. -/
theorem analyze_if_keeps {ρ : Type} (a : analyzer ρ) (ha : keeps_scopes a)
    (o : List object) (current_frame : Nat) (expr_type : expression_type)
    (fn_ctx : Option Nat) (needs_box : Bool) (s s' : processor ρ) (e : expression)
    (h : analyze_if a o current_frame expr_type fn_ctx needs_box s = .done (.ok e) s') :
    scopes_kept s.frames s'.frames := by
  simp only [analyze_if] at h
  split at h
  · cases h
  · split at h
    · cases h
    · split at h
      · obtain ⟨ce, s1, hc, hk⟩ := (outcome.and_then_ok _ _ _ _).mp h
        obtain ⟨te, s2, ht, hk2⟩ := (outcome.and_then_ok _ _ _ _).mp hk
        have h12 := scopes_kept_trans _ _ _ (ha _ _ _ _ _ _ _ _ hc) (ha _ _ _ _ _ _ _ _ ht)
        split at hk2
        · split at hk2
          · cases hk2
          · obtain ⟨ee, s3, he, hk3⟩ := (outcome.and_then_ok _ _ _ _).mp hk2
            simp only [outcome.done.injEq, Except.ok.injEq] at hk3
            rw [← hk3.2]
            exact scopes_kept_trans _ _ _ h12 (ha _ _ _ _ _ _ _ _ he)
        · simp only [outcome.done.injEq, Except.ok.injEq] at hk2
          rw [← hk2.2]
          exact h12
      · cases h

/-- The analyzer of primitive literals keeps the scopes. -/
theorem analyze_primitive_literal_keeps {ρ : Type} (o : object) (current_frame : Nat)
    (expr_type : expression_type) (fn_ctx : Option Nat) (needs_box : Bool)
    (s s' : processor ρ) (e : expression)
    (h : analyze_primitive_literal o current_frame expr_type fn_ctx needs_box s
      = .done (.ok e) s') :
    scopes_kept s.frames s'.frames := by
  simp only [analyze_primitive_literal, outcome.done.injEq, Except.ok.injEq] at h
  rw [← h.2]
  exact scopes_kept_lift_constant _ _ _

/-- A successful `analyze_quote` keeps the scopes. -/
theorem analyze_quote_keeps {ρ : Type} (o : List object) (current_frame : Nat)
    (expr_type : expression_type) (fn_ctx : Option Nat) (needs_box : Bool)
    (s s' : processor ρ) (e : expression)
    (h : analyze_quote o current_frame expr_type fn_ctx needs_box s = .done (.ok e) s') :
    scopes_kept s.frames s'.frames := by
  simp only [analyze_quote] at h
  split at h
  · cases h
  · split at h
    · cases h
    · exact analyze_primitive_literal_keeps _ _ _ _ _ _ _ _ h

/-- A successful `analyze_var` keeps the scopes. -/
theorem analyze_var_keeps {ρ : Type} (R : runtime ρ) (o : List object) (current_frame : Nat)
    (expr_type : expression_type) (fn_ctx : Option Nat) (needs_box : Bool)
    (s s' : processor ρ) (e : expression)
    (h : analyze_var R o current_frame expr_type fn_ctx needs_box s = .done (.ok e) s') :
    scopes_kept s.frames s'.frames := by
  obtain ⟨hs, _⟩ := (analyze_var_ref R o current_frame expr_type fn_ctx needs_box s).2.2 e s' h
  rw [hs]
  exact scopes_kept_refl _

/-- A successful `analyze_native_raw` keeps the scopes. -/
theorem analyze_native_raw_keeps {ρ : Type} (R : runtime ρ) (a : analyzer ρ)
    (ha : keeps_scopes a) (o : List object) (current_frame : Nat)
    (expr_type : expression_type) (fn_ctx : Option Nat) (needs_box : Bool)
    (s s' : processor ρ) (e : expression)
    (h : analyze_native_raw R a o current_frame expr_type fn_ctx needs_box s
      = .done (.ok e) s') :
    scopes_kept s.frames s'.frames := by
  simp only [analyze_native_raw] at h
  split at h
  · cases h
  · split at h
    · cases h
    · split at h
      · simp only [outcome.done.injEq, Except.ok.injEq] at h
        rw [← h.2]
        exact scopes_kept_refl _
      · obtain ⟨cs, s1, hloop, hk⟩ := (outcome.and_then_ok _ _ _ _).mp h
        simp only [outcome.done.injEq, Except.ok.injEq] at hk
        rw [← hk.2]
        exact native_raw_chunks_keeps R a ha _ _ _ _ _ _ _ _ _ hloop
    · cases h

/-- A successful `analyze_vector` keeps the scopes. -/
theorem analyze_vector_keeps {ρ : Type} (a : analyzer ρ) (ha : keeps_scopes a)
    (o : List object) (current_frame : Nat) (expr_type : expression_type)
    (fn_ctx : Option Nat) (needs_box : Bool) (s s' : processor ρ) (e : expression)
    (h : analyze_vector a o current_frame expr_type fn_ctx needs_box s = .done (.ok e) s') :
    scopes_kept s.frames s'.frames := by
  simp only [analyze_vector] at h
  obtain ⟨r, s1, hloop, hk⟩ := (outcome.and_then_ok _ _ _ _).mp h
  have h1 := analyze_vector_elements_keeps a ha _ _ _ _ _ _ _ _ hloop
  split at hk
  · simp only [outcome.done.injEq, Except.ok.injEq] at hk
    rw [← hk.2]
    exact scopes_kept_trans _ _ _ h1 (scopes_kept_lift_constant _ _ _)
  · simp only [outcome.done.injEq, Except.ok.injEq] at hk
    rw [← hk.2]
    exact h1

/-- A successful `analyze_map` keeps the scopes. -/
theorem analyze_map_keeps {ρ : Type} (a : analyzer ρ) (ha : keeps_scopes a)
    (o : List (object × object)) (current_frame : Nat) (expr_type : expression_type)
    (fn_ctx : Option Nat) (needs_box : Bool) (s s' : processor ρ) (e : expression)
    (h : analyze_map a o current_frame expr_type fn_ctx needs_box s = .done (.ok e) s') :
    scopes_kept s.frames s'.frames := by
  simp only [analyze_map] at h
  obtain ⟨r, s1, hloop, hk⟩ := (outcome.and_then_ok _ _ _ _).mp h
  simp only [outcome.done.injEq, Except.ok.injEq] at hk
  rw [← hk.2]
  exact analyze_map_pairs_keeps a ha _ _ _ _ _ _ _ hloop

/-- What is found in a table is one of its entries. -/
theorem lookup_mem {ρ : Type} (l : List (symbol × special_analyzer ρ)) (sym : symbol)
    (sp : special_analyzer ρ) (h : l.lookup sym = some sp) : ∃ k, (k, sp) ∈ l := by
  induction l with
  | nil => simp at h
  | cons p rest ih =>
    obtain ⟨k, v⟩ := p
    simp only [List.lookup_cons] at h
    split at h
    · simp only [Option.some.injEq] at h
      exact ⟨k, by simp [h]⟩
    · obtain ⟨k', hk'⟩ := ih h
      exact ⟨k', List.mem_cons_of_mem _ hk'⟩

/-- Every special-form analyzer keeps the scopes when the analyzer of sub-forms does. -/
theorem specials_keep {ρ : Type} (R : runtime ρ) (a : analyzer ρ) (ha : keeps_scopes a)
    (k : symbol) (sp : special_analyzer ρ) (hmem : (k, sp) ∈ specials R a)
    (o : List object) (current_frame : Nat) (expr_type : expression_type)
    (fn_ctx : Option Nat) (needs_box : Bool) (s s' : processor ρ) (e : expression)
    (h : sp o current_frame expr_type fn_ctx needs_box s = .done (.ok e) s') :
    scopes_kept s.frames s'.frames := by
  simp only [specials, List.mem_cons, Prod.mk.injEq, List.mem_singleton, List.not_mem_nil,
    or_false] at hmem
  rcases hmem with ⟨_, rfl⟩ | ⟨_, rfl⟩ | ⟨_, rfl⟩ | ⟨_, rfl⟩ | ⟨_, rfl⟩ | ⟨_, rfl⟩ | ⟨_, rfl⟩
    | ⟨_, rfl⟩ | ⟨_, rfl⟩
  · exact analyze_def_keeps R a ha _ _ _ _ _ _ _ _ h
  · exact analyze_fn_keeps R a ha _ _ _ _ _ _ _ _ h
  · exact analyze_recur_keeps a ha _ _ _ _ _ _ _ _ h
  · exact analyze_do_keeps a ha _ _ _ _ _ _ _ _ h
  · exact analyze_let_keeps a ha _ _ _ _ _ _ _ _ h
  · exact analyze_if_keeps a ha _ _ _ _ _ _ _ _ h
  · exact analyze_quote_keeps _ _ _ _ _ _ _ _ h
  · exact analyze_var_keeps R _ _ _ _ _ _ _ _ h
  · exact analyze_native_raw_keeps R a ha _ _ _ _ _ _ _ _ h

/-- The argument loop and node construction of a call keep the scopes. -/
theorem finish_call_keeps {ρ : Type} (a : analyzer ρ) (ha : keeps_scopes a)
    (o : List object) (current_frame : Nat) (expr_type : expression_type)
    (fn_ctx : Option Nat) (needs_arg_box needs_ret_box : Bool) (source : expression)
    (s s' : processor ρ) (e : expression)
    (h : finish_call a o current_frame expr_type fn_ctx needs_arg_box needs_ret_box source s
      = .done (.ok e) s') :
    scopes_kept s.frames s'.frames := by
  simp only [finish_call] at h
  obtain ⟨es, s1, hargs, hk⟩ := (outcome.and_then_ok _ _ _ _).mp h
  simp only [outcome.done.injEq, Except.ok.injEq] at hk
  rw [← hk.2]
  exact analyze_args_keeps a ha _ _ _ _ _ _ s s1 hargs

/-- A successful `analyze_call` keeps the scopes. -/
theorem analyze_call_keeps {ρ : Type} (R : runtime ρ) (a : analyzer ρ) (ha : keeps_scopes a)
    (o : List object) (current_frame : Nat) (expr_type : expression_type)
    (fn_ctx : Option Nat) (needs_box : Bool) (s s' : processor ρ) (e : expression)
    (h : analyze_call R a o current_frame expr_type fn_ctx needs_box s = .done (.ok e) s') :
    scopes_kept s.frames s'.frames := by
  have hother : ∀ first rest,
      ((a first current_frame .expression fn_ctx needs_box s).and_then fun source s1 =>
        finish_call a (first :: rest) current_frame expr_type fn_ctx true true source s1)
        = .done (.ok e) s' → scopes_kept s.frames s'.frames := by
    intro first rest hrun
    obtain ⟨source, s1, hsrc, hk⟩ := (outcome.and_then_ok _ _ _ _).mp hrun
    exact scopes_kept_trans _ _ _ (ha _ _ _ _ _ _ _ _ hsrc)
      (finish_call_keeps a ha _ _ _ _ _ _ _ _ _ _ hk)
  cases o with
  | nil =>
    exact analyze_primitive_literal_keeps (.list []) current_frame expr_type fn_ctx needs_box
      s s' e h
  | cons first rest =>
    cases first with
    | symbol sym =>
      simp only [analyze_call] at h
      cases hl : (specials R a).lookup sym with
      | some sp =>
        rw [hl] at h
        obtain ⟨k, hk⟩ := lookup_mem _ _ _ hl
        exact specials_keep R a ha k sp hk _ _ _ _ _ _ _ _ h
      | none =>
        rw [hl] at h
        simp only at h
        obtain ⟨source, s1, hsym, hk⟩ := (outcome.and_then_ok _ _ _ _).mp h
        have h1 := analyze_symbol_keeps R _ _ _ _ _ _ _ _ hsym
        split at hk
        · have h2 := ha _ _ _ _ _ _ _ _ hk
          exact scopes_kept_trans _ _ _ h1 h2
        · split at hk
          · cases hk
          · have h2 := finish_call_keeps a ha _ _ _ _ _ _ _ _ _ _ hk
            exact scopes_kept_trans _ _ _ h1 h2
    | _ => exact hother _ _ h

/-- Every successful analysis keeps the scopes that existed before it: the frames stay, with
their kinds, and a frame that is not a `fn` frame binds the same names afterwards. -/
theorem analyze_keeps {ρ : Type} (R : runtime ρ) (n : Nat) : keeps_scopes (analyze R n) := by
  induction n with
  | zero =>
    intro o current_frame expr_type fn_ctx needs_box s e s' h
    simp [analyze] at h
  | succ n ih =>
    intro o current_frame expr_type fn_ctx needs_box s e s' h
    cases o with
    | nullptr => simp [analyze] at h
    | list xs =>
      exact analyze_call_keeps R _ ih xs current_frame expr_type fn_ctx needs_box s s' e h
    | vector xs =>
      exact analyze_vector_keeps _ ih xs current_frame expr_type fn_ctx needs_box s s' e h
    | map kvs =>
      exact analyze_map_keeps _ ih kvs current_frame expr_type fn_ctx needs_box s s' e h
    | set xs => simp [analyze] at h
    | symbol sym =>
      exact analyze_symbol_keeps R sym current_frame expr_type fn_ctx needs_box s s' e h
    | seq xs =>
      exact analyze_call_keeps R _ ih xs current_frame expr_type fn_ctx needs_box s s' e h
    | other k => simp [analyze] at h
    | _ =>
      exact analyze_primitive_literal_keeps _ current_frame expr_type fn_ctx needs_box s s' e h

/-- Appending a binding of another name binds nothing new under `sym`. -/
theorem find_index_append_other (sym : symbol) (l : List local_binding) (c : local_binding)
    (h : find_index sym l = none) (hc : c.name ≠ sym) : find_index sym (l ++ [c]) = none := by
  induction l with
  | nil => simp [find_index, hc]
  | cons b bs ih =>
    by_cases hb : b.name = sym
    · simp [find_index, hb] at h
    · simp only [find_index, hb, if_false, Option.map_eq_none'] at h
      simp [find_index, hb, ih h]

/-- The names a frame binds after a `let*` binding was installed in it: those it bound, and
the symbol of the binding. -/
theorem bound_in_install {ρ : Type} (s : processor ρ) (current_frame frame : Nat)
    (sym : symbol) (e : expression) (fr : local_frame) (hfr : s.frames[frame]? = some fr)
    (x : symbol) :
    bound_in (install_let_binding s current_frame frame sym e).frames frame x
      = (bound_in s.frames frame x || decide (x = sym)) := by
  simp only [bound_in, install_let_binding, modify_frame_get, if_true, hfr, Option.map_some']
  cases hsym : find_index sym fr.locals with
  | some j =>
    rw [locals_emplace_present fr.locals (let_binding sym e current_frame) j hsym]
    by_cases hx : x = sym
    · subst hx
      simp [hsym]
    · simp [hx]
  | none =>
    rw [locals_emplace_absent fr.locals (let_binding sym e current_frame) hsym]
    by_cases hx : x = sym
    · subst hx
      rw [find_index_append_none x fr.locals _ hsym rfl]
      simp
    · cases hxl : find_index x fr.locals with
      | some j =>
        rw [find_index_append_some x fr.locals _ j hxl]
        simp
      | none =>
        rw [find_index_append_other x fr.locals _ hxl (fun h => hx h.symm)]
        simp [hx]

/-- The binding loop of `let*` on well-formed pairs, run with an analyzer that keeps the
scopes, from a state whose let frame binds exactly `seen`: the pairs are handled in sequential
scope. -/
theorem analyze_let_bindings_scope {ρ : Type} (a : analyzer ρ) (ha : keeps_scopes a)
    (current_frame frame : Nat) (fn_ctx : Option Nat) (bs : List (symbol × object))
    (hns : ∀ p ∈ bs, p.1.ns = "") (seen : List symbol)
    (pairs0 ps : List (symbol × expression)) (s s' : processor ρ)
    (hfr : ∃ fr, s.frames[frame]? = some fr ∧ fr.type = frame_type.let_)
    (hseen : ∀ x, bound_in s.frames frame x = true ↔ x ∈ seen)
    (h : analyze_let_bindings a current_frame frame fn_ctx
      (flatten_pairs (bs.map fun p => (.symbol p.1, p.2))) pairs0 s = .done (.ok ps) s') :
    ∃ ps', ps = pairs0 ++ ps'
      ∧ sequential_scope a current_frame frame fn_ctx seen bs s ps' s' := by
  induction bs generalizing seen pairs0 s with
  | nil =>
    simp only [List.map_nil, flatten_pairs, analyze_let_bindings, outcome.done.injEq,
      Except.ok.injEq] at h
    exact ⟨[], by simp [h.1], rfl, h.2.symm⟩
  | cons p bs ih =>
    have hp : p.1.ns = "" := hns p (List.mem_cons_self _ _)
    simp only [List.map_cons, flatten_pairs, analyze_let_bindings, hp, ne_eq,
      not_true_eq_false, if_false] at h
    obtain ⟨e, s1, he, hk⟩ := (outcome.and_then_ok _ _ _ _).mp h
    obtain ⟨fr, hfr0, hty⟩ := hfr
    obtain ⟨fr1, hfr1, hty1, hnames⟩ := ha _ _ _ _ _ _ _ _ he frame fr hfr0
    have hseen1 : ∀ x, bound_in s1.frames frame x = true ↔ x ∈ seen := by
      intro x
      rw [← hseen x]
      simp only [bound_in, hfr0, hfr1]
      rw [hnames (by rw [hty]; decide) x]
    have hinst : ∀ x, bound_in (install_let_binding s1 current_frame frame p.1 e).frames frame x
        = true ↔ x ∈ seen ++ [p.1] := by
      intro x
      rw [bound_in_install s1 current_frame frame p.1 e fr1 hfr1 x]
      simp only [Bool.or_eq_true, decide_eq_true_eq, List.mem_append, List.mem_singleton]
      rw [hseen1 x]
    have hfr' : ∃ fr', (install_let_binding s1 current_frame frame p.1 e).frames[frame]?
        = some fr' ∧ fr'.type = frame_type.let_ := by
      simp only [install_let_binding, modify_frame_get, if_true, hfr1, Option.map_some']
      exact ⟨_, rfl, by rw [← hty, ← hty1]⟩
    obtain ⟨ps', hps, hscope⟩ := ih (fun q hq => hns q (List.mem_cons_of_mem _ hq))
      (seen ++ [p.1]) _ (install_let_binding s1 current_frame frame p.1 e) hfr' hinst hk
    refine ⟨(p.1, e) :: ps', by simp [hps], ?_⟩
    exact ⟨hseen, e, s1, ps', he, rfl, hscope⟩

/-- The pairs of a sequential scope carry the symbols of the bindings, in source order. -/
theorem sequential_scope_symbols {ρ : Type} (a : analyzer ρ) (current_frame frame : Nat)
    (fn_ctx : Option Nat) (seen : List symbol) (bs : List (symbol × object))
    (s s' : processor ρ) (pairs : List (symbol × expression))
    (h : sequential_scope a current_frame frame fn_ctx seen bs s pairs s') :
    pairs.map Prod.fst = bs.map Prod.fst := by
  induction bs generalizing seen s pairs with
  | nil =>
    simp only [sequential_scope] at h
    simp [h.1]
  | cons p bs ih =>
    simp only [sequential_scope] at h
    obtain ⟨_, e, s1, pairs', _, rfl, hrest⟩ := h
    simp [ih _ _ _ hrest]

/-- A name bound in a frame resolves, from that frame, to the binding of that frame, without
crossing a function. -/
theorem bound_resolves_here (frames : List local_frame) (f : Nat) (x : symbol)
    (h : bound_in frames f x = true) :
    ∃ i, find_local_or_capture frames f x = some ⟨⟨f, i⟩, []⟩ := by
  unfold bound_in at h
  cases hf : frames[f]? with
  | none => simp [hf] at h
  | some fr =>
    rw [hf] at h
    simp only [Option.isSome_iff_exists] at h
    obtain ⟨i, hi⟩ := h
    have hlen : 0 < frames.length := by
      by_contra hz
      rw [List.getElem?_eq_none (by omega)] at hf
      cases hf
    obtain ⟨n, hn⟩ : ∃ n, frames.length = n + 1 := ⟨frames.length - 1, by omega⟩
    refine ⟨i, ?_⟩
    simp [find_local_or_capture, hn, find_local_walk, hf, hi]

/-- A name that a frame does not bind does not resolve to a binding of that frame. -/
theorem unbound_resolves_elsewhere (frames : List local_frame) (f : Nat) (x : symbol)
    (h : bound_in frames f x = false) (r : find_result)
    (hr : find_local_or_capture frames f x = some r) : r.binding.frame ≠ f := by
  obtain ⟨⟨fr, hfr, hi⟩, _⟩ := find_local_walk_facts frames x frames.length f r hr
  intro hf
  rw [hf] at hfr
  simp [bound_in, hfr, hi] at h

/-- Installing the binding of a symbol that the let's frame does not bind yet appends it: the
symbol then resolves, from the let's frame, to a binding that carries the analysed
initialiser. -/
theorem install_let_binding_fresh {ρ : Type} (s : processor ρ) (current_frame frame : Nat)
    (sym : symbol) (e : expression) (fr : local_frame) (hfr : s.frames[frame]? = some fr)
    (hfresh : bound_in s.frames frame sym = false) :
    get_binding (install_let_binding s current_frame frame sym e).frames
        ⟨frame, fr.locals.length⟩ = some (let_binding sym e current_frame)
    ∧ find_local_or_capture (install_let_binding s current_frame frame sym e).frames frame sym
        = some ⟨⟨frame, fr.locals.length⟩, []⟩ := by
  have hnone : find_index sym fr.locals = none := by
    simpa [bound_in, hfr] using hfresh
  have hframe : (install_let_binding s current_frame frame sym e).frames[frame]?
      = some { fr with locals := fr.locals ++ [let_binding sym e current_frame] } := by
    simp only [install_let_binding, modify_frame_get, if_true, hfr, Option.map_some']
    rw [locals_emplace_absent fr.locals (let_binding sym e current_frame) hnone]
  have hidx : find_index sym (fr.locals ++ [let_binding sym e current_frame])
      = some fr.locals.length := find_index_append_none sym fr.locals _ hnone rfl
  constructor
  · simp [get_binding, hframe]
  · have hbound : bound_in (install_let_binding s current_frame frame sym e).frames frame sym
        = true := by
      simp [bound_in, hframe, hidx]
    obtain ⟨i, hi⟩ := bound_resolves_here _ frame sym hbound
    obtain ⟨⟨fr', hfr', hi'⟩, _⟩ := find_local_walk_facts _ sym _ frame _ hi
    simp only at hfr' hi'
    rw [hframe] at hfr'
    cases hfr'
    rw [hidx] at hi'
    cases hi'
    exact hi

/-- Sequential scope of `let*`, as far as the code keeps it: for every `let*` whose bindings are
pairs `s1 v1 ... sn vn` of unqualified symbols and initialisers, analysed successfully by the
analyzer (with any budget), the pairs were handled in sequential scope: `vi` was analysed in
the let's frame, in expression position, with `needs_box = false`, in a state in which that
frame bound exactly the names `s1..s(i-1)`, and the binding of `si`, carrying the analysed
initialiser, was handed to `locals.emplace` only afterwards; the node's pairs are
`(s1, e1)...(sn, en)` in source order. What this means for references: a name
that a frame binds resolves, from that frame, to the binding in that frame; a name that it does
not bind does not resolve to a binding of that frame; and the binding installed for a symbol
the frame did not bind yet is the one the symbol resolves to from then on, with the analysed
initialiser as its value. -/
theorem analyze_let_sequential_scope {ρ : Type} (R : runtime ρ) (n : Nat) (head : object)
    (bs : List (symbol × object)) (body : List object) (current_frame : Nat)
    (expr_type : expression_type) (fn_ctx : Option Nat) (needs_box : Bool)
    (s s' : processor ρ) (e : expression) (hns : ∀ p ∈ bs, p.1.ns = "")
    (h : analyze_let (analyze R n)
      (head :: .vector (flatten_pairs (bs.map fun p => (.symbol p.1, p.2))) :: body)
      current_frame expr_type fn_ctx needs_box s = .done (.ok e) s') :
    (∃ pairs s1 exprs node_needs_box,
      sequential_scope (analyze R n) current_frame s.frames.length fn_ctx [] bs
        (new_frame s frame_type.let_ current_frame).2 pairs s1
      ∧ pairs.map Prod.fst = bs.map Prod.fst
      ∧ e = .let_ ⟨expr_type, s.frames.length, node_needs_box⟩ pairs exprs s.frames.length)
    ∧ (∀ (frames : List local_frame) (f : Nat) (x : symbol), bound_in frames f x = true →
        ∃ i, find_local_or_capture frames f x = some ⟨⟨f, i⟩, []⟩)
    ∧ (∀ (frames : List local_frame) (f : Nat) (x : symbol) (r : find_result),
        bound_in frames f x = false → find_local_or_capture frames f x = some r →
        r.binding.frame ≠ f)
    ∧ (∀ (s1 : processor ρ) (sym : symbol) (e1 : expression) (fr : local_frame),
        s1.frames[s.frames.length]? = some fr →
        bound_in s1.frames s.frames.length sym = false →
        get_binding (install_let_binding s1 current_frame s.frames.length sym e1).frames
            ⟨s.frames.length, fr.locals.length⟩ = some (let_binding sym e1 current_frame)
        ∧ find_local_or_capture
            (install_let_binding s1 current_frame s.frames.length sym e1).frames
            s.frames.length sym = some ⟨⟨s.frames.length, fr.locals.length⟩, []⟩) := by
  refine ⟨?_, bound_resolves_here, fun frames f x r hb hr =>
    unbound_resolves_elsewhere frames f x hb r hr,
    fun s1 sym e1 fr hfr hfresh =>
      install_let_binding_fresh s1 current_frame s.frames.length sym e1 fr hfr hfresh⟩
  simp only [analyze_let, List.tail_cons, List.head?_cons] at h
  split at h
  · cases h
  · split at h
    · cases h
    · obtain ⟨pairs, s1, hbind, hk⟩ := (outcome.and_then_ok _ _ _ _).mp h
      obtain ⟨ret, s2, hbody, hk2⟩ := (outcome.and_then_ok _ _ _ _).mp hk
      simp only [outcome.done.injEq, Except.ok.injEq] at hk2
      obtain ⟨ps', hps, hscope⟩ := analyze_let_bindings_scope (analyze R n) (analyze_keeps R n)
        current_frame s.frames.length fn_ctx bs hns [] [] pairs
        (new_frame s frame_type.let_ current_frame).2 s1
        ⟨⟨frame_type.let_, some current_frame, [], [], []⟩, by simp [new_frame], rfl⟩
        (by
          intro x
          simp [bound_in, new_frame, find_index])
        hbind
      simp only [List.nil_append] at hps
      subst hps
      exact ⟨pairs, s1, ret.2, ret.1, hscope,
        sequential_scope_symbols _ _ _ _ _ _ _ _ _ hscope, hk2.1.symm⟩

/-- Sequential scope on `(let* [x 1 y x] y)`: the initialiser of `y` is a reference to the
binding of `x` in the let's frame, and the body is a reference to the binding of `y`. -/
theorem analyze_let_sequential_scope_witness :
    ∃ pairs s1 exprs node_needs_box,
      sequential_scope (analyze example_runtime 2) 0 1 none []
        [(⟨"", "x"⟩, .integer 1), (⟨"", "y"⟩, .symbol ⟨"", "x"⟩)]
        (new_frame (processor.init (⟨[], 0⟩ : example_state)) frame_type.let_ 0).2 pairs s1
      ∧ pairs.map Prod.fst = [⟨"", "x"⟩, ⟨"", "y"⟩]
      ∧ expression.let_ ⟨.expression, 1, true⟩
          [(⟨"", "x"⟩, .primitive_literal ⟨.expression, 1, false⟩ (.integer 1)),
           (⟨"", "y"⟩, .local_reference ⟨.expression, 1, false⟩ ⟨"", "x"⟩ ⟨1, 0⟩)]
          [.local_reference ⟨.expression, 1, true⟩ ⟨"", "y"⟩ ⟨1, 1⟩] 1
        = .let_ ⟨.expression, 1, node_needs_box⟩ pairs exprs 1 :=
  (analyze_let_sequential_scope example_runtime 2 (.symbol ⟨"", "let*"⟩)
    [(⟨"", "x"⟩, .integer 1), (⟨"", "y"⟩, .symbol ⟨"", "x"⟩)] [.symbol ⟨"", "y"⟩] 0
    .expression none true (processor.init ⟨[], 0⟩)
    ⟨⟨[], 0⟩,
      [ ⟨frame_type.root, none, [], [], [.integer 1]⟩,
        ⟨frame_type.let_, some 0,
          [ ⟨⟨"", "x"⟩, some (.primitive_literal ⟨.expression, 1, false⟩ (.integer 1)), some 0,
              false, false, true, []⟩,
            ⟨⟨"", "y"⟩,
              some (.local_reference ⟨.expression, 1, false⟩ ⟨"", "x"⟩ ⟨1, 0⟩), some 0,
              false, true, false, []⟩ ], [], []⟩ ],
      [], []⟩
    _ (by decide) rfl).1

/-! ## C35 and C33: the last chunk of `native/raw` and vectors of literals -/

/-- C35, at the failing input: the string that consists of one interpolation of `1` ends with
the closing sentinel. The loop finds no further opening sentinel and appends what is left of
the string as the final text chunk without looking at its length: the node has two chunks, the
analysed `1` and an empty text. Before an interpolation the empty text is left out, as in the
string of two adjacent interpolations, whose node still ends in an empty text. -/
theorem analyze_native_raw_empty_last_chunk :
    analyze_native_raw reading_runtime (analyze reading_runtime 1)
        [.symbol ⟨"native", "raw"⟩, .string "#\x7b1\x7d#"] 0 .expression none true
        (processor.init ⟨[], 0⟩)
      = .done
          (.ok (.native_raw ⟨.expression, 0, true⟩
            [.inr (.primitive_literal ⟨.expression, 0, true⟩ (.integer 1)), .inl ""]))
          ⟨⟨[], 0⟩, [⟨frame_type.root, none, [], [], [.integer 1]⟩], [], []⟩
    ∧ analyze_native_raw reading_runtime (analyze reading_runtime 1)
        [.symbol ⟨"native", "raw"⟩, .string "#\x7b1\x7d##\x7b1\x7d#"] 0 .expression none true
        (processor.init ⟨[], 0⟩)
      = .done
          (.ok (.native_raw ⟨.expression, 0, true⟩
            [.inr (.primitive_literal ⟨.expression, 0, true⟩ (.integer 1)),
             .inr (.primitive_literal ⟨.expression, 0, true⟩ (.integer 1)), .inl ""]))
          ⟨⟨[], 0⟩, [⟨frame_type.root, none, [], [], [.integer 1]⟩], [], []⟩ :=
  ⟨rfl, rfl⟩

/-- C33, at the failing input: the vector `[(quote x)]`. Its element analyses to the primitive
literal of the symbol `x`, so the vector is re-emitted as a primitive literal; but the value of
that literal, and the constant lifted for it, is the original vector, whose element is the
list `(quote x)` and not the symbol `x`. -/
theorem analyze_vector_keeps_quote_form :
    analyze example_runtime 2 (.list [.symbol ⟨"", "quote"⟩, .symbol ⟨"", "x"⟩]) 0 .expression
        none true (processor.init ⟨[], 0⟩)
      = .done (.ok (.primitive_literal ⟨.expression, 0, true⟩ (.symbol ⟨"", "x"⟩)))
          ⟨⟨[], 0⟩, [⟨frame_type.root, none, [], [], [.symbol ⟨"", "x"⟩]⟩], [], []⟩
    ∧ analyze example_runtime 3 (.vector [.list [.symbol ⟨"", "quote"⟩, .symbol ⟨"", "x"⟩]]) 0
        .expression none true (processor.init ⟨[], 0⟩)
      = .done
          (.ok (.primitive_literal ⟨.expression, 0, true⟩
            (.vector [.list [.symbol ⟨"", "quote"⟩, .symbol ⟨"", "x"⟩]])))
          ⟨⟨[], 0⟩,
            [⟨frame_type.root, none, [], [],
              [.symbol ⟨"", "x"⟩,
               .vector [.list [.symbol ⟨"", "quote"⟩, .symbol ⟨"", "x"⟩]]]⟩], [], []⟩
    ∧ object.vector [.list [.symbol ⟨"", "quote"⟩, .symbol ⟨"", "x"⟩]]
        ≠ object.vector [.symbol ⟨"", "x"⟩] :=
  ⟨rfl, rfl, by decide⟩

/-! ## C36: repetition of a string in the legacy prelude -/

theorem flatten_replicate_succ (s : List Char) (i : Nat) :
    (List.replicate (i + 1) s).flatten = (List.replicate i s).flatten ++ s := by
  rw [List.replicate_succ', List.flatten_append]
  simp

theorem length_flatten_replicate (s : List Char) (i : Nat) :
    (List.replicate i s).flatten.length = i * s.length := by
  induction i with
  | zero => simp
  | succ i ih => rw [flatten_replicate_succ, List.length_append, ih, Nat.succ_mul]

/-- A round of the loop of `operator *` appends one more copy: started on `i` copies with the
counter at `i`, the loop ends with `i + remaining` copies, as long as the offsets fit the
unsigned type. -/
theorem repeat_loop_replicate (s : List Char) :
    ∀ (remaining i : Nat), 0 < i → s.length * (i + remaining) < 2 ^ 64 →
      repeat_loop s.length remaining i (List.replicate i s).flatten
        = .ok (List.replicate (i + remaining) s).flatten := by
  intro remaining
  induction remaining with
  | zero => intro i _ _; rfl
  | succ k ih =>
    intro i hi hb
    have hpos : s.length * i % 2 ^ 64 = s.length * i := by
      apply Nat.mod_eq_of_lt
      refine Nat.lt_of_le_of_lt (Nat.mul_le_mul_left _ ?_) hb
      omega
    have hlen : (List.replicate i s).flatten.length = s.length * i := by
      rw [length_flatten_replicate, Nat.mul_comm]
    have hfirst : (List.replicate i s).flatten.take s.length = s := by
      obtain ⟨j, rfl⟩ : ∃ j, i = j + 1 := ⟨i - 1, by omega⟩
      rw [List.replicate_succ, List.flatten_cons, List.take_left]
    have hstep : string_insert (List.replicate i s).flatten (s.length * i % 2 ^ 64)
        ((List.replicate i s).flatten.take s.length)
        = .ok (List.replicate (i + 1) s).flatten := by
      rw [hpos, hfirst]
      unfold string_insert
      rw [if_neg (by rw [hlen]; exact Nat.lt_irrefl _)]
      rw [List.take_of_length_le (Nat.le_of_eq hlen), List.drop_of_length_le (Nat.le_of_eq hlen),
        List.append_nil, flatten_replicate_succ]
    have hnext := ih (i + 1) (Nat.succ_pos i)
      (by rw [show i + 1 + k = i + (k + 1) by omega]; exact hb)
    rw [repeat_loop, hstep]
    simp only []
    rw [hnext, show i + 1 + k = i + (k + 1) by omega]

/-- C36: for a positive `n` whose result fits the size type of a string, `s * n` returns `s`
concatenated with itself `n` times, a string of `n` times the length of `s`; `s * 1` returns
`s`; and for `n ≤ 0` the assertion fails with "invalid scalar for string repetition" and no
string is returned. -/
theorem operator_asterisk_repeats (s : String) (n : Int) :
    (0 < n → s.length * n.toNat < 2 ^ 64 →
      ∃ r, operator_asterisk s n = .ok r
        ∧ r.data = (List.replicate n.toNat s.data).flatten
        ∧ r.length = n.toNat * s.length)
    ∧ operator_asterisk s 1 = .ok s
    ∧ (n ≤ 0 → operator_asterisk s n = .error "invalid scalar for string repetition") := by
  refine ⟨?_, ?_, ?_⟩
  · intro hn hb
    obtain ⟨m, rfl⟩ : ∃ m : Nat, n = ((m + 1 : Nat) : Int) :=
      ⟨n.toNat - 1, by omega⟩
    have hrounds : (((m + 1 : Nat) : Int) - 1).toNat = m := by omega
    have htimes : (((m + 1 : Nat) : Int)).toNat = 1 + m := by omega
    have hloop := repeat_loop_replicate s.data m 1 Nat.one_pos
      (by rw [htimes] at hb; exact hb)
    rw [show (List.replicate 1 s.data).flatten = s.data by simp] at hloop
    refine ⟨String.mk (List.replicate (1 + m) s.data).flatten, ?_, ?_, ?_⟩
    · unfold operator_asterisk assert_bang
      rw [if_pos (by simp [hn])]
      simp only [hrounds, hloop]
    · rw [htimes]
    · rw [htimes]
      exact length_flatten_replicate s.data (1 + m)
  · rfl
  · intro hn
    unfold operator_asterisk assert_bang
    rw [if_neg (by simp only [decide_eq_true_eq]; omega)]

/-- C36 at `"ab" * 3`, `"ab" * 1` and `"ab" * 0`. -/
theorem operator_asterisk_repeats_witness :
    (0 : Int) < 3 ∧ "ab".length * (3 : Int).toNat < 2 ^ 64
    ∧ (∃ r, operator_asterisk "ab" 3 = .ok r
        ∧ r.data = (List.replicate (3 : Int).toNat "ab".data).flatten
        ∧ r.length = (3 : Int).toNat * "ab".length)
    ∧ operator_asterisk "ab" 3 = .ok "ababab"
    ∧ (0 : Int) ≤ 0
    ∧ operator_asterisk "ab" 0 = .error "invalid scalar for string repetition" :=
  ⟨by decide, by decide, (operator_asterisk_repeats "ab" 3).1 (by decide) (by decide),
    rfl, by decide, (operator_asterisk_repeats "ab" 0).2.2 (by decide)⟩

/-! ## C32: a parameter name without a type -/

/-- The loop reaches every scan position: from there it goes on with some list built so far,
and with a budget that covers the cells left. -/
theorem parse_types_loop_reaches {τ : Type} (scope : legacy_scope τ) (l rest : List cell)
    (h : name_position scope l rest) :
    ∀ (budget : Nat) (ret : List (argument_type τ)), l.length ≤ budget →
      ∃ (budget1 : Nat) (ret1 : List (argument_type τ)), rest.length ≤ budget1 ∧
        parse_types_loop scope budget l ret = parse_types_loop scope budget1 rest ret1 := by
  induction h with
  | start => intro budget ret hb; exact ⟨budget, ret, hb, rfl⟩
  | step name type_name rest type_def type read _ hfind hgen ih =>
    intro budget ret hb
    obtain ⟨budget1, ret1, hb1, heq⟩ := ih budget ret hb
    obtain ⟨b, rfl⟩ : ∃ b, budget1 = b + 1 := by
      simp only [List.length_cons] at hb1
      exact ⟨budget1 - 1, by omega⟩
    refine ⟨b, ret1 ++ [⟨name, type⟩], ?_, ?_⟩
    · simp only [List.length_cons] at hb1
      rw [List.length_drop]
      omega
    · rw [heq]
      simp only [parse_types_loop, expect_ident, hfind, hgen]

/-- C32: when the scan of `parse_types` comes to a name position whose identifier is the last
cell of the list, `parse_types` returns no type list but raises the syntax error "expected
type after" with the name; the exception leaves a function definition that reads its
parameter list with `parse_types`. -/
theorem parse_types_missing_type {τ α : Type} (scope : legacy_scope τ) (l : List cell)
    (name : String) (h : name_position scope l [.ident name])
    (finish : List (argument_type τ) → Except translate_error α) :
    parse_types scope l = some (.error (.syntax_exception ("expected type after " ++ name)))
    ∧ define_function scope finish l
        = some (.error (.syntax_exception ("expected type after " ++ name))) := by
  have hp : parse_types scope l
      = some (.error (.syntax_exception ("expected type after " ++ name))) := by
    obtain ⟨budget1, ret1, hb1, heq⟩ :=
      parse_types_loop_reaches scope l _ h l.length [] (Nat.le_refl _)
    obtain ⟨b, rfl⟩ : ∃ b, budget1 = b + 1 := by
      simp only [List.length_cons] at hb1
      exact ⟨budget1 - 1, by omega⟩
    unfold parse_types
    rw [heq]
    simp only [parse_types_loop, expect_ident]
  refine ⟨hp, ?_⟩
  unfold define_function
  rw [hp]

/-- C32 on the parameter list `(a int b)`, where `b` has no type, with a definition that
would return the number of parameters. -/
theorem parse_types_missing_type_witness :
    name_position int_scope [.ident "a", .ident "int", .ident "b"] [.ident "b"]
    ∧ parse_types int_scope [.ident "a", .ident "int", .ident "b"]
        = some (.error (.syntax_exception "expected type after b"))
    ∧ define_function int_scope (fun types => Except.ok types.length)
        [.ident "a", .ident "int", .ident "b"]
        = some (.error (.syntax_exception "expected type after b")) :=
  ⟨name_position.step "a" "int" [.ident "b"] "int" "int" 0 name_position.start rfl rfl,
    parse_types_missing_type int_scope [.ident "a", .ident "int", .ident "b"] "b"
      (name_position.step "a" "int" [.ident "b"] "int" "int" 0 name_position.start rfl rfl)
      (fun types => Except.ok types.length)⟩

/-! ## C34: the boxing hint -/

/-- A reference to a symbol, analysed with the hint, is boxed. -/
theorem analyze_symbol_honours {ρ : Type} (R : runtime ρ) (sym : symbol) (current_frame : Nat)
    (expr_type : expression_type) (fn_ctx : Option Nat) (s s' : processor ρ) (e : expression)
    (h : analyze_symbol R sym current_frame expr_type fn_ctx true s = .done (.ok e) s') :
    e.get_base.needs_box = true := by
  simp only [analyze_symbol, Bool.true_or, if_true] at h
  split at h
  · split at h
    · cases h
    · split at h
      · split at h
        · cases h
        · simp only [outcome.done.injEq, Except.ok.injEq] at h
          rw [← h.1]
          rfl
      · simp only [outcome.done.injEq, Except.ok.injEq] at h
        rw [← h.1]
        rfl
  · split at h
    · cases h
    · simp only [outcome.done.injEq, Except.ok.injEq] at h
      rw [← h.1]
      rfl

/-- A literal analysed with the hint is boxed. -/
theorem analyze_primitive_literal_honours {ρ : Type} (o : object) (current_frame : Nat)
    (expr_type : expression_type) (fn_ctx : Option Nat) (s s' : processor ρ) (e : expression)
    (h : analyze_primitive_literal o current_frame expr_type fn_ctx true s = .done (.ok e) s') :
    e.get_base.needs_box = true := by
  simp only [analyze_primitive_literal, outcome.done.injEq, Except.ok.injEq] at h
  rw [← h.1]
  rfl

/-- The loop of `do`, started with a boxed node: the node stays boxed, since the last form is
analysed with the hint in the position of the `do`. -/
theorem analyze_do_body_honours {ρ : Type} (a : analyzer ρ) (ha : honours_box a)
    (current_frame : Nat) (expr_type : expression_type) (het : expr_type ≠ .statement)
    (fn_ctx : Option Nat) (form_count : Nat) :
    ∀ (forms : List object) (i : Nat) (body : List expression) (s s' : processor ρ)
      (ret : Bool × List expression),
      analyze_do_body a current_frame expr_type fn_ctx true form_count forms i true body s
        = .done (.ok ret) s' → ret.1 = true := by
  intro forms
  induction forms with
  | nil =>
    intro i body s s' ret h
    simp only [analyze_do_body, outcome.done.injEq, Except.ok.injEq] at h
    rw [← h.1]
  | cons item rest ih =>
    intro i body s s' ret h
    simp only [analyze_do_body] at h
    obtain ⟨form, s1, hform, hk⟩ := (outcome.and_then_ok _ _ _ _).mp h
    by_cases hlast : i + 1 = form_count
    · simp only [hlast, decide_True, if_true, het, if_false] at hform hk
      rw [ha _ _ _ _ _ _ _ het hform] at hk
      exact ih _ _ _ _ _ hk
    · simp only [hlast, decide_False, if_false, Bool.false_eq_true] at hk
      exact ih _ _ _ _ _ hk

/-- The body loop of `let*`, started with a boxed node: the node stays boxed. -/
theorem analyze_let_body_honours {ρ : Type} (a : analyzer ρ) (ha : honours_box a)
    (frame : Nat) (expr_type : expression_type) (het : expr_type ≠ .statement)
    (fn_ctx : Option Nat) (form_count : Nat) :
    ∀ (forms : List object) (i : Nat) (body : List expression) (s s' : processor ρ)
      (ret : Bool × List expression),
      analyze_let_body a frame expr_type fn_ctx true form_count forms i true body s
        = .done (.ok ret) s' → ret.1 = true := by
  intro forms
  induction forms with
  | nil =>
    intro i body s s' ret h
    simp only [analyze_let_body, outcome.done.injEq, Except.ok.injEq] at h
    rw [← h.1]
  | cons item rest ih =>
    intro i body s s' ret h
    simp only [analyze_let_body] at h
    obtain ⟨form, s1, hform, hk⟩ := (outcome.and_then_ok _ _ _ _).mp h
    by_cases hlast : i + 1 = form_count
    · simp only [hlast, decide_True, if_true] at hform hk
      rw [ha _ _ _ _ _ _ _ het hform] at hk
      exact ih _ _ _ _ _ hk
    · simp only [hlast, decide_False, if_false, Bool.false_eq_true] at hk
      exact ih _ _ _ _ _ hk

/-- A `do` node analysed with the hint outside statement position is boxed. -/
theorem analyze_do_honours {ρ : Type} (a : analyzer ρ) (ha : honours_box a)
    (o : List object) (current_frame : Nat) (expr_type : expression_type)
    (het : expr_type ≠ .statement) (fn_ctx : Option Nat) (s s' : processor ρ) (e : expression)
    (h : analyze_do a o current_frame expr_type fn_ctx true s = .done (.ok e) s') :
    e.get_base.needs_box = true := by
  simp only [analyze_do, expression_base.default_needs_box] at h
  obtain ⟨ret, s1, hloop, hk⟩ := (outcome.and_then_ok _ _ _ _).mp h
  simp only [outcome.done.injEq, Except.ok.injEq] at hk
  rw [← hk.1]
  exact analyze_do_body_honours a ha _ _ het _ _ _ _ _ _ _ _ hloop

/-- A `let*` node analysed with the hint outside statement position is boxed. -/
theorem analyze_let_honours {ρ : Type} (a : analyzer ρ) (ha : honours_box a)
    (o : List object) (current_frame : Nat) (expr_type : expression_type)
    (het : expr_type ≠ .statement) (fn_ctx : Option Nat) (s s' : processor ρ) (e : expression)
    (h : analyze_let a o current_frame expr_type fn_ctx true s = .done (.ok e) s') :
    e.get_base.needs_box = true := by
  simp only [analyze_let] at h
  split at h
  · cases h
  · split at h
    · cases h
    · split at h
      · cases h
      · obtain ⟨pairs, s1, _, hk⟩ := (outcome.and_then_ok _ _ _ _).mp h
        obtain ⟨ret, s2, hbody, hk2⟩ := (outcome.and_then_ok _ _ _ _).mp hk
        simp only [outcome.done.injEq, Except.ok.injEq] at hk2
        rw [← hk2.1]
        exact analyze_let_body_honours a ha _ _ het _ _ _ _ _ _ _ _ hbody
    · cases h

/-- A `def` node is boxed. -/
theorem analyze_def_honours {ρ : Type} (R : runtime ρ) (a : analyzer ρ)
    (l : List object) (current_frame : Nat) (expr_type : expression_type)
    (fn_ctx : Option Nat) (needs_box : Bool) (s s' : processor ρ) (e : expression)
    (h : analyze_def R a l current_frame expr_type fn_ctx needs_box s = .done (.ok e) s') :
    e.get_base.needs_box = true := by
  simp only [analyze_def] at h
  split at h
  · cases h
  · split at h
    · cases h
    · split at h
      · cases h
      · split at h
        · cases h
        · split at h
          · simp only [outcome.done.injEq, Except.ok.injEq] at h
            rw [← h.1]
            rfl
          · obtain ⟨v, s3, _, hk⟩ := (outcome.and_then_ok _ _ _ _).mp h
            simp only [outcome.done.injEq, Except.ok.injEq] at hk
            rw [← hk.1]
            rfl
    · cases h

/-- A `fn*` node takes the default of the base and is boxed. -/
theorem analyze_fn_honours {ρ : Type} (R : runtime ρ) (a : analyzer ρ)
    (l : List object) (current_frame : Nat) (expr_type : expression_type)
    (fn_ctx : Option Nat) (needs_box : Bool) (s s' : processor ρ) (e : expression)
    (h : analyze_fn R a l current_frame expr_type fn_ctx needs_box s = .done (.ok e) s') :
    e.get_base.needs_box = true := by
  obtain ⟨name, arities, s2, hfin⟩ := analyze_fn_ok_finish R a l current_frame expr_type fn_ctx
    needs_box s s' e h
  rw [(finish_fn_ok R current_frame expr_type name arities s2 s' e hfin).1]
  rfl

/-- A `recur` node takes the default of the base and is boxed. -/
theorem analyze_recur_honours {ρ : Type} (a : analyzer ρ)
    (l : List object) (current_frame : Nat) (expr_type : expression_type)
    (fn_ctx : Option Nat) (needs_box : Bool) (s s' : processor ρ) (e : expression)
    (h : analyze_recur a l current_frame expr_type fn_ctx needs_box s = .done (.ok e) s') :
    e.get_base.needs_box = true := by
  simp only [analyze_recur] at h
  split at h
  · cases h
  · split at h
    · cases h
    · split at h
      · cases h
      · obtain ⟨es, s1, _, hk⟩ := (outcome.and_then_ok _ _ _ _).mp h
        simp only [outcome.done.injEq, Except.ok.injEq] at hk
        rw [← hk.1]
        rfl

/-- An `if` node is boxed. -/
theorem analyze_if_honours {ρ : Type} (a : analyzer ρ)
    (o : List object) (current_frame : Nat) (expr_type : expression_type)
    (fn_ctx : Option Nat) (needs_box : Bool) (s s' : processor ρ) (e : expression)
    (h : analyze_if a o current_frame expr_type fn_ctx needs_box s = .done (.ok e) s') :
    e.get_base.needs_box = true := by
  simp only [analyze_if] at h
  split at h
  · cases h
  · split at h
    · cases h
    · split at h
      · obtain ⟨c, s1, _, hk⟩ := (outcome.and_then_ok _ _ _ _).mp h
        obtain ⟨t, s2, _, hk2⟩ := (outcome.and_then_ok _ _ _ _).mp hk
        split at hk2
        · split at hk2
          · cases hk2
          · obtain ⟨el, s3, _, hk3⟩ := (outcome.and_then_ok _ _ _ _).mp hk2
            simp only [outcome.done.injEq, Except.ok.injEq] at hk3
            rw [← hk3.1]
            rfl
        · simp only [outcome.done.injEq, Except.ok.injEq] at hk2
          rw [← hk2.1]
          rfl
      · cases h

/-- A quoted form analysed with the hint is boxed. -/
theorem analyze_quote_honours {ρ : Type}
    (o : List object) (current_frame : Nat) (expr_type : expression_type)
    (fn_ctx : Option Nat) (s s' : processor ρ) (e : expression)
    (h : (analyze_quote : special_analyzer ρ) o current_frame expr_type fn_ctx true s
      = .done (.ok e) s') :
    e.get_base.needs_box = true := by
  simp only [analyze_quote] at h
  split at h
  · cases h
  · split at h
    · cases h
    · exact analyze_primitive_literal_honours _ _ _ _ _ _ _ h

/-- A `var` node is boxed. -/
theorem analyze_var_honours {ρ : Type} (R : runtime ρ)
    (o : List object) (current_frame : Nat) (expr_type : expression_type)
    (fn_ctx : Option Nat) (needs_box : Bool) (s s' : processor ρ) (e : expression)
    (h : analyze_var R o current_frame expr_type fn_ctx needs_box s = .done (.ok e) s') :
    e.get_base.needs_box = true := by
  simp only [analyze_var] at h
  split at h
  · cases h
  · split at h
    · cases h
    · split at h
      · cases h
      · simp only [outcome.done.injEq, Except.ok.injEq] at h
        rw [← h.1]
        rfl
    · cases h

/-- A `native/raw` node is boxed. -/
theorem analyze_native_raw_honours {ρ : Type} (R : runtime ρ) (a : analyzer ρ)
    (o : List object) (current_frame : Nat) (expr_type : expression_type)
    (fn_ctx : Option Nat) (needs_box : Bool) (s s' : processor ρ) (e : expression)
    (h : analyze_native_raw R a o current_frame expr_type fn_ctx needs_box s
      = .done (.ok e) s') :
    e.get_base.needs_box = true := by
  simp only [analyze_native_raw] at h
  split at h
  · cases h
  · split at h
    · cases h
    · split at h
      · simp only [outcome.done.injEq, Except.ok.injEq] at h
        rw [← h.1]
        rfl
      · obtain ⟨chunks, s1, _, hk⟩ := (outcome.and_then_ok _ _ _ _).mp h
        simp only [outcome.done.injEq, Except.ok.injEq] at hk
        rw [← hk.1]
        rfl
    · cases h

/-- The node of a vector, literal or not, is boxed. -/
theorem analyze_vector_honours {ρ : Type} (a : analyzer ρ)
    (o : List object) (current_frame : Nat) (expr_type : expression_type)
    (fn_ctx : Option Nat) (needs_box : Bool) (s s' : processor ρ) (e : expression)
    (h : analyze_vector a o current_frame expr_type fn_ctx needs_box s = .done (.ok e) s') :
    e.get_base.needs_box = true := by
  simp only [analyze_vector] at h
  obtain ⟨r, s1, _, hk⟩ := (outcome.and_then_ok _ _ _ _).mp h
  split at hk
  · simp only [outcome.done.injEq, Except.ok.injEq] at hk
    rw [← hk.1]
    rfl
  · simp only [outcome.done.injEq, Except.ok.injEq] at hk
    rw [← hk.1]
    rfl

/-- The node of a map is boxed. -/
theorem analyze_map_honours {ρ : Type} (a : analyzer ρ)
    (o : List (object × object)) (current_frame : Nat) (expr_type : expression_type)
    (fn_ctx : Option Nat) (needs_box : Bool) (s s' : processor ρ) (e : expression)
    (h : analyze_map a o current_frame expr_type fn_ctx needs_box s = .done (.ok e) s') :
    e.get_base.needs_box = true := by
  simp only [analyze_map] at h
  obtain ⟨r, s1, _, hk⟩ := (outcome.and_then_ok _ _ _ _).mp h
  simp only [outcome.done.injEq, Except.ok.injEq] at hk
  rw [← hk.1]
  rfl

/-- Asked for a box, the boxing decision of a call keeps the box of the result. -/
theorem call_boxing_hint {ρ : Type} (R : runtime ρ) (s : processor ρ) (source : expression)
    (arg_count : Nat) (boxing : Bool × Bool)
    (h : call_boxing R s source arg_count true = .ok boxing) : boxing.2 = true := by
  unfold call_boxing at h
  split at h
  · split at h
    · cases h
      rfl
    · simp only [Bool.true_or] at h
      split at h
      · split at h
        · cases h
        · split at h
          · cases h
            rfl
          · cases h
            rfl
        · cases h
      · cases h
        rfl
  · cases h
    rfl

/-- The node of a call carries the `needs_ret_box` it was built with. -/
theorem finish_call_box {ρ : Type} (a : analyzer ρ) (o : List object) (current_frame : Nat)
    (expr_type : expression_type) (fn_ctx : Option Nat) (needs_arg_box needs_ret_box : Bool)
    (source : expression) (s s' : processor ρ) (e : expression)
    (h : finish_call a o current_frame expr_type fn_ctx needs_arg_box needs_ret_box source s
      = .done (.ok e) s') :
    e.get_base.needs_box = needs_ret_box := by
  simp only [finish_call] at h
  obtain ⟨es, s1, _, hk⟩ := (outcome.and_then_ok _ _ _ _).mp h
  simp only [outcome.done.injEq, Except.ok.injEq] at hk
  rw [← hk.1]
  rfl

/-- Every special form honours the hint when the analyzer of sub-forms does. -/
theorem specials_honour {ρ : Type} (R : runtime ρ) (a : analyzer ρ) (ha : honours_box a)
    (k : symbol) (sp : special_analyzer ρ) (hmem : (k, sp) ∈ specials R a)
    (o : List object) (current_frame : Nat) (expr_type : expression_type)
    (het : expr_type ≠ .statement) (fn_ctx : Option Nat) (s s' : processor ρ) (e : expression)
    (h : sp o current_frame expr_type fn_ctx true s = .done (.ok e) s') :
    e.get_base.needs_box = true := by
  simp only [specials, List.mem_cons, Prod.mk.injEq, List.mem_singleton, List.not_mem_nil,
    or_false] at hmem
  rcases hmem with ⟨_, rfl⟩ | ⟨_, rfl⟩ | ⟨_, rfl⟩ | ⟨_, rfl⟩ | ⟨_, rfl⟩ | ⟨_, rfl⟩ | ⟨_, rfl⟩
    | ⟨_, rfl⟩ | ⟨_, rfl⟩
  · exact analyze_def_honours R a _ _ _ _ _ _ _ _ h
  · exact analyze_fn_honours R a _ _ _ _ _ _ _ _ h
  · exact analyze_recur_honours a _ _ _ _ _ _ _ _ h
  · exact analyze_do_honours a ha _ _ _ het _ _ _ _ h
  · exact analyze_let_honours a ha _ _ _ het _ _ _ _ h
  · exact analyze_if_honours a _ _ _ _ _ _ _ _ h
  · exact analyze_quote_honours _ _ _ _ _ _ _ h
  · exact analyze_var_honours R _ _ _ _ _ _ _ _ h
  · exact analyze_native_raw_honours R a _ _ _ _ _ _ _ _ h

/-- A list analysed with the hint outside statement position yields a boxed node: the empty
list is a literal, a special form honours the hint, a macro call is analysed again with the
same hint, and a call keeps the box of its result. -/
theorem analyze_call_honours {ρ : Type} (R : runtime ρ) (a : analyzer ρ) (ha : honours_box a)
    (o : List object) (current_frame : Nat) (expr_type : expression_type)
    (het : expr_type ≠ .statement) (fn_ctx : Option Nat) (s s' : processor ρ) (e : expression)
    (h : analyze_call R a o current_frame expr_type fn_ctx true s = .done (.ok e) s') :
    e.get_base.needs_box = true := by
  have hother : ∀ first rest,
      ((a first current_frame .expression fn_ctx true s).and_then fun source s1 =>
        finish_call a (first :: rest) current_frame expr_type fn_ctx true true source s1)
        = .done (.ok e) s' → e.get_base.needs_box = true := by
    intro first rest hrun
    obtain ⟨source, s1, _, hk⟩ := (outcome.and_then_ok _ _ _ _).mp hrun
    exact finish_call_box a _ _ _ _ _ _ _ _ _ _ hk
  cases o with
  | nil => exact analyze_primitive_literal_honours (.list []) current_frame expr_type fn_ctx s s' e h
  | cons first rest =>
    cases first with
    | symbol sym =>
      simp only [analyze_call] at h
      cases hl : (specials R a).lookup sym with
      | some sp =>
        rw [hl] at h
        obtain ⟨k, hk⟩ := lookup_mem _ _ _ hl
        exact specials_honour R a ha k sp hk _ _ _ het _ _ _ _ h
      | none =>
        rw [hl] at h
        simp only at h
        obtain ⟨source, s1, _, hk⟩ := (outcome.and_then_ok _ _ _ _).mp h
        split at hk
        · exact ha _ _ _ _ _ _ _ het hk
        · split at hk
          · cases hk
          · rename_i boxing hbox
            rw [finish_call_box a _ _ _ _ _ _ _ _ _ _ hk]
            exact call_boxing_hint R _ _ _ _ hbox
    | _ => exact hother _ _ h

/-- Every budget of the dispatcher honours the boxing hint. -/
theorem analyze_honours {ρ : Type} (R : runtime ρ) (n : Nat) : honours_box (analyze R n) := by
  induction n with
  | zero =>
    intro o current_frame expr_type fn_ctx s e s' _ h
    simp [analyze] at h
  | succ n ih =>
    intro o current_frame expr_type fn_ctx s e s' het h
    cases o with
    | nullptr => simp [analyze] at h
    | list xs => exact analyze_call_honours R _ ih xs current_frame expr_type het fn_ctx s s' e h
    | vector xs => exact analyze_vector_honours _ xs current_frame expr_type fn_ctx true s s' e h
    | map kvs => exact analyze_map_honours _ kvs current_frame expr_type fn_ctx true s s' e h
    | set xs => simp [analyze] at h
    | symbol sym => exact analyze_symbol_honours R sym current_frame expr_type fn_ctx s s' e h
    | seq xs => exact analyze_call_honours R _ ih xs current_frame expr_type het fn_ctx s s' e h
    | other k => simp [analyze] at h
    | _ => exact analyze_primitive_literal_honours _ current_frame expr_type fn_ctx s s' e h

/-- C34: for every runtime, budget, form, frame and function context, when `analyze` is called
with `needs_box = true` in expression or return position and succeeds, the base of the node it
returns has `needs_box = true`; a node built without an explicit `needs_box` takes the default
of the base, which is `true`. -/
theorem analyze_boxing_hint {ρ : Type} (R : runtime ρ) (n : Nat) (o : object)
    (current_frame : Nat) (expr_type : expression_type) (fn_ctx : Option Nat)
    (s s' : processor ρ) (e : expression)
    (hpos : expr_type = .expression ∨ expr_type = .return_statement)
    (h : analyze R n o current_frame expr_type fn_ctx true s = .done (.ok e) s') :
    e.get_base.needs_box = true ∧ expression_base.default_needs_box = true := by
  have het : expr_type ≠ .statement := by
    rcases hpos with rfl | rfl <;> decide
  exact ⟨analyze_honours R n o current_frame expr_type fn_ctx s e s' het h, rfl⟩

/-- C34 on `(do 1 2)` in return position: the `do` node is boxed, as is its last form. -/
theorem analyze_boxing_hint_witness :
    analyze example_runtime 3 (.list [.symbol ⟨"", "do"⟩, .integer 1, .integer 2]) 0
        .return_statement none true (processor.init ⟨[], 0⟩)
      = .done
          (.ok (.do_ ⟨.return_statement, 0, true⟩
            [.primitive_literal ⟨.statement, 0, false⟩ (.integer 1),
             .primitive_literal ⟨.return_statement, 0, true⟩ (.integer 2)]))
          ⟨⟨[], 0⟩, [⟨frame_type.root, none, [], [], [.integer 1, .integer 2]⟩], [], []⟩
    ∧ (expression.do_ ⟨.return_statement, 0, true⟩
          [.primitive_literal ⟨.statement, 0, false⟩ (.integer 1),
           .primitive_literal ⟨.return_statement, 0, true⟩ (.integer 2)]).get_base.needs_box
        = true
    ∧ expression_base.default_needs_box = true :=
  ⟨rfl,
    analyze_boxing_hint example_runtime 3
      (.list [.symbol ⟨"", "do"⟩, .integer 1, .integer 2]) 0 .return_statement none
      (processor.init ⟨[], 0⟩)
      ⟨⟨[], 0⟩, [⟨frame_type.root, none, [], [], [.integer 1, .integer 2]⟩], [], []⟩
      (.do_ ⟨.return_statement, 0, true⟩
        [.primitive_literal ⟨.statement, 0, false⟩ (.integer 1),
         .primitive_literal ⟨.return_statement, 0, true⟩ (.integer 2)])
      (Or.inr rfl) rfl⟩

/-! ## C31: which error is returned -/

/-- An error is handed on by the sequencing idiom. -/
theorem outcome.and_then_error {ρ α β : Type} (x : outcome ρ α)
    (k : α → processor ρ → outcome ρ β) (err : error) (s : processor ρ)
    (h : x = .done (.error err) s) : x.and_then k = .done (.error err) s := by
  rw [h]
  rfl

/-- The loop of `do` returns the error of the first form that fails: when the forms `pre`
have been analysed and `bad` fails in the state they leave, the loop on `pre`, `bad` and any
further forms returns that error and that state. -/
theorem analyze_do_body_first_error {ρ : Type} (a : analyzer ρ) (current_frame : Nat)
    (expr_type : expression_type) (fn_ctx : Option Nat) (needs_box : Bool) (form_count : Nat)
    (bad : object) (post : List object) (err : error) (s1 s2 : processor ρ) :
    ∀ (pre : List object) (i : Nat) (ret_needs_box : Bool) (body : List expression)
      (s : processor ρ) (r : Bool × List expression),
      analyze_do_body a current_frame expr_type fn_ctx needs_box form_count pre i ret_needs_box
        body s = .done (.ok r) s1 →
      a bad current_frame
        (if i + pre.length + 1 = form_count then expr_type else .statement) fn_ctx
        (if (if i + pre.length + 1 = form_count then expr_type else .statement)
          = expression_type.statement then false else needs_box) s1 = .done (.error err) s2 →
      analyze_do_body a current_frame expr_type fn_ctx needs_box form_count (pre ++ bad :: post)
        i ret_needs_box body s = .done (.error err) s2 := by
  intro pre
  induction pre with
  | nil =>
    intro i ret_needs_box body s r hpre hbad
    simp only [analyze_do_body, outcome.done.injEq] at hpre
    rw [hpre.2]
    simp only [List.length_nil, Nat.add_zero] at hbad
    simp only [List.nil_append, analyze_do_body, decide_eq_true_eq]
    exact outcome.and_then_error _ _ _ _ hbad
  | cons item rest ih =>
    intro i ret_needs_box body s r hpre hbad
    simp only [analyze_do_body] at hpre
    obtain ⟨form, s0, hform, hk⟩ := (outcome.and_then_ok _ _ _ _).mp hpre
    simp only [List.cons_append, analyze_do_body]
    rw [hform]
    simp only [outcome.and_then]
    refine ih _ _ _ _ _ hk ?_
    rw [show i + 1 + rest.length + 1 = i + (item :: rest).length + 1 by
      simp only [List.length_cons]; omega]
    exact hbad

/-- The body loop of `let*` returns the error of the first form that fails. -/
theorem analyze_let_body_first_error {ρ : Type} (a : analyzer ρ) (frame : Nat)
    (expr_type : expression_type) (fn_ctx : Option Nat) (needs_box : Bool) (form_count : Nat)
    (bad : object) (post : List object) (err : error) (s1 s2 : processor ρ) :
    ∀ (pre : List object) (i : Nat) (ret_needs_box : Bool) (body : List expression)
      (s : processor ρ) (r : Bool × List expression),
      analyze_let_body a frame expr_type fn_ctx needs_box form_count pre i ret_needs_box
        body s = .done (.ok r) s1 →
      a bad frame (if i + pre.length + 1 = form_count then expr_type else .statement) fn_ctx
        needs_box s1 = .done (.error err) s2 →
      analyze_let_body a frame expr_type fn_ctx needs_box form_count (pre ++ bad :: post)
        i ret_needs_box body s = .done (.error err) s2 := by
  intro pre
  induction pre with
  | nil =>
    intro i ret_needs_box body s r hpre hbad
    simp only [analyze_let_body, outcome.done.injEq] at hpre
    rw [hpre.2]
    simp only [List.length_nil, Nat.add_zero] at hbad
    simp only [List.nil_append, analyze_let_body, decide_eq_true_eq]
    exact outcome.and_then_error _ _ _ _ hbad
  | cons item rest ih =>
    intro i ret_needs_box body s r hpre hbad
    simp only [analyze_let_body] at hpre
    obtain ⟨form, s0, hform, hk⟩ := (outcome.and_then_ok _ _ _ _).mp hpre
    simp only [List.cons_append, analyze_let_body]
    rw [hform]
    simp only [outcome.and_then]
    refine ih _ _ _ _ _ hk ?_
    rw [show i + 1 + rest.length + 1 = i + (item :: rest).length + 1 by
      simp only [List.length_cons]; omega]
    exact hbad

/-- The body loop of an arity returns the error of the first form that fails. -/
theorem analyze_arity_body_first_error {ρ : Type} (a : analyzer ρ) (frame fn_ctx : Nat)
    (form_count : Nat) (bad : object) (post : List object) (err : error)
    (s1 s2 : processor ρ) :
    ∀ (pre : List object) (i : Nat) (body : List expression) (s : processor ρ)
      (r : List expression),
      analyze_arity_body a frame fn_ctx form_count pre i body s = .done (.ok r) s1 →
      a bad frame
        (if i + pre.length + 1 = form_count then expression_type.return_statement
          else expression_type.statement) (some fn_ctx)
        ((if i + pre.length + 1 = form_count then expression_type.return_statement
          else expression_type.statement) != expression_type.statement) s1
        = .done (.error err) s2 →
      analyze_arity_body a frame fn_ctx form_count (pre ++ bad :: post) i body s
        = .done (.error err) s2 := by
  intro pre
  induction pre with
  | nil =>
    intro i body s r hpre hbad
    simp only [analyze_arity_body, outcome.done.injEq] at hpre
    rw [hpre.2]
    simp only [List.length_nil, Nat.add_zero] at hbad
    simp only [List.nil_append, analyze_arity_body]
    exact outcome.and_then_error _ _ _ _ hbad
  | cons item rest ih =>
    intro i body s r hpre hbad
    simp only [analyze_arity_body] at hpre
    obtain ⟨form, s0, hform, hk⟩ := (outcome.and_then_ok _ _ _ _).mp hpre
    simp only [List.cons_append, analyze_arity_body]
    rw [hform]
    simp only [outcome.and_then]
    refine ih _ _ _ _ hk ?_
    rw [show i + 1 + rest.length + 1 = i + (item :: rest).length + 1 by
      simp only [List.length_cons]; omega]
    exact hbad

/-- The element loop of a vector returns the error of the first element that fails. -/
theorem analyze_vector_elements_first_error {ρ : Type} (a : analyzer ρ) (current_frame : Nat)
    (fn_ctx : Option Nat) (bad : object) (post : List object) (err : error)
    (s1 s2 : processor ρ)
    (hbad : a bad current_frame .expression fn_ctx true s1 = .done (.error err) s2) :
    ∀ (pre : List object) (exprs : List expression) (literal : Bool) (s : processor ρ)
      (r : List expression × Bool),
      analyze_vector_elements a current_frame fn_ctx pre exprs literal s = .done (.ok r) s1 →
      analyze_vector_elements a current_frame fn_ctx (pre ++ bad :: post) exprs literal s
        = .done (.error err) s2 := by
  intro pre
  induction pre with
  | nil =>
    intro exprs literal s r hpre
    simp only [analyze_vector_elements, outcome.done.injEq] at hpre
    rw [hpre.2]
    simp only [List.nil_append, analyze_vector_elements]
    exact outcome.and_then_error _ _ _ _ hbad
  | cons item rest ih =>
    intro exprs literal s r hpre
    simp only [analyze_vector_elements] at hpre
    obtain ⟨form, s0, hform, hk⟩ := (outcome.and_then_ok _ _ _ _).mp hpre
    simp only [List.cons_append, analyze_vector_elements]
    rw [hform]
    simp only [outcome.and_then]
    exact ih _ _ _ _ hk

/-- The binding loop of `let*` returns the error of the first initialiser that fails, when
the pairs before it are well formed and their initialisers have been analysed. -/
theorem analyze_let_bindings_first_error {ρ : Type} (a : analyzer ρ)
    (current_frame frame : Nat) (fn_ctx : Option Nat) (sym : symbol) (hsym : sym.ns = "")
    (val : object) (post : List object) (err : error) (s1 s2 : processor ρ)
    (hbad : a val frame .expression fn_ctx false s1 = .done (.error err) s2) :
    ∀ (pre : List (symbol × object)), (∀ p ∈ pre, p.1.ns = "") →
      ∀ (pairs : List (symbol × expression)) (s : processor ρ)
        (r : List (symbol × expression)),
      analyze_let_bindings a current_frame frame fn_ctx
        (flatten_pairs (pre.map fun p => (.symbol p.1, p.2))) pairs s = .done (.ok r) s1 →
      analyze_let_bindings a current_frame frame fn_ctx
        (flatten_pairs (pre.map fun p => (.symbol p.1, p.2)) ++ .symbol sym :: val :: post)
        pairs s = .done (.error err) s2 := by
  intro pre
  induction pre with
  | nil =>
    intro _ pairs s r hpre
    simp only [List.map_nil, flatten_pairs, analyze_let_bindings, outcome.done.injEq] at hpre
    rw [hpre.2]
    simp only [List.map_nil, flatten_pairs, List.nil_append, analyze_let_bindings, hsym, ne_eq,
      not_true_eq_false, if_false]
    exact outcome.and_then_error _ _ _ _ hbad
  | cons p rest ih =>
    intro hns pairs s r hpre
    have hp : p.1.ns = "" := hns p (List.mem_cons_self _ _)
    simp only [List.map_cons, flatten_pairs, analyze_let_bindings, hp, ne_eq,
      not_true_eq_false, if_false] at hpre
    obtain ⟨e, s0, he, hk⟩ := (outcome.and_then_ok _ _ _ _).mp hpre
    simp only [List.map_cons, flatten_pairs, List.cons_append, analyze_let_bindings, hp, ne_eq,
      not_true_eq_false, if_false]
    rw [he]
    simp only [outcome.and_then]
    exact ih (fun q hq => hns q (List.mem_cons_of_mem _ hq)) _ _ _ hk

/-- The loop over the arities of `fn*` returns the error of the first arity that fails. -/
theorem analyze_fn_arities_first_error {ρ : Type} (R : runtime ρ) (a : analyzer ρ)
    (current_frame : Nat) (bad : List object) (post : List object) (err : error)
    (s1 s2 : processor ρ)
    (hbad : analyze_fn_arity R a bad current_frame s1 = .done (.error err) s2) :
    ∀ (pre : List (List object)) (arities : List function_arity) (s : processor ρ)
      (r : List function_arity),
      analyze_fn_arities R a current_frame (pre.map object.list) arities s = .done (.ok r) s1 →
      analyze_fn_arities R a current_frame (pre.map object.list ++ .list bad :: post) arities s
        = .done (.error err) s2 := by
  intro pre
  induction pre with
  | nil =>
    intro arities s r hpre
    simp only [List.map_nil, analyze_fn_arities, outcome.done.injEq] at hpre
    rw [hpre.2]
    simp only [List.map_nil, List.nil_append, analyze_fn_arities]
    exact outcome.and_then_error _ _ _ _ hbad
  | cons p rest ih =>
    intro arities s r hpre
    simp only [List.map_cons, analyze_fn_arities] at hpre
    obtain ⟨ar, s0, har, hk⟩ := (outcome.and_then_ok _ _ _ _).mp hpre
    simp only [List.map_cons, List.cons_append, analyze_fn_arities]
    rw [har]
    simp only [outcome.and_then]
    exact ih _ _ _ hk

/-- An arity whose body loop fails fails with that error: nothing is checked after the body. -/
theorem analyze_fn_arity_body_error {ρ : Type} (R : runtime ρ) (a : analyzer ρ)
    (params body : List object) (current_frame : Nat) (s s2 : processor ρ)
    (is_variadic : Bool) (param_symbols : List symbol) (frames : List local_frame)
    (err : error)
    (hparams : analyze_params R s.frames.length params false [] []
        (new_frame s frame_type.fn current_frame).2.frames
      = (.ok (is_variadic, param_symbols), frames))
    (hcount : ¬ param_symbols.length > R.max_params)
    (hbody : analyze_arity_body a s.frames.length s.fn_ctxs.length
        (size_minus_one (.vector params :: body).length) body 0 []
        { (new_frame s frame_type.fn current_frame).2 with
          frames := frames
          fn_ctxs := s.fn_ctxs ++ [⟨param_symbols.length, is_variadic, false⟩] }
      = .done (.error err) s2) :
    analyze_fn_arity R a (.vector params :: body) current_frame s = .done (.error err) s2 := by
  simp only [analyze_fn_arity, List.head?_cons, new_frame, List.tail_cons] at hparams hbody ⊢
  rw [hparams]
  simp only [hcount, if_false]
  exact outcome.and_then_error _ _ _ _ hbody

/-- A `fn*` with several arities returns the error of its arity loop: the checks across the
arities come after every arity has been analysed. -/
theorem analyze_fn_arities_error {ρ : Type} (R : runtime ρ) (a : analyzer ρ)
    (head : object) (first : List object) (rest : List object) (current_frame : Nat)
    (expr_type : expression_type) (fn_ctx : Option Nat) (needs_box : Bool)
    (s s2 : processor ρ) (err : error)
    (h : analyze_fn_arities R a current_frame (.list first :: rest) []
        { s with rt_ctx := (R.unique_string s.rt_ctx "fn").2 } = .done (.error err) s2) :
    analyze_fn R a (head :: .list first :: rest) current_frame expr_type fn_ctx needs_box s
      = .done (.error err) s2 := by
  have hlen : ¬ ((head :: object.list first :: rest).length < 2) := by simp
  simp only [analyze_fn, hlen, if_false, List.tail_cons, List.head?_cons]
  exact outcome.and_then_error _ _ _ _ h

/-- A `do` returns the error of its loop. -/
theorem analyze_do_error {ρ : Type} (a : analyzer ρ) (list : List object)
    (current_frame : Nat) (expr_type : expression_type) (fn_ctx : Option Nat)
    (needs_box : Bool) (s s2 : processor ρ) (err : error)
    (h : analyze_do_body a current_frame expr_type fn_ctx needs_box
        (size_minus_one list.length) list.tail 0 expression_base.default_needs_box [] s
      = .done (.error err) s2) :
    analyze_do a list current_frame expr_type fn_ctx needs_box s = .done (.error err) s2 := by
  simp only [analyze_do]
  exact outcome.and_then_error _ _ _ _ h

/-- A `let*` with an even number of binding forms returns the error of its binding loop, and
when that loop succeeds the error of its body loop. -/
theorem analyze_let_error {ρ : Type} (a : analyzer ρ) (head : object)
    (bindings body : List object) (heven : bindings.length % 2 = 0)
    (current_frame : Nat) (expr_type : expression_type) (fn_ctx : Option Nat)
    (needs_box : Bool) (s s2 : processor ρ) (err : error) :
    (analyze_let_bindings a current_frame s.frames.length fn_ctx bindings []
        (new_frame s frame_type.let_ current_frame).2 = .done (.error err) s2 →
      analyze_let a (head :: .vector bindings :: body) current_frame expr_type fn_ctx needs_box s
        = .done (.error err) s2)
    ∧ (∀ pairs s1,
      analyze_let_bindings a current_frame s.frames.length fn_ctx bindings []
        (new_frame s frame_type.let_ current_frame).2 = .done (.ok pairs) s1 →
      analyze_let_body a s.frames.length expr_type fn_ctx needs_box
        ((head :: object.vector bindings :: body).length - 2) body 0 needs_box [] s1
        = .done (.error err) s2 →
      analyze_let a (head :: .vector bindings :: body) current_frame expr_type fn_ctx needs_box s
        = .done (.error err) s2) := by
  have hlen : ¬ ((head :: object.vector bindings :: body).length < 2) := by simp
  have hodd : ¬ (bindings.length % 2 = 1) := by omega
  constructor
  · intro h
    simp only [analyze_let, hlen, if_false, List.tail_cons, List.head?_cons, hodd]
    exact outcome.and_then_error _ _ _ _ h
  · intro pairs s1 hb h
    simp only [analyze_let, hlen, if_false, List.tail_cons, List.head?_cons, hodd]
    simp only [new_frame] at hb h ⊢
    rw [hb]
    simp only [outcome.and_then]
    exact outcome.and_then_error _ _ _ _ h

/-- C31, as amended: errors are returned at once, in the order of evaluation, and that order
is the source order of the sub-forms of a form, behind two checks that come first. The root
driver reads the whole parse stream before it analyses anything, so the first parse error of
the stream is returned with the state untouched, whatever the forms before it are; and
`let*` rejects a binding vector of odd length before any initialiser is analysed. Otherwise
the first sub-form that fails decides: the initialisers of a `let*` in order and then the
forms of its body, the forms of a `do`, the arguments of a call or `recur`, the elements of a
vector, the forms of an arity body, and the arities of a `fn*` in order, whose error is
returned before any check across the arities. In each case the forms before the failing one
have been analysed, the failing form fails in the state they leave, and its error and state
are the result, whatever follows. -/
theorem first_error_in_evaluation_order {ρ : Type} (R : runtime ρ) (a : analyzer ρ)
    (current_frame : Nat) (expr_type : expression_type) (fn_ctx : Option Nat)
    (needs_box : Bool) (s : processor ρ) :
    (∀ (pre : List object) (e : error) (post : List (Except error object)),
        analyze_stream a (pre.map Except.ok ++ Except.error e :: post) s = .done (.error e) s)
    ∧ (∀ (head : object) (bindings body : List object), bindings.length % 2 = 1 →
        analyze_let a (head :: .vector bindings :: body) current_frame expr_type fn_ctx
            needs_box s
          = .done (.error ⟨"invalid let* bindings: must be an even number"⟩) s)
    ∧ (∀ (head : object) (pre : List (symbol × object)) (sym : symbol) (val : object)
        (post body : List object) (pairs : List (symbol × expression)) (s1 s2 : processor ρ)
        (err : error),
        (∀ p ∈ pre, p.1.ns = "") → sym.ns = "" → post.length % 2 = 0 →
        analyze_let_bindings a current_frame s.frames.length fn_ctx
          (flatten_pairs (pre.map fun p => (.symbol p.1, p.2))) []
          (new_frame s frame_type.let_ current_frame).2 = .done (.ok pairs) s1 →
        a val s.frames.length .expression fn_ctx false s1 = .done (.error err) s2 →
        analyze_let a
            (head :: .vector (flatten_pairs (pre.map fun p => (.symbol p.1, p.2))
              ++ .symbol sym :: val :: post) :: body)
            current_frame expr_type fn_ctx needs_box s
          = .done (.error err) s2)
    ∧ (∀ (head : object) (bindings pre : List object) (bad : object) (post : List object)
        (pairs : List (symbol × expression)) (r : Bool × List expression)
        (s1 s1' s2 : processor ρ) (err : error),
        bindings.length % 2 = 0 →
        analyze_let_bindings a current_frame s.frames.length fn_ctx bindings []
          (new_frame s frame_type.let_ current_frame).2 = .done (.ok pairs) s1 →
        analyze_let_body a s.frames.length expr_type fn_ctx needs_box
          (pre ++ bad :: post).length pre 0 needs_box [] s1 = .done (.ok r) s1' →
        a bad s.frames.length
          (if pre.length + 1 = (pre ++ bad :: post).length then expr_type else .statement)
          fn_ctx needs_box s1' = .done (.error err) s2 →
        analyze_let a (head :: .vector bindings :: (pre ++ bad :: post)) current_frame expr_type
            fn_ctx needs_box s
          = .done (.error err) s2)
    ∧ (∀ (head : object) (pre : List object) (bad : object) (post : List object)
        (r : Bool × List expression) (s1 s2 : processor ρ) (err : error),
        analyze_do_body a current_frame expr_type fn_ctx needs_box (pre ++ bad :: post).length
          pre 0 expression_base.default_needs_box [] s = .done (.ok r) s1 →
        a bad current_frame
          (if pre.length + 1 = (pre ++ bad :: post).length then expr_type else .statement)
          fn_ctx
          (if (if pre.length + 1 = (pre ++ bad :: post).length then expr_type else .statement)
            = expression_type.statement then false else needs_box) s1
          = .done (.error err) s2 →
        analyze_do a (head :: (pre ++ bad :: post)) current_frame expr_type fn_ctx needs_box s
          = .done (.error err) s2)
    ∧ (∀ (pre : List object) (bad : object) (post : List object) (acc es : List expression)
        (s1 s2 : processor ρ) (err : error),
        analysed_in_order a current_frame .expression fn_ctx needs_box pre s es s1 →
        a bad current_frame .expression fn_ctx needs_box s1 = .done (.error err) s2 →
        analyze_args a current_frame fn_ctx needs_box (pre ++ bad :: post) acc s
          = .done (.error err) s2)
    ∧ (∀ (pre : List object) (bad : object) (post : List object)
        (r : List expression × Bool) (s1 s2 : processor ρ) (err : error),
        analyze_vector_elements a current_frame fn_ctx pre [] true s = .done (.ok r) s1 →
        a bad current_frame .expression fn_ctx true s1 = .done (.error err) s2 →
        analyze_vector a (pre ++ bad :: post) current_frame expr_type fn_ctx needs_box s
          = .done (.error err) s2)
    ∧ (∀ (params pre : List object) (bad : object) (post : List object) (is_variadic : Bool)
        (param_symbols : List symbol) (frames : List local_frame) (r : List expression)
        (s1 s2 : processor ρ) (err : error),
        analyze_params R s.frames.length params false [] []
            (new_frame s frame_type.fn current_frame).2.frames
          = (.ok (is_variadic, param_symbols), frames) →
        ¬ param_symbols.length > R.max_params →
        analyze_arity_body a s.frames.length s.fn_ctxs.length (pre ++ bad :: post).length pre 0
            []
            { (new_frame s frame_type.fn current_frame).2 with
              frames := frames
              fn_ctxs := s.fn_ctxs ++ [⟨param_symbols.length, is_variadic, false⟩] }
          = .done (.ok r) s1 →
        a bad s.frames.length
            (if pre.length + 1 = (pre ++ bad :: post).length
              then expression_type.return_statement else expression_type.statement)
            (some s.fn_ctxs.length)
            ((if pre.length + 1 = (pre ++ bad :: post).length
              then expression_type.return_statement else expression_type.statement)
              != expression_type.statement) s1
          = .done (.error err) s2 →
        analyze_fn_arity R a (.vector params :: (pre ++ bad :: post)) current_frame s
          = .done (.error err) s2)
    ∧ (∀ (head : object) (pre : List (List object)) (bad : List object) (post : List object)
        (r : List function_arity) (s1 s2 : processor ρ) (err : error),
        analyze_fn_arities R a current_frame (pre.map object.list) []
          { s with rt_ctx := (R.unique_string s.rt_ctx "fn").2 } = .done (.ok r) s1 →
        analyze_fn_arity R a bad current_frame s1 = .done (.error err) s2 →
        analyze_fn R a (head :: (pre.map object.list ++ .list bad :: post)) current_frame
            expr_type fn_ctx needs_box s
          = .done (.error err) s2) := by
  refine ⟨?_, ?_, ?_, ?_, ?_, ?_, ?_, ?_, ?_⟩
  · intro pre e post
    have hne : (pre.map Except.ok ++ Except.error e :: post).isEmpty = false := by
      cases pre <;> rfl
    simp only [analyze_stream, hne, Bool.false_eq_true, if_false, collect_forms_error]
  · intro head bindings body hodd
    simp [analyze_let, hodd]
  · intro head pre sym val post body pairs s1 s2 err hns hsym hpost hpre hbad
    have hflat : ∀ l : List (symbol × object),
        (flatten_pairs (l.map fun p => (object.symbol p.1, p.2))).length % 2 = 0 := by
      intro l
      induction l with
      | nil => rfl
      | cons p l ih =>
        simp only [List.map_cons, flatten_pairs, List.length_cons]
        omega
    have heven : (flatten_pairs (pre.map fun p => (object.symbol p.1, p.2))
        ++ .symbol sym :: val :: post).length % 2 = 0 := by
      have := hflat pre
      simp only [List.length_append, List.length_cons]
      omega
    exact (analyze_let_error a head _ body heven current_frame expr_type fn_ctx needs_box s s2
      err).1
      (analyze_let_bindings_first_error a current_frame s.frames.length fn_ctx sym hsym val post
        err s1 s2 hbad pre hns [] _ pairs hpre)
  · intro head bindings pre bad post pairs r s1 s1' s2 err heven hb hpre hbad
    refine (analyze_let_error a head bindings (pre ++ bad :: post) heven current_frame expr_type
      fn_ctx needs_box s s2 err).2 pairs s1 hb ?_
    have hcount : (head :: object.vector bindings :: (pre ++ bad :: post)).length - 2
        = (pre ++ bad :: post).length := by simp
    rw [hcount]
    refine analyze_let_body_first_error a _ expr_type fn_ctx needs_box _ bad post err s1' s2
      pre 0 needs_box [] s1 r hpre ?_
    rw [Nat.zero_add]
    exact hbad
  · intro head pre bad post r s1 s2 err hpre hbad
    apply analyze_do_error
    rw [List.length_cons, size_minus_one_succ, List.tail_cons]
    refine analyze_do_body_first_error a current_frame expr_type fn_ctx needs_box _ bad post err
      s1 s2 pre 0 _ [] s r hpre ?_
    rw [Nat.zero_add]
    exact hbad
  · intro pre bad post acc es s1 s2 err hpre hbad
    exact analyze_args_error a current_frame fn_ctx needs_box pre post bad acc es s s1 s2 err
      hpre hbad
  · intro pre bad post r s1 s2 err hpre hbad
    simp only [analyze_vector]
    exact outcome.and_then_error _ _ _ _
      (analyze_vector_elements_first_error a current_frame fn_ctx bad post err s1 s2 hbad pre []
        true s r hpre)
  · intro params pre bad post is_variadic param_symbols frames r s1 s2 err hparams hcount hpre
      hbad
    refine analyze_fn_arity_body_error R a params (pre ++ bad :: post) current_frame s s2
      is_variadic param_symbols frames err hparams hcount ?_
    rw [List.length_cons, size_minus_one_succ]
    refine analyze_arity_body_first_error a _ _ _ bad post err s1 s2 pre 0 [] _ r hpre ?_
    rw [Nat.zero_add]
    exact hbad
  · intro head pre bad post r s1 s2 err hpre hbad
    have hloop := analyze_fn_arities_first_error R a current_frame bad post err s1 s2 hbad pre []
      _ r hpre
    cases pre with
    | nil =>
      exact analyze_fn_arities_error R a head bad post current_frame expr_type fn_ctx needs_box
        s s2 err hloop
    | cons p rest =>
      exact analyze_fn_arities_error R a head p _ current_frame expr_type fn_ctx needs_box s s2
        err hloop

/-- C31, as amended, on concrete forms: `(let* [a b c] a)` is rejected for its odd binding
vector with the state untouched; in `(fn* ([a] x) ([b] 1))` the unbound `x` of the first arity
is reported, not the duplicate arity; in `(do 1 x 2)`, in the vector `[1 x 2]`, in the
bindings of `(let* [a 1 b x] a)`, in the body of `(let* [] 1 x)`, in the arity `([a] 1 x)`
and in the arguments `1 x 2` the unbound `x` is reported after `1` has been analysed. -/
theorem first_error_in_evaluation_order_witness :
    analyze_let (analyze example_runtime 3)
        [.symbol ⟨"", "let*"⟩,
          .vector [.symbol ⟨"", "a"⟩, .symbol ⟨"", "b"⟩, .symbol ⟨"", "c"⟩], .symbol ⟨"", "a"⟩]
        0 .expression none true (processor.init ⟨[], 0⟩)
      = .done (.error ⟨"invalid let* bindings: must be an even number"⟩)
          (processor.init ⟨[], 0⟩)
    ∧ analyze_fn example_runtime (analyze example_runtime 3)
        [.symbol ⟨"", "fn*"⟩, .list [.vector [.symbol ⟨"", "a"⟩], .symbol ⟨"", "x"⟩],
          .list [.vector [.symbol ⟨"", "b"⟩], .integer 1]]
        0 .expression none true (processor.init ⟨[], 0⟩)
      = .done (.error ⟨"unbound symbol: x"⟩)
          ⟨⟨[], 1⟩,
            [⟨frame_type.root, none, [], [], []⟩,
             ⟨frame_type.fn, some 0, [⟨⟨"", "a"⟩, none, none, true, false, false, []⟩], [], []⟩],
            [⟨1, false, false⟩], []⟩
    ∧ analyze_do (analyze example_runtime 3)
        [.symbol ⟨"", "do"⟩, .integer 1, .symbol ⟨"", "x"⟩, .integer 2]
        0 .expression none true (processor.init ⟨[], 0⟩)
      = .done (.error ⟨"unbound symbol: x"⟩)
          ⟨⟨[], 0⟩, [⟨frame_type.root, none, [], [], [.integer 1]⟩], [], []⟩
    ∧ analyze_vector (analyze example_runtime 3) [.integer 1, .symbol ⟨"", "x"⟩, .integer 2]
        0 .expression none true (processor.init ⟨[], 0⟩)
      = .done (.error ⟨"unbound symbol: x"⟩)
          ⟨⟨[], 0⟩, [⟨frame_type.root, none, [], [], [.integer 1]⟩], [], []⟩
    ∧ analyze_let (analyze example_runtime 3)
        [.symbol ⟨"", "let*"⟩,
          .vector [.symbol ⟨"", "a"⟩, .integer 1, .symbol ⟨"", "b"⟩, .symbol ⟨"", "x"⟩],
          .symbol ⟨"", "a"⟩]
        0 .expression none true (processor.init ⟨[], 0⟩)
      = .done (.error ⟨"unbound symbol: x"⟩)
          ⟨⟨[], 0⟩,
            [⟨frame_type.root, none, [], [], [.integer 1]⟩,
             ⟨frame_type.let_, some 0,
               [⟨⟨"", "a"⟩, some (.primitive_literal ⟨.expression, 1, false⟩ (.integer 1)),
                 some 0, false, false, false, []⟩], [], []⟩],
            [], []⟩
    ∧ analyze_let (analyze example_runtime 3)
        [.symbol ⟨"", "let*"⟩, .vector [], .integer 1, .symbol ⟨"", "x"⟩]
        0 .expression none true (processor.init ⟨[], 0⟩)
      = .done (.error ⟨"unbound symbol: x"⟩)
          ⟨⟨[], 0⟩,
            [⟨frame_type.root, none, [], [], [.integer 1]⟩,
             ⟨frame_type.let_, some 0, [], [], []⟩],
            [], []⟩
    ∧ analyze_fn_arity example_runtime (analyze example_runtime 3)
        [.vector [.symbol ⟨"", "a"⟩], .integer 1, .symbol ⟨"", "x"⟩] 0 (processor.init ⟨[], 0⟩)
      = .done (.error ⟨"unbound symbol: x"⟩)
          ⟨⟨[], 0⟩,
            [⟨frame_type.root, none, [], [], []⟩,
             ⟨frame_type.fn, some 0, [⟨⟨"", "a"⟩, none, none, true, false, false, []⟩], [],
               [.integer 1]⟩],
            [⟨1, false, false⟩], []⟩
    ∧ analyze_args (analyze example_runtime 3) 0 none true
        [.integer 1, .symbol ⟨"", "x"⟩, .integer 2] [] (processor.init ⟨[], 0⟩)
      = .done (.error ⟨"unbound symbol: x"⟩)
          ⟨⟨[], 0⟩, [⟨frame_type.root, none, [], [], [.integer 1]⟩], [], []⟩ :=
  ⟨(first_error_in_evaluation_order example_runtime (analyze example_runtime 3) 0 .expression
      none true (processor.init ⟨[], 0⟩)).2.1 _ _ _ (by decide),
    (first_error_in_evaluation_order example_runtime (analyze example_runtime 3) 0 .expression
      none true (processor.init ⟨[], 0⟩)).2.2.2.2.2.2.2.2
      (.symbol ⟨"", "fn*"⟩) [] [.vector [.symbol ⟨"", "a"⟩], .symbol ⟨"", "x"⟩]
      [.list [.vector [.symbol ⟨"", "b"⟩], .integer 1]] []
      ⟨⟨[], 1⟩, [⟨frame_type.root, none, [], [], []⟩], [], []⟩
      ⟨⟨[], 1⟩,
        [⟨frame_type.root, none, [], [], []⟩,
         ⟨frame_type.fn, some 0, [⟨⟨"", "a"⟩, none, none, true, false, false, []⟩], [], []⟩],
        [⟨1, false, false⟩], []⟩
      ⟨"unbound symbol: x"⟩ rfl rfl,
    (first_error_in_evaluation_order example_runtime (analyze example_runtime 3) 0 .expression
      none true (processor.init ⟨[], 0⟩)).2.2.2.2.1
      (.symbol ⟨"", "do"⟩) [.integer 1] (.symbol ⟨"", "x"⟩) [.integer 2]
      (true, [.primitive_literal ⟨.statement, 0, false⟩ (.integer 1)])
      ⟨⟨[], 0⟩, [⟨frame_type.root, none, [], [], [.integer 1]⟩], [], []⟩
      ⟨⟨[], 0⟩, [⟨frame_type.root, none, [], [], [.integer 1]⟩], [], []⟩
      ⟨"unbound symbol: x"⟩ rfl rfl,
    (first_error_in_evaluation_order example_runtime (analyze example_runtime 3) 0 .expression
      none true (processor.init ⟨[], 0⟩)).2.2.2.2.2.2.1
      [.integer 1] (.symbol ⟨"", "x"⟩) [.integer 2]
      ([.primitive_literal ⟨.expression, 0, true⟩ (.integer 1)], true)
      ⟨⟨[], 0⟩, [⟨frame_type.root, none, [], [], [.integer 1]⟩], [], []⟩
      ⟨⟨[], 0⟩, [⟨frame_type.root, none, [], [], [.integer 1]⟩], [], []⟩
      ⟨"unbound symbol: x"⟩ rfl rfl,
    (first_error_in_evaluation_order example_runtime (analyze example_runtime 3) 0 .expression
      none true (processor.init ⟨[], 0⟩)).2.2.1
      (.symbol ⟨"", "let*"⟩) [(⟨"", "a"⟩, .integer 1)] ⟨"", "b"⟩ (.symbol ⟨"", "x"⟩) []
      [.symbol ⟨"", "a"⟩]
      [(⟨"", "a"⟩, .primitive_literal ⟨.expression, 1, false⟩ (.integer 1))]
      ⟨⟨[], 0⟩,
        [⟨frame_type.root, none, [], [], [.integer 1]⟩,
         ⟨frame_type.let_, some 0,
           [⟨⟨"", "a"⟩, some (.primitive_literal ⟨.expression, 1, false⟩ (.integer 1)),
             some 0, false, false, false, []⟩], [], []⟩],
        [], []⟩
      ⟨⟨[], 0⟩,
        [⟨frame_type.root, none, [], [], [.integer 1]⟩,
         ⟨frame_type.let_, some 0,
           [⟨⟨"", "a"⟩, some (.primitive_literal ⟨.expression, 1, false⟩ (.integer 1)),
             some 0, false, false, false, []⟩], [], []⟩],
        [], []⟩
      ⟨"unbound symbol: x"⟩ (by decide) rfl rfl rfl rfl,
    (first_error_in_evaluation_order example_runtime (analyze example_runtime 3) 0 .expression
      none true (processor.init ⟨[], 0⟩)).2.2.2.1
      (.symbol ⟨"", "let*"⟩) [] [.integer 1] (.symbol ⟨"", "x"⟩) [] []
      (true, [.primitive_literal ⟨.statement, 1, true⟩ (.integer 1)])
      ⟨⟨[], 0⟩,
        [⟨frame_type.root, none, [], [], []⟩, ⟨frame_type.let_, some 0, [], [], []⟩], [], []⟩
      ⟨⟨[], 0⟩,
        [⟨frame_type.root, none, [], [], [.integer 1]⟩,
         ⟨frame_type.let_, some 0, [], [], []⟩], [], []⟩
      ⟨⟨[], 0⟩,
        [⟨frame_type.root, none, [], [], [.integer 1]⟩,
         ⟨frame_type.let_, some 0, [], [], []⟩], [], []⟩
      ⟨"unbound symbol: x"⟩ rfl rfl rfl rfl,
    (first_error_in_evaluation_order example_runtime (analyze example_runtime 3) 0 .expression
      none true (processor.init ⟨[], 0⟩)).2.2.2.2.2.2.2.1
      [.symbol ⟨"", "a"⟩] [.integer 1] (.symbol ⟨"", "x"⟩) [] false [⟨"", "a"⟩]
      [⟨frame_type.root, none, [], [], []⟩,
       ⟨frame_type.fn, some 0, [⟨⟨"", "a"⟩, none, none, true, false, false, []⟩], [], []⟩]
      [.primitive_literal ⟨.statement, 1, false⟩ (.integer 1)]
      ⟨⟨[], 0⟩,
        [⟨frame_type.root, none, [], [], []⟩,
         ⟨frame_type.fn, some 0, [⟨⟨"", "a"⟩, none, none, true, false, false, []⟩], [],
           [.integer 1]⟩],
        [⟨1, false, false⟩], []⟩
      ⟨⟨[], 0⟩,
        [⟨frame_type.root, none, [], [], []⟩,
         ⟨frame_type.fn, some 0, [⟨⟨"", "a"⟩, none, none, true, false, false, []⟩], [],
           [.integer 1]⟩],
        [⟨1, false, false⟩], []⟩
      ⟨"unbound symbol: x"⟩ rfl (by decide) rfl rfl,
    (first_error_in_evaluation_order example_runtime (analyze example_runtime 3) 0 .expression
      none true (processor.init ⟨[], 0⟩)).2.2.2.2.2.1
      [.integer 1] (.symbol ⟨"", "x"⟩) [.integer 2] []
      [.primitive_literal ⟨.expression, 0, true⟩ (.integer 1)]
      ⟨⟨[], 0⟩, [⟨frame_type.root, none, [], [], [.integer 1]⟩], [], []⟩
      ⟨⟨[], 0⟩, [⟨frame_type.root, none, [], [], [.integer 1]⟩], [], []⟩
      ⟨"unbound symbol: x"⟩ ⟨_, _, _, rfl, rfl, rfl, rfl⟩ rfl⟩

/-- C31 fails as stated on two inputs. The stream of the form `x`, an unbound symbol, fails
with "unbound symbol: x"; followed by a parse error, the same stream returns the parse error,
and the state shows that nothing was analysed. The form `(let* [a b] a)` fails on its
initialiser with "unbound symbol: b"; with one more element in the binding vector,
`(let* [a b c] a)` fails with the error of the odd length, and again nothing was analysed. -/
theorem first_error_in_evaluation_order_counterexample :
    analyze_stream (analyze example_runtime 5) [.ok (.symbol ⟨"", "x"⟩)]
        (processor.init ⟨[], 0⟩)
      = .done (.error ⟨"unbound symbol: x"⟩)
          ⟨⟨[], 1⟩,
            [⟨frame_type.root, none, [], [], []⟩, ⟨frame_type.fn, some 0, [], [], []⟩],
            [⟨0, false, false⟩], []⟩
    ∧ analyze_stream (analyze example_runtime 5)
        [.ok (.symbol ⟨"", "x"⟩), .error ⟨"parse error"⟩] (processor.init ⟨[], 0⟩)
      = .done (.error ⟨"parse error"⟩) (processor.init ⟨[], 0⟩)
    ∧ analyze example_runtime 5
        (.list [.symbol ⟨"", "let*"⟩, .vector [.symbol ⟨"", "a"⟩, .symbol ⟨"", "b"⟩],
          .symbol ⟨"", "a"⟩])
        0 .expression none true (processor.init ⟨[], 0⟩)
      = .done (.error ⟨"unbound symbol: b"⟩)
          ⟨⟨[], 0⟩,
            [⟨frame_type.root, none, [], [], []⟩, ⟨frame_type.let_, some 0, [], [], []⟩],
            [], []⟩
    ∧ analyze example_runtime 5
        (.list [.symbol ⟨"", "let*"⟩,
          .vector [.symbol ⟨"", "a"⟩, .symbol ⟨"", "b"⟩, .symbol ⟨"", "c"⟩], .symbol ⟨"", "a"⟩])
        0 .expression none true (processor.init ⟨[], 0⟩)
      = .done (.error ⟨"invalid let* bindings: must be an even number"⟩)
          (processor.init ⟨[], 0⟩)
    ∧ (⟨"parse error"⟩ : error) ≠ ⟨"unbound symbol: x"⟩
    ∧ (⟨"invalid let* bindings: must be an even number"⟩ : error) ≠ ⟨"unbound symbol: b"⟩ :=
  ⟨rfl, rfl, rfl, rfl, by decide, by decide⟩

/-! ## C35: where an empty text chunk can stand -/

/-- The chunk loop guards the text before an interpolation: when no text chunk built so far
is empty and the loop succeeds, the chunks are some chunks without an empty text, followed by
the final chunk, the text that is left when no opening sentinel is found any more. -/
theorem native_raw_chunks_guarded {ρ : Type} (R : runtime ρ) (analyze : analyzer ρ)
    (code : List Char) (current_frame : Nat) (fn_ctx : Option Nat) (n it : Nat)
    (chunks cs : List (String ⊕ expression)) (s s' : processor ρ)
    (hchunks : ∀ t : String, Sum.inl t ∈ chunks → t.data ≠ [])
    (h : native_raw_chunks R analyze code current_frame fn_ctx n it chunks s
      = .done (.ok cs) s') :
    ∃ (front : List (String ⊕ expression)) (last : String), cs = front ++ [.inl last]
      ∧ ∀ t : String, Sum.inl t ∈ front → t.data ≠ [] := by
  induction n generalizing it chunks s with
  | zero => simp [native_raw_chunks] at h
  | succ n ih =>
    simp only [native_raw_chunks] at h
    cases hs : str_find code interp_start it with
    | none =>
      rw [hs] at h
      simp only [outcome.done.injEq, Except.ok.injEq] at h
      exact ⟨chunks, _, h.1.symm, hchunks⟩
    | some next_start =>
      rw [hs] at h
      simp only at h
      obtain ⟨hle, hlen, _, _⟩ := str_find_some _ _ _ _ hs
      cases he : str_find code interp_end next_start with
      | none =>
        rw [he] at h
        cases h
      | some next_end =>
        rw [he] at h
        simp only at h
        cases hparse : R.parse s.rt_ctx (String.mk ((code.drop (next_start
            + interp_start.length)).take (next_end - next_start - interp_end.length))) with
        | nil =>
          rw [hparse] at h
          cases h
        | cons first more =>
          rw [hparse] at h
          cases first with
          | error e => cases h
          | ok form =>
            simp only at h
            obtain ⟨result, s1, _, hk⟩ := (outcome.and_then_ok _ _ _ _).mp h
            cases more with
            | cons _ _ => simp at hk
            | nil =>
              simp only [List.isEmpty_nil, if_true] at hk
              refine ih _ _ s1 ?_ hk
              intro t ht
              by_cases hpos : next_start - it > 0
              · simp only [hpos, if_true, List.mem_append, List.mem_singleton, reduceCtorEq,
                  or_false, Sum.inl.injEq] at ht
                rcases ht with ht | rfl
                · exact hchunks t ht
                · intro hnil
                  have hz := congrArg List.length hnil
                  simp only [List.length_take, List.length_drop, List.length_nil] at hz
                  omega
              · simp only [hpos, if_false, List.mem_append, List.mem_singleton, reduceCtorEq,
                  or_false] at ht
                exact hchunks t ht

/-- Every node that `analyze_native_raw` returns has no chunks at all (the empty string) or
ends in the final text chunk, and no text chunk before the final one is empty: an empty text
can only stand at the end. -/
theorem analyze_native_raw_guarded {ρ : Type} (R : runtime ρ) (analyze : analyzer ρ)
    (o : List object) (current_frame : Nat) (expr_type : expression_type)
    (fn_ctx : Option Nat) (needs_box : Bool) (s s' : processor ρ) (e : expression)
    (h : analyze_native_raw R analyze o current_frame expr_type fn_ctx needs_box s
      = .done (.ok e) s') :
    e = .native_raw ⟨expr_type, current_frame, true⟩ []
    ∨ ∃ (front : List (String ⊕ expression)) (last : String),
        e = .native_raw ⟨expr_type, current_frame, true⟩ (front ++ [.inl last])
        ∧ ∀ t : String, Sum.inl t ∈ front → t.data ≠ [] := by
  simp only [analyze_native_raw] at h
  split at h
  · cases h
  · split at h
    · cases h
    · split at h
      · simp only [outcome.done.injEq, Except.ok.injEq] at h
        exact Or.inl h.1.symm
      · obtain ⟨chunks, s1, hloop, hk⟩ := (outcome.and_then_ok _ _ _ _).mp h
        simp only [outcome.done.injEq, Except.ok.injEq] at hk
        obtain ⟨front, last, hcs, hfront⟩ := native_raw_chunks_guarded R analyze _ current_frame
          fn_ctx _ 0 [] chunks s s1 (fun t ht => by cases ht) hloop
        exact Or.inr ⟨front, last, by rw [← hk.1, hcs], hfront⟩
    · cases h

/-! ## C26: the final chunk of a string that holds a NUL character -/

/-- C26, at the failing input: the string of the three characters `a`, NUL, `b`, which does
not contain the opening sentinel. The final chunk is a view built from the pointer alone, so
it ends before the NUL: the node has the single text chunk `a`, which is not the string. With
an interpolation in front, the string `#{1}#` followed by `a`, NUL, `b` gives the analysed
`1` and the text `a`, so the chunks do not give the string back either. -/
theorem analyze_native_raw_nul_truncated :
    analyze_native_raw reading_runtime (analyze reading_runtime 1)
        [.symbol ⟨"native", "raw"⟩, .string (String.mk ['a', Char.ofNat 0, 'b'])]
        0 .expression none true (processor.init ⟨[], 0⟩)
      = .done (.ok (.native_raw ⟨.expression, 0, true⟩ [.inl "a"])) (processor.init ⟨[], 0⟩)
    ∧ ¬ interp_start <:+: ['a', Char.ofNat 0, 'b']
    ∧ ("a" : String) ≠ String.mk ['a', Char.ofNat 0, 'b']
    ∧ analyze_native_raw reading_runtime (analyze reading_runtime 1)
        [.symbol ⟨"native", "raw"⟩,
          .string (String.mk ("#\x7b1\x7d#".data ++ ['a', Char.ofNat 0, 'b']))]
        0 .expression none true (processor.init ⟨[], 0⟩)
      = .done
          (.ok (.native_raw ⟨.expression, 0, true⟩
            [.inr (.primitive_literal ⟨.expression, 0, true⟩ (.integer 1)), .inl "a"]))
          ⟨⟨[], 0⟩, [⟨frame_type.root, none, [], [], [.integer 1]⟩], [], []⟩ :=
  ⟨rfl, by decide, by decide, rfl⟩

/-! ## C21: a name bound twice by one `let*` -/

/-- C21, at the failing input: `(let* [x 1 x 2] x)`. The node's pairs are `(x, 1)` and
`(x, 2)` in source order, but `locals.emplace` leaves the binding of the name it finds in
place: the let's frame holds one binding of `x`, the one that carries the first initialiser,
no binding carries the second, and the `x` of the body is a reference to the binding that
carries `1`. -/
theorem analyze_let_repeated_name :
    analyze example_runtime 4
        (.list [.symbol ⟨"", "let*"⟩,
          .vector [.symbol ⟨"", "x"⟩, .integer 1, .symbol ⟨"", "x"⟩, .integer 2],
          .symbol ⟨"", "x"⟩])
        0 .expression none true (processor.init ⟨[], 0⟩)
      = .done
          (.ok (.let_ ⟨.expression, 1, true⟩
            [(⟨"", "x"⟩, .primitive_literal ⟨.expression, 1, false⟩ (.integer 1)),
             (⟨"", "x"⟩, .primitive_literal ⟨.expression, 1, false⟩ (.integer 2))]
            [.local_reference ⟨.expression, 1, true⟩ ⟨"", "x"⟩ ⟨1, 0⟩] 1))
          ⟨⟨[], 0⟩,
            [⟨frame_type.root, none, [], [], [.integer 1, .integer 2]⟩,
             ⟨frame_type.let_, some 0,
               [⟨⟨"", "x"⟩, some (.primitive_literal ⟨.expression, 1, false⟩ (.integer 1)),
                 some 0, false, true, false, []⟩], [], []⟩],
            [], []⟩
    ∧ get_binding
        [⟨frame_type.root, none, [], [], [.integer 1, .integer 2]⟩,
         ⟨frame_type.let_, some 0,
           [⟨⟨"", "x"⟩, some (.primitive_literal ⟨.expression, 1, false⟩ (.integer 1)),
             some 0, false, true, false, []⟩], [], []⟩]
        ⟨1, 0⟩
      = some ⟨⟨"", "x"⟩, some (.primitive_literal ⟨.expression, 1, false⟩ (.integer 1)),
          some 0, false, true, false, []⟩
    ∧ expression.primitive_literal ⟨.expression, 1, false⟩ (.integer 1)
        ≠ .primitive_literal ⟨.expression, 1, false⟩ (.integer 2) :=
  ⟨rfl, rfl, fun h => by cases h⟩

end jank
